import Mathlib

/-!
# go-redismigrate: the migration engine and its progress tracker

A shallow embedding of `internal/migrate` (config.go, migrator.go),
`internal/stats` (metrics.go) and `internal/redis` (client.go).

* Go `int`/`int64` values are `Int`.  The counters only ever receive slice
  lengths from the engine, so a run would need 2^63 keys before a counter could
  wrap, and the engine adds exactly; a call of a mutator with any argument
  (`Mutator.apply`) adds in the arithmetic of `int64` (`atomicAdd`).
* A finite `float64` is the rational it stands for; an operation on `float64`
  is the operation on the rationals followed by `round64`, the rounding of
  IEEE 754 to 53 bits.  A getter that reads the clock takes the time `now`.
* client.go is written over `GoRedis`, the calls it makes on the library
  go-redis, as functions of the state of the server; `memRedis` is a Redis
  server in memory.  The loops over the cursor of SCAN take fuel.
  `Client.toRedisClient` puts a `Client` behind the engine, as main.go does.
* A store client is an implementation of the `RedisClient` interface; it is a
  record of functions over a world `W` (the state of the stores).  Each method
  returns the Go result tuple together with the new world, and takes effect in
  one step.  A `ScanKeys` call is the sequence of its sends on `keysChan`
  followed by its return.
* `processBatch` is written as a tree of atomic actions (`Prog`).  A single
  goroutine runs such a tree with `Prog.exec`.
* `Migrate` is the interleaving of its goroutines: the caller, the workers, the
  producer and the goroutine that closes `errorsChan`.  `step` is one atomic
  action of one of them, chosen by a `Label`; a schedule is a list of labels.
  Channels are buffers with a capacity; a send on a closed channel panics;
  the context may be cancelled at any time (`Label.cancel`).
-/

namespace RedisMigrate

/-! ## Errors -/

/-- Go `error` values that are not nil. `errorsNew msg` stands for `errors.New(msg)`, for
`fmt.Errorf` without `%w` with the formatted text `msg`, and for any error value a store
client produces; `wrapf msg cause` for
`fmt.Errorf(msg + ": %w", cause)`, `join errs` for the value of `errors.Join`. -/
inductive GoError where
  | errorsNew (msg : String)
  | wrapf (msg : String) (cause : GoError)
  | join (errs : List GoError)

/-- Go `errors.Join` on a slice without nil entries: nil for the empty slice. -/
def errorsJoin (errs : List GoError) : Option GoError :=
  match errs with
  | [] => none
  | e :: es => some (GoError.join (e :: es))

/-! ## config.go -/

/-- Go `type Mode int`. -/
abbrev Mode := Int

/-- The constant `CopyMode`. -/
def CopyMode : Mode := 0

/-- The constant `MoveMode`. -/
def MoveMode : Mode := 1

/-- Go `type ConflictBehavior int`. -/
abbrev ConflictBehavior := Int

/-- The constant `ErrorOnConflict`. -/
def ErrorOnConflict : ConflictBehavior := 0

/-- The constant `SkipOnConflict`. -/
def SkipOnConflict : ConflictBehavior := 1

/-- The constant `OverwriteOnConflict`. -/
def OverwriteOnConflict : ConflictBehavior := 2

/-- Go `type Config struct`. -/
structure Config where
  SourceURL : String
  DestURL : String
  Pattern : String
  Mode : Mode
  Conflict : ConflictBehavior
  BatchSize : Int
  Concurrency : Int
  Verbose : Bool

/-- Go `Config.Validate`: the slice `errs` grows by one error for each check that fails,
and the result is `errors.Join(errs...)`. The verb `%d` prints the integer value. -/
def Config.Validate (c : Config) : Option GoError :=
  let errs : List GoError := []
  let errs := if c.SourceURL = "" then errs ++ [.errorsNew "no source URL provided"] else errs
  let errs :=
    if c.DestURL = "" then errs ++ [.errorsNew "no destination URL provided"] else errs
  let errs :=
    if c.Mode ≠ CopyMode ∧ c.Mode ≠ MoveMode then
      errs ++ [.errorsNew
        ("invalid mode: " ++ toString c.Mode ++ " (must be CopyMode or MoveMode)")]
    else errs
  let errs :=
    if c.Conflict ≠ ErrorOnConflict ∧ c.Conflict ≠ SkipOnConflict ∧
        c.Conflict ≠ OverwriteOnConflict then
      errs ++ [.errorsNew
        ("invalid conflict behavior: " ++ toString c.Conflict ++
          " (must be ErrorOnConflict, SkipOnConflict, or OverwriteOnConflict)")]
    else errs
  errorsJoin errs

/-- Go `Mode.String`. -/
def Mode.String (m : Mode) : String :=
  if m = CopyMode then "copy"
  else if m = MoveMode then "move"
  else "unknown"

/-- Go `ConflictBehavior.String`. -/
def ConflictBehavior.String (c : ConflictBehavior) : String :=
  if c = ErrorOnConflict then "error"
  else if c = SkipOnConflict then "skip"
  else if c = OverwriteOnConflict then "overwrite"
  else "unknown"

/-- Go `ParseMode`: the pair of its results. -/
def ParseMode (s : String) : Mode × Option GoError :=
  if s = "copy" then (CopyMode, none)
  else if s = "move" then (MoveMode, none)
  else (CopyMode, some (.errorsNew ("invalid mode: " ++ s ++ " (must be 'copy' or 'move')")))

/-- Go `ParseConflictBehavior`: the pair of its results. -/
def ParseConflictBehavior (s : String) : ConflictBehavior × Option GoError :=
  if s = "error" then (ErrorOnConflict, none)
  else if s = "skip" then (SkipOnConflict, none)
  else if s = "overwrite" then (OverwriteOnConflict, none)
  else (ErrorOnConflict,
    some (.errorsNew
      ("invalid conflict behavior: " ++ s ++ " (must be 'error', 'skip', or 'overwrite')")))

/-- The checks of a configuration in the order `Validate` makes them: whether the check is
violated, and the error reported for it. -/
def Config.checks (c : Config) : List (Bool × GoError) :=
  [(c.SourceURL == "", .errorsNew "no source URL provided"),
    (c.DestURL == "", .errorsNew "no destination URL provided"),
    (c.Mode != CopyMode && c.Mode != MoveMode,
      .errorsNew ("invalid mode: " ++ toString c.Mode ++ " (must be CopyMode or MoveMode)")),
    (c.Conflict != ErrorOnConflict && c.Conflict != SkipOnConflict &&
        c.Conflict != OverwriteOnConflict,
      .errorsNew
        ("invalid conflict behavior: " ++ toString c.Conflict ++
          " (must be ErrorOnConflict, SkipOnConflict, or OverwriteOnConflict)"))]

/-- The errors of the violated checks, one for each, in the order of the checks. -/
def Config.violations (c : Config) : List GoError :=
  (c.checks.filter fun x => x.1).map fun x => x.2

/-! ## float64 and time.Duration

A finite `float64` is the rational it stands for. An operation of Go on `float64` is the
operation on the rationals followed by `round64`, the rounding of IEEE 754 to 53 significant
bits, to nearest, ties to even. The exponent is not bounded here: the values below are
quotients, sums and products of `int64` values and of 1e9, all within the normal range of
`float64`, and every division is guarded against a zero divisor, so no infinity, NaN or
subnormal arises. -/

/-- The integer nearest to `x`, the even one when two are nearest. -/
def roundEven (x : ℚ) : Int :=
  if x - ⌊x⌋ < 1 / 2 then ⌊x⌋
  else if 1 / 2 < x - ⌊x⌋ then ⌊x⌋ + 1
  else if ⌊x⌋ % 2 = 0 then ⌊x⌋ else ⌊x⌋ + 1

/-- The `float64` nearest to `x`: with 2^e ≤ |x| < 2^(e+1), the multiple of 2^(e-52) nearest
to `x`, the one with an even multiplier when two are nearest. -/
def round64 (x : ℚ) : ℚ :=
  if x = 0 then 0
  else roundEven (x / 2 ^ (Int.log 2 |x| - 52)) * 2 ^ (Int.log 2 |x| - 52)

/-- Go `float64(n)` for an integer `n`. -/
def float64 (n : Int) : ℚ := round64 n

/-- Go `a / b` on `float64`, for `b` not zero. -/
def f64div (a b : ℚ) : ℚ := round64 (a / b)

/-- Go `a * b` on `float64`. -/
def f64mul (a b : ℚ) : ℚ := round64 (a * b)

/-- Go `a + b` on `float64`. -/
def f64add (a b : ℚ) : ℚ := round64 (a + b)

/-- Go `int64(x)` and `time.Duration(x)` for a `float64` `x`: the fraction is dropped; when
the result does not fit `int64` the value is left to the implementation by the language, and
is `none` here. -/
def toInt64 (x : ℚ) : Option Int :=
  let n := if 0 ≤ x then ⌊x⌋ else ⌈x⌉
  if -2 ^ 63 ≤ n ∧ n < 2 ^ 63 then some n else none

/-- Go `time.Second`, in nanoseconds. -/
def Second : Int := 1000000000

/-- Go `Duration.Seconds` of the standard library: `sec := d / Second`,
`nsec := d % Second`, `float64(sec) + float64(nsec)/1e9`; the integer division of Go drops
the fraction and the remainder has the sign of `d`. -/
def Seconds (d : Int) : ℚ :=
  f64add (float64 (d.tdiv Second)) (f64div (float64 (d.tmod Second)) 1000000000)

/-! ## metrics.go -/

/-- The value an `int64` takes when the exact result of an operation is `x`: the integer
arithmetic of Go wraps around, so it is `x` modulo 2^64 in the range from -2^63 to
2^63 - 1. -/
def wrap64 (x : Int) : Int := (x + 2 ^ 63) % 2 ^ 64 - 2 ^ 63

/-- Go `Int64.Add` of sync/atomic on a counter that holds `v`: the value of the counter
afterwards, the sum in the arithmetic of `int64`. -/
def atomicAdd (v delta : Int) : Int := wrap64 (v + delta)

/-- Whether `x` is a value of `int64`. -/
def isInt64 (x : Int) : Prop := -2 ^ 63 ≤ x ∧ x < 2 ^ 63

/-- Go `type Metrics struct`: six atomic counters and the start time (nanoseconds). -/
structure Metrics where
  totalKeys : Int
  processedKeys : Int
  successKeys : Int
  failedKeys : Int
  skippedKeys : Int
  overwrittenKeys : Int
  startTime : Int
  deriving DecidableEq, Repr

/-- Go `NewMetrics`, with the current time as argument. -/
def NewMetrics (now : Int) : Metrics :=
  { totalKeys := 0, processedKeys := 0, successKeys := 0, failedKeys := 0,
    skippedKeys := 0, overwrittenKeys := 0, startTime := now }

namespace Metrics

/-- Go `totalKeys.Store(total)`. -/
def SetTotal (m : Metrics) (total : Int) : Metrics := { m with totalKeys := total }

/-- Go `processedKeys.Add(count)` with the exact sum, which is the value of the counter as long as
it is a value of `int64`, as it is for the lengths the engine adds; `Mutator.apply` is the
call for any argument, with `atomicAdd`. -/
def AddProcessed (m : Metrics) (count : Int) : Metrics :=
  { m with processedKeys := m.processedKeys + count }

/-- Go `successKeys.Add(count)` with the exact sum, which is the value of the counter as long as
it is a value of `int64`, as it is for the lengths the engine adds; `Mutator.apply` is the
call for any argument, with `atomicAdd`. -/
def AddSuccess (m : Metrics) (count : Int) : Metrics :=
  { m with successKeys := m.successKeys + count }

/-- Go `failedKeys.Add(count)` with the exact sum, which is the value of the counter as long as
it is a value of `int64`, as it is for the lengths the engine adds; `Mutator.apply` is the
call for any argument, with `atomicAdd`. -/
def AddFailed (m : Metrics) (count : Int) : Metrics :=
  { m with failedKeys := m.failedKeys + count }

/-- Go `skippedKeys.Add(count)` with the exact sum, which is the value of the counter as long as
it is a value of `int64`, as it is for the lengths the engine adds; `Mutator.apply` is the
call for any argument, with `atomicAdd`. -/
def AddSkipped (m : Metrics) (count : Int) : Metrics :=
  { m with skippedKeys := m.skippedKeys + count }

/-- Go `overwrittenKeys.Add(count)` with the exact sum, which is the value of the counter as long as
it is a value of `int64`, as it is for the lengths the engine adds; `Mutator.apply` is the
call for any argument, with `atomicAdd`. -/
def AddOverwritten (m : Metrics) (count : Int) : Metrics :=
  { m with overwrittenKeys := m.overwrittenKeys + count }

/-- Go `GetTotalKeys`. -/
def GetTotalKeys (m : Metrics) : Int := m.totalKeys

/-- Go `GetProcessedKeys`. -/
def GetProcessedKeys (m : Metrics) : Int := m.processedKeys

/-- Go `GetSuccessfulKeys`. -/
def GetSuccessfulKeys (m : Metrics) : Int := m.successKeys

/-- Go `GetFailedKeys`. -/
def GetFailedKeys (m : Metrics) : Int := m.failedKeys

/-- Go `GetSkippedKeys`. -/
def GetSkippedKeys (m : Metrics) : Int := m.skippedKeys

/-- Go `GetOverwrittenKeys`. -/
def GetOverwrittenKeys (m : Metrics) : Int := m.overwrittenKeys

/-- Go `GetElapsed`, `time.Since(m.startTime)`, at the time `now`, in nanoseconds. -/
def GetElapsed (m : Metrics) (now : Int) : Int := now - m.startTime

/-- Go `GetProgress`. -/
def GetProgress (m : Metrics) : ℚ :=
  let total := m.totalKeys
  let processed := m.processedKeys
  if total = 0 then 0
  else f64div (float64 processed) (float64 total)

/-- Go `GetProcessingRate`, at the time `now`. -/
def GetProcessingRate (m : Metrics) (now : Int) : ℚ :=
  let elapsed := Seconds (m.GetElapsed now)
  if elapsed = 0 then 0
  else f64div (float64 m.processedKeys) elapsed

/-- Go `GetETA`, at the time `now`. -/
def GetETA (m : Metrics) (now : Int) : Option Int :=
  let total := m.totalKeys
  let processed := m.processedKeys
  let rate := m.GetProcessingRate now
  if rate = 0 ∨ total = 0 then some 0
  else
    let remaining := total - processed
    if remaining ≤ 0 then some 0
    else
      let etaSeconds := f64div (float64 remaining) rate
      toInt64 (f64mul etaSeconds (float64 Second))

/-- Go `GetSuccessRate`. -/
def GetSuccessRate (m : Metrics) : ℚ :=
  let processed := m.processedKeys
  let success := m.successKeys
  if processed = 0 then 0
  else f64div (float64 success) (float64 processed)

/-- Go `GetFailureRate`. -/
def GetFailureRate (m : Metrics) : ℚ :=
  let processed := m.processedKeys
  let failed := m.failedKeys
  if processed = 0 then 0
  else f64div (float64 failed) (float64 processed)

end Metrics

/-! ## migrator.go: the store interface -/

/-- Go `type KeyData struct`; `TTL` is a `time.Duration` in nanoseconds. -/
structure KeyData where
  Key : String
  Data : String
  TTL : Int
  deriving DecidableEq, Repr

/-- What the engine can see of a `context.Context`: whether `Done()` is closed. -/
structure Context where
  done : Bool
  deriving DecidableEq, Repr

/-- One observable event of a running `ScanKeys` call: a send of a batch on `keysChan`,
or the return of the call. -/
inductive ScanEvent where
  | send (keys : List String)
  | ret (err : Option GoError)

/-- Go `type RedisClient interface`. A method maps its arguments and the world to its result
tuple and the new world. `ScanKeys` writes to a channel while it runs, so it is given by the
function that tells its next event. `Close` is not called by the engine. -/
structure RedisClient (W : Type) where
  ScanKeys : Context → String → Int → W → ScanEvent × W
  CountKeys : Context → String → Int → W → (Int × Option GoError) × W
  DumpKeys : Context → List String → W → (List KeyData × Option GoError) × W
  RestoreKeys : Context → List KeyData → ConflictBehavior → W →
    (List String × Option GoError) × W
  DeleteKeys : Context → List String → W → Option GoError × W

/-- A call the engine made on a store client, with the error it returned. -/
inductive CallRecord where
  | CountKeys (pattern : String) (batchSize : Int) (err : Option GoError)
  | ScanSend (keys : List String)
  | ScanReturn (err : Option GoError)
  | DumpKeys (keys : List String) (err : Option GoError)
  | RestoreKeys (data : List KeyData) (behavior : ConflictBehavior) (err : Option GoError)
  | DeleteKeys (keys : List String) (err : Option GoError)

/-- A call a worker made on a store client, with everything it returned. -/
inductive CallReturn where
  | DumpKeys (keys : List String) (data : List KeyData) (err : Option GoError)
  | RestoreKeys (data : List KeyData) (behavior : ConflictBehavior) (keys : List String)
      (err : Option GoError)
  | DeleteKeys (keys : List String) (err : Option GoError)

/-! ## migrator.go: one batch -/

/-- An update of the tracker. -/
inductive MetricOp where
  | AddProcessed (count : Int)
  | AddSuccess (count : Int)
  | AddFailed (count : Int)
  | AddOverwritten (count : Int)
  deriving DecidableEq, Repr

/-- The tracker method an update stands for. -/
def MetricOp.apply (op : MetricOp) (m : Metrics) : Metrics :=
  match op with
  | .AddProcessed n => m.AddProcessed n
  | .AddSuccess n => m.AddSuccess n
  | .AddFailed n => m.AddFailed n
  | .AddOverwritten n => m.AddOverwritten n

/-- The code of a goroutine between two visits of the worker loop: a tree of atomic
actions. A store call continues with the tuple the store returned. -/
inductive Prog where
  | ret
  | metric (op : MetricOp) (k : Prog)
  | sendErr (e : GoError) (k : Prog)
  | DumpKeys (keys : List String) (k : List KeyData × Option GoError → Prog)
  | RestoreKeys (data : List KeyData) (behavior : ConflictBehavior)
      (k : List String × Option GoError → Prog)
  | DeleteKeys (keys : List String) (k : Option GoError → Prog)

/-- Go `Migrator.updateMetricsForBatch`, followed by `k`. -/
def updateMetricsForBatch (config : Config) (keyData : List KeyData)
    (successfulKeys : List String) (k : Prog) : Prog :=
  let successCount : Int := successfulKeys.length
  let totalCount : Int := keyData.length
  .metric (.AddProcessed totalCount) <|
  .metric (if config.Conflict = OverwriteOnConflict then .AddOverwritten successCount
      else .AddSuccess successCount) <|
  let failedCount := totalCount - successCount
  if failedCount > 0 then .metric (.AddFailed failedCount) k else k

/-- Go `Migrator.processBatch`. -/
def processBatch (config : Config) (keys : List String) : Prog :=
  .DumpKeys keys fun r =>
    match r with
    | (_, some err) =>
      .sendErr (.wrapf "failed to dump keys" err) <|
      .metric (.AddProcessed keys.length) <|
      .metric (.AddFailed keys.length) .ret
    | (keyData, none) =>
      .RestoreKeys keyData config.Conflict fun r =>
        match r with
        | (_, some err) =>
          .sendErr (.wrapf "failed to restore keys" err) <|
          .metric (.AddProcessed keyData.length) <|
          .metric (.AddFailed keyData.length) .ret
        | (successfulKeys, none) =>
          updateMetricsForBatch config keyData successfulKeys <|
          if config.Mode = MoveMode ∧ successfulKeys.length > 0 then
            .DeleteKeys successfulKeys fun r =>
              match r with
              | some err => .sendErr (.wrapf "failed to delete keys from source" err) .ret
              | none => .ret
          else .ret

/-- Go `type Migrator struct`. The tracker behind the `metrics` pointer is part of the
state; `errors` is the list at the time `Migrate` is called. -/
structure Migrator (W : Type) where
  source : RedisClient W
  dest : RedisClient W
  config : Config
  errors : List GoError

/-- Go `NewMigrator`. -/
def NewMigrator {W : Type} (source dest : RedisClient W) (config : Config) : Migrator W :=
  { source := source, dest := dest, config := config, errors := [] }

/-- What a goroutine running alone reads and writes: the stores, the tracker, the errors
sent on `errorsChan` (oldest first) and the calls made on the stores (oldest first). -/
structure Seq (W : Type) where
  world : W
  metrics : Metrics
  errorsChan : List GoError
  calls : List CallRecord

/-- Run a tree of actions to its end, alone, with room in `errorsChan` for every send. -/
def Prog.exec {W : Type} (m : Migrator W) (ctx : Context) : Prog → Seq W → Seq W
  | .ret, s => s
  | .metric op k, s => k.exec m ctx { s with metrics := op.apply s.metrics }
  | .sendErr e k, s => k.exec m ctx { s with errorsChan := s.errorsChan ++ [e] }
  | .DumpKeys keys k, s =>
    let r := m.source.DumpKeys ctx keys s.world
    (k r.1).exec m ctx { s with world := r.2, calls := s.calls ++ [.DumpKeys keys r.1.2] }
  | .RestoreKeys data b k, s =>
    let r := m.dest.RestoreKeys ctx data b s.world
    (k r.1).exec m ctx { s with world := r.2, calls := s.calls ++ [.RestoreKeys data b r.1.2] }
  | .DeleteKeys keys k, s =>
    let r := m.source.DeleteKeys ctx keys s.world
    (k r.1).exec m ctx { s with world := r.2, calls := s.calls ++ [.DeleteKeys keys r.1] }

/-- The keys of a `DeleteKeys` call. -/
def CallRecord.deletedKeys : CallRecord → Option (List String)
  | .DeleteKeys keys _ => some keys
  | _ => none

/-- The arguments of the `DeleteKeys` calls among `calls`, oldest first. -/
def deleteCalls (calls : List CallRecord) : List (List String) :=
  calls.filterMap CallRecord.deletedKeys

/-- The migrator whose source deletes as `m.source` does but reports no error. -/
def Migrator.withDeleteOk {W : Type} (m : Migrator W) : Migrator W :=
  { m with source := { m.source with
      DeleteKeys := fun ctx keys w => (none, (m.source.DeleteKeys ctx keys w).2) } }

/-- Consecutive `processBatch` calls of one goroutine, one per batch. -/
def processBatches {W : Type} (m : Migrator W) (ctx : Context) (batches : List (List String))
    (s : Seq W) : Seq W :=
  batches.foldl (fun s keys => (processBatch m.config keys).exec m ctx s) s

/-- The tracker after the updates of `updateMetricsForBatch`, step by step. -/
def batchMetrics (config : Config) (E S : Nat) (mt : Metrics) : Metrics :=
  let mt1 := mt.AddProcessed E
  let mt2 := if config.Conflict = OverwriteOnConflict then mt1.AddOverwritten S
    else mt1.AddSuccess S
  if (E : Int) - S > 0 then mt2.AddFailed ((E : Int) - S) else mt2

/-- The tracker after the two updates of a failed export or import of `n` keys. -/
def failedBatch (n : Nat) (mt : Metrics) : Metrics :=
  (mt.AddProcessed n).AddFailed n

/-- A client never reports more imported keys than it was given entries. -/
def RestoreBounded {W : Type} (c : RedisClient W) : Prop :=
  ∀ ctx data behavior w, (c.RestoreKeys ctx data behavior w).1.2 = none →
    (c.RestoreKeys ctx data behavior w).1.1.length ≤ data.length

/-- What the tracker has counted as processed beyond what it has counted as succeeded,
overwritten or failed. -/
def Metrics.imbalance (mt : Metrics) : Int :=
  mt.processedKeys - (mt.successKeys + mt.overwrittenKeys + mt.failedKeys)

/-! ## migrator.go: `Migrate` and its goroutines -/

/-- A worker goroutine (`Migrator.worker`): inside `processBatch` with the actions `p` left,
at the `select` of its loop when `p` is `ret`; or returned. -/
inductive Worker where
  | running (p : Prog)
  | exited

/-- Whether the worker has returned. -/
def Worker.isExited : Worker → Bool
  | .exited => true
  | .running _ => false

/-- The producer goroutine of `Migrate`: not started; inside `ScanKeys` before its next
event; inside `ScanKeys` at a send on `keysChan`; at `errorsChan <- err` after `ScanKeys`
returned an error; at the deferred `close(keysChan)`; finished. -/
inductive Producer where
  | notStarted
  | scanning
  | sending (keys : List String)
  | reporting (err : GoError)
  | closing
  | finished

/-- The goroutine of `Migrate` that waits for the workers and closes `errorsChan`. -/
inductive Closer where
  | notStarted
  | waiting
  | finished

/-- The goroutine that called `Migrate`: before `CountKeys`; in the loop over `errorsChan`;
returned with a result. -/
inductive Main where
  | counting
  | draining
  | returned (err : Option GoError)

/-- The state of a `Migrate` call: the stores, the tracker, the context, the two channels
(buffers oldest first), the goroutines, `m.errors`, the calls made on the stores, whether
a goroutine has panicked, and what the calls of the workers returned (oldest first). -/
structure State (W : Type) where
  world : W
  metrics : Metrics
  cancelled : Bool
  keysChan : List (List String)
  keysClosed : Bool
  errorsChan : List GoError
  errorsClosed : Bool
  workers : List Worker
  producer : Producer
  closer : Closer
  main : Main
  errors : List GoError
  calls : List CallRecord
  panicked : Bool
  returns : List CallReturn

/-- The value of `ctx.Err()` after cancellation, `context.Canceled`. -/
def contextCanceled : GoError := .errorsNew "context canceled"

/-- The context as a store call sees it. -/
def State.ctx {W : Type} (s : State W) : Context := ⟨s.cancelled⟩

/-- Capacity of `keysChan`, `m.config.Concurrency*2`. -/
def keysCap {W : Type} (m : Migrator W) : Nat := (m.config.Concurrency * 2).toNat

/-- Capacity of `errorsChan`, `m.config.Concurrency`. -/
def errorsCap {W : Type} (m : Migrator W) : Nat := m.config.Concurrency.toNat

/-- The state in which `Migrate` is called. -/
def State.init {W : Type} (m : Migrator W) (cancelled : Bool) (world : W) (metrics : Metrics) :
    State W :=
  { world := world, metrics := metrics, cancelled := cancelled,
    keysChan := [], keysClosed := false, errorsChan := [], errorsClosed := false,
    workers := [], producer := .notStarted, closer := .notStarted, main := .counting,
    errors := m.errors, calls := [], panicked := false, returns := [] }

/-- A send `errorsChan <- e`, after which the sender is in `next`: a panic on a closed
channel; into the buffer when there is room; handed to the loop of `Migrate` (which appends
it to `m.errors`) when the channel has no buffer; otherwise the sender waits. -/
def sendError {W : Type} (m : Migrator W) (e : GoError) (s : State W)
    (next : State W → State W) : Option (State W) :=
  if s.errorsClosed then some { s with panicked := true }
  else if s.errorsChan.length < errorsCap m then
    some (next { s with errorsChan := s.errorsChan ++ [e] })
  else if errorsCap m = 0 then
    match s.main with
    | .draining => some (next { s with errors := s.errors ++ [e] })
    | _ => none
  else none

/-- Go `Migrator.Migrate`: a step of the goroutine that called it. The first step is the
code up to the loop over `errorsChan` (the count, `SetTotal`, the two early returns, the two
`make`, of which the first panics on a negative size, and the start of the goroutines); the
later steps are the iterations of the loop, with `m.addError`, and the return. -/
def Migrate {W : Type} (m : Migrator W) (s : State W) : Option (State W) :=
  match s.main with
  | .counting =>
    let r := m.source.CountKeys s.ctx m.config.Pattern m.config.BatchSize s.world
    let s1 : State W := { s with
      world := r.2
      calls := s.calls ++ [.CountKeys m.config.Pattern m.config.BatchSize r.1.2] }
    match r.1.2 with
    | some err => some { s1 with main := .returned (some (.wrapf "failed to count keys" err)) }
    | none =>
      let s2 : State W := { s1 with metrics := s1.metrics.SetTotal r.1.1 }
      if r.1.1 = 0 then some { s2 with main := .returned none }
      else if m.config.Concurrency < 0 then some { s2 with panicked := true }
      else some { s2 with
        workers := List.replicate m.config.Concurrency.toNat (.running .ret)
        producer := .scanning
        closer := .waiting
        main := .draining }
  | .draining =>
    match s.errorsChan with
    | e :: rest => some { s with errorsChan := rest, errors := s.errors ++ [e] }
    | [] =>
      if s.errorsClosed then some { s with main := .returned (errorsJoin s.errors) }
      else none
  | .returned _ => none

/-- Go `Migrator.worker`: a step of worker `i` other than the `ctx.Done()` case of its
`select`: the receive from `keysChan` when it is at the `select`, else the next action of
`processBatch`. -/
def worker {W : Type} (m : Migrator W) (i : Nat) (s : State W) : Option (State W) :=
  match s.workers[i]? with
  | some (.running p) =>
    match p with
    | .ret =>
      match s.keysChan with
      | keys :: rest =>
        some { s with
          keysChan := rest
          workers := s.workers.set i (.running (processBatch m.config keys)) }
      | [] =>
        if s.keysClosed then some { s with workers := s.workers.set i .exited } else none
    | .metric op k =>
      some { s with metrics := op.apply s.metrics, workers := s.workers.set i (.running k) }
    | .sendErr e k =>
      sendError m e s fun s => { s with workers := s.workers.set i (.running k) }
    | .DumpKeys keys k =>
      let r := m.source.DumpKeys s.ctx keys s.world
      some { s with
        world := r.2
        calls := s.calls ++ [.DumpKeys keys r.1.2]
        returns := s.returns ++ [.DumpKeys keys r.1.1 r.1.2]
        workers := s.workers.set i (.running (k r.1)) }
    | .RestoreKeys data b k =>
      let r := m.dest.RestoreKeys s.ctx data b s.world
      some { s with
        world := r.2
        calls := s.calls ++ [.RestoreKeys data b r.1.2]
        returns := s.returns ++ [.RestoreKeys data b r.1.1 r.1.2]
        workers := s.workers.set i (.running (k r.1)) }
    | .DeleteKeys keys k =>
      let r := m.source.DeleteKeys s.ctx keys s.world
      some { s with
        world := r.2
        calls := s.calls ++ [.DeleteKeys keys r.1]
        returns := s.returns ++ [.DeleteKeys keys r.1]
        workers := s.workers.set i (.running (k r.1)) }
  | _ => none

/-- Go `Migrator.worker`: the `ctx.Done()` case of the `select` of worker `i`. -/
def workerDone {W : Type} (i : Nat) (s : State W) : Option (State W) :=
  match s.workers[i]? with
  | some (.running .ret) =>
    if s.cancelled then some { s with workers := s.workers.set i .exited } else none
  | _ => none

/-- A step of the producer goroutine of `Migrate` (the `go func` around `ScanKeys`), other
than the `ctx.Done()` case of a send inside `ScanKeys`. -/
def producer {W : Type} (m : Migrator W) (s : State W) : Option (State W) :=
  match s.producer with
  | .scanning =>
    let r := m.source.ScanKeys s.ctx m.config.Pattern m.config.BatchSize s.world
    match r.1 with
    | .send keys =>
      some { s with world := r.2, producer := .sending keys }
    | .ret none =>
      some { s with world := r.2, producer := .closing, calls := s.calls ++ [.ScanReturn none] }
    | .ret (some err) =>
      some { s with
        world := r.2
        producer := .reporting (.wrapf "failed to scan keys" err)
        calls := s.calls ++ [.ScanReturn (some err)] }
  | .sending keys =>
    if s.keysChan.length < keysCap m then
      some { s with
        keysChan := s.keysChan ++ [keys]
        producer := .scanning
        calls := s.calls ++ [.ScanSend keys] }
    else none
  | .reporting e => sendError m e s fun s => { s with producer := .closing }
  | .closing => some { s with keysClosed := true, producer := .finished }
  | _ => none

/-- The `ctx.Done()` case of a send inside `ScanKeys`, as in `Client.ScanKeys`: the call
returns `ctx.Err()`. -/
def producerDone {W : Type} (s : State W) : Option (State W) :=
  match s.producer with
  | .sending _ =>
    if s.cancelled then
      some { s with
        producer := .reporting (.wrapf "failed to scan keys" contextCanceled)
        calls := s.calls ++ [.ScanReturn (some contextCanceled)] }
    else none
  | _ => none

/-- The step of the closing goroutine of `Migrate`: `wg.Wait()` returns when every worker
has returned, then `close(errorsChan)`. -/
def closer {W : Type} (s : State W) : Option (State W) :=
  match s.closer with
  | .waiting =>
    if s.workers.all Worker.isExited then
      some { s with errorsClosed := true, closer := .finished }
    else none
  | _ => none

/-- Who moves next. -/
inductive Label where
  | main
  | worker (i : Nat)
  | workerDone (i : Nat)
  | producer
  | producerDone
  | closer
  | cancel
  deriving DecidableEq, Repr

/-- One atomic step of a `Migrate` call; `none` when the chosen goroutine cannot move.
Nothing moves after a panic. -/
def step {W : Type} (m : Migrator W) (l : Label) (s : State W) : Option (State W) :=
  if s.panicked then none
  else
    match l with
    | .main => Migrate m s
    | .worker i => worker m i s
    | .workerDone i => workerDone i s
    | .producer => producer m s
    | .producerDone => producerDone s
    | .closer => closer s
    | .cancel => some { s with cancelled := true }

/-- The state after the steps of a schedule, `none` when one of them is not possible. -/
def run {W : Type} (m : Migrator W) : List Label → State W → Option (State W)
  | [], s => some s
  | l :: ls, s => (step m l s).bind (run m ls)

/-- A state a `Migrate` call can be in: one some schedule leads to. -/
def Reachable {W : Type} (m : Migrator W) (s0 s : State W) : Prop :=
  ∃ ls, run m ls s0 = some s

/-! ## The steps of `Migrate` as a relation -/

/-- The outcome of a send `errorsChan <- e` that does not panic: into the buffer, or handed
to the loop of `Migrate`. -/
inductive Sent {W : Type} (m : Migrator W) (e : GoError) (s : State W) : State W → Prop where
  | buffered (hclosed : s.errorsClosed = false) (hroom : s.errorsChan.length < errorsCap m) :
      Sent m e s { s with errorsChan := s.errorsChan ++ [e] }
  | handed (hclosed : s.errorsClosed = false) (hcap : errorsCap m = 0)
      (hmain : s.main = .draining) :
      Sent m e s { s with errors := s.errors ++ [e] }

/-- The cases of `step`, one constructor for each way a goroutine can move. -/
inductive Step {W : Type} (m : Migrator W) (s : State W) : State W → Prop where
  | countFailed (err : GoError) (hmain : s.main = .counting)
      (hr : (m.source.CountKeys s.ctx m.config.Pattern m.config.BatchSize s.world).1.2 =
        some err) :
      Step m s { s with
        world := (m.source.CountKeys s.ctx m.config.Pattern m.config.BatchSize s.world).2
        calls := s.calls ++ [.CountKeys m.config.Pattern m.config.BatchSize (some err)]
        main := .returned (some (.wrapf "failed to count keys" err)) }
  | countZero (hmain : s.main = .counting)
      (hr : (m.source.CountKeys s.ctx m.config.Pattern m.config.BatchSize s.world).1 =
        (0, none)) :
      Step m s { s with
        world := (m.source.CountKeys s.ctx m.config.Pattern m.config.BatchSize s.world).2
        calls := s.calls ++ [.CountKeys m.config.Pattern m.config.BatchSize none]
        metrics := s.metrics.SetTotal 0
        main := .returned none }
  | makePanic (total : Int) (hmain : s.main = .counting)
      (hr : (m.source.CountKeys s.ctx m.config.Pattern m.config.BatchSize s.world).1 =
        (total, none)) (htotal : total ≠ 0) (hneg : m.config.Concurrency < 0) :
      Step m s { s with
        world := (m.source.CountKeys s.ctx m.config.Pattern m.config.BatchSize s.world).2
        calls := s.calls ++ [.CountKeys m.config.Pattern m.config.BatchSize none]
        metrics := s.metrics.SetTotal total
        panicked := true }
  | spawn (total : Int) (hmain : s.main = .counting)
      (hr : (m.source.CountKeys s.ctx m.config.Pattern m.config.BatchSize s.world).1 =
        (total, none)) (htotal : total ≠ 0) (hneg : ¬ m.config.Concurrency < 0) :
      Step m s { s with
        world := (m.source.CountKeys s.ctx m.config.Pattern m.config.BatchSize s.world).2
        calls := s.calls ++ [.CountKeys m.config.Pattern m.config.BatchSize none]
        metrics := s.metrics.SetTotal total
        workers := List.replicate m.config.Concurrency.toNat (.running .ret)
        producer := .scanning
        closer := .waiting
        main := .draining }
  | drain (e : GoError) (rest : List GoError) (hmain : s.main = .draining)
      (hchan : s.errorsChan = e :: rest) :
      Step m s { s with errorsChan := rest, errors := s.errors ++ [e] }
  | mainReturn (hmain : s.main = .draining) (hchan : s.errorsChan = [])
      (hclosed : s.errorsClosed = true) :
      Step m s { s with main := .returned (errorsJoin s.errors) }
  | receive (i : Nat) (keys : List String) (rest : List (List String))
      (hw : s.workers[i]? = some (.running .ret)) (hchan : s.keysChan = keys :: rest) :
      Step m s { s with
        keysChan := rest
        workers := s.workers.set i (.running (processBatch m.config keys)) }
  | exitClosed (i : Nat) (hw : s.workers[i]? = some (.running .ret)) (hchan : s.keysChan = [])
      (hclosed : s.keysClosed = true) :
      Step m s { s with workers := s.workers.set i .exited }
  | exitDone (i : Nat) (hw : s.workers[i]? = some (.running .ret))
      (hdone : s.cancelled = true) :
      Step m s { s with workers := s.workers.set i .exited }
  | metric (i : Nat) (op : MetricOp) (k : Prog)
      (hw : s.workers[i]? = some (.running (.metric op k))) :
      Step m s { s with
        metrics := op.apply s.metrics
        workers := s.workers.set i (.running k) }
  | workerSend (i : Nat) (e : GoError) (k : Prog) (t : State W)
      (hw : s.workers[i]? = some (.running (.sendErr e k))) (hsent : Sent m e s t) :
      Step m s { t with workers := t.workers.set i (.running k) }
  | workerPanic (i : Nat) (e : GoError) (k : Prog)
      (hw : s.workers[i]? = some (.running (.sendErr e k)))
      (hclosed : s.errorsClosed = true) :
      Step m s { s with panicked := true }
  | dump (i : Nat) (keys : List String) (k : List KeyData × Option GoError → Prog)
      (hw : s.workers[i]? = some (.running (.DumpKeys keys k))) :
      Step m s { s with
        world := (m.source.DumpKeys s.ctx keys s.world).2
        calls := s.calls ++ [.DumpKeys keys (m.source.DumpKeys s.ctx keys s.world).1.2]
        returns := s.returns ++ [.DumpKeys keys (m.source.DumpKeys s.ctx keys s.world).1.1
          (m.source.DumpKeys s.ctx keys s.world).1.2]
        workers := s.workers.set i (.running (k (m.source.DumpKeys s.ctx keys s.world).1)) }
  | restore (i : Nat) (data : List KeyData) (b : ConflictBehavior)
      (k : List String × Option GoError → Prog)
      (hw : s.workers[i]? = some (.running (.RestoreKeys data b k))) :
      Step m s { s with
        world := (m.dest.RestoreKeys s.ctx data b s.world).2
        calls := s.calls ++ [.RestoreKeys data b (m.dest.RestoreKeys s.ctx data b s.world).1.2]
        returns := s.returns ++ [.RestoreKeys data b
          (m.dest.RestoreKeys s.ctx data b s.world).1.1
          (m.dest.RestoreKeys s.ctx data b s.world).1.2]
        workers := s.workers.set i (.running (k (m.dest.RestoreKeys s.ctx data b s.world).1)) }
  | delete (i : Nat) (keys : List String) (k : Option GoError → Prog)
      (hw : s.workers[i]? = some (.running (.DeleteKeys keys k))) :
      Step m s { s with
        world := (m.source.DeleteKeys s.ctx keys s.world).2
        calls := s.calls ++ [.DeleteKeys keys (m.source.DeleteKeys s.ctx keys s.world).1]
        returns := s.returns ++ [.DeleteKeys keys (m.source.DeleteKeys s.ctx keys s.world).1]
        workers := s.workers.set i (.running (k (m.source.DeleteKeys s.ctx keys s.world).1)) }
  | scanSend (keys : List String) (hp : s.producer = .scanning)
      (hr : (m.source.ScanKeys s.ctx m.config.Pattern m.config.BatchSize s.world).1 =
        .send keys) :
      Step m s { s with
        world := (m.source.ScanKeys s.ctx m.config.Pattern m.config.BatchSize s.world).2
        producer := .sending keys }
  | scanReturn (hp : s.producer = .scanning)
      (hr : (m.source.ScanKeys s.ctx m.config.Pattern m.config.BatchSize s.world).1 =
        .ret none) :
      Step m s { s with
        world := (m.source.ScanKeys s.ctx m.config.Pattern m.config.BatchSize s.world).2
        producer := .closing
        calls := s.calls ++ [.ScanReturn none] }
  | scanFailed (err : GoError) (hp : s.producer = .scanning)
      (hr : (m.source.ScanKeys s.ctx m.config.Pattern m.config.BatchSize s.world).1 =
        .ret (some err)) :
      Step m s { s with
        world := (m.source.ScanKeys s.ctx m.config.Pattern m.config.BatchSize s.world).2
        producer := .reporting (.wrapf "failed to scan keys" err)
        calls := s.calls ++ [.ScanReturn (some err)] }
  | enqueue (keys : List String) (hp : s.producer = .sending keys)
      (hroom : s.keysChan.length < keysCap m) :
      Step m s { s with
        keysChan := s.keysChan ++ [keys]
        producer := .scanning
        calls := s.calls ++ [.ScanSend keys] }
  | scanDone (keys : List String) (hp : s.producer = .sending keys)
      (hdone : s.cancelled = true) :
      Step m s { s with
        producer := .reporting (.wrapf "failed to scan keys" contextCanceled)
        calls := s.calls ++ [.ScanReturn (some contextCanceled)] }
  | report (e : GoError) (t : State W) (hp : s.producer = .reporting e) (hsent : Sent m e s t) :
      Step m s { t with producer := .closing }
  | reportPanic (e : GoError) (hp : s.producer = .reporting e)
      (hclosed : s.errorsClosed = true) :
      Step m s { s with panicked := true }
  | closeKeys (hp : s.producer = .closing) :
      Step m s { s with keysClosed := true, producer := .finished }
  | closeErrors (hc : s.closer = .waiting) (hall : s.workers.all Worker.isExited = true) :
      Step m s { s with errorsClosed := true, closer := .finished }
  | cancel : Step m s { s with cancelled := true }

/-! ## Invariants of a `Migrate` call -/

/-- How the goroutines of `Migrate` depend on each other: before the count nothing has been
started; `errorsChan` is closed only after every worker has returned; `Migrate` returns only
after every worker has returned. -/
def Struct {W : Type} (s : State W) : Prop :=
  (s.main = .counting → s.workers = [] ∧ s.closer = .notStarted ∧ s.errorsClosed = false) ∧
  (s.errorsClosed = true → s.workers.all Worker.isExited = true) ∧
  (∀ r, s.main = .returned r → s.workers.all Worker.isExited = true)

/-- What an update adds to the imbalance of the tracker. -/
def MetricOp.delta : MetricOp → Int
  | .AddProcessed n => n
  | .AddSuccess n => -n
  | .AddFailed n => -n
  | .AddOverwritten n => -n

/-- What the updates of `p` before its next store call add to the imbalance. -/
def Prog.owed : Prog → Int
  | .metric op k => op.delta + k.owed
  | .sendErr _ k => k.owed
  | _ => 0

/-- After each store call of `p`, whatever the store returns (an import never reporting more
keys than it was given), the updates up to the next store call add nothing to the
imbalance. -/
def Prog.Closed : Prog → Prop
  | .ret => True
  | .metric _ k => k.Closed
  | .sendErr _ k => k.Closed
  | .DumpKeys _ k => ∀ r, (k r).owed = 0 ∧ (k r).Closed
  | .RestoreKeys data _ k =>
    ∀ r, (r.2 = none → r.1.length ≤ data.length) → (k r).owed = 0 ∧ (k r).Closed
  | .DeleteKeys _ k => ∀ r, (k r).owed = 0 ∧ (k r).Closed

/-- `Prog.owed` of the actions a worker has left in its batch. -/
def Worker.owed : Worker → Int
  | .running p => p.owed
  | .exited => 0

/-- `Prog.Closed` of the actions a worker has left in its batch. -/
def Worker.Closed : Worker → Prop
  | .running p => p.Closed
  | .exited => True

/-- The imbalance of the tracker and what the workers still owe add up to `c`. -/
def Balanced {W : Type} (c : Int) (s : State W) : Prop :=
  s.metrics.imbalance + (s.workers.map Worker.owed).sum = c ∧ ∀ w ∈ s.workers, w.Closed

/-- Every update in `p`, whatever the stores return, satisfies `P`. -/
def Prog.Ops (P : MetricOp → Prop) : Prog → Prop
  | .ret => True
  | .metric op k => P op ∧ k.Ops P
  | .sendErr _ k => k.Ops P
  | .DumpKeys _ k => ∀ r, (k r).Ops P
  | .RestoreKeys _ _ k => ∀ r, (k r).Ops P
  | .DeleteKeys _ k => ∀ r, (k r).Ops P

/-- `Prog.Ops` of the actions a worker has left in its batch. -/
def Worker.Ops (P : MetricOp → Prop) : Worker → Prop
  | .running p => p.Ops P
  | .exited => True

/-- The update leaves the counter `f` as it is. -/
def MetricOp.Keeps (f : Metrics → Int) (op : MetricOp) : Prop :=
  ∀ mt, f (op.apply mt) = f mt

/-- The counter `f` is `c` and no worker has an update left that changes it. -/
def Untouched {W : Type} (f : Metrics → Int) (c : Int) (s : State W) : Prop :=
  f s.metrics = c ∧ ∀ w ∈ s.workers, w.Ops (MetricOp.Keeps f)

/-- The error `Migrate` is to report for a call on a store that failed: the wrapped error
`processBatch` or the producer sends for it. The count is not part of it: its error is
returned at once. -/
def CallRecord.failure : CallRecord → Option GoError
  | .DumpKeys _ (some e) => some (.wrapf "failed to dump keys" e)
  | .RestoreKeys _ _ (some e) => some (.wrapf "failed to restore keys" e)
  | .DeleteKeys _ (some e) => some (.wrapf "failed to delete keys from source" e)
  | .ScanReturn (some e) => some (.wrapf "failed to scan keys" e)
  | _ => none

/-- The errors of the failed calls among `calls`, oldest first. -/
def failures (calls : List CallRecord) : List GoError :=
  calls.filterMap CallRecord.failure

/-- The errors `p` sends before its next store call. -/
def Prog.pendingErrs : Prog → List GoError
  | .metric _ k => k.pendingErrs
  | .sendErr e k => e :: k.pendingErrs
  | _ => []

/-- After each store call of `p`, the errors sent before the next store call are: the error
of that call when it failed, none when it did not. -/
def Prog.Reports : Prog → Prop
  | .ret => True
  | .metric _ k => k.Reports
  | .sendErr _ k => k.Reports
  | .DumpKeys keys k =>
    ∀ r, (k r).pendingErrs = (CallRecord.DumpKeys keys r.2).failure.toList ∧ (k r).Reports
  | .RestoreKeys data b k =>
    ∀ r, (k r).pendingErrs = (CallRecord.RestoreKeys data b r.2).failure.toList ∧
      (k r).Reports
  | .DeleteKeys keys k =>
    ∀ r, (k r).pendingErrs = (CallRecord.DeleteKeys keys r).failure.toList ∧ (k r).Reports

/-- `Prog.pendingErrs` of the actions a worker has left in its batch. -/
def Worker.pendingErrs : Worker → List GoError
  | .running p => p.pendingErrs
  | .exited => []

/-- `Prog.Reports` of the actions a worker has left in its batch. -/
def Worker.Reports : Worker → Prop
  | .running p => p.Reports
  | .exited => True

/-- The error the producer is about to send. -/
def Producer.pendingErrs : Producer → List GoError
  | .reporting e => [e]
  | _ => []

/-- Every failed call has its error in exactly one place: in `m.errors`, in the buffer of
`errorsChan`, or about to be sent by a worker or by the producer. -/
def Accounted {W : Type} (s : State W) : Prop :=
  (Multiset.ofList s.errors + Multiset.ofList s.errorsChan +
      (s.workers.map fun w => Multiset.ofList w.pendingErrs).sum +
      Multiset.ofList s.producer.pendingErrs =
    Multiset.ofList (failures s.calls)) ∧
  ∀ w ∈ s.workers, w.Reports

/-- How a run without early return proceeds: nothing is started before the count, which is
made on the initial world `w0`; `keysChan` is closed by the finished producer only; a worker
returns only on the closed `keysChan` unless the context is cancelled; there are as many
workers as configured; and `Migrate` returns, with the join of `m.errors`, only when
`errorsChan` is closed and empty. -/
def Flow {W : Type} (m : Migrator W) (w0 : W) (s : State W) : Prop :=
  (s.main = .counting → s.panicked = false →
    s.producer = .notStarted ∧ s.keysClosed = false ∧ s.world = w0) ∧
  (s.keysClosed = true → s.producer = .finished) ∧
  (s.cancelled = false → ∀ w ∈ s.workers, w = .exited → s.keysClosed = true) ∧
  (s.main ≠ .counting → s.workers.length = m.config.Concurrency.toNat) ∧
  (∀ r, s.main = .returned r →
    s.errorsClosed = true ∧ s.errorsChan = [] ∧ r = errorsJoin s.errors)

/-- The batch of a send of `ScanKeys` on `keysChan`. -/
def CallRecord.sentBatch : CallRecord → Option (List String)
  | .ScanSend keys => some keys
  | _ => none

/-- The batches the producer has sent on `keysChan`, oldest first. -/
def scanSends (calls : List CallRecord) : List (List String) :=
  calls.filterMap CallRecord.sentBatch

/-- The batch of a `DumpKeys` call, the first action of `processBatch`. -/
def CallReturn.dumpedBatch : CallReturn → Option (List String)
  | .DumpKeys keys _ _ => some keys
  | _ => none

/-- The batches `processBatch` has been started on and has exported, oldest first. -/
def dumped (returns : List CallReturn) : List (List String) :=
  returns.filterMap CallReturn.dumpedBatch

/-- The batch `p` is about to export. -/
def Prog.pendingDumps : Prog → List (List String)
  | .metric _ k => k.pendingDumps
  | .sendErr _ k => k.pendingDumps
  | .DumpKeys keys _ => [keys]
  | _ => []

/-- After each store call of `p` no export follows. -/
def Prog.Once : Prog → Prop
  | .ret => True
  | .metric _ k => k.Once
  | .sendErr _ k => k.Once
  | .DumpKeys _ k => ∀ r, (k r).pendingDumps = [] ∧ (k r).Once
  | .RestoreKeys _ _ k => ∀ r, (k r).pendingDumps = [] ∧ (k r).Once
  | .DeleteKeys _ k => ∀ r, (k r).pendingDumps = [] ∧ (k r).Once

/-- `Prog.pendingDumps` of the actions a worker has left in its batch. -/
def Worker.pendingDumps : Worker → List (List String)
  | .running p => p.pendingDumps
  | .exited => []

/-- `Prog.Once` of the actions a worker has left in its batch. -/
def Worker.Once : Worker → Prop
  | .running p => p.Once
  | .exited => True

/-- Every batch sent on `keysChan` is in exactly one place: exported by a `processBatch`
call, still in the buffer of `keysChan`, or received by a worker that is about to export
it. -/
def Streamed {W : Type} (s : State W) : Prop :=
  (Multiset.ofList (scanSends s.calls) =
    Multiset.ofList (dumped s.returns) + Multiset.ofList s.keysChan +
      (s.workers.map fun w => Multiset.ofList w.pendingDumps).sum) ∧
  ∀ w ∈ s.workers, w.Once

/-- Amounts for the counters processed, succeeded, failed and overwritten, in this order. -/
abbrev Tally := Int × Int × Int × Int

/-- The four counters of the tracker. -/
def Metrics.tally (mt : Metrics) : Tally :=
  (mt.processedKeys, mt.successKeys, mt.failedKeys, mt.overwrittenKeys)

/-- What an update adds to the four counters. -/
def MetricOp.tally : MetricOp → Tally
  | .AddProcessed n => (n, 0, 0, 0)
  | .AddSuccess n => (0, n, 0, 0)
  | .AddFailed n => (0, 0, n, 0)
  | .AddOverwritten n => (0, 0, 0, n)

/-- What the updates of `p` before its next store call add to the four counters. -/
def Prog.pendingTally : Prog → Tally
  | .metric op k => op.tally + k.pendingTally
  | .sendErr _ k => k.pendingTally
  | _ => 0

/-- The contribution of a batch to the four counters, as the return of the store call that
settles it: a failed export of `keys` counts len keys as processed and failed; a
failed import of the entries `data` counts len data as processed and failed; an import of
`data` that reports `keys` counts len data as processed, len keys as overwritten or succeeded
by the policy, and the rest, if any, as failed. Other returns settle nothing. -/
def CallReturn.tally (config : Config) : CallReturn → Tally
  | .DumpKeys keys _ (some _) => (keys.length, 0, keys.length, 0)
  | .RestoreKeys data _ _ (some _) => (data.length, 0, data.length, 0)
  | .RestoreKeys data _ keys none =>
    (data.length,
      if config.Conflict = OverwriteOnConflict then 0 else keys.length,
      if (data.length : Int) - keys.length > 0 then (data.length : Int) - keys.length else 0,
      if config.Conflict = OverwriteOnConflict then keys.length else 0)
  | _ => 0

/-- After each store call of `p`, the updates before the next store call add to the counters
exactly the contribution that the return of the call settles. -/
def Prog.Pays (config : Config) : Prog → Prop
  | .ret => True
  | .metric _ k => k.Pays config
  | .sendErr _ k => k.Pays config
  | .DumpKeys keys k =>
    ∀ r, (k r).pendingTally = (CallReturn.DumpKeys keys r.1 r.2).tally config ∧
      (k r).Pays config
  | .RestoreKeys data b k =>
    ∀ r, (k r).pendingTally = (CallReturn.RestoreKeys data b r.1 r.2).tally config ∧
      (k r).Pays config
  | .DeleteKeys keys k =>
    ∀ r, (k r).pendingTally = (CallReturn.DeleteKeys keys r).tally config ∧ (k r).Pays config

/-- `Prog.pendingTally` of the actions a worker has left in its batch. -/
def Worker.pendingTally : Worker → Tally
  | .running p => p.pendingTally
  | .exited => 0

/-- `Prog.Pays` of the actions a worker has left in its batch. -/
def Worker.Pays (config : Config) : Worker → Prop
  | .running p => p.Pays config
  | .exited => True

/-- The counters and the updates the workers have left before their next store call add up
to the initial counters `t0` and the contributions settled so far. -/
def Tallied {W : Type} (m : Migrator W) (t0 : Tally) (s : State W) : Prop :=
  (s.metrics.tally + (s.workers.map Worker.pendingTally).sum =
    t0 + (s.returns.map (CallReturn.tally m.config)).sum) ∧
  ∀ w ∈ s.workers, w.Pays m.config

/-- How `keysChan` is emptied: it is empty and open before the producer starts; closed by the
finished producer only; a worker returns only on the closed and empty channel unless the
context is cancelled; the buffer holds at most its capacity; and there are as many workers
as configured once the producer has been started. -/
def Drained {W : Type} (m : Migrator W) (s : State W) : Prop :=
  (s.main = .counting → s.producer = .notStarted) ∧
  (s.producer = .notStarted → s.keysChan = [] ∧ s.keysClosed = false) ∧
  (s.keysClosed = true → s.producer = .finished) ∧
  (s.cancelled = false → ∀ w ∈ s.workers, w = .exited →
    s.keysClosed = true ∧ s.keysChan = []) ∧
  s.keysChan.length ≤ keysCap m ∧
  (s.producer ≠ .notStarted → s.workers.length = m.config.Concurrency.toNat)

/-! ## Fixtures -/

/-- A store whose answers are fixed in advance; its world is the number of batches the scan
has produced. The count is `count`; the scan sends `batches` and returns `scanErr`; an
export returns one entry per key, or `dumpErr`; an import reports the keys `accept` lets
through, or `restoreErr`; a deletion returns `deleteErr`. -/
def scriptedClient (count : Int) (batches : List (List String))
    (scanErr dumpErr restoreErr deleteErr : Option GoError) (accept : String → Bool) :
    RedisClient Nat :=
  { ScanKeys := fun _ _ _ n =>
      match batches[n]? with
      | some b => (.send b, n + 1)
      | none => (.ret scanErr, n)
    CountKeys := fun _ _ _ n => ((count, none), n)
    DumpKeys := fun _ keys n =>
      match dumpErr with
      | some e => (([], some e), n)
      | none => ((keys.map fun k => { Key := k, Data := "", TTL := 0 }, none), n)
    RestoreKeys := fun _ data _ n =>
      match restoreErr with
      | some e => (([], some e), n)
      | none => (((data.map KeyData.Key).filter accept, none), n)
    DeleteKeys := fun _ _ n => (deleteErr, n) }

/-- A configuration that passes `Validate`, with the given mode, policy and worker count. -/
def testConfig (mode : Mode) (conflict : ConflictBehavior) (concurrency : Int) : Config :=
  { SourceURL := "redis://source", DestURL := "redis://dest", Pattern := "*",
    Mode := mode, Conflict := conflict, BatchSize := 2, Concurrency := concurrency,
    Verbose := false }

/-- A run with one worker under `OverwriteOnConflict`: the source counts two keys and streams
them as one batch, the destination writes both. -/
def overwriteMigrator : Migrator Nat :=
  NewMigrator (scriptedClient 2 [["a", "b"]] none none none none fun _ => true)
    (scriptedClient 0 [] none none none none fun _ => true)
    (testConfig CopyMode OverwriteOnConflict 1)

/-- The schedule of the run of `overwriteMigrator`: count and start; the scan sends its batch
and returns, `keysChan` is closed; the worker takes the batch, exports, imports, updates the
tracker and returns on the closed channel; `errorsChan` is closed; `Migrate` returns. -/
def overwriteSchedule : List Label :=
  [.main, .producer, .producer, .producer, .producer,
    .worker 0, .worker 0, .worker 0, .worker 0, .worker 0, .worker 0, .closer, .main]

/-- A migrator whose source counts no key. -/
def emptyMigrator : Migrator Nat :=
  NewMigrator (scriptedClient 0 [] none none none none fun _ => true)
    (scriptedClient 0 [] none none none none fun _ => true)
    (testConfig MoveMode ErrorOnConflict 4)

/-- A migrator with one worker whose source counts one key and whose scan returns the error
of a cancelled context. -/
def raceMigrator : Migrator Nat :=
  NewMigrator (scriptedClient 1 [] (some contextCanceled) none none none fun _ => true)
    (scriptedClient 0 [] none none none none fun _ => true)
    (testConfig CopyMode ErrorOnConflict 1)

/-- A schedule of `raceMigrator`: count and start; the context is cancelled; `ScanKeys`
returns its error; the worker takes the `ctx.Done()` case and returns; `errorsChan` is
closed; `Migrate` leaves its loop and returns. The producer has not yet sent its error. -/
def raceSchedule : List Label :=
  [.main, .cancel, .producer, .workerDone 0, .closer, .main]

/-- A goroutine about to run alone on a fresh tracker. -/
def freshSeq : Seq Nat :=
  { world := 0, metrics := NewMetrics 0, errorsChan := [], calls := [] }

/-- A migrator under `SkipOnConflict` whose destination already holds the key `a`. -/
def skipMigrator : Migrator Nat :=
  NewMigrator (scriptedClient 3 [["a", "b"], ["c"]] none none none none fun _ => true)
    (scriptedClient 0 [] none none none none fun k => k != "a")
    (testConfig CopyMode SkipOnConflict 1)

/-- A migrator whose source fails every export. -/
def dumpFailMigrator : Migrator Nat :=
  NewMigrator
    (scriptedClient 2 [["a", "b"]] none (some (.errorsNew "connection reset")) none none
      fun _ => true)
    (scriptedClient 0 [] none none none none fun _ => true)
    (testConfig MoveMode ErrorOnConflict 1)

/-- A migrator in move mode whose destination fails every import. -/
def restoreFailMigrator : Migrator Nat :=
  NewMigrator (scriptedClient 2 [["a", "b"]] none none none none fun _ => true)
    (scriptedClient 0 [] none none (some (.errorsNew "BUSYKEY")) none fun _ => true)
    (testConfig MoveMode ErrorOnConflict 1)

/-- A migrator in move mode whose source fails every deletion. -/
def deleteFailMigrator : Migrator Nat :=
  NewMigrator
    (scriptedClient 2 [["a", "b"]] none none none (some (.errorsNew "READONLY")) fun _ => true)
    (scriptedClient 0 [] none none none none fun _ => true)
    (testConfig MoveMode ErrorOnConflict 1)

/-- A schedule of `dumpFailMigrator`: count and start; the scan sends its batch and returns,
`keysChan` is closed; the worker takes the batch, the export fails, the worker sends the
error, updates the tracker and returns on the closed channel; `errorsChan` is closed;
`Migrate` receives the error and returns. -/
def dumpFailSchedule : List Label :=
  [.main, .producer, .producer, .producer, .producer,
    .worker 0, .worker 0, .worker 0, .worker 0, .worker 0, .worker 0, .closer, .main, .main]

/-- A configuration with URLs, mode and policy in order, a batch size of 0 and a worker count
of -1. -/
def unvalidatedConfig : Config :=
  { testConfig CopyMode ErrorOnConflict (-1) with BatchSize := 0 }

/-- A migrator with `unvalidatedConfig` whose source counts one key. -/
def unvalidatedMigrator : Migrator Nat :=
  NewMigrator (scriptedClient 1 [["a"]] none none none none fun _ => true)
    (scriptedClient 0 [] none none none none fun _ => true) unvalidatedConfig

/-- A migrator with one worker under `ErrorOnConflict` whose source counts three keys and
streams two batches before its scan fails, and whose destination already holds the key
`a`. -/
def drainMigrator : Migrator Nat :=
  NewMigrator
    (scriptedClient 3 [["a", "b"], ["c"]] (some (.errorsNew "scan broke")) none none none
      fun _ => true)
    (scriptedClient 0 [] none none none none fun k => k != "a")
    (testConfig CopyMode ErrorOnConflict 1)

/-- A schedule of the run of `drainMigrator`: count and start; the scan sends both batches,
fails, reports its error and `keysChan` is closed; the worker takes the first batch, exports,
imports and updates the tracker with one failed key, then does the same for the second batch
and returns on the closed channel; `errorsChan` is closed; `Migrate` takes the error of the
scan and returns. -/
def drainSchedule : List Label :=
  [.main, .producer, .producer, .producer, .producer, .producer, .producer, .producer,
    .worker 0, .worker 0, .worker 0, .worker 0, .worker 0, .worker 0,
    .worker 0, .worker 0, .worker 0, .worker 0, .worker 0, .worker 0,
    .closer, .main, .main]

/-- A tracker with a total of 2^53 keys and 2^53 + 1 processed keys. -/
def hugeMetrics : Metrics :=
  { NewMetrics 0 with totalKeys := 2 ^ 53, processedKeys := 2 ^ 53 + 1 }

/-- A tracker started at time 0 with the given total and processed counters. -/
def progressMetrics (total processed : Int) : Metrics :=
  { NewMetrics 0 with totalKeys := total, processedKeys := processed }

/-- A tracker started at time 0 with 100 processed keys. -/
def rateMetrics : Metrics := { NewMetrics 0 with processedKeys := 100 }

/-- A tracker with the given processed, succeeded and failed counters. -/
def outcomeMetrics (processed success failed : Int) : Metrics :=
  { NewMetrics 0 with processedKeys := processed, successKeys := success, failedKeys := failed }

/-- A call of a mutator of the tracker. -/
inductive Mutator where
  | SetTotal (total : Int)
  | AddProcessed (count : Int)
  | AddSuccess (count : Int)
  | AddFailed (count : Int)
  | AddSkipped (count : Int)
  | AddOverwritten (count : Int)
  deriving DecidableEq, Repr

/-- The tracker method a call stands for, in the arithmetic of `int64`: `SetTotal` stores its
argument and an adder adds with `atomicAdd`. `Metrics.AddProcessed` and the other adders
above add without a bound; they are the same as long as the sum is a value of `int64`. -/
def Mutator.apply (op : Mutator) (m : Metrics) : Metrics :=
  match op with
  | .SetTotal n => m.SetTotal n
  | .AddProcessed n => { m with processedKeys := atomicAdd m.processedKeys n }
  | .AddSuccess n => { m with successKeys := atomicAdd m.successKeys n }
  | .AddFailed n => { m with failedKeys := atomicAdd m.failedKeys n }
  | .AddSkipped n => { m with skippedKeys := atomicAdd m.skippedKeys n }
  | .AddOverwritten n => { m with overwrittenKeys := atomicAdd m.overwrittenKeys n }

/-- The tracker after the calls `ops`, made one after the other. Every mutator is a single
atomic operation, so calls made by concurrent callers take effect in some order. -/
def Metrics.calls (m : Metrics) (ops : List Mutator) : Metrics :=
  ops.foldl (fun m op => op.apply m) m

/-- The argument of the call, when it is one of the adders. -/
def Mutator.count : Mutator → Int
  | .SetTotal _ => 0
  | .AddProcessed n => n
  | .AddSuccess n => n
  | .AddFailed n => n
  | .AddSkipped n => n
  | .AddOverwritten n => n

/-- The counter the call adds to, as it is in `m`; 0 for `SetTotal`, which adds to none. -/
def Mutator.counter (op : Mutator) (m : Metrics) : Int :=
  match op with
  | .SetTotal _ => 0
  | .AddProcessed _ => m.processedKeys
  | .AddSuccess _ => m.successKeys
  | .AddFailed _ => m.failedKeys
  | .AddSkipped _ => m.skippedKeys
  | .AddOverwritten _ => m.overwrittenKeys

/-- The reference model of the total: the argument of a `SetTotal` call. -/
def Mutator.total? : Mutator → Option Int
  | .SetTotal n => some n
  | _ => none

/-- The reference model of the total: the argument of the last `SetTotal` call, 0 without
one. -/
def lastTotal (ops : List Mutator) : Int :=
  ((ops.filterMap Mutator.total?).getLast?).getD 0

/-- The reference model of a counter: the sum of the arguments of the calls of its adder;
`sel` tells the argument of a call of that adder. -/
def sumOf (sel : Mutator → Option Int) (ops : List Mutator) : Int :=
  (ops.filterMap sel).sum

/-- The argument of an `AddProcessed` call. -/
def Mutator.processed? : Mutator → Option Int
  | .AddProcessed n => some n
  | _ => none

/-- The argument of an `AddSuccess` call. -/
def Mutator.success? : Mutator → Option Int
  | .AddSuccess n => some n
  | _ => none

/-- The argument of an `AddFailed` call. -/
def Mutator.failed? : Mutator → Option Int
  | .AddFailed n => some n
  | _ => none

/-- The argument of an `AddSkipped` call. -/
def Mutator.skipped? : Mutator → Option Int
  | .AddSkipped n => some n
  | _ => none

/-- The argument of an `AddOverwritten` call. -/
def Mutator.overwritten? : Mutator → Option Int
  | .AddOverwritten n => some n
  | _ => none

/-- The five counters that are added to: processed, succeeded, failed, skipped and
overwritten. -/
def Metrics.counters (m : Metrics) : List Int :=
  [m.processedKeys, m.successKeys, m.failedKeys, m.skippedKeys, m.overwrittenKeys]

/-- No one of the five counters of `b` is smaller than in `a`. -/
def Metrics.le (a b : Metrics) : Prop :=
  a.processedKeys ≤ b.processedKeys ∧ a.successKeys ≤ b.successKeys ∧
    a.failedKeys ≤ b.failedKeys ∧ a.skippedKeys ≤ b.skippedKeys ∧
    a.overwrittenKeys ≤ b.overwrittenKeys

/-- Each of the five counters holds a value of `int64`. -/
def Metrics.InRange (a : Metrics) : Prop :=
  isInt64 a.processedKeys ∧ isInt64 a.successKeys ∧ isInt64 a.failedKeys ∧
    isInt64 a.skippedKeys ∧ isInt64 a.overwrittenKeys

/-- The update adds an amount that is not negative. -/
def MetricOp.NonNeg : MetricOp → Prop
  | .AddProcessed n => 0 ≤ n
  | .AddSuccess n => 0 ≤ n
  | .AddFailed n => 0 ≤ n
  | .AddOverwritten n => 0 ≤ n

/-! ## client.go: the store client over go-redis

The library go-redis and the server are not part of the repository. `GoRedis` is what
client.go calls on a `*redis.Client`, as functions of the state `W` of the server and of the
connection; a context reaches every call. -/

/-- The sentinel `redis.Nil`, the reply for a key that does not exist. -/
def redisNil : GoError := .errorsNew "redis: nil"

mutual
/-- Go `errors.Is(err, redis.Nil)`: the error, or an error it wraps or joins, is the
sentinel, which is told by its text. -/
def isRedisNil : GoError → Bool
  | .errorsNew msg => msg == "redis: nil"
  | .wrapf _ cause => isRedisNil cause
  | .join errs => anyRedisNil errs
/-- Whether `isRedisNil` holds of one of the errors. -/
def anyRedisNil : List GoError → Bool
  | [] => false
  | e :: es => isRedisNil e || anyRedisNil es
end

/-- A command client.go queues on a pipeline. -/
inductive Cmd where
  | Dump (key : String)
  | PTTL (key : String)
  | Restore (key : String) (ttl : Int) (value : String)
  | RestoreReplace (key : String) (ttl : Int) (value : String)
  deriving DecidableEq, Repr

/-- A command after `Exec`, go-redis `Cmder`: its `Err()`, and its `Val()` as a `StringCmd`
and as a `DurationCmd`. -/
structure Cmder where
  err : Option GoError
  str : String
  dur : Int

/-- What client.go calls on a go-redis `*redis.Client`. `Scan` is
`Scan(ctx, cursor, match, count).Result()`, `Exists` is `Exists(ctx, key).Val()`, `Del` is
`Del(ctx, keys...).Err()`, and `Process` is what a queued command becomes when the pipeline
is executed: the reply to it and its effect on the server. -/
structure GoRedis (W : Type) where
  Scan : Context → Nat → String → Int → W → (List String × Nat × Option GoError) × W
  Exists : Context → String → W → Int × W
  Process : Context → Cmd → W → Cmder × W
  Del : Context → List String → W → Option GoError × W

/-- The queued commands of a pipeline after the round trip: the server takes them in order,
whether or not an earlier one failed. -/
def GoRedis.replies {W : Type} (r : GoRedis W) (ctx : Context) :
    List Cmd → W → List Cmder × W
  | [], w => ([], w)
  | cmd :: cmds, w =>
    let (x, w1) := r.Process ctx cmd w
    let (xs, w2) := r.replies ctx cmds w1
    (x :: xs, w2)

/-- The function `cmdsFirstErr` of go-redis: the error of the first failed command. -/
def cmdsFirstErr : List Cmder → Option GoError
  | [] => none
  | cmd :: cmds =>
    match cmd.err with
    | some e => some e
    | none => cmdsFirstErr cmds

/-- The method `Pipeline.Exec` of go-redis: without queued commands it returns nil, nil and
sends nothing; otherwise it returns the commands and the error of the first failed command,
as its documentation says, as `DumpKeys` provides for with `redis.Nil`, and as the test of
`ErrorOnConflict` expects. -/
def GoRedis.Exec {W : Type} (r : GoRedis W) (ctx : Context) (cmds : List Cmd) (w : W) :
    (List Cmder × Option GoError) × W :=
  if cmds.length = 0 then (([], none), w)
  else
    let (results, w1) := r.replies ctx cmds w
    ((results, cmdsFirstErr results), w1)

/-- Go `type Client struct`. -/
structure Client (W : Type) where
  client : GoRedis W

namespace Client

/-- The loop of `ScanKeys` from the cursor `cursor`, after the batches `sent` have been sent
on `keysChan`, for at most `fuel` calls of SCAN; `none` when they do not suffice. A send
waits for its receiver; when the context is done instead, the call returns `ctx.Err()`. -/
def scanLoop {W : Type} (c : Client W) (ctx : Context) (pattern : String) (batchSize : Int) :
    Nat → Nat → List (List String) → W → Option ((List (List String) × Option GoError) × W)
  | 0, _, _, _ => none
  | fuel + 1, cursor, sent, w =>
    let ((keys, newCursor, err), w1) := c.client.Scan ctx cursor pattern batchSize w
    match err with
    | some e => some ((sent, some e), w1)
    | none =>
      if keys.length > 0 ∧ ctx.done = true then some ((sent, some contextCanceled), w1)
      else
        let sent := if keys.length > 0 then sent ++ [keys] else sent
        let cursor := newCursor
        if cursor = 0 then some ((sent, none), w1)
        else scanLoop c ctx pattern batchSize fuel cursor sent w1

/-- Go `Client.ScanKeys`: the batches it sends on `keysChan`, in order, and its result. -/
def ScanKeys {W : Type} (c : Client W) (ctx : Context) (pattern : String) (batchSize : Int)
    (fuel : Nat) (w : W) : Option ((List (List String) × Option GoError) × W) :=
  c.scanLoop ctx pattern batchSize fuel 0 [] w

/-- The loop of `CountKeys` from the cursor `cursor` with `count` keys counted, for at most
`fuel` calls of SCAN; `none` when they do not suffice. -/
def countLoop {W : Type} (c : Client W) (ctx : Context) (pattern : String) (batchSize : Int) :
    Nat → Int → Nat → W → Option ((Int × Option GoError) × W)
  | 0, _, _, _ => none
  | fuel + 1, count, cursor, w =>
    let ((keys, newCursor, err), w1) := c.client.Scan ctx cursor pattern batchSize w
    match err with
    | some e => some ((0, some e), w1)
    | none =>
      let count := count + keys.length
      let cursor := newCursor
      if cursor = 0 then some ((count, none), w1)
      else countLoop c ctx pattern batchSize fuel count cursor w1

/-- Go `Client.CountKeys`. -/
def CountKeys {W : Type} (c : Client W) (ctx : Context) (pattern : String) (batchSize : Int)
    (fuel : Nat) (w : W) : Option ((Int × Option GoError) × W) :=
  c.countLoop ctx pattern batchSize fuel 0 0 w

/-- The second loop of `DumpKeys`: `results` holds the reply to DUMP at `i*2` and the reply
to PTTL at `i*2+1` for the key at `i`, so the keys are taken with the replies two at a
time. -/
def dumpLoop : List String → List Cmder → List KeyData
  | key :: keys, dumpCmd :: ttlCmd :: results =>
    if dumpCmd.err.isSome ∨ ttlCmd.err.isSome then dumpLoop keys results
    else { Key := key, Data := dumpCmd.str, TTL := ttlCmd.dur } :: dumpLoop keys results
  | _, _ => []

/-- Go `Client.DumpKeys`. -/
def DumpKeys {W : Type} (c : Client W) (ctx : Context) (keys : List String) (w : W) :
    (List KeyData × Option GoError) × W :=
  if keys.length = 0 then (([], none), w)
  else
    let pipe := keys.flatMap fun key => [Cmd.Dump key, Cmd.PTTL key]
    let ((results, err), w1) := c.client.Exec ctx pipe w
    match err with
    | some e =>
      if ¬ isRedisNil e then (([], some (.wrapf "failed to dump keys" e)), w1)
      else ((dumpLoop keys results, none), w1)
    | none => ((dumpLoop keys results, none), w1)

/-- The first loop of `RestoreKeys`: the commands queued on `pipe` and `keysToRestore`. Under
`SkipOnConflict` EXISTS is sent at once for each entry, before any queued command is. A
value of `behavior` outside the three policies queues nothing and still appends the entry. -/
def queueRestores {W : Type} (c : Client W) (ctx : Context) (behavior : ConflictBehavior) :
    List KeyData → List Cmd → List KeyData → W → (List Cmd × List KeyData) × W
  | [], pipe, keysToRestore, w => ((pipe, keysToRestore), w)
  | info :: data, pipe, keysToRestore, w =>
    if behavior = SkipOnConflict then
      let (n, w1) := c.client.Exists ctx info.Key w
      if n > 0 then queueRestores c ctx behavior data pipe keysToRestore w1
      else
        queueRestores c ctx behavior data (pipe ++ [.Restore info.Key info.TTL info.Data])
          (keysToRestore ++ [info]) w1
    else if behavior = OverwriteOnConflict then
      queueRestores c ctx behavior data (pipe ++ [.RestoreReplace info.Key info.TTL info.Data])
        (keysToRestore ++ [info]) w
    else if behavior = ErrorOnConflict then
      queueRestores c ctx behavior data (pipe ++ [.Restore info.Key info.TTL info.Data])
        (keysToRestore ++ [info]) w
    else queueRestores c ctx behavior data pipe (keysToRestore ++ [info]) w

/-- The second loop of `RestoreKeys`: the result at `i` belongs to `keysToRestore[i]`, and
`keysToRestore` is at least as long as `results`. -/
def restoreLoop : List Cmder → List KeyData → List String
  | result :: results, info :: keysToRestore =>
    if result.err.isSome then restoreLoop results keysToRestore
    else info.Key :: restoreLoop results keysToRestore
  | _, _ => []

/-- Go `Client.RestoreKeys`. -/
def RestoreKeys {W : Type} (c : Client W) (ctx : Context) (data : List KeyData)
    (behavior : ConflictBehavior) (w : W) : (List String × Option GoError) × W :=
  if data.length = 0 then (([], none), w)
  else
    let ((pipe, keysToRestore), w1) := c.queueRestores ctx behavior data [] [] w
    let ((results, err), w2) := c.client.Exec ctx pipe w1
    match err with
    | some e => (([], some (.wrapf "failed to restore keys" e)), w2)
    | none => ((restoreLoop results keysToRestore, none), w2)

/-- Go `Client.DeleteKeys`. -/
def DeleteKeys {W : Type} (c : Client W) (ctx : Context) (keys : List String) (w : W) :
    Option GoError × W :=
  if keys.length = 0 then (none, w)
  else c.client.Del ctx keys w

end Client

/-- A Redis database: its keys, each with its value and its time to live in milliseconds
(-1 without one). -/
abbrev Store := List (String × String × Int)

/-- The value and the time to live of `key`. -/
def Store.get (s : Store) (key : String) : Option (String × Int) := s.lookup key

/-- The database with `key` set to `v`. -/
def Store.put (s : Store) (key : String) (v : String × Int) : Store :=
  (key, v) :: s.filter fun e => e.1 != key

/-- The error of RESTORE without REPLACE on a key that exists. -/
def busyKey : GoError := .errorsNew "BUSYKEY Target key name already exists."

/-- Modelled from the spec: the Redis server behind the connection, which is not in the
repository; a write under `error-on-conflict` of a key that exists fails and leaves the value
untouched, and a write under `overwrite-on-conflict` replaces value and time to live. It is a
server with one database, behind a connection that does not fail. SCAN returns
the matching keys in one reply (`glob pattern key` tells whether `key` matches); EXISTS
tells 1 or 0; DUMP of a missing key is the nil reply and otherwise returns the value, which
stands for its serialisation; PTTL of a missing key is -2; RESTORE of a key that exists
fails with BUSYKEY and changes nothing, and otherwise sets the key; RESTORE with REPLACE
sets the key; DEL removes the keys. -/
def memRedis (glob : String → String → Bool) : GoRedis Store :=
  { Scan := fun _ _ pattern _ s => (((s.map fun e => e.1).filter (glob pattern), 0, none), s)
    Exists := fun _ key s => (if (s.get key).isSome then 1 else 0, s)
    Process := fun _ cmd s =>
      match cmd with
      | .Dump key =>
        match s.get key with
        | some v => ({ err := none, str := v.1, dur := 0 }, s)
        | none => ({ err := some redisNil, str := "", dur := 0 }, s)
      | .PTTL key =>
        match s.get key with
        | some v => ({ err := none, str := "", dur := v.2 }, s)
        | none => ({ err := none, str := "", dur := -2 }, s)
      | .Restore key ttl value =>
        if (s.get key).isSome then ({ err := some busyKey, str := "", dur := 0 }, s)
        else ({ err := none, str := "OK", dur := 0 }, s.put key (value, ttl))
      | .RestoreReplace key ttl value =>
        ({ err := none, str := "OK", dur := 0 }, s.put key (value, ttl))
    Del := fun _ keys s => (none, s.filter fun e => ! keys.contains e.1) }

/-- The store client on `memRedis`, with a pattern matching every key. -/
def memClient : Client Store := { client := memRedis fun _ _ => true }

/-- The replies to DUMP and to PTTL for each of the keys, in the order of the keys, when the
commands for the keys are taken one key after the other from the state `w`. -/
def Client.dumpReplies {W : Type} (c : Client W) (ctx : Context) :
    List String → W → List (String × Cmder × Cmder)
  | [], _ => []
  | key :: keys, w =>
    let (d, w1) := c.client.Process ctx (.Dump key) w
    let (t, w2) := c.client.Process ctx (.PTTL key) w1
    (key, d, t) :: dumpReplies c ctx keys w2

/-- The entry for a key whose DUMP and PTTL both succeeded. -/
def dumpEntry (x : String × Cmder × Cmder) : Option KeyData :=
  if x.2.1.err.isSome ∨ x.2.2.err.isSome then none
  else some { Key := x.1, Data := x.2.1.str, TTL := x.2.2.dur }

/-- A database with the keys `user:1` and `user:2`. -/
def userStore : Store := [("user:1", "alice", -1), ("user:2", "bob", -1)]

/-- The command `RestoreKeys` queues for an entry under one of the three policies. -/
def restoreCmd (behavior : ConflictBehavior) (info : KeyData) : Cmd :=
  if behavior = OverwriteOnConflict then .RestoreReplace info.Key info.TTL info.Data
  else .Restore info.Key info.TTL info.Data

/-- The entries `RestoreKeys` attempts to write, and the state after they are chosen: under
`SkipOnConflict` the entries for which EXISTS, sent for each entry in turn, does not tell a
positive number; under the other policies all of them. -/
def Client.attempted {W : Type} (c : Client W) (ctx : Context) (behavior : ConflictBehavior) :
    List KeyData → W → List KeyData × W
  | [], w => ([], w)
  | info :: data, w =>
    if behavior = SkipOnConflict then
      let (n, w1) := c.client.Exists ctx info.Key w
      let (rest, w2) := attempted c ctx behavior data w1
      (if n > 0 then rest else info :: rest, w2)
    else
      let (rest, w2) := attempted c ctx behavior data w
      (info :: rest, w2)

/-- The replies to the writes of the attempted entries, and the state after all of them. -/
def Client.writeReplies {W : Type} (c : Client W) (ctx : Context)
    (behavior : ConflictBehavior) (data : List KeyData) (w : W) : List Cmder × W :=
  c.client.replies ctx ((c.attempted ctx behavior data w).1.map (restoreCmd behavior))
    (c.attempted ctx behavior data w).2

/-- A database that holds `conflict:key`. -/
def conflictStore : Store := [("conflict:key", "original", -1)]

/-- Entries for `conflict:key` and `new:key`. -/
def conflictData : List KeyData :=
  [{ Key := "conflict:key", Data := "payload", TTL := 0 },
    { Key := "new:key", Data := "payload", TTL := 0 }]

/-- A server whose SCAN takes three calls: two keys with the next cursor 5, no key with the
next cursor 7, one key with the cursor back at 0. -/
def pagedRedis : GoRedis Store :=
  { memRedis fun _ _ => true with
    Scan := fun _ cursor _ _ s =>
      if cursor = 0 then ((["a", "b"], 5, none), s)
      else if cursor = 5 then (([], 7, none), s)
      else ((["c"], 0, none), s) }

/-- A store like `scriptedClient` without errors whose export omits the keys that are not
`present`. -/
def omitClient (count : Int) (batches : List (List String)) (present : String → Bool) :
    RedisClient Nat :=
  { scriptedClient count batches none none none none fun _ => true with
    DumpKeys := fun _ keys n =>
      (((keys.filter present).map fun k => { Key := k, Data := "", TTL := 0 }, none), n) }

/-- A run with one worker under `ErrorOnConflict`: the source counts two keys and streams
them as one batch, and its export omits the key `b`. -/
def omitMigrator : Migrator Nat :=
  NewMigrator (omitClient 2 [["a", "b"]] fun k => k != "b")
    (scriptedClient 0 [] none none none none fun _ => true)
    (testConfig CopyMode ErrorOnConflict 1)

/-- The number of entries a successful export returned. -/
def CallReturn.exported : CallReturn → Int
  | .DumpKeys _ data none => data.length
  | _ => 0

/-- The number of entries an import was given. -/
def CallReturn.imported : CallReturn → Int
  | .RestoreKeys data _ _ _ => data.length
  | _ => 0

/-- The number of entries `p` is about to import. -/
def Prog.pendingImport : Prog → Int
  | .metric _ k => k.pendingImport
  | .sendErr _ k => k.pendingImport
  | .RestoreKeys data _ _ => data.length
  | _ => 0

/-- After a successful export `p` imports the entries it returned, and after every other
return of a store call no import follows. -/
def Prog.Hands : Prog → Prop
  | .ret => True
  | .metric _ k => k.Hands
  | .sendErr _ k => k.Hands
  | .DumpKeys keys k =>
    ∀ r, (k r).pendingImport = (CallReturn.DumpKeys keys r.1 r.2).exported ∧ (k r).Hands
  | .RestoreKeys _ _ k => ∀ r, (k r).pendingImport = 0 ∧ (k r).Hands
  | .DeleteKeys _ k => ∀ r, (k r).pendingImport = 0 ∧ (k r).Hands

/-- `Prog.pendingImport` of the actions a worker has left in its batch. -/
def Worker.pendingImport : Worker → Int
  | .running p => p.pendingImport
  | .exited => 0

/-- `Prog.Hands` of the actions a worker has left in its batch. -/
def Worker.Hands : Worker → Prop
  | .running p => p.Hands
  | .exited => True

/-- The entries of the successful exports are the entries given to an import or about to be
given to one, counted. -/
def Settled {W : Type} (s : State W) : Prop :=
  ((s.returns.map CallReturn.exported).sum =
    (s.returns.map CallReturn.imported).sum + (s.workers.map Worker.pendingImport).sum) ∧
  ∀ w ∈ s.workers, w.Hands

/-- The return of a store call in a run in which every key is exported and every write
succeeds: no error, an entry for each key of an export, and a reported key for each entry of
an import. -/
def CallReturn.complete : CallReturn → Bool
  | .DumpKeys keys data err => err.isNone && data.length == keys.length
  | .RestoreKeys data _ keys err => err.isNone && keys.length == data.length
  | .DeleteKeys _ err => err.isNone

/-- A schedule of `skipMigrator` in which the context is cancelled while batches remain:
count and start; the scan sends its first batch, which is put in `keysChan`, and is at the
send of its second batch; the context is cancelled; `ScanKeys` takes the `ctx.Done()` case
and returns `ctx.Err()`; the worker takes the `ctx.Done()` case and returns; `errorsChan`
is closed; `Migrate` leaves its loop and returns. The producer has not yet sent its error. -/
def cancelSchedule : List Label :=
  [.main, .producer, .producer, .producer, .cancel, .producerDone, .workerDone 0, .closer,
    .main]

/-- A migrator with two workers under `ErrorOnConflict` whose source counts two keys and
streams them as two batches. -/
def pairMigrator : Migrator Nat :=
  NewMigrator (scriptedClient 2 [["a"], ["b"]] none none none none fun _ => true)
    (scriptedClient 0 [] none none none none fun _ => true)
    (testConfig CopyMode ErrorOnConflict 2)

/-- A schedule of `pairMigrator`: count and start; the scan sends both batches; worker 0
takes the first batch, exports, imports and makes its two updates of the tracker, which
completes its `processBatch` call; worker 1 takes the second batch, exports, imports and
makes the first of its two updates. -/
def pairSchedule : List Label :=
  [.main, .producer, .producer, .producer, .producer,
    .worker 0, .worker 0, .worker 0, .worker 0, .worker 0,
    .worker 1, .worker 1, .worker 1, .worker 1]

/-- A bound on the steps the actions `p` still take: one for an update of the tracker, two
for a send of an error (the send, and its receipt by `Migrate`), and for a store call the
most `processBatch` can still take from there. -/
def Prog.weight : Prog → Nat
  | .ret => 0
  | .metric _ k => 1 + k.weight
  | .sendErr _ k => 2 + k.weight
  | .DumpKeys _ _ => 8
  | .RestoreKeys _ _ _ => 7
  | .DeleteKeys _ _ => 3

/-- After each store call of `p`, whatever the store returns, the actions that follow weigh
less than the call. -/
def Prog.Shrinks : Prog → Prop
  | .ret => True
  | .metric _ k => k.Shrinks
  | .sendErr _ k => k.Shrinks
  | .DumpKeys keys k => ∀ r, (k r).weight < (Prog.DumpKeys keys k).weight ∧ (k r).Shrinks
  | .RestoreKeys data b k =>
    ∀ r, (k r).weight < (Prog.RestoreKeys data b k).weight ∧ (k r).Shrinks
  | .DeleteKeys keys k => ∀ r, (k r).weight < (Prog.DeleteKeys keys k).weight ∧ (k r).Shrinks

/-- A bound on the steps a worker still takes with the batch it has: those of its actions and
its return. -/
def Worker.weight : Worker → Nat
  | .running p => p.weight + 1
  | .exited => 0

/-- `Prog.Shrinks` of the actions a worker has left in its batch. -/
def Worker.Shrinks : Worker → Prop
  | .running p => p.Shrinks
  | .exited => True

/-- The scan comes to an end: `left w` bounds the batches `ScanKeys` still sends when the
stores are in the state `w`; a send takes one off, and no call of a worker adds to it. -/
def ScanEnds {W : Type} (m : Migrator W) (left : W → Nat) : Prop :=
  (∀ ctx w keys,
    (m.source.ScanKeys ctx m.config.Pattern m.config.BatchSize w).1 = .send keys →
    left (m.source.ScanKeys ctx m.config.Pattern m.config.BatchSize w).2 < left w) ∧
  (∀ ctx keys w, left (m.source.DumpKeys ctx keys w).2 ≤ left w) ∧
  (∀ ctx data b w, left (m.dest.RestoreKeys ctx data b w).2 ≤ left w) ∧
  (∀ ctx keys w, left (m.source.DeleteKeys ctx keys w).2 ≤ left w)

/-- A bound on the steps the producer and the batches it still sends take, with `left`
batches to come: each batch takes the event of the scan, the send on `keysChan`, the receipt
by a worker and the steps of `processBatch`. -/
def Producer.weight (left : Nat) : Producer → Nat
  | .notStarted => 0
  | .scanning => 11 * left + 4
  | .sending _ => 11 * left + 14
  | .reporting _ => 3
  | .closing => 1
  | .finished => 0

/-- The step the closing goroutine still takes. -/
def Closer.weight : Closer → Nat
  | .waiting => 1
  | _ => 0

/-- Whether `Migrate` is before its count. -/
def Main.isCounting : Main → Bool
  | .counting => true
  | _ => false

/-- The steps the caller of `Migrate` still takes besides the receipts from `errorsChan`: the
count and the return. -/
def Main.weight : Main → Nat
  | .counting => 2
  | .draining => 1
  | .returned _ => 0

/-- A bound on the number of steps a `Migrate` call still takes from the state `s` when the
context is not cancelled: nothing after a panic; otherwise the steps of each goroutine, nine
for each batch in `keysChan` (its receipt and `processBatch`), one for each error in
`errorsChan`, and before the count what the goroutines weigh when they are started. -/
def State.weight {W : Type} (m : Migrator W) (left : W → Nat) (s : State W) : Nat :=
  if s.panicked then 0
  else
    1 + s.main.weight +
      (if s.main.isCounting then
        11 * left (m.source.CountKeys s.ctx m.config.Pattern m.config.BatchSize s.world).2 +
          5 + m.config.Concurrency.toNat
      else 0) +
      s.producer.weight (left s.world) + s.closer.weight + 9 * s.keysChan.length +
      s.errorsChan.length + (s.workers.map Worker.weight).sum

/-- What keeps a `Migrate` call going: the finished producer has closed `keysChan`, the
finished closing goroutine has closed `errorsChan`, and it alone; both are started before
the loop of `Migrate`, the producer with the closing goroutine; and with a worker and without
cancellation no goroutine panics. -/
def Live {W : Type} (m : Migrator W) (s : State W) : Prop :=
  (s.producer = .finished → s.keysClosed = true) ∧
  (s.closer = .finished → s.errorsClosed = true) ∧
  (s.main = .draining → s.producer ≠ .notStarted ∧ s.closer ≠ .notStarted) ∧
  (0 < m.config.Concurrency → s.cancelled = false → s.panicked = false) ∧
  (s.closer ≠ .notStarted → s.producer ≠ .notStarted) ∧
  (s.errorsClosed = true → s.closer = .finished)

/-- A property of the actions left in a batch that every step of a worker keeps, whatever the
stores return. -/
structure Hereditary (Q : Prog → Prop) : Prop where
  ret : Q .ret
  metric : ∀ op k, Q (.metric op k) → Q k
  sendErr : ∀ e k, Q (.sendErr e k) → Q k
  dump : ∀ keys k r, Q (.DumpKeys keys k) → Q (k r)
  restore : ∀ data b k r, Q (.RestoreKeys data b k) → Q (k r)
  delete : ∀ keys k r, Q (.DeleteKeys keys k) → Q (k r)

/-- `Q` of the actions a worker has left in its batch. -/
def Worker.Has (Q : Prog → Prop) : Worker → Prop
  | .running p => Q p
  | .exited => True

/-- A schedule of `pairMigrator` up to the return of `Migrate`: `pairSchedule`, then worker 1
makes its second update, the scan returns, `keysChan` is closed, both workers return on the
closed channel, `errorsChan` is closed and `Migrate` returns. -/
def pairComplete : List Label :=
  pairSchedule ++ [.worker 1, .producer, .producer, .worker 0, .worker 1, .closer, .main]

/-! ## client.go behind the engine

main.go makes both store clients of the migrator with client.go. `Client.toRedisClient` is a
`Client` as the `RedisClient` the engine calls, on a connection `Conn`; `redisMigrator` is
the migrator of main.go, on the connection of the source and that of the destination. -/

/-- A connection of a `Client` while `Migrate` runs: the state of the server, and the cursor
a `ScanKeys` call that has sent a batch goes on from (`none` when no call is at that
point). -/
structure Conn (W : Type) where
  server : W
  cursor : Option Nat

/-- The error that stands for a call of `CountKeys` or `ScanKeys` that takes more than `fuel`
calls of SCAN. The code has no such error, it goes on; the error is not reached when the
scans of the server end within `fuel` calls. -/
def outOfFuel : GoError := .errorsNew "more calls of SCAN than fuel"

/-- The loop of `Client.ScanKeys` from the cursor `cursor` up to its next send on `keysChan`
or its return, for at most `fuel` calls of SCAN: the event, the cursor after a send, and the
state of the server. A reply without keys is not sent, and the loop ends when the cursor is
back at 0. -/
def Client.scanEvent {W : Type} (c : Client W) (ctx : Context) (pattern : String)
    (batchSize : Int) : Nat → Nat → W → Option (ScanEvent × Option Nat × W)
  | 0, _, _ => none
  | fuel + 1, cursor, w =>
    let ((keys, newCursor, err), w1) := c.client.Scan ctx cursor pattern batchSize w
    match err with
    | some e => some (.ret (some e), none, w1)
    | none =>
      if keys.length > 0 then some (.send keys, some newCursor, w1)
      else if newCursor = 0 then some (.ret none, none, w1)
      else scanEvent c ctx pattern batchSize fuel newCursor w1

/-- Go `*Client` as the `RedisClient` it implements. `ScanKeys` is given by its next event:
after a send the loop ends when the cursor is 0 and otherwise goes on from the cursor; the
`ctx.Done()` case of a send is a step of the producer. `fuel` bounds the calls of SCAN of
one `CountKeys` call and of `ScanKeys` up to its next event. -/
def Client.toRedisClient {W : Type} (c : Client W) (fuel : Nat) : RedisClient (Conn W) :=
  { ScanKeys := fun ctx pattern batchSize x =>
      match x.cursor with
      | some 0 => (.ret none, { x with cursor := none })
      | cur =>
        match c.scanEvent ctx pattern batchSize fuel (cur.getD 0) x.server with
        | some (ev, cur1, w) => (ev, { server := w, cursor := cur1 })
        | none => (.ret (some outOfFuel), { x with cursor := none })
    CountKeys := fun ctx pattern batchSize x =>
      match c.CountKeys ctx pattern batchSize fuel x.server with
      | some (r, w) => (r, { x with server := w })
      | none => ((0, some outOfFuel), x)
    DumpKeys := fun ctx keys x =>
      ((c.DumpKeys ctx keys x.server).1, { x with server := (c.DumpKeys ctx keys x.server).2 })
    RestoreKeys := fun ctx data behavior x =>
      ((c.RestoreKeys ctx data behavior x.server).1,
        { x with server := (c.RestoreKeys ctx data behavior x.server).2 })
    DeleteKeys := fun ctx keys x =>
      ((c.DeleteKeys ctx keys x.server).1,
        { x with server := (c.DeleteKeys ctx keys x.server).2 }) }

/-- A store client of the source, in a world of two connections. -/
def RedisClient.onSource {A B : Type} (c : RedisClient A) : RedisClient (A × B) :=
  { ScanKeys := fun ctx pattern batchSize w =>
      ((c.ScanKeys ctx pattern batchSize w.1).1, ((c.ScanKeys ctx pattern batchSize w.1).2, w.2))
    CountKeys := fun ctx pattern batchSize w =>
      ((c.CountKeys ctx pattern batchSize w.1).1,
        ((c.CountKeys ctx pattern batchSize w.1).2, w.2))
    DumpKeys := fun ctx keys w => ((c.DumpKeys ctx keys w.1).1, ((c.DumpKeys ctx keys w.1).2, w.2))
    RestoreKeys := fun ctx data behavior w =>
      ((c.RestoreKeys ctx data behavior w.1).1, ((c.RestoreKeys ctx data behavior w.1).2, w.2))
    DeleteKeys := fun ctx keys w =>
      ((c.DeleteKeys ctx keys w.1).1, ((c.DeleteKeys ctx keys w.1).2, w.2)) }

/-- A store client of the destination, in a world of two connections. -/
def RedisClient.onDest {A B : Type} (c : RedisClient B) : RedisClient (A × B) :=
  { ScanKeys := fun ctx pattern batchSize w =>
      ((c.ScanKeys ctx pattern batchSize w.2).1, (w.1, (c.ScanKeys ctx pattern batchSize w.2).2))
    CountKeys := fun ctx pattern batchSize w =>
      ((c.CountKeys ctx pattern batchSize w.2).1,
        (w.1, (c.CountKeys ctx pattern batchSize w.2).2))
    DumpKeys := fun ctx keys w => ((c.DumpKeys ctx keys w.2).1, (w.1, (c.DumpKeys ctx keys w.2).2))
    RestoreKeys := fun ctx data behavior w =>
      ((c.RestoreKeys ctx data behavior w.2).1, (w.1, (c.RestoreKeys ctx data behavior w.2).2))
    DeleteKeys := fun ctx keys w =>
      ((c.DeleteKeys ctx keys w.2).1, (w.1, (c.DeleteKeys ctx keys w.2).2)) }

/-- The migrator main.go builds: a client of client.go for the source server and one for the
destination server, with a fresh list of errors. -/
def redisMigrator {W : Type} (source dest : Client W) (fuel : Nat) (config : Config) :
    Migrator (Conn W × Conn W) :=
  NewMigrator (source.toRedisClient fuel).onSource (dest.toRedisClient fuel).onDest config

/-- The keys of the database that match `pattern`, in the order of the database: the reply
of `memRedis` to SCAN. -/
def Store.keys (glob : String → String → Bool) (pattern : String) (s : Store) : List String :=
  (s.map fun e => e.1).filter (glob pattern)

/-- After each store call of `p` no `DeleteKeys` call follows, every import is made with the
policy `b0`, and `p` itself is neither. -/
def Prog.Copies (b0 : ConflictBehavior) : Prog → Prop
  | .ret => True
  | .metric _ k => k.Copies b0
  | .sendErr _ k => k.Copies b0
  | .DumpKeys _ k => ∀ r, (k r).Copies b0
  | .RestoreKeys _ b k => b = b0 ∧ ∀ r, (k r).Copies b0
  | .DeleteKeys _ _ => False

/-- The migrator of main.go on two servers `memRedis`, with `fuel + 1` calls of SCAN for
each scan. -/
def memMigrator (glob : String → String → Bool) (fuel : Nat) (config : Config) :
    Migrator (Conn Store × Conn Store) :=
  redisMigrator (Client.mk (memRedis glob)) (Client.mk (memRedis glob)) (fuel + 1) config

/-- Where the scan of the source stands in a copy of the keys `keys`, which `memRedis`
returns in one reply: before the send the cursor of the connection is unset and nothing has
been sent; after it the cursor is 0 and `keys` has been sent; no error is to be reported. -/
def Producer.Scanned (keys : List String) (cursor : Option Nat)
    (sends : List (List String)) : Producer → Prop
  | .notStarted => cursor = none ∧ sends = []
  | .scanning => (cursor = none ∧ sends = []) ∨ (cursor = some 0 ∧ sends = [keys])
  | .sending b => b = keys ∧ cursor = some 0 ∧ sends = []
  | .reporting _ => False
  | .closing => cursor = none ∧ sends = [keys]
  | .finished => cursor = none ∧ sends = [keys]

/-- How a copy of the keys `keys` of the database `src` proceeds: the source database stays
as it is, the scan stands as `Producer.Scanned` tells, every batch in `keysChan` or about to
be exported is `keys`, every store call so far returned in full, and none has failed. -/
def Copying (src : Store) (keys : List String) (s : State (Conn Store × Conn Store)) : Prop :=
  s.world.1.server = src ∧
  s.producer.Scanned keys s.world.1.cursor (scanSends s.calls) ∧
  (∀ b ∈ s.keysChan, b = keys) ∧
  (∀ w ∈ s.workers, ∀ b ∈ w.pendingDumps, b = keys) ∧
  s.returns.all CallReturn.complete = true ∧
  failures s.calls = []

/-- The batches `ScanKeys` of a client on `memRedis` has still to send: one, unless the
cursor of the connection is 0, which it is after the send. -/
def scanLeft (w : Conn Store × Conn Store) : Nat :=
  match w.1.cursor with
  | some 0 => 0
  | _ => 1


/-- The entries `p` is about to import. -/
def Prog.pendingRestores : Prog → List (List KeyData)
  | .metric _ k => k.pendingRestores
  | .sendErr _ k => k.pendingRestores
  | .RestoreKeys data _ _ => [data]
  | _ => []

/-- After an export `p` imports nothing but the entries the export returned without error,
and after every other store call no import follows. -/
def Prog.Forwards : Prog → Prop
  | .ret => True
  | .metric _ k => k.Forwards
  | .sendErr _ k => k.Forwards
  | .DumpKeys _ k =>
    ∀ r, (∀ d ∈ (k r).pendingRestores, r.2 = none ∧ d = r.1) ∧ (k r).Forwards
  | .RestoreKeys _ _ k => ∀ r, (k r).pendingRestores = [] ∧ (k r).Forwards
  | .DeleteKeys _ k => ∀ r, (k r).pendingRestores = [] ∧ (k r).Forwards

/-- `Prog.pendingRestores` of the actions a worker has left in its batch. -/
def Worker.pendingRestores : Worker → List (List KeyData)
  | .running p => p.pendingRestores
  | .exited => []

/-- How the keys `keys` arrive at the destination: what a worker is about to import are
entries for `keys`, and once an import of entries has returned every one of `keys` is in the
destination database. -/
def Landing (keys : List String) (s : State (Conn Store × Conn Store)) : Prop :=
  (∀ w ∈ s.workers, ∀ d ∈ w.pendingRestores, d.map KeyData.Key = keys) ∧
  ((s.returns.map CallReturn.imported).sum ≠ 0 →
    ∀ k ∈ keys, (s.world.2.server.get k).isSome = true)

/-- A configuration for a copy with `OverwriteOnConflict` and two workers. -/
def copyConfig : Config := testConfig CopyMode OverwriteOnConflict 2

/-- The two connections at the start of the first copy: the source holds `userStore`, the
destination nothing. -/
def copyWorld : Conn Store × Conn Store :=
  ({ server := userStore, cursor := none }, { server := [], cursor := none })

/-- A schedule of a copy of `userStore` with two workers, up to the return of `Migrate`:
count and start; the scan sends its batch and returns, `keysChan` is closed; worker 1 takes
the batch, exports, imports and updates the tracker; both workers return on the closed
channel; `errorsChan` is closed; `Migrate` returns. -/
def copySchedule : List Label :=
  [.main, .producer, .producer, .producer, .producer,
    .worker 1, .worker 1, .worker 1, .worker 1, .worker 1, .worker 0, .worker 1,
    .closer, .main]

/-- The migrator of `main.go` on two `memRedis` servers: both clients are made by client.go,
the pattern of `memRedis` matches every key. -/
def copyMigrator : Migrator (Conn Store × Conn Store) :=
  memMigrator (fun _ _ => true) 0 copyConfig

/-! # Properties

## One batch, run alone -/

theorem deleteCalls_append (a b : List CallRecord) :
    deleteCalls (a ++ b) = deleteCalls a ++ deleteCalls b := by
  simp [deleteCalls, List.filterMap_append]

theorem exec_updateMetricsForBatch_eq {W : Type} (m : Migrator W) (ctx : Context)
    (config : Config) (E : List KeyData) (S : List String) (k : Prog) (s : Seq W) :
    (updateMetricsForBatch config E S k).exec m ctx s =
      k.exec m ctx { s with metrics := batchMetrics config E.length S.length s.metrics } := by
  unfold updateMetricsForBatch batchMetrics
  simp only [Prog.exec]
  by_cases hc : config.Conflict = OverwriteOnConflict <;>
    by_cases hf : (E.length : Int) - S.length > 0 <;>
    simp [hc, hf, Prog.exec, MetricOp.apply]

/-- The tracker after `processBatch`, by the outcome of its store calls. -/
theorem exec_processBatch_metrics {W : Type} (m : Migrator W) (ctx : Context)
    (keys : List String) (s : Seq W) :
    ((processBatch m.config keys).exec m ctx s).metrics =
      if (m.source.DumpKeys ctx keys s.world).1.2.isSome then
        failedBatch keys.length s.metrics
      else if (m.dest.RestoreKeys ctx (m.source.DumpKeys ctx keys s.world).1.1 m.config.Conflict
          (m.source.DumpKeys ctx keys s.world).2).1.2.isSome then
        failedBatch (m.source.DumpKeys ctx keys s.world).1.1.length s.metrics
      else
        batchMetrics m.config (m.source.DumpKeys ctx keys s.world).1.1.length
          (m.dest.RestoreKeys ctx (m.source.DumpKeys ctx keys s.world).1.1 m.config.Conflict
            (m.source.DumpKeys ctx keys s.world).2).1.1.length s.metrics := by
  unfold processBatch
  rw [Prog.exec]
  rcases hd : m.source.DumpKeys ctx keys s.world with ⟨⟨E, de⟩, w1⟩
  cases de with
  | some e => simp [Prog.exec, failedBatch, MetricOp.apply]
  | none =>
    simp only []
    rw [Prog.exec]
    rcases hr : m.dest.RestoreKeys ctx E m.config.Conflict w1 with ⟨⟨S, re⟩, w2⟩
    cases re with
    | some e => simp [Prog.exec, failedBatch, MetricOp.apply]
    | none =>
      simp only []
      rw [exec_updateMetricsForBatch_eq]
      by_cases hc : m.config.Mode = MoveMode ∧ S.length > 0
      · rw [if_pos hc, Prog.exec]
        rcases hdel : m.source.DeleteKeys ctx S w2 with ⟨de, w3⟩
        cases de <;> simp [Prog.exec]
      · rw [if_neg hc, Prog.exec]
        simp

/-- C1: when export and import of a batch both succeed, with `E` exported and `S` reported
successful and `S` no longer than `E`, `processBatch` leaves the tracker with
processed + len E, failed + (len E - len S), and len S added to overwritten under
`OverwriteOnConflict` and to succeeded otherwise; every other field is as before. -/
theorem processBatch_success_metrics {W : Type} (m : Migrator W) (ctx : Context)
    (keys : List String) (s : Seq W) (E : List KeyData) (S : List String) (w1 w2 : W)
    (hdump : m.source.DumpKeys ctx keys s.world = ((E, none), w1))
    (hrestore : m.dest.RestoreKeys ctx E m.config.Conflict w1 = ((S, none), w2))
    (hlen : S.length ≤ E.length) :
    ((processBatch m.config keys).exec m ctx s).metrics =
      { s.metrics with
        processedKeys := s.metrics.processedKeys + E.length
        failedKeys := s.metrics.failedKeys + ((E.length : Int) - S.length)
        overwrittenKeys :=
          if m.config.Conflict = OverwriteOnConflict then s.metrics.overwrittenKeys + S.length
          else s.metrics.overwrittenKeys
        successKeys :=
          if m.config.Conflict = OverwriteOnConflict then s.metrics.successKeys
          else s.metrics.successKeys + S.length } := by
  rw [exec_processBatch_metrics]
  simp only [hdump, hrestore, Option.isSome_none, Bool.false_eq_true, if_false]
  unfold batchMetrics
  have h : ((E.length : Int) - S.length > 0) ∨ (E.length : Int) - S.length = 0 := by omega
  rcases h with h | h
  · by_cases hc : m.config.Conflict = OverwriteOnConflict <;>
      simp [Metrics.AddProcessed, Metrics.AddOverwritten, Metrics.AddSuccess,
        Metrics.AddFailed, h, hc]
  · have h' : ¬ ((E.length : Int) - S.length > 0) := by omega
    by_cases hc : m.config.Conflict = OverwriteOnConflict <;>
      simp [Metrics.AddProcessed, Metrics.AddOverwritten, Metrics.AddSuccess,
        Metrics.AddFailed, h, h', hc]

/-- C5: when the export of a batch `keys` fails with `e`, `processBatch` ends in the state
with one more error, `failed to dump keys` wrapping `e`, with len keys added to processed
and to failed and no other counter touched, and with the `DumpKeys` call as its only call
on a store (no `RestoreKeys`, no `DeleteKeys`). -/
theorem processBatch_dump_error {W : Type} (m : Migrator W) (ctx : Context)
    (keys : List String) (s : Seq W) (E : List KeyData) (e : GoError) (w1 : W)
    (hdump : m.source.DumpKeys ctx keys s.world = ((E, some e), w1)) :
    (processBatch m.config keys).exec m ctx s =
      { world := w1
        metrics := { s.metrics with
          processedKeys := s.metrics.processedKeys + keys.length
          failedKeys := s.metrics.failedKeys + keys.length }
        errorsChan := s.errorsChan ++ [GoError.wrapf "failed to dump keys" e]
        calls := s.calls ++ [CallRecord.DumpKeys keys (some e)] } := by
  unfold processBatch
  rw [Prog.exec]
  simp [hdump, Prog.exec, MetricOp.apply, Metrics.AddProcessed, Metrics.AddFailed]

/-- C6: when the export of a batch succeeds with entries `E` and the import fails with `e`,
`processBatch` ends in the state with one more error, `failed to restore keys` wrapping `e`,
with len E added to processed and to failed and no other counter touched, and with the
`DumpKeys` and the `RestoreKeys` call as its only calls on a store (no `DeleteKeys`),
whatever the mode. -/
theorem processBatch_restore_error {W : Type} (m : Migrator W) (ctx : Context)
    (keys : List String) (s : Seq W) (E : List KeyData) (S : List String) (e : GoError)
    (w1 w2 : W)
    (hdump : m.source.DumpKeys ctx keys s.world = ((E, none), w1))
    (hrestore : m.dest.RestoreKeys ctx E m.config.Conflict w1 = ((S, some e), w2)) :
    (processBatch m.config keys).exec m ctx s =
      { world := w2
        metrics := { s.metrics with
          processedKeys := s.metrics.processedKeys + E.length
          failedKeys := s.metrics.failedKeys + E.length }
        errorsChan := s.errorsChan ++ [GoError.wrapf "failed to restore keys" e]
        calls := s.calls ++ [CallRecord.DumpKeys keys none,
          CallRecord.RestoreKeys E m.config.Conflict (some e)] } := by
  unfold processBatch
  rw [Prog.exec]
  simp only [hdump]
  rw [Prog.exec]
  simp [hrestore, Prog.exec, MetricOp.apply, Metrics.AddProcessed, Metrics.AddFailed]

/-- C7: the `DeleteKeys` calls `processBatch` makes are: one call, with exactly the list
the import reported successful, when the mode is `MoveMode`, export and import both returned
no error and that list is not empty; and none in every other case. -/
theorem processBatch_delete_calls {W : Type} (m : Migrator W) (ctx : Context)
    (keys : List String) (s : Seq W) :
    deleteCalls ((processBatch m.config keys).exec m ctx s).calls =
      deleteCalls s.calls ++
        (if m.config.Mode = MoveMode ∧
            (m.source.DumpKeys ctx keys s.world).1.2.isNone ∧
            (m.dest.RestoreKeys ctx (m.source.DumpKeys ctx keys s.world).1.1 m.config.Conflict
              (m.source.DumpKeys ctx keys s.world).2).1.2.isNone ∧
            (m.dest.RestoreKeys ctx (m.source.DumpKeys ctx keys s.world).1.1 m.config.Conflict
              (m.source.DumpKeys ctx keys s.world).2).1.1.length > 0
          then [(m.dest.RestoreKeys ctx (m.source.DumpKeys ctx keys s.world).1.1
            m.config.Conflict (m.source.DumpKeys ctx keys s.world).2).1.1]
          else []) := by
  unfold processBatch
  rw [Prog.exec]
  rcases hd : m.source.DumpKeys ctx keys s.world with ⟨⟨E, de⟩, w1⟩
  cases de with
  | some e => simp [Prog.exec, deleteCalls, CallRecord.deletedKeys, List.filterMap_append]
  | none =>
    simp only []
    rw [Prog.exec]
    rcases hr : m.dest.RestoreKeys ctx E m.config.Conflict w1 with ⟨⟨S, re⟩, w2⟩
    cases re with
    | some e => simp [Prog.exec, deleteCalls, CallRecord.deletedKeys, List.filterMap_append]
    | none =>
      simp only []
      rw [exec_updateMetricsForBatch_eq]
      by_cases hc : m.config.Mode = MoveMode ∧ S.length > 0
      · rw [if_pos hc, Prog.exec]
        rcases hdel : m.source.DeleteKeys ctx S w2 with ⟨de, w3⟩
        cases de <;>
          simp [Prog.exec, deleteCalls, CallRecord.deletedKeys, List.filterMap_append, hc]
      · rw [if_neg hc, Prog.exec]
        have hc' : ¬ (m.config.Mode = MoveMode ∧ 0 < S.length) := hc
        simp [deleteCalls, CallRecord.deletedKeys, List.filterMap_append, hc']

/-- C8: in move mode, when export and import succeed, the import reports a non-empty list
`S` and `DeleteKeys` on `S` fails with `e`, `processBatch` sends one more error,
`failed to delete keys from source` wrapping `e`, leaves the tracker exactly as the same
call does when the deletion reports no error, and makes each of its three store calls
once. -/
theorem processBatch_delete_error {W : Type} (m : Migrator W) (ctx : Context)
    (keys : List String) (s : Seq W) (E : List KeyData) (S : List String) (e : GoError)
    (w1 w2 w3 : W)
    (hmode : m.config.Mode = MoveMode)
    (hdump : m.source.DumpKeys ctx keys s.world = ((E, none), w1))
    (hrestore : m.dest.RestoreKeys ctx E m.config.Conflict w1 = ((S, none), w2))
    (hS : S.length > 0)
    (hdel : m.source.DeleteKeys ctx S w2 = (some e, w3)) :
    ((processBatch m.config keys).exec m ctx s).errorsChan =
        s.errorsChan ++ [GoError.wrapf "failed to delete keys from source" e] ∧
      ((processBatch m.config keys).exec m ctx s).metrics =
        ((processBatch m.withDeleteOk.config keys).exec m.withDeleteOk ctx s).metrics ∧
      ((processBatch m.withDeleteOk.config keys).exec m.withDeleteOk ctx s).errorsChan =
        s.errorsChan ∧
      ((processBatch m.config keys).exec m ctx s).calls =
        s.calls ++ [CallRecord.DumpKeys keys none,
          CallRecord.RestoreKeys E m.config.Conflict none,
          CallRecord.DeleteKeys S (some e)] := by
  have hdump2 : m.withDeleteOk.source.DumpKeys ctx keys s.world = ((E, none), w1) := hdump
  have hrestore2 : m.withDeleteOk.dest.RestoreKeys ctx E m.config.Conflict w1 =
      ((S, none), w2) := hrestore
  have hcfg : m.withDeleteOk.config = m.config := rfl
  have hdel2 : m.withDeleteOk.source.DeleteKeys ctx S w2 = (none, w3) := by
    simp [Migrator.withDeleteOk, hdel]
  have hc : m.config.Mode = MoveMode ∧ S.length > 0 := ⟨hmode, hS⟩
  rw [hcfg]
  unfold processBatch
  rw [Prog.exec, Prog.exec]
  simp only [hdump, hdump2]
  rw [Prog.exec, Prog.exec]
  simp only [hrestore, hrestore2]
  rw [exec_updateMetricsForBatch_eq, exec_updateMetricsForBatch_eq, if_pos hc]
  rw [Prog.exec, Prog.exec]
  simp [hdel, hdel2, Prog.exec]

theorem failedBatch_imbalance (n : Nat) (mt : Metrics) :
    (failedBatch n mt).imbalance = mt.imbalance := by
  simp [failedBatch, Metrics.imbalance, Metrics.AddProcessed, Metrics.AddFailed]
  ring

theorem batchMetrics_imbalance (config : Config) (E S : Nat) (mt : Metrics) (h : S ≤ E) :
    (batchMetrics config E S mt).imbalance = mt.imbalance := by
  have h' : ((E : Int) - S > 0) ∨ (E : Int) - S = 0 := by omega
  unfold batchMetrics
  rcases h' with h' | h'
  · by_cases hc : config.Conflict = OverwriteOnConflict <;>
      simp [hc, h', Metrics.imbalance, Metrics.AddProcessed, Metrics.AddFailed,
        Metrics.AddSuccess, Metrics.AddOverwritten] <;> ring
  · have h'' : ¬ ((E : Int) - S > 0) := by omega
    by_cases hc : config.Conflict = OverwriteOnConflict <;>
      simp [hc, h'', Metrics.imbalance, Metrics.AddProcessed, Metrics.AddFailed,
        Metrics.AddSuccess, Metrics.AddOverwritten] <;> omega

theorem batchMetrics_skipped (config : Config) (E S : Nat) (mt : Metrics) :
    (batchMetrics config E S mt).skippedKeys = mt.skippedKeys ∧
      (batchMetrics config E S mt).totalKeys = mt.totalKeys ∧
      (batchMetrics config E S mt).startTime = mt.startTime := by
  unfold batchMetrics
  by_cases hc : config.Conflict = OverwriteOnConflict <;>
    by_cases hf : (E : Int) - S > 0 <;>
    simp [hc, hf, Metrics.AddProcessed, Metrics.AddFailed, Metrics.AddSuccess,
      Metrics.AddOverwritten]

theorem batchMetrics_overwritten (config : Config) (E S : Nat) (mt : Metrics)
    (hc : config.Conflict ≠ OverwriteOnConflict) :
    (batchMetrics config E S mt).overwrittenKeys = mt.overwrittenKeys := by
  unfold batchMetrics
  by_cases hf : (E : Int) - S > 0 <;>
    simp [hc, hf, Metrics.AddProcessed, Metrics.AddFailed, Metrics.AddSuccess,
      Metrics.AddOverwritten]

theorem batchMetrics_success (config : Config) (E S : Nat) (mt : Metrics)
    (hc : config.Conflict = OverwriteOnConflict) :
    (batchMetrics config E S mt).successKeys = mt.successKeys := by
  unfold batchMetrics
  by_cases hf : (E : Int) - S > 0 <;>
    simp [hc, hf, Metrics.AddProcessed, Metrics.AddFailed, Metrics.AddSuccess,
      Metrics.AddOverwritten]

/-- One `processBatch` call keeps the imbalance, the skipped counter, and the counter the
policy does not use. -/
theorem exec_processBatch_keeps {W : Type} (m : Migrator W) (ctx : Context)
    (keys : List String) (s : Seq W) (hlen : RestoreBounded m.dest) :
    ((processBatch m.config keys).exec m ctx s).metrics.imbalance = s.metrics.imbalance ∧
      ((processBatch m.config keys).exec m ctx s).metrics.skippedKeys =
        s.metrics.skippedKeys ∧
      (m.config.Conflict ≠ OverwriteOnConflict →
        ((processBatch m.config keys).exec m ctx s).metrics.overwrittenKeys =
          s.metrics.overwrittenKeys) := by
  rw [exec_processBatch_metrics]
  split
  · refine ⟨failedBatch_imbalance _ _, ?_, fun _ => ?_⟩ <;>
      simp [failedBatch, Metrics.AddProcessed, Metrics.AddFailed]
  · split
    · refine ⟨failedBatch_imbalance _ _, ?_, fun _ => ?_⟩ <;>
        simp [failedBatch, Metrics.AddProcessed, Metrics.AddFailed]
    · rename_i h1 h2
      refine ⟨batchMetrics_imbalance _ _ _ _ ?_, (batchMetrics_skipped _ _ _ _).1,
        fun hc => batchMetrics_overwritten _ _ _ _ hc⟩
      apply hlen
      cases h : (m.dest.RestoreKeys ctx (m.source.DumpKeys ctx keys s.world).1.1
        m.config.Conflict (m.source.DumpKeys ctx keys s.world).2).1.2 with
      | none => rfl
      | some e => simp [h] at h2

theorem processBatches_keeps {W : Type} (m : Migrator W) (ctx : Context)
    (hlen : RestoreBounded m.dest) (batches : List (List String)) (s : Seq W) :
    (processBatches m ctx batches s).metrics.imbalance = s.metrics.imbalance ∧
      (processBatches m ctx batches s).metrics.skippedKeys = s.metrics.skippedKeys ∧
      (m.config.Conflict ≠ OverwriteOnConflict →
        (processBatches m ctx batches s).metrics.overwrittenKeys =
          s.metrics.overwrittenKeys) := by
  induction batches generalizing s with
  | nil => simp [processBatches]
  | cons b bs ih =>
    have h1 := exec_processBatch_keeps m ctx b s hlen
    have h2 := ih ((processBatch m.config b).exec m ctx s)
    simp only [processBatches, List.foldl_cons] at h2 ⊢
    refine ⟨h2.1.trans h1.1, h2.2.1.trans h1.2.1, fun hc => (h2.2.2 hc).trans (h1.2.2 hc)⟩

/-! ## The goroutines of `Migrate` -/

theorem sendError_cases {W : Type} {m : Migrator W} {e : GoError} {s s' : State W}
    {next : State W → State W} (h : sendError m e s next = some s') :
    (s.errorsClosed = true ∧ s' = { s with panicked := true }) ∨
      ∃ t, Sent m e s t ∧ s' = next t := by
  unfold sendError at h
  split at h
  · rename_i hc
    cases h
    exact Or.inl ⟨hc, rfl⟩
  · rename_i hc
    have hc' : s.errorsClosed = false := by simpa using hc
    split at h
    · rename_i hroom
      cases h
      exact Or.inr ⟨_, Sent.buffered hc' hroom, rfl⟩
    · split at h
      · rename_i hcap
        split at h
        · rename_i hm
          cases h
          exact Or.inr ⟨_, Sent.handed hc' hcap hm, rfl⟩
        · cases h
      · cases h

theorem step_sound {W : Type} {m : Migrator W} {l : Label} {s s' : State W}
    (h : step m l s = some s') : Step m s s' := by
  unfold RedisMigrate.step at h
  split at h
  · cases h
  · cases l with
    | main =>
      simp only at h
      unfold Migrate at h
      split at h
      · rename_i hm
        simp only at h
        split at h
        · rename_i err hr
          cases h
          rw [hr]
          exact Step.countFailed err hm hr
        · rename_i hr
          split at h
          · rename_i h0
            cases h
            rw [h0, hr]
            exact Step.countZero hm (Prod.ext h0 hr)
          · rename_i h0
            split at h
            · rename_i hneg
              cases h
              rw [hr]
              exact Step.makePanic _ hm (Prod.ext rfl hr) h0 hneg
            · rename_i hneg
              cases h
              rw [hr]
              exact Step.spawn _ hm (Prod.ext rfl hr) h0 hneg
      · rename_i hm
        split at h
        · rename_i e rest hc
          cases h
          exact Step.drain e rest hm hc
        · rename_i hc
          split at h
          · rename_i hcl
            cases h
            exact Step.mainReturn hm hc hcl
          · cases h
      · cases h
    | worker i =>
      simp only at h
      unfold worker at h
      split at h
      · rename_i p hi
        split at h
        · split at h
          · rename_i keys rest hc
            cases h
            exact Step.receive i keys rest hi hc
          · rename_i hc
            split at h
            · rename_i hcl
              cases h
              exact Step.exitClosed i hi hc hcl
            · cases h
        · cases h
          exact Step.metric i _ _ hi
        · rcases sendError_cases h with ⟨hc, rfl⟩ | ⟨t, ht, rfl⟩
          · exact Step.workerPanic i _ _ hi hc
          · exact Step.workerSend i _ _ t hi ht
        · cases h
          exact Step.dump i _ _ hi
        · cases h
          exact Step.restore i _ _ _ hi
        · cases h
          exact Step.delete i _ _ hi
      · cases h
    | workerDone i =>
      simp only at h
      unfold workerDone at h
      split at h
      · rename_i hi
        split at h
        · rename_i hd
          cases h
          exact Step.exitDone i hi hd
        · cases h
      · cases h
    | producer =>
      simp only at h
      unfold producer at h
      split at h
      · rename_i hp
        simp only at h
        split at h
        · rename_i keys hr
          cases h
          exact Step.scanSend keys hp hr
        · rename_i hr
          cases h
          exact Step.scanReturn hp hr
        · rename_i err hr
          cases h
          exact Step.scanFailed err hp hr
      · rename_i keys hp
        split at h
        · rename_i hroom
          cases h
          exact Step.enqueue keys hp hroom
        · cases h
      · rename_i e hp
        rcases sendError_cases h with ⟨hc, rfl⟩ | ⟨t, ht, rfl⟩
        · exact Step.reportPanic e hp hc
        · exact Step.report e t hp ht
      · rename_i hp
        cases h
        exact Step.closeKeys hp
      · cases h
    | producerDone =>
      simp only at h
      unfold producerDone at h
      split at h
      · rename_i keys hp
        split at h
        · rename_i hd
          cases h
          exact Step.scanDone keys hp hd
        · cases h
      · cases h
    | closer =>
      simp only at h
      unfold closer at h
      split at h
      · rename_i hc
        split at h
        · rename_i hall
          cases h
          exact Step.closeErrors hc hall
        · cases h
      · cases h
    | cancel =>
      simp only at h
      cases h
      exact Step.cancel

theorem run_invariant {W : Type} {m : Migrator W} (P : State W → Prop)
    (hstep : ∀ s s', P s → s.panicked = false → Step m s s' → P s') :
    ∀ (ls : List Label) (s0 s : State W), P s0 → run m ls s0 = some s → P s := by
  intro ls
  induction ls with
  | nil =>
    intro s0 s h0 h
    simp only [run, Option.some.injEq] at h
    exact h ▸ h0
  | cons l ls ih =>
    intro s0 s h0 h
    simp only [run] at h
    cases hl : step m l s0 with
    | none => simp [hl] at h
    | some s1 =>
      rw [hl] at h
      have hp : s0.panicked = false := by
        cases hpan : s0.panicked with
        | false => rfl
        | true => simp [step, hpan] at hl
      exact ih s1 s (hstep s0 s1 h0 hp (step_sound hl)) h

theorem reachable_invariant {W : Type} {m : Migrator W} {s0 s : State W} (P : State W → Prop)
    (h0 : P s0) (hstep : ∀ s s', P s → s.panicked = false → Step m s s' → P s')
    (h : Reachable m s0 s) : P s := by
  obtain ⟨ls, hls⟩ := h
  exact run_invariant P hstep ls s0 s h0 hls

theorem all_exited_not_running (ws : List Worker) (i : Nat) (p : Prog)
    (hall : ws.all Worker.isExited = true) (hi : ws[i]? = some (.running p)) : False := by
  rw [List.all_eq_true] at hall
  have := hall _ (List.getElem?_mem hi)
  simp [Worker.isExited] at this

theorem struct_init {W : Type} (m : Migrator W) (c : Bool) (w : W) (mt : Metrics) :
    Struct (State.init m c w mt) := by
  simp [Struct, State.init]

theorem sent_frame {W : Type} {m : Migrator W} {e : GoError} {s t : State W}
    (h : Sent m e s t) :
    t.workers = s.workers ∧ t.metrics = s.metrics ∧ t.main = s.main ∧ t.closer = s.closer ∧
      t.errorsClosed = s.errorsClosed ∧ t.producer = s.producer ∧ t.panicked = s.panicked ∧
      t.keysChan = s.keysChan ∧ t.keysClosed = s.keysClosed ∧ t.cancelled = s.cancelled ∧
      t.calls = s.calls ∧ t.world = s.world := by
  cases h <;> simp

theorem struct_step {W : Type} {m : Migrator W} {s s' : State W}
    (hI : Struct s) (h : Step m s s') : Struct s' := by
  obtain ⟨h1, h2, h3⟩ := hI
  have hrun : ∀ (i : Nat) (p : Prog), s.workers[i]? = some (Worker.running p) →
      s.main ≠ .counting ∧ s.errorsClosed = false ∧ ∀ r, s.main ≠ .returned r := by
    intro i p hi
    refine ⟨fun hm => ?_, ?_, fun r hr => all_exited_not_running _ _ _ (h3 r hr) hi⟩
    · rw [(h1 hm).1] at hi
      simp at hi
    · cases hc : s.errorsClosed with
      | false => rfl
      | true => exact (all_exited_not_running _ _ _ (h2 hc) hi).elim
  cases h with
  | countFailed err hm hr =>
    obtain ⟨hw, hc, he⟩ := h1 hm
    simp [Struct, hw, hc, he]
  | countZero hm hr =>
    obtain ⟨hw, hc, he⟩ := h1 hm
    simp [Struct, hw, hc, he]
  | makePanic total hm hr ht hneg =>
    obtain ⟨hw, hc, he⟩ := h1 hm
    simp [Struct, hw, hc, he, hm]
  | spawn total hm hr ht hneg =>
    obtain ⟨hw, hc, he⟩ := h1 hm
    simp [Struct, hw, hc, he, hm]
  | drain e rest hm hc =>
    simp only [Struct, hm] at h1 h2 h3 ⊢
    exact ⟨by simp, h2, by simp⟩
  | mainReturn hm hc hcl =>
    simp only [Struct, hm] at h1 h2 h3 ⊢
    exact ⟨by simp, h2, fun _ _ => h2 hcl⟩
  | receive i keys rest hw hc =>
    obtain ⟨ha, hb, hc⟩ := hrun i _ hw
    simp [Struct, ha, hb, hc]
  | exitClosed i hw hc hcl =>
    obtain ⟨ha, hb, hc⟩ := hrun i _ hw
    simp [Struct, ha, hb, hc]
  | exitDone i hw hd =>
    obtain ⟨ha, hb, hc⟩ := hrun i _ hw
    simp [Struct, ha, hb, hc]
  | metric i op k hw =>
    obtain ⟨ha, hb, hc⟩ := hrun i _ hw
    simp [Struct, ha, hb, hc]
  | workerSend i e k t hw hsent =>
    obtain ⟨ha, hb, hc⟩ := hrun i _ hw
    obtain ⟨f1, f2, f3, f4, f5, f6⟩ := sent_frame hsent
    simp [Struct, ha, hb, hc, f1, f3, f4, f5]
  | workerPanic i e k hw hcl =>
    exact ⟨h1, h2, h3⟩
  | dump i keys k hw =>
    obtain ⟨ha, hb, hc⟩ := hrun i _ hw
    simp [Struct, ha, hb, hc]
  | restore i data b k hw =>
    obtain ⟨ha, hb, hc⟩ := hrun i _ hw
    simp [Struct, ha, hb, hc]
  | delete i keys k hw =>
    obtain ⟨ha, hb, hc⟩ := hrun i _ hw
    simp [Struct, ha, hb, hc]
  | scanSend keys hp hr => exact ⟨h1, h2, h3⟩
  | scanReturn hp hr => exact ⟨h1, h2, h3⟩
  | scanFailed err hp hr => exact ⟨h1, h2, h3⟩
  | enqueue keys hp hroom => exact ⟨h1, h2, h3⟩
  | scanDone keys hp hd => exact ⟨h1, h2, h3⟩
  | report e t hp hsent =>
    obtain ⟨f1, f2, f3, f4, f5, f6⟩ := sent_frame hsent
    simp only [Struct, f1, f3, f4, f5]
    exact ⟨h1, h2, h3⟩
  | reportPanic e hp hcl => exact ⟨h1, h2, h3⟩
  | closeKeys hp => exact ⟨h1, h2, h3⟩
  | closeErrors hc hall =>
    refine ⟨fun hm => ?_, fun _ => hall, h3⟩
    have := (h1 hm).2.1
    rw [hc] at this
    cases this
  | cancel => exact ⟨h1, h2, h3⟩

theorem MetricOp.imbalance_apply (op : MetricOp) (mt : Metrics) :
    (op.apply mt).imbalance = mt.imbalance + op.delta := by
  cases op <;>
    simp [MetricOp.apply, MetricOp.delta, Metrics.imbalance, Metrics.AddProcessed,
      Metrics.AddSuccess, Metrics.AddFailed, Metrics.AddOverwritten] <;> ring

theorem sum_map_set {α : Type} (f : α → Int) (l : List α) (i : Nat) (a b : α)
    (h : l[i]? = some a) : ((l.set i b).map f).sum = (l.map f).sum - f a + f b := by
  induction l generalizing i with
  | nil => simp at h
  | cons x xs ih =>
    cases i with
    | zero =>
      simp only [List.getElem?_cons_zero, Option.some.injEq] at h
      subst h
      simp only [List.set_cons_zero, List.map_cons, List.sum_cons]
      ring
    | succ j =>
      simp only [List.getElem?_cons_succ] at h
      simp only [List.set_cons_succ, List.map_cons, List.sum_cons, ih j h]
      ring

theorem processBatch_closed (config : Config) (keys : List String) :
    (processBatch config keys).owed = 0 ∧ (processBatch config keys).Closed := by
  refine ⟨rfl, ?_⟩
  unfold processBatch
  intro r
  rcases r with ⟨E, _ | e⟩
  · refine ⟨rfl, ?_⟩
    intro r hr
    rcases r with ⟨S, _ | e⟩
    · have hle : S.length ≤ E.length := hr rfl
      simp only [updateMetricsForBatch]
      have h' : ((E.length : Int) - S.length > 0) ∨ (E.length : Int) - S.length = 0 := by
        omega
      rcases h' with h' | h'
      · by_cases hc : config.Conflict = OverwriteOnConflict <;>
          by_cases hm : config.Mode = MoveMode ∧ S.length > 0 <;>
          simp [Prog.owed, Prog.Closed, MetricOp.delta, h', hc, hm] <;>
          first
            | omega
            | (refine ⟨by omega, fun r => ?_⟩; cases r <;> simp [Prog.owed, Prog.Closed])
      · have h'' : ¬ ((E.length : Int) - S.length > 0) := by omega
        by_cases hc : config.Conflict = OverwriteOnConflict <;>
          by_cases hm : config.Mode = MoveMode ∧ S.length > 0 <;>
          simp [Prog.owed, Prog.Closed, MetricOp.delta, h'', hc, hm] <;>
          first
            | omega
            | (refine ⟨by omega, fun r => ?_⟩; cases r <;> simp [Prog.owed, Prog.Closed])
    · simp [Prog.owed, Prog.Closed, MetricOp.delta]
  · simp [Prog.owed, Prog.Closed, MetricOp.delta]

theorem Metrics.imbalance_SetTotal (mt : Metrics) (n : Int) :
    (mt.SetTotal n).imbalance = mt.imbalance := rfl

theorem balanced_update {W : Type} {c : Int} {s s' : State W} {i : Nat} {w : Worker}
    (hI : Balanced c s) (w' : Worker) (hw : s.workers[i]? = some w)
    (hworkers : s'.workers = s.workers.set i w')
    (hsum : s'.metrics.imbalance + w'.owed = s.metrics.imbalance + w.owed)
    (hcl : w'.Closed) : Balanced c s' := by
  obtain ⟨h1, h2⟩ := hI
  refine ⟨?_, ?_⟩
  · rw [hworkers, sum_map_set Worker.owed _ _ _ _ hw]
    omega
  · intro x hx
    rw [hworkers] at hx
    rcases List.mem_or_eq_of_mem_set hx with hx | hx
    · exact h2 x hx
    · exact hx ▸ hcl

theorem balanced_frame {W : Type} {c : Int} {s s' : State W}
    (hI : Balanced c s) (hworkers : s'.workers = s.workers)
    (hmetrics : s'.metrics.imbalance = s.metrics.imbalance) : Balanced c s' := by
  unfold Balanced at hI ⊢
  rw [hworkers, hmetrics]
  exact hI

theorem balanced_step {W : Type} {m : Migrator W} {c : Int} {s s' : State W}
    (hlen : RestoreBounded m.dest) (hS : Struct s) (hI : Balanced c s) (h : Step m s s') :
    Balanced c s' := by
  have hcl : ∀ (i : Nat) (w : Worker), s.workers[i]? = some w → w.Closed :=
    fun i w hi => hI.2 w (List.getElem?_mem hi)
  cases h with
  | countFailed err hm hr => exact balanced_frame hI rfl rfl
  | countZero hm hr => exact balanced_frame hI rfl rfl
  | makePanic total hm hr ht hneg => exact balanced_frame hI rfl rfl
  | spawn total hm hr ht hneg =>
    obtain ⟨h1, h2⟩ := hI
    rw [(hS.1 hm).1] at h1
    refine ⟨?_, ?_⟩
    · have hz : ((List.replicate m.config.Concurrency.toNat (Worker.running Prog.ret)).map
          Worker.owed).sum = 0 := by
        simp [Worker.owed, Prog.owed]
      simp only [hz]
      simpa [Metrics.imbalance, Metrics.SetTotal] using h1
    · intro w hw
      rw [List.eq_of_mem_replicate hw]
      trivial
  | drain e rest hm hc => exact balanced_frame hI rfl rfl
  | mainReturn hm hc hcl => exact balanced_frame hI rfl rfl
  | receive i keys rest hw hc =>
    exact balanced_update hI (.running (processBatch m.config keys)) hw rfl
      (by simp [Worker.owed, Prog.owed, (processBatch_closed _ _).1])
      (processBatch_closed _ _).2
  | exitClosed i hw hc hcl =>
    exact balanced_update hI .exited hw rfl (by simp [Worker.owed, Prog.owed]) trivial
  | exitDone i hw hd =>
    exact balanced_update hI .exited hw rfl (by simp [Worker.owed, Prog.owed]) trivial
  | metric i op k hw =>
    refine balanced_update hI (.running k) hw rfl ?_
      (by simpa [Worker.Closed, Prog.Closed] using hcl i _ hw)
    simp only [Worker.owed, Prog.owed, MetricOp.imbalance_apply]
    omega
  | workerSend i e k t hw hsent =>
    obtain ⟨f1, f2, _⟩ := sent_frame hsent
    refine balanced_update hI (.running k) hw (by simp [f1]) ?_
      (by simpa [Worker.Closed, Prog.Closed] using hcl i _ hw)
    simp [Worker.owed, Prog.owed, f2]
  | workerPanic i e k hw hcl => exact balanced_frame hI rfl rfl
  | dump i keys k hw =>
    have h := hcl i _ hw (m.source.DumpKeys s.ctx keys s.world).1
    exact balanced_update hI (.running _) hw rfl (by simp [Worker.owed, Prog.owed, h.1]) h.2
  | restore i data b k hw =>
    have h := hcl i _ hw (m.dest.RestoreKeys s.ctx data b s.world).1 (hlen _ _ _ _)
    exact balanced_update hI (.running _) hw rfl (by simp [Worker.owed, Prog.owed, h.1]) h.2
  | delete i keys k hw =>
    have h := hcl i _ hw (m.source.DeleteKeys s.ctx keys s.world).1
    exact balanced_update hI (.running _) hw rfl (by simp [Worker.owed, Prog.owed, h.1]) h.2
  | scanSend keys hp hr => exact balanced_frame hI rfl rfl
  | scanReturn hp hr => exact balanced_frame hI rfl rfl
  | scanFailed err hp hr => exact balanced_frame hI rfl rfl
  | enqueue keys hp hroom => exact balanced_frame hI rfl rfl
  | scanDone keys hp hd => exact balanced_frame hI rfl rfl
  | report e t hp hsent =>
    obtain ⟨f1, f2, _⟩ := sent_frame hsent
    exact balanced_frame hI f1 (by simp [f2])
  | reportPanic e hp hcl => exact balanced_frame hI rfl rfl
  | closeKeys hp => exact balanced_frame hI rfl rfl
  | closeErrors hc hall => exact balanced_frame hI rfl rfl
  | cancel => exact balanced_frame hI rfl rfl

theorem untouched_update {W : Type} {f : Metrics → Int} {c : Int} {s s' : State W}
    (hI : Untouched f c s) (i : Nat) (w' : Worker)
    (hworkers : s'.workers = s.workers.set i w') (hmetrics : f s'.metrics = f s.metrics)
    (hops : w'.Ops (MetricOp.Keeps f)) : Untouched f c s' := by
  obtain ⟨h1, h2⟩ := hI
  refine ⟨hmetrics.trans h1, ?_⟩
  intro x hx
  rw [hworkers] at hx
  rcases List.mem_or_eq_of_mem_set hx with hx | hx
  · exact h2 x hx
  · exact hx ▸ hops

theorem untouched_frame {W : Type} {f : Metrics → Int} {c : Int} {s s' : State W}
    (hI : Untouched f c s) (hworkers : s'.workers = s.workers)
    (hmetrics : f s'.metrics = f s.metrics) : Untouched f c s' := by
  unfold Untouched at hI ⊢
  rw [hworkers, hmetrics]
  exact hI

theorem untouched_step {W : Type} {m : Migrator W} {f : Metrics → Int} {c : Int}
    {s s' : State W}
    (hproc : ∀ keys, (processBatch m.config keys).Ops (MetricOp.Keeps f))
    (htotal : ∀ mt n, f (Metrics.SetTotal mt n) = f mt)
    (hI : Untouched f c s) (h : Step m s s') : Untouched f c s' := by
  have hops : ∀ (i : Nat) (w : Worker), s.workers[i]? = some w → w.Ops (MetricOp.Keeps f) :=
    fun i w hi => hI.2 w (List.getElem?_mem hi)
  cases h with
  | countFailed err hm hr => exact untouched_frame hI rfl rfl
  | countZero hm hr => exact untouched_frame hI rfl (htotal _ _)
  | makePanic total hm hr ht hneg => exact untouched_frame hI rfl (htotal _ _)
  | spawn total hm hr ht hneg =>
    refine ⟨(htotal _ _).trans hI.1, ?_⟩
    intro w hw
    rw [List.eq_of_mem_replicate hw]
    trivial
  | drain e rest hm hc => exact untouched_frame hI rfl rfl
  | mainReturn hm hc hcl => exact untouched_frame hI rfl rfl
  | receive i keys rest hw hc =>
    exact untouched_update hI i (.running (processBatch m.config keys)) rfl rfl (hproc keys)
  | exitClosed i hw hc hcl => exact untouched_update hI i .exited rfl rfl trivial
  | exitDone i hw hd => exact untouched_update hI i .exited rfl rfl trivial
  | metric i op k hw =>
    have h := hops i _ hw
    exact untouched_update hI i (.running k) rfl (h.1 s.metrics) h.2
  | workerSend i e k t hw hsent =>
    obtain ⟨f1, f2, _⟩ := sent_frame hsent
    exact untouched_update hI i (.running k) (by simp [f1]) (by simp [f2])
      (by simpa [Worker.Ops, Prog.Ops] using hops i _ hw)
  | workerPanic i e k hw hcl => exact untouched_frame hI rfl rfl
  | dump i keys k hw => exact untouched_update hI i (.running _) rfl rfl (hops i _ hw _)
  | restore i data b k hw => exact untouched_update hI i (.running _) rfl rfl (hops i _ hw _)
  | delete i keys k hw => exact untouched_update hI i (.running _) rfl rfl (hops i _ hw _)
  | scanSend keys hp hr => exact untouched_frame hI rfl rfl
  | scanReturn hp hr => exact untouched_frame hI rfl rfl
  | scanFailed err hp hr => exact untouched_frame hI rfl rfl
  | enqueue keys hp hroom => exact untouched_frame hI rfl rfl
  | scanDone keys hp hd => exact untouched_frame hI rfl rfl
  | report e t hp hsent =>
    obtain ⟨f1, f2, _⟩ := sent_frame hsent
    exact untouched_frame hI f1 (by simp [f2])
  | reportPanic e hp hcl => exact untouched_frame hI rfl rfl
  | closeKeys hp => exact untouched_frame hI rfl rfl
  | closeErrors hc hall => exact untouched_frame hI rfl rfl
  | cancel => exact untouched_frame hI rfl rfl

theorem processBatch_ops (config : Config) (keys : List String) (P : MetricOp → Prop)
    (hP : ∀ n, P (.AddProcessed n)) (hF : ∀ n, P (.AddFailed n))
    (hS : config.Conflict ≠ OverwriteOnConflict → ∀ n, P (.AddSuccess n))
    (hO : config.Conflict = OverwriteOnConflict → ∀ n, P (.AddOverwritten n)) :
    (processBatch config keys).Ops P := by
  unfold processBatch
  intro r
  rcases r with ⟨E, _ | e⟩
  · intro r
    rcases r with ⟨S, _ | e⟩
    · simp only [updateMetricsForBatch]
      refine ⟨hP _, ?_, ?_⟩
      · by_cases hc : config.Conflict = OverwriteOnConflict
        · rw [if_pos hc]
          exact hO hc _
        · rw [if_neg hc]
          exact hS hc _
      · by_cases hf : (E.length : Int) - S.length > 0 <;>
          by_cases hm : config.Mode = MoveMode ∧ S.length > 0 <;>
          simp only [hf, hm, if_true, if_false, Prog.Ops, true_and, and_true, hF] <;>
          first
            | trivial
            | (intro r; cases r <;> simp [Prog.Ops])
    · exact ⟨hP _, hF _, trivial⟩
  · exact ⟨hP _, hF _, trivial⟩

theorem reachable_struct {W : Type} {m : Migrator W} {c : Bool} {w : W} {mt : Metrics}
    {s : State W} (h : Reachable m (State.init m c w mt) s) : Struct s :=
  reachable_invariant Struct (struct_init m c w mt) (fun _ _ hI _ hs => struct_step hI hs) h

theorem reachable_balanced {W : Type} {m : Migrator W} {c : Bool} {w : W} {mt : Metrics}
    {s : State W} (hlen : RestoreBounded m.dest) (h : Reachable m (State.init m c w mt) s) :
    Balanced mt.imbalance s := by
  have := reachable_invariant (fun s => Struct s ∧ Balanced mt.imbalance s)
    ⟨struct_init m c w mt, by simp [Balanced, State.init]⟩
    (fun _ _ hI _ hs => ⟨struct_step hI.1 hs, balanced_step hlen hI.1 hI.2 hs⟩) h
  exact this.2

theorem reachable_untouched {W : Type} {m : Migrator W} {c : Bool} {w : W} {mt : Metrics}
    {s : State W} (f : Metrics → Int)
    (hproc : ∀ keys, (processBatch m.config keys).Ops (MetricOp.Keeps f))
    (htotal : ∀ mt n, f (Metrics.SetTotal mt n) = f mt)
    (h : Reachable m (State.init m c w mt) s) : Untouched f (f mt) s :=
  reachable_invariant (Untouched f (f mt)) (by simp [Untouched, State.init])
    (fun _ _ hI _ hs => untouched_step hproc htotal hI hs) h

theorem reachable_successKeys {W : Type} {m : Migrator W} {c : Bool} {w : W} {mt : Metrics}
    {s : State W} (hc : m.config.Conflict = OverwriteOnConflict)
    (h : Reachable m (State.init m c w mt) s) : s.metrics.successKeys = mt.successKeys := by
  refine (reachable_untouched Metrics.successKeys (fun keys => ?_) (fun _ _ => rfl) h).1
  exact processBatch_ops _ _ _ (fun _ _ => rfl) (fun _ _ => rfl) (fun hne => (hne hc).elim)
    (fun _ _ _ => rfl)

theorem reachable_overwrittenKeys {W : Type} {m : Migrator W} {c : Bool} {w : W}
    {mt : Metrics} {s : State W} (hc : m.config.Conflict ≠ OverwriteOnConflict)
    (h : Reachable m (State.init m c w mt) s) :
    s.metrics.overwrittenKeys = mt.overwrittenKeys := by
  refine (reachable_untouched Metrics.overwrittenKeys (fun keys => ?_) (fun _ _ => rfl) h).1
  exact processBatch_ops _ _ _ (fun _ _ => rfl) (fun _ _ => rfl) (fun _ _ _ => rfl)
    (fun he => (hc he).elim)

theorem reachable_skippedKeys {W : Type} {m : Migrator W} {c : Bool} {w : W}
    {mt : Metrics} {s : State W} (h : Reachable m (State.init m c w mt) s) :
    s.metrics.skippedKeys = mt.skippedKeys := by
  refine (reachable_untouched Metrics.skippedKeys (fun keys => ?_) (fun _ _ => rfl) h).1
  exact processBatch_ops _ _ _ (fun _ _ => rfl) (fun _ _ => rfl) (fun _ _ _ => rfl)
    (fun _ _ _ => rfl)

theorem sum_owed_of_all_exited (ws : List Worker) (h : ws.all Worker.isExited = true) :
    (ws.map Worker.owed).sum = 0 := by
  induction ws with
  | nil => rfl
  | cons x xs ih =>
    simp only [List.all_cons, Bool.and_eq_true] at h
    cases x with
    | exited => simpa [Worker.owed] using ih h.2
    | running p => simp [Worker.isExited] at h

/-- When `Migrate` has returned, the tracker has the imbalance it started with. -/
theorem returned_imbalance {W : Type} {m : Migrator W} {c : Bool} {w : W} {mt : Metrics}
    {s : State W} {r : Option GoError} (hlen : RestoreBounded m.dest)
    (h : Reachable m (State.init m c w mt) s) (hret : s.main = .returned r) :
    s.metrics.imbalance = mt.imbalance := by
  have hb := (reachable_balanced hlen h).1
  rw [sum_owed_of_all_exited _ ((reachable_struct h).2.2 r hret)] at hb
  simpa using hb

theorem restoreBounded_scripted (count : Int) (batches : List (List String))
    (scanErr dumpErr restoreErr deleteErr : Option GoError) (accept : String → Bool) :
    RestoreBounded (scriptedClient count batches scanErr dumpErr restoreErr deleteErr accept) := by
  intro ctx data b w h
  cases restoreErr with
  | some e => simp [scriptedClient] at h
  | none =>
    simp only [scriptedClient]
    exact (List.length_filter_le _ _).trans (by simp)

/-- C2, as stated, fails under `OverwriteOnConflict`: in the run `overwriteSchedule` of
`overwriteMigrator` on a fresh tracker, the import reports no more keys than it was given
and `Migrate` returns nil with processed = 2 and succeeded = failed = 0 (the two keys are
counted as overwritten). -/
theorem Migrate_overwrite_unbalanced :
    overwriteMigrator.config.Conflict = OverwriteOnConflict ∧
      RestoreBounded overwriteMigrator.dest ∧
      ∃ s, run overwriteMigrator overwriteSchedule
          (State.init overwriteMigrator false 0 (NewMetrics 0)) = some s ∧
        s.main = .returned none ∧
        s.metrics.processedKeys = 2 ∧ s.metrics.successKeys = 0 ∧ s.metrics.failedKeys = 0 ∧
        s.metrics.overwrittenKeys = 2 ∧
        s.metrics.processedKeys ≠ s.metrics.successKeys + s.metrics.failedKeys :=
  ⟨rfl, restoreBounded_scripted 0 [] none none none none (fun _ => true), _, rfl, rfl, rfl, rfl,
    rfl, rfl, by decide⟩

/-- C2, amended: after `Migrate` has returned in a run on a fresh tracker, with a destination
that never reports more keys than it was given, processed = succeeded + failed under
`ErrorOnConflict` and processed = overwritten + failed under `OverwriteOnConflict`. -/
theorem Migrate_accounting {W : Type} (m : Migrator W) (c : Bool) (w : W) (now : Int)
    (s : State W) (r : Option GoError) (hlen : RestoreBounded m.dest)
    (hreach : Reachable m (State.init m c w (NewMetrics now)) s)
    (hret : s.main = .returned r) :
    (m.config.Conflict = ErrorOnConflict →
        s.metrics.processedKeys = s.metrics.successKeys + s.metrics.failedKeys) ∧
      (m.config.Conflict = OverwriteOnConflict →
        s.metrics.processedKeys = s.metrics.overwrittenKeys + s.metrics.failedKeys) := by
  have hb := returned_imbalance hlen hreach hret
  have e1 : (NewMetrics now).imbalance = 0 := by simp [NewMetrics, Metrics.imbalance]
  rw [e1] at hb
  simp only [Metrics.imbalance] at hb
  constructor
  · intro hc
    have hne : m.config.Conflict ≠ OverwriteOnConflict := by rw [hc]; decide
    have ho := reachable_overwrittenKeys hne hreach
    have e2 : (NewMetrics now).overwrittenKeys = 0 := rfl
    rw [e2] at ho
    omega
  · intro hc
    have hs := reachable_successKeys hc hreach
    have e2 : (NewMetrics now).successKeys = 0 := rfl
    rw [e2] at hs
    omega

/-- C2, amended, on the run of `overwriteMigrator`: `Migrate` returns nil and processed
equals overwritten + failed. -/
theorem Migrate_accounting_witness :
    ∃ s, run overwriteMigrator overwriteSchedule
        (State.init overwriteMigrator false 0 (NewMetrics 0)) = some s ∧
      s.main = .returned none ∧
      s.metrics.processedKeys = s.metrics.overwrittenKeys + s.metrics.failedKeys :=
  ⟨_, rfl, rfl,
    (Migrate_accounting overwriteMigrator false 0 0 _ none
      (restoreBounded_scripted 0 [] none none none none (fun _ => true))
      ⟨overwriteSchedule, rfl⟩ rfl).2 rfl⟩

theorem batchMetrics_credit (config : Config) (E S : Nat) (mt : Metrics) :
    (config.Conflict = OverwriteOnConflict →
        (batchMetrics config E S mt).overwrittenKeys = mt.overwrittenKeys + S ∧
        (batchMetrics config E S mt).successKeys = mt.successKeys) ∧
      (config.Conflict ≠ OverwriteOnConflict →
        (batchMetrics config E S mt).successKeys = mt.successKeys + S ∧
        (batchMetrics config E S mt).overwrittenKeys = mt.overwrittenKeys) := by
  unfold batchMetrics
  by_cases hc : config.Conflict = OverwriteOnConflict <;>
    by_cases hf : (E : Int) - S > 0 <;>
    simp [hc, hf, Metrics.AddProcessed, Metrics.AddFailed, Metrics.AddSuccess,
      Metrics.AddOverwritten]

/-- C4: in every state of a `Migrate` call the succeeded counter has its initial value under
`OverwriteOnConflict`, and the overwritten counter has its initial value under
`ErrorOnConflict` and `SkipOnConflict`; and a `processBatch` call whose export and import
succeed adds the number of imported keys to overwritten and nothing to succeeded in the
first case, to succeeded and nothing to overwritten in the second. -/
theorem policy_counters {W : Type} (m : Migrator W) :
    (∀ (c : Bool) (w : W) (mt : Metrics) (s : State W),
        Reachable m (State.init m c w mt) s →
        (m.config.Conflict = OverwriteOnConflict →
          s.metrics.successKeys = mt.successKeys) ∧
        (m.config.Conflict = ErrorOnConflict ∨ m.config.Conflict = SkipOnConflict →
          s.metrics.overwrittenKeys = mt.overwrittenKeys)) ∧
      (∀ (ctx : Context) (keys : List String) (q : Seq W) (E : List KeyData)
          (S : List String) (w1 w2 : W),
        m.source.DumpKeys ctx keys q.world = ((E, none), w1) →
        m.dest.RestoreKeys ctx E m.config.Conflict w1 = ((S, none), w2) →
        (m.config.Conflict = OverwriteOnConflict →
          ((processBatch m.config keys).exec m ctx q).metrics.overwrittenKeys =
            q.metrics.overwrittenKeys + S.length ∧
          ((processBatch m.config keys).exec m ctx q).metrics.successKeys =
            q.metrics.successKeys) ∧
        (m.config.Conflict = ErrorOnConflict ∨ m.config.Conflict = SkipOnConflict →
          ((processBatch m.config keys).exec m ctx q).metrics.successKeys =
            q.metrics.successKeys + S.length ∧
          ((processBatch m.config keys).exec m ctx q).metrics.overwrittenKeys =
            q.metrics.overwrittenKeys)) := by
  have hne : m.config.Conflict = ErrorOnConflict ∨ m.config.Conflict = SkipOnConflict →
      m.config.Conflict ≠ OverwriteOnConflict := by
    intro h
    rcases h with h | h <;> rw [h] <;> decide
  refine ⟨fun c w mt s hreach => ⟨fun hc => reachable_successKeys hc hreach,
    fun hc => reachable_overwrittenKeys (hne hc) hreach⟩, ?_⟩
  intro ctx keys q E S w1 w2 hd hr
  rw [exec_processBatch_metrics]
  simp only [hd, hr, Option.isSome_none, Bool.false_eq_true, if_false]
  exact ⟨(batchMetrics_credit _ _ _ _).1, fun hc => (batchMetrics_credit _ _ _ _).2 (hne hc)⟩

/-- C4 on `overwriteMigrator`: its run ends with succeeded = 0, and a `processBatch` call on
two keys adds 2 to overwritten. -/
theorem policy_counters_witness :
    (∃ s, run overwriteMigrator overwriteSchedule
        (State.init overwriteMigrator false 0 (NewMetrics 0)) = some s ∧
      s.metrics.successKeys = 0) ∧
      ((processBatch overwriteMigrator.config ["a", "b"]).exec overwriteMigrator ⟨false⟩
        { world := 0, metrics := NewMetrics 0, errorsChan := [], calls := [] }
        ).metrics.overwrittenKeys = 0 + 2 :=
  ⟨⟨_, rfl, ((policy_counters overwriteMigrator).1 false 0 (NewMetrics 0) _
      ⟨overwriteSchedule, rfl⟩).1 rfl⟩,
    (((policy_counters overwriteMigrator).2 ⟨false⟩ ["a", "b"]
      { world := 0, metrics := NewMetrics 0, errorsChan := [], calls := [] }
      [{ Key := "a", Data := "", TTL := 0 }, { Key := "b", Data := "", TTL := 0 }] ["a", "b"]
      0 0 rfl rfl).1 rfl).1⟩

/-- C9: when `CountKeys` on the source returns 0 and no error, `Migrate` returns nil in its
first step, and in every run, once it has returned, the result is nil, the tracker is the
initial one with total set to 0, and the `CountKeys` call is the only call made on a store
(no scan, export, import or delete). -/
theorem Migrate_zero_count {W : Type} (m : Migrator W) (c : Bool) (w : W) (mt : Metrics)
    (hcount : ∀ ctx, (m.source.CountKeys ctx m.config.Pattern m.config.BatchSize w).1 =
      (0, none)) :
    (∃ s, run m [.main] (State.init m c w mt) = some s ∧ s.main = .returned none) ∧
      ∀ s r, Reachable m (State.init m c w mt) s → s.main = .returned r →
        r = none ∧ s.metrics = mt.SetTotal 0 ∧
        s.calls = [.CountKeys m.config.Pattern m.config.BatchSize none] := by
  constructor
  · have h0 := hcount ⟨c⟩
    have h1 : (m.source.CountKeys ⟨c⟩ m.config.Pattern m.config.BatchSize w).1.2 = none := by
      rw [h0]
    have h2 : (m.source.CountKeys ⟨c⟩ m.config.Pattern m.config.BatchSize w).1.1 = 0 := by
      rw [h0]
    refine ⟨{ State.init m c w mt with
      world := (m.source.CountKeys ⟨c⟩ m.config.Pattern m.config.BatchSize w).2
      calls := [.CountKeys m.config.Pattern m.config.BatchSize none]
      metrics := mt.SetTotal 0
      main := .returned none }, ?_, rfl⟩
    simp [run, step, Migrate, State.init, State.ctx, h1, h2]
  · intro s r hreach hret
    have key := reachable_invariant
      (fun s => s.workers = [] ∧ s.producer = .notStarted ∧ s.closer = .notStarted ∧
        ((s.main = .counting ∧ s.world = w ∧ s.metrics = mt ∧ s.calls = []) ∨
          (s.main = .returned none ∧ s.metrics = mt.SetTotal 0 ∧
            s.calls = [.CountKeys m.config.Pattern m.config.BatchSize none])))
      (by simp [State.init]) ?_ hreach
    · obtain ⟨_, _, _, h | h⟩ := key
      · rw [h.1] at hret
        cases hret
      · rw [h.1] at hret
        cases hret
        exact ⟨rfl, h.2.1, h.2.2⟩
    · intro s s' hI _ hs
      obtain ⟨hw, hp, hcl, hmain⟩ := hI
      cases hs with
      | countFailed err hm hr =>
        rcases hmain with h | h
        · rw [h.2.1, hcount] at hr
          cases hr
        · rw [h.1] at hm
          cases hm
      | countZero hm hr =>
        rcases hmain with h | h
        · refine ⟨hw, hp, hcl, Or.inr ⟨rfl, ?_, ?_⟩⟩
          · simp [h.2.2.1]
          · simp [h.2.2.2]
        · rw [h.1] at hm
          cases hm
      | makePanic total hm hr ht hneg =>
        rcases hmain with h | h
        · rw [h.2.1, hcount] at hr
          cases hr
          exact (ht rfl).elim
        · rw [h.1] at hm
          cases hm
      | spawn total hm hr ht hneg =>
        rcases hmain with h | h
        · rw [h.2.1, hcount] at hr
          cases hr
          exact (ht rfl).elim
        · rw [h.1] at hm
          cases hm
      | drain e rest hm hc =>
        rcases hmain with h | h <;> rw [h.1] at hm <;> cases hm
      | mainReturn hm hc hcl =>
        rcases hmain with h | h <;> rw [h.1] at hm <;> cases hm
      | receive i keys rest hw' hc => simp [hw] at hw'
      | exitClosed i hw' hc hcl => simp [hw] at hw'
      | exitDone i hw' hd => simp [hw] at hw'
      | metric i op k hw' => simp [hw] at hw'
      | workerSend i e k t hw' hsent => simp [hw] at hw'
      | workerPanic i e k hw' hcl => simp [hw] at hw'
      | dump i keys k hw' => simp [hw] at hw'
      | restore i data b k hw' => simp [hw] at hw'
      | delete i keys k hw' => simp [hw] at hw'
      | scanSend keys hp' hr => simp [hp] at hp'
      | scanReturn hp' hr => simp [hp] at hp'
      | scanFailed err hp' hr => simp [hp] at hp'
      | enqueue keys hp' hroom => simp [hp] at hp'
      | scanDone keys hp' hd => simp [hp] at hp'
      | report e t hp' hsent => simp [hp] at hp'
      | reportPanic e hp' hcl => simp [hp] at hp'
      | closeKeys hp' => simp [hp] at hp'
      | closeErrors hc hall => simp [hcl] at hc
      | cancel => exact ⟨hw, hp, hcl, hmain⟩

/-- C9 on `emptyMigrator`: its first step returns nil, and the run that is this one step
ends with total = 0. -/
theorem Migrate_zero_count_witness :
    (∃ s, run emptyMigrator [.main] (State.init emptyMigrator false 0 (NewMetrics 7)) = some s ∧
      s.main = .returned none) ∧
    ∃ s, run emptyMigrator [.main] (State.init emptyMigrator false 0 (NewMetrics 7)) = some s ∧
      s.metrics = (NewMetrics 7).SetTotal 0 :=
  ⟨(Migrate_zero_count emptyMigrator false 0 (NewMetrics 7) (fun _ => rfl)).1,
    _, rfl,
    ((Migrate_zero_count emptyMigrator false 0 (NewMetrics 7) (fun _ => rfl)).2 _ none
      ⟨[.main], rfl⟩ rfl).2.1⟩

/-- C10 fails when the context is cancelled during the run: in the run `raceSchedule` of
`raceMigrator`, a fresh migrator with a count of 1, the `ScanKeys` call fails, and `Migrate`
returns nil; the next step of the producer is a send on the closed `errorsChan`, a panic. -/
theorem Migrate_drops_scan_error :
    raceMigrator.errors = [] ∧
      ∃ s, run raceMigrator raceSchedule
          (State.init raceMigrator false 0 (NewMetrics 0)) = some s ∧
        s.calls = [.CountKeys "*" 2 none, .ScanReturn (some contextCanceled)] ∧
        s.main = .returned none ∧
        s.producer = .reporting (.wrapf "failed to scan keys" contextCanceled) ∧
        (step raceMigrator .producer s).map State.panicked = some true :=
  ⟨rfl, _, rfl, rfl, rfl, rfl, rfl⟩

/-! ## The theorems at concrete inputs -/

/-- C1 on `overwriteMigrator`: both keys are exported and imported; processed and
overwritten grow by 2, nothing else changes. -/
theorem processBatch_success_metrics_witness :
    ((processBatch overwriteMigrator.config ["a", "b"]).exec overwriteMigrator ⟨false⟩
        freshSeq).metrics =
      { totalKeys := 0, processedKeys := 2, successKeys := 0, failedKeys := 0,
        skippedKeys := 0, overwrittenKeys := 2, startTime := 0 } :=
  (processBatch_success_metrics overwriteMigrator ⟨false⟩ ["a", "b"] freshSeq
    [{ Key := "a", Data := "", TTL := 0 }, { Key := "b", Data := "", TTL := 0 }] ["a", "b"]
    0 0 rfl rfl (by decide)).trans (by decide)

/-- C5 on `dumpFailMigrator`. -/
theorem processBatch_dump_error_witness :
    (processBatch dumpFailMigrator.config ["a", "b"]).exec dumpFailMigrator ⟨false⟩ freshSeq =
      { world := 0
        metrics := { freshSeq.metrics with
          processedKeys := freshSeq.metrics.processedKeys + (2 : Nat)
          failedKeys := freshSeq.metrics.failedKeys + (2 : Nat) }
        errorsChan := freshSeq.errorsChan ++
          [GoError.wrapf "failed to dump keys" (.errorsNew "connection reset")]
        calls := freshSeq.calls ++
          [CallRecord.DumpKeys ["a", "b"] (some (.errorsNew "connection reset"))] } :=
  processBatch_dump_error dumpFailMigrator ⟨false⟩ ["a", "b"] freshSeq []
    (.errorsNew "connection reset") 0 rfl

/-- C6 on `restoreFailMigrator`. -/
theorem processBatch_restore_error_witness :
    (processBatch restoreFailMigrator.config ["a", "b"]).exec restoreFailMigrator ⟨false⟩
        freshSeq =
      { world := 0
        metrics := { freshSeq.metrics with
          processedKeys := freshSeq.metrics.processedKeys + (2 : Nat)
          failedKeys := freshSeq.metrics.failedKeys + (2 : Nat) }
        errorsChan := freshSeq.errorsChan ++
          [GoError.wrapf "failed to restore keys" (.errorsNew "BUSYKEY")]
        calls := freshSeq.calls ++
          [CallRecord.DumpKeys ["a", "b"] none,
            CallRecord.RestoreKeys
              [{ Key := "a", Data := "", TTL := 0 }, { Key := "b", Data := "", TTL := 0 }]
              restoreFailMigrator.config.Conflict (some (.errorsNew "BUSYKEY"))] } :=
  processBatch_restore_error restoreFailMigrator ⟨false⟩ ["a", "b"] freshSeq
    [{ Key := "a", Data := "", TTL := 0 }, { Key := "b", Data := "", TTL := 0 }] []
    (.errorsNew "BUSYKEY") 0 0 rfl rfl

/-- C8 on `deleteFailMigrator`: one error is sent and the tracker shows both keys as
processed and succeeded. -/
theorem processBatch_delete_error_witness :
    ((processBatch deleteFailMigrator.config ["a", "b"]).exec deleteFailMigrator ⟨false⟩
        freshSeq).errorsChan =
      [GoError.wrapf "failed to delete keys from source" (.errorsNew "READONLY")] ∧
    ((processBatch deleteFailMigrator.config ["a", "b"]).exec deleteFailMigrator ⟨false⟩
        freshSeq).metrics =
      { totalKeys := 0, processedKeys := 2, successKeys := 2, failedKeys := 0,
        skippedKeys := 0, overwrittenKeys := 0, startTime := 0 } :=
  ⟨(processBatch_delete_error deleteFailMigrator ⟨false⟩ ["a", "b"] freshSeq
      [{ Key := "a", Data := "", TTL := 0 }, { Key := "b", Data := "", TTL := 0 }] ["a", "b"]
      (.errorsNew "READONLY") 0 0 0 rfl rfl rfl (by decide) rfl).1,
    ((processBatch_delete_error deleteFailMigrator ⟨false⟩ ["a", "b"] freshSeq
      [{ Key := "a", Data := "", TTL := 0 }, { Key := "b", Data := "", TTL := 0 }] ["a", "b"]
      (.errorsNew "READONLY") 0 0 0 rfl rfl rfl (by decide) rfl).2.1).trans (by decide)⟩

/-! ## Every failure is reported when the context is not cancelled -/

theorem flow_step {W : Type} {m : Migrator W} {w0 : W} {s s' : State W}
    (hcount : ∀ ctx,
      (m.source.CountKeys ctx m.config.Pattern m.config.BatchSize w0).1.2 = none ∧
      (m.source.CountKeys ctx m.config.Pattern m.config.BatchSize w0).1.1 ≠ 0)
    (hS : Struct s) (hI : Flow m w0 s) (hpan : s.panicked = false) (h : Step m s s') :
    Flow m w0 s' := by
  obtain ⟨h0, h1, h2, h3, h4⟩ := hI
  have hrun : ∀ (i : Nat) (p : Prog), s.workers[i]? = some (Worker.running p) →
      s.main = .draining := by
    intro i p hi
    cases hm : s.main with
    | counting =>
      rw [(hS.1 hm).1] at hi
      simp at hi
    | draining => rfl
    | returned r => exact (all_exited_not_running _ _ _ (hS.2.2 r hm) hi).elim
  have hlen : s.main = .draining → ∀ (i : Nat) (w' : Worker),
      (s.workers.set i w').length = m.config.Concurrency.toNat := by
    intro hm i w'
    rw [List.length_set]
    exact h3 (by simp [hm])
  have hstart : ∀ p : Producer, s.producer = p → p ≠ .notStarted → s.main ≠ .counting := by
    intro p hp hne hm
    rw [(h0 hm hpan).1] at hp
    exact hne hp.symm
  cases h with
  | countFailed err hm hr =>
    rw [(h0 hm hpan).2.2, (hcount _).1] at hr
    cases hr
  | countZero hm hr =>
    rw [(h0 hm hpan).2.2] at hr
    exact ((hcount _).2 (by rw [hr])).elim
  | makePanic total hm hr ht hneg =>
    exact ⟨fun _ h => by simp at h, h1, h2, h3, h4⟩
  | spawn total hm hr ht hneg =>
    refine ⟨fun h => by simp at h, ?_, ?_, fun _ => by simp, fun r hr => by simp at hr⟩
    · intro hk
      have := (h0 hm hpan).2.1
      simp only [] at hk
      rw [this] at hk
      cases hk
    · intro _ w hw he
      rw [List.eq_of_mem_replicate hw] at he
      cases he
  | drain e rest hm hc =>
    exact ⟨fun h => by simp [hm] at h, h1, h2, h3, fun r hr => by simp [hm] at hr⟩
  | mainReturn hm hc hcl =>
    refine ⟨fun h => by simp at h, h1, h2, fun _ => h3 (by simp [hm]), ?_⟩
    intro r hr
    cases hr
    exact ⟨hcl, hc, rfl⟩
  | receive i keys rest hw hc =>
    have hm := hrun i _ hw
    refine ⟨fun h => by simp [hm] at h, h1, ?_, fun _ => hlen hm i _, fun r hr => by simp [hm] at hr⟩
    intro hcan w hmem he
    rcases List.mem_or_eq_of_mem_set hmem with hmem | hmem
    · exact h2 hcan w hmem he
    · rw [hmem] at he
      cases he
  | exitClosed i hw hc hcl =>
    have hm := hrun i _ hw
    exact ⟨fun h => by simp [hm] at h, h1, fun _ _ _ _ => hcl, fun _ => hlen hm i _,
      fun r hr => by simp [hm] at hr⟩
  | exitDone i hw hd =>
    have hm := hrun i _ hw
    refine ⟨fun h => by simp [hm] at h, h1, ?_, fun _ => hlen hm i _,
      fun r hr => by simp [hm] at hr⟩
    intro hcan
    simp [hd] at hcan
  | metric i op k hw =>
    have hm := hrun i _ hw
    refine ⟨fun h => by simp [hm] at h, h1, ?_, fun _ => hlen hm i _, fun r hr => by simp [hm] at hr⟩
    intro hcan w hmem he
    rcases List.mem_or_eq_of_mem_set hmem with hmem | hmem
    · exact h2 hcan w hmem he
    · rw [hmem] at he
      cases he
  | workerSend i e k t hw hsent =>
    have hm := hrun i _ hw
    obtain ⟨f1, f2, f3, f4, f5, f6, f7, f8, f9, f10, f11, f12⟩ := sent_frame hsent
    refine ⟨fun h => by simp [f3, hm] at h, by simpa [f9, f6] using h1, ?_,
      fun _ => by simpa [f1] using hlen hm i (.running k), fun r hr => by simp [f3, hm] at hr⟩
    intro hcan w hmem he
    simp only [f1] at hmem
    rcases List.mem_or_eq_of_mem_set hmem with hmem | hmem
    · simpa [f9] using h2 (by simpa [f10] using hcan) w hmem he
    · rw [hmem] at he
      cases he
  | workerPanic i e k hw hcl => exact ⟨fun _ h => by simp at h, h1, h2, h3, h4⟩
  | dump i keys k hw =>
    have hm := hrun i _ hw
    refine ⟨fun h => by simp [hm] at h, h1, ?_, fun _ => hlen hm i _, fun r hr => by simp [hm] at hr⟩
    intro hcan w hmem he
    rcases List.mem_or_eq_of_mem_set hmem with hmem | hmem
    · exact h2 hcan w hmem he
    · rw [hmem] at he
      cases he
  | restore i data b k hw =>
    have hm := hrun i _ hw
    refine ⟨fun h => by simp [hm] at h, h1, ?_, fun _ => hlen hm i _, fun r hr => by simp [hm] at hr⟩
    intro hcan w hmem he
    rcases List.mem_or_eq_of_mem_set hmem with hmem | hmem
    · exact h2 hcan w hmem he
    · rw [hmem] at he
      cases he
  | delete i keys k hw =>
    have hm := hrun i _ hw
    refine ⟨fun h => by simp [hm] at h, h1, ?_, fun _ => hlen hm i _, fun r hr => by simp [hm] at hr⟩
    intro hcan w hmem he
    rcases List.mem_or_eq_of_mem_set hmem with hmem | hmem
    · exact h2 hcan w hmem he
    · rw [hmem] at he
      cases he
  | scanSend keys hp hr =>
    have hm := hstart _ hp (by simp)
    refine ⟨fun h => (hm h).elim, ?_, h2, h3, h4⟩
    intro hk
    have := h1 hk
    rw [hp] at this
    cases this
  | scanReturn hp hr =>
    have hm := hstart _ hp (by simp)
    refine ⟨fun h => (hm h).elim, ?_, h2, h3, h4⟩
    intro hk
    have := h1 hk
    rw [hp] at this
    cases this
  | scanFailed err hp hr =>
    have hm := hstart _ hp (by simp)
    refine ⟨fun h => (hm h).elim, ?_, h2, h3, h4⟩
    intro hk
    have := h1 hk
    rw [hp] at this
    cases this
  | enqueue keys hp hroom =>
    have hm := hstart _ hp (by simp)
    refine ⟨fun h => (hm h).elim, ?_, h2, h3, h4⟩
    intro hk
    have := h1 hk
    rw [hp] at this
    cases this
  | scanDone keys hp hd =>
    have hm := hstart _ hp (by simp)
    refine ⟨fun h => (hm h).elim, ?_, h2, h3, h4⟩
    intro hk
    have := h1 hk
    rw [hp] at this
    cases this
  | report e t hp hsent =>
    have hm := hstart _ hp (by simp)
    obtain ⟨f1, f2, f3, f4, f5, f6, f7, f8, f9, f10, f11, f12⟩ := sent_frame hsent
    refine ⟨fun h => (hm (by simpa [f3] using h)).elim, ?_, by simpa [f1, f9, f10] using h2,
      by simpa [f1, f3] using h3, ?_⟩
    · intro hk
      have := h1 (by simpa [f9] using hk)
      rw [hp] at this
      cases this
    · intro r hr
      have hr' : s.main = .returned r := by simpa [f3] using hr
      have hcl := (h4 r hr').1
      cases hsent with
      | buffered hclosed hroom => simp [hcl] at hclosed
      | handed hclosed hcap hmain => simp [hcl] at hclosed
  | reportPanic e hp hcl => exact ⟨fun _ h => by simp at h, h1, h2, h3, h4⟩
  | closeKeys hp =>
    have hm := hstart _ hp (by simp)
    exact ⟨fun h => (hm h).elim, fun _ => rfl, fun _ _ _ _ => rfl, h3, h4⟩
  | closeErrors hc hall =>
    refine ⟨fun h => ?_, h1, h2, h3, fun r hr => ?_⟩
    · have := (hS.1 h).2.1
      rw [hc] at this
      cases this
    · exact ⟨rfl, (h4 r hr).2⟩
  | cancel =>
    exact ⟨h0, h1, fun h => by simp at h, h3, h4⟩

theorem sum_map_set_split {α M : Type} [AddCommMonoid M] (f : α → M) (l : List α) (i : Nat)
    (a b : α) (h : l[i]? = some a) :
    ∃ R, (l.map f).sum = R + f a ∧ ((l.set i b).map f).sum = R + f b := by
  induction l generalizing i with
  | nil => simp at h
  | cons x xs ih =>
    cases i with
    | zero =>
      simp only [List.getElem?_cons_zero, Option.some.injEq] at h
      subst h
      exact ⟨(xs.map f).sum, by simp [add_comm], by simp [add_comm]⟩
    | succ j =>
      simp only [List.getElem?_cons_succ] at h
      obtain ⟨R, h1, h2⟩ := ih j h
      refine ⟨f x + R, ?_, ?_⟩
      · simp only [List.map_cons, List.sum_cons, h1, add_assoc]
      · simp only [List.set_cons_succ, List.map_cons, List.sum_cons, h2, add_assoc]

theorem failures_append (a b : List CallRecord) : failures (a ++ b) = failures a ++ failures b := by
  simp [failures, List.filterMap_append]

theorem processBatch_reports (config : Config) (keys : List String) :
    (processBatch config keys).pendingErrs = [] ∧ (processBatch config keys).Reports := by
  refine ⟨rfl, ?_⟩
  unfold processBatch
  intro r
  rcases r with ⟨E, _ | e⟩
  · refine ⟨rfl, ?_⟩
    intro r
    rcases r with ⟨S, _ | e⟩
    · simp only [updateMetricsForBatch]
      by_cases hf : (E.length : Int) - S.length > 0 <;>
        by_cases hm : config.Mode = MoveMode ∧ S.length > 0 <;>
        simp only [hf, hm, if_true, if_false, Prog.pendingErrs, Prog.Reports,
          CallRecord.failure, Option.toList, true_and, and_true] <;>
        first
          | trivial
          | (intro r; cases r <;> simp [Prog.pendingErrs, Prog.Reports, CallRecord.failure])
    · simp [Prog.pendingErrs, Prog.Reports, CallRecord.failure]
  · simp [Prog.pendingErrs, Prog.Reports, CallRecord.failure]

theorem accounted_update {W : Type} {s s' : State W} {w : Worker} (hI : Accounted s)
    (i : Nat) (w' : Worker) (hw : s.workers[i]? = some w)
    (hworkers : s'.workers = s.workers.set i w') (hrep : w'.Reports)
    (heq : ∀ R : Multiset GoError,
      Multiset.ofList s.errors + Multiset.ofList s.errorsChan +
          (R + Multiset.ofList w.pendingErrs) + Multiset.ofList s.producer.pendingErrs =
        Multiset.ofList (failures s.calls) →
      Multiset.ofList s'.errors + Multiset.ofList s'.errorsChan +
          (R + Multiset.ofList w'.pendingErrs) + Multiset.ofList s'.producer.pendingErrs =
        Multiset.ofList (failures s'.calls)) : Accounted s' := by
  obtain ⟨h1, h2⟩ := hI
  obtain ⟨R, hR1, hR2⟩ := sum_map_set_split (fun w => Multiset.ofList w.pendingErrs)
    s.workers i w w' hw
  refine ⟨?_, ?_⟩
  · rw [hworkers, hR2]
    apply heq
    rw [← hR1]
    exact h1
  · intro x hx
    rw [hworkers] at hx
    rcases List.mem_or_eq_of_mem_set hx with hx | hx
    · exact h2 x hx
    · exact hx ▸ hrep

theorem accounted_frame {W : Type} {s s' : State W} (hI : Accounted s)
    (hworkers : s'.workers = s.workers)
    (heq : ∀ R : Multiset GoError,
      Multiset.ofList s.errors + Multiset.ofList s.errorsChan + R +
          Multiset.ofList s.producer.pendingErrs = Multiset.ofList (failures s.calls) →
      Multiset.ofList s'.errors + Multiset.ofList s'.errorsChan + R +
          Multiset.ofList s'.producer.pendingErrs = Multiset.ofList (failures s'.calls)) :
    Accounted s' := by
  obtain ⟨h1, h2⟩ := hI
  refine ⟨?_, ?_⟩
  · rw [hworkers]
    exact heq _ h1
  · rw [hworkers]
    exact h2

theorem failures_singleton (x : CallRecord) : failures [x] = x.failure.toList := by
  cases h : x.failure <;> simp [failures, h]

theorem accounted_step {W : Type} {m : Migrator W} {w0 : W} {s s' : State W}
    (hS : Struct s) (hF : Flow m w0 s) (hI : Accounted s) (hpan : s.panicked = false)
    (h : Step m s s') : Accounted s' := by
  have hrep : ∀ (i : Nat) (w : Worker), s.workers[i]? = some w → w.Reports :=
    fun i w hi => hI.2 w (List.getElem?_mem hi)
  cases h with
  | countFailed err hm hr =>
    refine accounted_frame hI rfl fun R h => ?_
    simp only [← Multiset.cons_coe, ← Multiset.singleton_add, ← Multiset.coe_add,
      Multiset.coe_nil, add_zero, zero_add, failures_append, failures_singleton, Worker.pendingErrs,
      Prog.pendingErrs, Producer.pendingErrs, CallRecord.failure, Option.toList] at h ⊢
    exact h
  | countZero hm hr =>
    refine accounted_frame hI rfl fun R h => ?_
    simp only [← Multiset.cons_coe, ← Multiset.singleton_add, ← Multiset.coe_add,
      Multiset.coe_nil, add_zero, zero_add, failures_append, failures_singleton, Worker.pendingErrs,
      Prog.pendingErrs, Producer.pendingErrs, CallRecord.failure, Option.toList] at h ⊢
    exact h
  | makePanic total hm hr ht hneg =>
    refine accounted_frame hI rfl fun R h => ?_
    simp only [← Multiset.cons_coe, ← Multiset.singleton_add, ← Multiset.coe_add,
      Multiset.coe_nil, add_zero, zero_add, failures_append, failures_singleton, Worker.pendingErrs,
      Prog.pendingErrs, Producer.pendingErrs, CallRecord.failure, Option.toList] at h ⊢
    exact h
  | spawn total hm hr ht hneg =>
    obtain ⟨h, h2⟩ := hI
    rw [(hS.1 hm).1, (hF.1 hm hpan).1] at h
    refine ⟨?_, ?_⟩
    · have hz : ((List.replicate m.config.Concurrency.toNat (Worker.running Prog.ret)).map
          fun w => Multiset.ofList w.pendingErrs).sum = 0 := by
        simp [Worker.pendingErrs, Prog.pendingErrs]
      simp only [hz]
      simp only [List.map_nil, List.sum_nil] at h
      simp only [← Multiset.cons_coe, ← Multiset.singleton_add, ← Multiset.coe_add,
      Multiset.coe_nil, add_zero, zero_add, failures_append, failures_singleton, Worker.pendingErrs,
      Prog.pendingErrs, Producer.pendingErrs, CallRecord.failure, Option.toList] at h ⊢
      exact h
    · intro w hw
      rw [List.eq_of_mem_replicate hw]
      trivial
  | drain e rest hm hc =>
    refine accounted_frame hI rfl fun R h => ?_
    rw [hc] at h
    simp only [← Multiset.cons_coe, ← Multiset.singleton_add, ← Multiset.coe_add,
      Multiset.coe_nil, add_zero, zero_add, failures_append, failures_singleton, Worker.pendingErrs,
      Prog.pendingErrs, Producer.pendingErrs, CallRecord.failure, Option.toList] at h ⊢
    rw [← h]
    abel
  | mainReturn hm hc hcl => exact accounted_frame hI rfl fun R h => h
  | receive i keys rest hw hc =>
    refine accounted_update hI i (.running (processBatch m.config keys)) hw rfl
      (processBatch_reports _ _).2 fun R h => ?_
    simp only [Worker.pendingErrs, (processBatch_reports _ _).1]
    exact h
  | exitClosed i hw hc hcl =>
    exact accounted_update hI i .exited hw rfl trivial fun R h => h
  | exitDone i hw hd =>
    exact accounted_update hI i .exited hw rfl trivial fun R h => h
  | metric i op k hw =>
    refine accounted_update hI i (.running k) hw rfl
      (by simpa [Worker.Reports, Prog.Reports] using hrep i _ hw) fun R h => ?_
    exact h
  | workerSend i e k t hw hsent =>
    cases hsent with
    | buffered hclosed hroom =>
      refine accounted_update hI i (.running k) hw rfl
        (by simpa [Worker.Reports, Prog.Reports] using hrep i _ hw) fun R h => ?_
      simp only [← Multiset.cons_coe, ← Multiset.singleton_add, ← Multiset.coe_add,
      Multiset.coe_nil, add_zero, zero_add, failures_append, failures_singleton, Worker.pendingErrs,
      Prog.pendingErrs, Producer.pendingErrs, CallRecord.failure, Option.toList] at h ⊢
      rw [← h]
      abel
    | handed hclosed hcap hmain =>
      refine accounted_update hI i (.running k) hw rfl
        (by simpa [Worker.Reports, Prog.Reports] using hrep i _ hw) fun R h => ?_
      simp only [← Multiset.cons_coe, ← Multiset.singleton_add, ← Multiset.coe_add,
      Multiset.coe_nil, add_zero, zero_add, failures_append, failures_singleton, Worker.pendingErrs,
      Prog.pendingErrs, Producer.pendingErrs, CallRecord.failure, Option.toList] at h ⊢
      rw [← h]
      abel
  | workerPanic i e k hw hcl => exact accounted_frame hI rfl fun R h => h
  | dump i keys k hw =>
    have hk := hrep i _ hw (m.source.DumpKeys s.ctx keys s.world).1
    refine accounted_update hI i (.running _) hw rfl hk.2 fun R h => ?_
    simp only [Worker.pendingErrs, hk.1]
    simp only [← Multiset.cons_coe, ← Multiset.singleton_add, ← Multiset.coe_add,
      Multiset.coe_nil, add_zero, zero_add, failures_append, failures_singleton, Worker.pendingErrs,
      Prog.pendingErrs, Producer.pendingErrs, CallRecord.failure, Option.toList] at h ⊢
    rw [← h]
    abel
  | restore i data b k hw =>
    have hk := hrep i _ hw (m.dest.RestoreKeys s.ctx data b s.world).1
    refine accounted_update hI i (.running _) hw rfl hk.2 fun R h => ?_
    simp only [Worker.pendingErrs, hk.1]
    simp only [← Multiset.cons_coe, ← Multiset.singleton_add, ← Multiset.coe_add,
      Multiset.coe_nil, add_zero, zero_add, failures_append, failures_singleton, Worker.pendingErrs,
      Prog.pendingErrs, Producer.pendingErrs, CallRecord.failure, Option.toList] at h ⊢
    rw [← h]
    abel
  | delete i keys k hw =>
    have hk := hrep i _ hw (m.source.DeleteKeys s.ctx keys s.world).1
    refine accounted_update hI i (.running _) hw rfl hk.2 fun R h => ?_
    simp only [Worker.pendingErrs, hk.1]
    simp only [← Multiset.cons_coe, ← Multiset.singleton_add, ← Multiset.coe_add,
      Multiset.coe_nil, add_zero, zero_add, failures_append, failures_singleton, Worker.pendingErrs,
      Prog.pendingErrs, Producer.pendingErrs, CallRecord.failure, Option.toList] at h ⊢
    rw [← h]
    abel
  | scanSend keys hp hr =>
    refine accounted_frame hI rfl fun R h => ?_
    rw [hp] at h
    exact h
  | scanReturn hp hr =>
    refine accounted_frame hI rfl fun R h => ?_
    rw [hp] at h
    simp only [← Multiset.cons_coe, ← Multiset.singleton_add, ← Multiset.coe_add,
      Multiset.coe_nil, add_zero, zero_add, failures_append, failures_singleton, Worker.pendingErrs,
      Prog.pendingErrs, Producer.pendingErrs, CallRecord.failure, Option.toList] at h ⊢
    exact h
  | scanFailed err hp hr =>
    refine accounted_frame hI rfl fun R h => ?_
    rw [hp] at h
    simp only [← Multiset.cons_coe, ← Multiset.singleton_add, ← Multiset.coe_add,
      Multiset.coe_nil, add_zero, zero_add, failures_append, failures_singleton, Worker.pendingErrs,
      Prog.pendingErrs, Producer.pendingErrs, CallRecord.failure, Option.toList] at h ⊢
    rw [← h]
  | enqueue keys hp hroom =>
    refine accounted_frame hI rfl fun R h => ?_
    rw [hp] at h
    simp only [← Multiset.cons_coe, ← Multiset.singleton_add, ← Multiset.coe_add,
      Multiset.coe_nil, add_zero, zero_add, failures_append, failures_singleton, Worker.pendingErrs,
      Prog.pendingErrs, Producer.pendingErrs, CallRecord.failure, Option.toList] at h ⊢
    exact h
  | scanDone keys hp hd =>
    refine accounted_frame hI rfl fun R h => ?_
    rw [hp] at h
    simp only [← Multiset.cons_coe, ← Multiset.singleton_add, ← Multiset.coe_add,
      Multiset.coe_nil, add_zero, zero_add, failures_append, failures_singleton, Worker.pendingErrs,
      Prog.pendingErrs, Producer.pendingErrs, CallRecord.failure, Option.toList] at h ⊢
    rw [← h]
  | report e t hp hsent =>
    cases hsent with
    | buffered hclosed hroom =>
      refine accounted_frame hI rfl fun R h => ?_
      rw [hp] at h
      simp only [← Multiset.cons_coe, ← Multiset.singleton_add, ← Multiset.coe_add,
      Multiset.coe_nil, add_zero, zero_add, failures_append, failures_singleton, Worker.pendingErrs,
      Prog.pendingErrs, Producer.pendingErrs, CallRecord.failure, Option.toList] at h ⊢
      rw [← h]
      abel
    | handed hclosed hcap hmain =>
      refine accounted_frame hI rfl fun R h => ?_
      rw [hp] at h
      simp only [← Multiset.cons_coe, ← Multiset.singleton_add, ← Multiset.coe_add,
      Multiset.coe_nil, add_zero, zero_add, failures_append, failures_singleton, Worker.pendingErrs,
      Prog.pendingErrs, Producer.pendingErrs, CallRecord.failure, Option.toList] at h ⊢
      rw [← h]
      abel
  | reportPanic e hp hcl => exact accounted_frame hI rfl fun R h => h
  | closeKeys hp =>
    refine accounted_frame hI rfl fun R h => ?_
    rw [hp] at h
    exact h
  | closeErrors hc hall => exact accounted_frame hI rfl fun R h => h
  | cancel => exact accounted_frame hI rfl fun R h => h

theorem sum_pendingErrs_of_all_exited (ws : List Worker)
    (h : ws.all Worker.isExited = true) :
    (ws.map fun w => Multiset.ofList w.pendingErrs).sum = 0 := by
  induction ws with
  | nil => rfl
  | cons x xs ih =>
    simp only [List.all_cons, Bool.and_eq_true] at h
    cases x with
    | exited => simpa [Worker.pendingErrs] using ih h.2
    | running p => simp [Worker.isExited] at h

theorem errorsJoin_eq_none (errs : List GoError) : errorsJoin errs = none ↔ errs = [] := by
  cases errs <;> simp [errorsJoin]

/-- In a run on a fresh migrator with at least one worker and a non-zero count in which the
context is not cancelled, once `Migrate` has returned: its result is the join of `m.errors`,
which holds, in some order, exactly one error for each failed export, import, delete or scan
call; so the result is nil exactly when no such call failed. -/
theorem Migrate_reports_failures {W : Type} (m : Migrator W) (c : Bool) (w0 : W)
    (mt : Metrics) (s : State W) (r : Option GoError)
    (hfresh : m.errors = []) (hconc : 0 < m.config.Concurrency)
    (hcount : ∀ ctx,
      (m.source.CountKeys ctx m.config.Pattern m.config.BatchSize w0).1.2 = none ∧
      (m.source.CountKeys ctx m.config.Pattern m.config.BatchSize w0).1.1 ≠ 0)
    (hreach : Reachable m (State.init m c w0 mt) s)
    (hnc : s.cancelled = false) (hret : s.main = .returned r) :
    r = errorsJoin s.errors ∧ List.Perm s.errors (failures s.calls) ∧
      (r = none ↔ failures s.calls = []) := by
  have hinv := reachable_invariant (fun s => Struct s ∧ Flow m w0 s ∧ Accounted s)
    ⟨struct_init m c w0 mt, by simp [Flow, State.init],
      by simp [Accounted, State.init, hfresh, failures, Producer.pendingErrs]⟩
    (fun _ _ hI hp hs => ⟨struct_step hI.1 hs, flow_step hcount hI.1 hI.2.1 hp hs,
      accounted_step hI.1 hI.2.1 hI.2.2 hp hs⟩) hreach
  obtain ⟨hS, ⟨_, f1, f2, f3, f4⟩, ⟨hacc, _⟩⟩ := hinv
  obtain ⟨hcl, hchan, hr⟩ := f4 r hret
  have hall := hS.2.2 r hret
  have hlen : s.workers.length = m.config.Concurrency.toNat := f3 (by simp [hret])
  have hprod : s.producer = .finished := by
    cases hw : s.workers with
    | nil =>
      rw [hw] at hlen
      simp only [List.length_nil] at hlen
      omega
    | cons x xs =>
      have hx : x ∈ s.workers := by simp [hw]
      have hex : x = .exited := by
        rw [List.all_eq_true] at hall
        have := hall x hx
        cases x with
        | exited => rfl
        | running p => simp [Worker.isExited] at this
      exact f1 (f2 hnc x hx hex)
  rw [sum_pendingErrs_of_all_exited _ hall, hchan, hprod] at hacc
  simp only [Producer.pendingErrs, Multiset.coe_nil, add_zero] at hacc
  have hperm : List.Perm s.errors (failures s.calls) := Multiset.coe_eq_coe.mp hacc
  refine ⟨hr, hperm, ?_⟩
  rw [hr, errorsJoin_eq_none]
  constructor
  · intro h
    rw [h] at hperm
    exact List.perm_nil.mp hperm.symm
  · intro h
    rw [h] at hperm
    exact List.perm_nil.mp hperm

/-- The run `dumpFailSchedule` of `dumpFailMigrator`, in which the context is not cancelled:
`Migrate` returns the join of the one error of the failed export. -/
theorem Migrate_reports_failures_run :
    ∃ s, run dumpFailMigrator dumpFailSchedule
        (State.init dumpFailMigrator false 0 (NewMetrics 0)) = some s ∧
      s.main = .returned (some (.join
        [.wrapf "failed to dump keys" (.errorsNew "connection reset")])) ∧
      List.Perm s.errors (failures s.calls) :=
  ⟨_, rfl, rfl,
    (Migrate_reports_failures dumpFailMigrator false 0 (NewMetrics 0) _ _ rfl (by decide)
      (fun _ => ⟨rfl, show (2 : Int) ≠ 0 by decide⟩) ⟨dumpFailSchedule, rfl⟩ rfl rfl).2.1⟩

/-! ## config.go -/

theorem errorsJoin_eq_none_iff (errs : List GoError) : errorsJoin errs = none ↔ errs = [] := by
  cases errs <;> simp [errorsJoin]

/-- C14 fails on the code: `Validate` accepts `unvalidatedConfig`, whose batch size is 0 and
whose worker count is -1 (its result does not depend on these two fields at all), and
`Migrate` with this configuration panics in its first step, at the `make` of `keysChan`. -/
theorem Validate_accepts_nonpositive :
    unvalidatedConfig.BatchSize ≤ 0 ∧ unvalidatedConfig.Concurrency ≤ 0 ∧
      unvalidatedConfig.Validate = none ∧
      (∀ (c : Config) (batchSize concurrency : Int),
        ({ c with BatchSize := batchSize, Concurrency := concurrency } : Config).Validate =
          c.Validate) ∧
      (run unvalidatedMigrator [.main]
        (State.init unvalidatedMigrator false 0 (NewMetrics 0))).map State.panicked =
        some true :=
  ⟨by decide, by decide, rfl, fun _ _ _ => rfl, rfl⟩

/-- C15: `Validate` returns the join of the errors of the violated checks (empty source URL,
empty destination URL, mode outside the two modes, policy outside the three policies), one
for each violated check and in this order; it returns nil exactly when no check is
violated. -/
theorem Validate_reports_all (c : Config) :
    c.Validate = errorsJoin c.violations ∧
      (c.Validate = none ↔
        c.SourceURL ≠ "" ∧ c.DestURL ≠ "" ∧ (c.Mode = CopyMode ∨ c.Mode = MoveMode) ∧
          (c.Conflict = ErrorOnConflict ∨ c.Conflict = SkipOnConflict ∨
            c.Conflict = OverwriteOnConflict)) := by
  have e1 : (c.SourceURL = "") ↔ (c.SourceURL == "") = true := by simp
  have e2 : (c.DestURL = "") ↔ (c.DestURL == "") = true := by simp
  have e3 : (c.Mode ≠ CopyMode ∧ c.Mode ≠ MoveMode) ↔
      (c.Mode != CopyMode && c.Mode != MoveMode) = true := by simp
  have e4 : (c.Conflict ≠ ErrorOnConflict ∧ c.Conflict ≠ SkipOnConflict ∧
      c.Conflict ≠ OverwriteOnConflict) ↔
      (c.Conflict != ErrorOnConflict && c.Conflict != SkipOnConflict &&
        c.Conflict != OverwriteOnConflict) = true := by
    simp [and_assoc]
  have n3 : (c.Mode = CopyMode ∨ c.Mode = MoveMode) ↔
      ¬ (c.Mode ≠ CopyMode ∧ c.Mode ≠ MoveMode) :=
    (fun x : Int => (by omega : (x = 0 ∨ x = 1) ↔ ¬ (x ≠ 0 ∧ x ≠ 1))) c.Mode
  have n4 : (c.Conflict = ErrorOnConflict ∨ c.Conflict = SkipOnConflict ∨
      c.Conflict = OverwriteOnConflict) ↔
      ¬ (c.Conflict ≠ ErrorOnConflict ∧ c.Conflict ≠ SkipOnConflict ∧
        c.Conflict ≠ OverwriteOnConflict) :=
    (fun x : Int => (by omega :
      (x = 0 ∨ x = 1 ∨ x = 2) ↔ ¬ (x ≠ 0 ∧ x ≠ 1 ∧ x ≠ 2))) c.Conflict
  have h1 : c.Validate = errorsJoin c.violations := by
    unfold Config.Validate Config.violations Config.checks
    simp only [e1, e2, e3, e4]
    generalize (c.SourceURL == "") = b1
    generalize (c.DestURL == "") = b2
    generalize (c.Mode != CopyMode && c.Mode != MoveMode) = b3
    generalize (c.Conflict != ErrorOnConflict && c.Conflict != SkipOnConflict &&
      c.Conflict != OverwriteOnConflict) = b4
    cases b1 <;> cases b2 <;> cases b3 <;> cases b4 <;> simp [List.filter]
  refine ⟨h1, ?_⟩
  rw [h1, errorsJoin_eq_none_iff, n3, n4, Ne, Ne, e1, e2, e3, e4]
  unfold Config.violations Config.checks
  generalize (c.SourceURL == "") = b1
  generalize (c.DestURL == "") = b2
  generalize (c.Mode != CopyMode && c.Mode != MoveMode) = b3
  generalize (c.Conflict != ErrorOnConflict && c.Conflict != SkipOnConflict &&
    c.Conflict != OverwriteOnConflict) = b4
  cases b1 <;> cases b2 <;> cases b3 <;> cases b4 <;> simp [List.filter]

/-- C16: `ParseMode s` returns no error and the value `m` exactly when `m` is `CopyMode` or
`MoveMode` and `m.String()` is `s`; `ParseConflictBehavior s` returns no error and the value
`c` exactly when `c` is one of the three policies and `c.String()` is `s`; and each returns
an error exactly for the strings that are none of the names. -/
theorem Parse_inverts_String :
    (∀ (s : String) (m : Mode),
      ParseMode s = (m, none) ↔ (m = CopyMode ∨ m = MoveMode) ∧ Mode.String m = s) ∧
    (∀ s : String, (ParseMode s).2.isSome = true ↔ s ≠ "copy" ∧ s ≠ "move") ∧
    (∀ (s : String) (c : ConflictBehavior),
      ParseConflictBehavior s = (c, none) ↔
        (c = ErrorOnConflict ∨ c = SkipOnConflict ∨ c = OverwriteOnConflict) ∧
          ConflictBehavior.String c = s) ∧
    (∀ s : String, (ParseConflictBehavior s).2.isSome = true ↔
      s ≠ "error" ∧ s ≠ "skip" ∧ s ≠ "overwrite") := by
  have sc : Mode.String CopyMode = "copy" := by decide
  have sm : Mode.String MoveMode = "move" := by decide
  have se : ConflictBehavior.String ErrorOnConflict = "error" := by decide
  have ss : ConflictBehavior.String SkipOnConflict = "skip" := by decide
  have so : ConflictBehavior.String OverwriteOnConflict = "overwrite" := by decide
  refine ⟨?_, ?_, ?_, ?_⟩
  · intro s m
    constructor
    · intro h
      unfold ParseMode at h
      split at h
      · rename_i h1
        cases h
        exact ⟨Or.inl rfl, sc.trans h1.symm⟩
      · split at h
        · rename_i h2
          cases h
          exact ⟨Or.inr rfl, sm.trans h2.symm⟩
        · cases h
    · rintro ⟨hm | hm, hs⟩
      · subst hm
        rw [sc] at hs
        subst hs
        rfl
      · subst hm
        rw [sm] at hs
        subst hs
        rfl
  · intro s
    unfold ParseMode
    by_cases h1 : s = "copy"
    · simp [h1]
    · by_cases h2 : s = "move"
      · simp [h2]
      · simp [h1, h2]
  · intro s c
    constructor
    · intro h
      unfold ParseConflictBehavior at h
      split at h
      · rename_i h1
        cases h
        exact ⟨Or.inl rfl, se.trans h1.symm⟩
      · split at h
        · rename_i h2
          cases h
          exact ⟨Or.inr (Or.inl rfl), ss.trans h2.symm⟩
        · split at h
          · rename_i h3
            cases h
            exact ⟨Or.inr (Or.inr rfl), so.trans h3.symm⟩
          · cases h
    · rintro ⟨hc | hc | hc, hs⟩
      · subst hc
        rw [se] at hs
        subst hs
        rfl
      · subst hc
        rw [ss] at hs
        subst hs
        rfl
      · subst hc
        rw [so] at hs
        subst hs
        rfl
  · intro s
    unfold ParseConflictBehavior
    by_cases h1 : s = "error"
    · simp [h1]
    · by_cases h2 : s = "skip"
      · simp [h2]
      · by_cases h3 : s = "overwrite"
        · simp [h3]
        · simp [h1, h2, h3]

/-! ## Skipped keys -/

theorem batchMetrics_processed (config : Config) (E S : Nat) (mt : Metrics) :
    (batchMetrics config E S mt).processedKeys = mt.processedKeys + E := by
  unfold batchMetrics
  by_cases hc : config.Conflict = OverwriteOnConflict <;>
    by_cases hf : (E : Int) - S > 0 <;>
    simp [hc, hf, Metrics.AddProcessed, Metrics.AddFailed, Metrics.AddSuccess,
      Metrics.AddOverwritten]

theorem batchMetrics_failed (config : Config) (E S : Nat) (mt : Metrics) (h : S ≤ E) :
    (batchMetrics config E S mt).failedKeys = mt.failedKeys + ((E : Int) - S) := by
  unfold batchMetrics
  have h' : ((E : Int) - S > 0) ∨ (E : Int) - S = 0 := by omega
  rcases h' with h' | h'
  · by_cases hc : config.Conflict = OverwriteOnConflict <;>
      simp [hc, h', Metrics.AddProcessed, Metrics.AddFailed, Metrics.AddSuccess,
        Metrics.AddOverwritten]
  · have h'' : ¬ ((E : Int) - S > 0) := by omega
    by_cases hc : config.Conflict = OverwriteOnConflict <;>
      simp [hc, h', h'', Metrics.AddProcessed, Metrics.AddFailed, Metrics.AddSuccess,
        Metrics.AddOverwritten]

/-- C12, as stated, fails: `skipMigrator` runs under `SkipOnConflict`, its destination skips
the key `a` of the batch `a`, `b` and reports `b` alone, and `processBatch` adds 2 to
processed, the number of exported entries, not 2 - 1. -/
theorem skipped_key_is_processed :
    skipMigrator.config.Conflict = SkipOnConflict ∧
      (skipMigrator.source.DumpKeys ⟨false⟩ ["a", "b"] 0).1 =
        ([{ Key := "a", Data := "", TTL := 0 }, { Key := "b", Data := "", TTL := 0 }], none) ∧
      (skipMigrator.dest.RestoreKeys ⟨false⟩
        [{ Key := "a", Data := "", TTL := 0 }, { Key := "b", Data := "", TTL := 0 }]
        SkipOnConflict 0).1 = (["b"], none) ∧
      ((processBatch skipMigrator.config ["a", "b"]).exec skipMigrator ⟨false⟩
        freshSeq).metrics.processedKeys = freshSeq.metrics.processedKeys + 2 ∧
      ((processBatch skipMigrator.config ["a", "b"]).exec skipMigrator ⟨false⟩
        freshSeq).metrics.processedKeys ≠ freshSeq.metrics.processedKeys + (2 - 1) :=
  ⟨rfl, rfl, rfl, by decide, by decide⟩

/-- C12, amended: for a batch whose export returns `E` and whose import reports `S` without
error, `k` of the entries having been skipped (so `S` has at most len E - k keys),
`processBatch` adds len E to processed, which counts the `k` skipped entries on top of the
reported ones and is not len E - k unless `k` is 0: under every policy, and so under
`SkipOnConflict`. -/
theorem processBatch_processed_all {W : Type} (m : Migrator W) (ctx : Context)
    (keys : List String) (q : Seq W) (E : List KeyData) (S : List String) (w1 w2 : W)
    (k : Nat)
    (hdump : m.source.DumpKeys ctx keys q.world = ((E, none), w1))
    (hrestore : m.dest.RestoreKeys ctx E m.config.Conflict w1 = ((S, none), w2))
    (hskip : S.length + k ≤ E.length) :
    ((processBatch m.config keys).exec m ctx q).metrics.processedKeys =
        q.metrics.processedKeys + E.length ∧
      q.metrics.processedKeys + S.length + k ≤
        ((processBatch m.config keys).exec m ctx q).metrics.processedKeys ∧
      (0 < k → ((processBatch m.config keys).exec m ctx q).metrics.processedKeys ≠
        q.metrics.processedKeys + ((E.length : Int) - k)) := by
  have h : ((processBatch m.config keys).exec m ctx q).metrics.processedKeys =
      q.metrics.processedKeys + E.length := by
    rw [exec_processBatch_metrics]
    simp only [hdump, hrestore, Option.isSome_none, Bool.false_eq_true, if_false]
    exact batchMetrics_processed _ _ _ _
  refine ⟨h, ?_, fun hk => ?_⟩
  · rw [h]
    omega
  · rw [h]
    omega

/-- C12, amended, on `skipMigrator`: one of two entries is skipped and processed grows
by 2. -/
theorem processBatch_processed_all_witness :
    ((processBatch skipMigrator.config ["a", "b"]).exec skipMigrator ⟨false⟩
      freshSeq).metrics.processedKeys = freshSeq.metrics.processedKeys + (2 : Nat) :=
  (processBatch_processed_all skipMigrator ⟨false⟩ ["a", "b"] freshSeq
    [{ Key := "a", Data := "", TTL := 0 }, { Key := "b", Data := "", TTL := 0 }] ["b"] 0 0 1
    rfl rfl (by decide)).1

/-- C13: under `SkipOnConflict`, a `processBatch` call whose export returns `E` and
whose import reports `S` (no longer than `E`) adds len E - len S to failed, one for each
exported entry that is not reported, and leaves skipped as it is; and in every state of a
`Migrate` call, under every policy, skipped has its initial value. -/
theorem skipped_counted_as_failed {W : Type} (m : Migrator W) :
    (∀ (ctx : Context) (keys : List String) (q : Seq W) (E : List KeyData)
        (S : List String) (w1 w2 : W),
      m.config.Conflict = SkipOnConflict →
      m.source.DumpKeys ctx keys q.world = ((E, none), w1) →
      m.dest.RestoreKeys ctx E m.config.Conflict w1 = ((S, none), w2) →
      S.length ≤ E.length →
      ((processBatch m.config keys).exec m ctx q).metrics.failedKeys =
          q.metrics.failedKeys + ((E.length : Int) - S.length) ∧
        ((processBatch m.config keys).exec m ctx q).metrics.skippedKeys =
          q.metrics.skippedKeys) ∧
    (∀ (c : Bool) (w : W) (mt : Metrics) (s : State W),
      Reachable m (State.init m c w mt) s → s.metrics.skippedKeys = mt.skippedKeys) := by
  refine ⟨?_, fun c w mt s h => reachable_skippedKeys h⟩
  intro ctx keys q E S w1 w2 _ hd hr hlen
  rw [exec_processBatch_metrics]
  simp only [hd, hr, Option.isSome_none, Bool.false_eq_true, if_false]
  exact ⟨batchMetrics_failed _ _ _ _ hlen, (batchMetrics_skipped _ _ _ _).1⟩

/-- C13 on `skipMigrator`: the skipped key `a` adds 1 to failed, and a run of `Migrate` that
processes both batches ends with skipped = 0. -/
theorem skipped_counted_as_failed_witness :
    ((processBatch skipMigrator.config ["a", "b"]).exec skipMigrator ⟨false⟩
        freshSeq).metrics.failedKeys = freshSeq.metrics.failedKeys + ((2 : Nat) - (1 : Nat)) ∧
      ∃ s, run skipMigrator [.main, .producer, .producer, .worker 0, .worker 0, .worker 0,
          .worker 0, .worker 0, .worker 0]
          (State.init skipMigrator false 0 (NewMetrics 0)) = some s ∧
        s.metrics.failedKeys = 1 ∧ s.metrics.skippedKeys = 0 :=
  ⟨((skipped_counted_as_failed skipMigrator).1 ⟨false⟩ ["a", "b"] freshSeq
      [{ Key := "a", Data := "", TTL := 0 }, { Key := "b", Data := "", TTL := 0 }] ["b"] 0 0
      rfl rfl rfl (by decide)).1,
    _, rfl, rfl,
    (skipped_counted_as_failed skipMigrator).2 false 0 (NewMetrics 0) _
      ⟨[.main, .producer, .producer, .worker 0, .worker 0, .worker 0, .worker 0, .worker 0,
        .worker 0], rfl⟩⟩

/-! ## Every streamed batch is processed once -/

theorem drained_step {W : Type} {m : Migrator W} {s s' : State W}
    (hI : Drained m s) (h : Step m s s') : Drained m s' := by
  obtain ⟨d0, d1, d2, d3, d4, d5⟩ := hI
  have hlen : ∀ (i : Nat) (w' : Worker), s.producer ≠ .notStarted →
      (s.workers.set i w').length = m.config.Concurrency.toNat := by
    intro i w' hp
    rw [List.length_set]
    exact d5 hp
  cases h with
  | countFailed err hm hr => exact ⟨fun h => by simp at h, d1, d2, d3, d4, d5⟩
  | countZero hm hr => exact ⟨fun h => by simp at h, d1, d2, d3, d4, d5⟩
  | makePanic total hm hr ht hneg => exact ⟨d0, d1, d2, d3, d4, d5⟩
  | spawn total hm hr ht hneg =>
    have hp := d1 (d0 hm)
    refine ⟨fun h => by simp at h, fun h => by simp at h, ?_, ?_, d4, fun _ => by simp⟩
    · intro hk
      simp only [] at hk
      rw [hp.2] at hk
      cases hk
    · intro _ w hw he
      rw [List.eq_of_mem_replicate hw] at he
      cases he
  | drain e rest hm hc => exact ⟨fun h => by simp [hm] at h, d1, d2, d3, d4, d5⟩
  | mainReturn hm hc hcl => exact ⟨fun h => by simp at h, d1, d2, d3, d4, d5⟩
  | receive i keys rest hw hc =>
    refine ⟨d0, ?_, d2, ?_, ?_, hlen i _⟩
    · intro hp
      have := (d1 hp).1
      simp [hc] at this
    · intro hcan w hmem he
      rcases List.mem_or_eq_of_mem_set hmem with hmem | hmem
      · have := (d3 hcan w hmem he).2
        simp [hc] at this
      · rw [hmem] at he
        cases he
    · rw [hc] at d4
      simp only [List.length_cons] at d4
      simp only []
      omega
  | exitClosed i hw hc hcl =>
    exact ⟨d0, d1, d2, fun _ _ _ _ => ⟨hcl, hc⟩, d4, hlen i _⟩
  | exitDone i hw hd =>
    exact ⟨d0, d1, d2, fun hcan => by simp [hd] at hcan, d4, hlen i _⟩
  | metric i op k hw =>
    refine ⟨d0, d1, d2, ?_, d4, hlen i _⟩
    intro hcan w hmem he
    rcases List.mem_or_eq_of_mem_set hmem with hmem | hmem
    · exact d3 hcan w hmem he
    · rw [hmem] at he
      cases he
  | workerSend i e k t hw hsent =>
    cases hsent with
    | buffered hclosed hroom =>
      refine ⟨d0, d1, d2, ?_, d4, hlen i _⟩
      intro hcan w hmem he
      rcases List.mem_or_eq_of_mem_set hmem with hmem | hmem
      · exact d3 hcan w hmem he
      · rw [hmem] at he
        cases he
    | handed hclosed hcap hmain =>
      refine ⟨d0, d1, d2, ?_, d4, hlen i _⟩
      intro hcan w hmem he
      rcases List.mem_or_eq_of_mem_set hmem with hmem | hmem
      · exact d3 hcan w hmem he
      · rw [hmem] at he
        cases he
  | workerPanic i e k hw hcl => exact ⟨d0, d1, d2, d3, d4, d5⟩
  | dump i keys k hw =>
    refine ⟨d0, d1, d2, ?_, d4, hlen i _⟩
    intro hcan w hmem he
    rcases List.mem_or_eq_of_mem_set hmem with hmem | hmem
    · exact d3 hcan w hmem he
    · rw [hmem] at he
      cases he
  | restore i data b k hw =>
    refine ⟨d0, d1, d2, ?_, d4, hlen i _⟩
    intro hcan w hmem he
    rcases List.mem_or_eq_of_mem_set hmem with hmem | hmem
    · exact d3 hcan w hmem he
    · rw [hmem] at he
      cases he
  | delete i keys k hw =>
    refine ⟨d0, d1, d2, ?_, d4, hlen i _⟩
    intro hcan w hmem he
    rcases List.mem_or_eq_of_mem_set hmem with hmem | hmem
    · exact d3 hcan w hmem he
    · rw [hmem] at he
      cases he
  | scanSend keys hp hr =>
    exact ⟨fun hm => by have := d0 hm; simp [hp] at this, fun h => by simp at h,
      fun hk => by have := d2 hk; simp [hp] at this, d3, d4, fun _ => d5 (by simp [hp])⟩
  | scanReturn hp hr =>
    exact ⟨fun hm => by have := d0 hm; simp [hp] at this, fun h => by simp at h,
      fun hk => by have := d2 hk; simp [hp] at this, d3, d4, fun _ => d5 (by simp [hp])⟩
  | scanFailed err hp hr =>
    exact ⟨fun hm => by have := d0 hm; simp [hp] at this, fun h => by simp at h,
      fun hk => by have := d2 hk; simp [hp] at this, d3, d4, fun _ => d5 (by simp [hp])⟩
  | enqueue keys hp hroom =>
    refine ⟨fun hm => by have := d0 hm; simp [hp] at this, fun h => by simp at h,
      fun hk => by have := d2 hk; simp [hp] at this, ?_, ?_, fun _ => d5 (by simp [hp])⟩
    · intro hcan w hmem he
      have := d2 (d3 hcan w hmem he).1
      simp [hp] at this
    · simp only [List.length_append, List.length_singleton]
      omega
  | scanDone keys hp hd =>
    exact ⟨fun hm => by have := d0 hm; simp [hp] at this, fun h => by simp at h,
      fun hk => by have := d2 hk; simp [hp] at this, d3, d4, fun _ => d5 (by simp [hp])⟩
  | report e t hp hsent =>
    cases hsent with
    | buffered hclosed hroom =>
      exact ⟨fun hm => by have := d0 hm; simp [hp] at this, fun h => by simp at h,
        fun hk => by have := d2 hk; simp [hp] at this, d3, d4, fun _ => d5 (by simp [hp])⟩
    | handed hclosed hcap hmain =>
      exact ⟨fun hm => by have := d0 hm; simp [hp] at this, fun h => by simp at h,
        fun hk => by have := d2 hk; simp [hp] at this, d3, d4, fun _ => d5 (by simp [hp])⟩
  | reportPanic e hp hcl => exact ⟨d0, d1, d2, d3, d4, d5⟩
  | closeKeys hp =>
    exact ⟨fun hm => by have := d0 hm; simp [hp] at this, fun h => by simp at h,
      fun _ => rfl, fun hcan w hw he => ⟨rfl, (d3 hcan w hw he).2⟩, d4,
      fun _ => d5 (by simp [hp])⟩
  | closeErrors hc hall => exact ⟨d0, d1, d2, d3, d4, d5⟩
  | cancel => exact ⟨d0, d1, d2, fun h => by simp at h, d4, d5⟩

theorem scanSends_append (a b : List CallRecord) :
    scanSends (a ++ b) = scanSends a ++ scanSends b := by
  simp [scanSends, List.filterMap_append]

theorem scanSends_singleton (x : CallRecord) : scanSends [x] = x.sentBatch.toList := by
  cases h : x.sentBatch <;> simp [scanSends, h]

theorem dumped_append (a b : List CallReturn) : dumped (a ++ b) = dumped a ++ dumped b := by
  simp [dumped, List.filterMap_append]

theorem dumped_singleton (x : CallReturn) : dumped [x] = x.dumpedBatch.toList := by
  cases h : x.dumpedBatch <;> simp [dumped, h]

theorem processBatch_once (config : Config) (keys : List String) :
    (processBatch config keys).pendingDumps = [keys] ∧ (processBatch config keys).Once := by
  refine ⟨rfl, ?_⟩
  unfold processBatch
  intro r
  rcases r with ⟨E, _ | e⟩
  · refine ⟨rfl, ?_⟩
    intro r
    rcases r with ⟨S, _ | e⟩
    · simp only [updateMetricsForBatch]
      by_cases hf : (E.length : Int) - S.length > 0 <;>
        by_cases hm : config.Mode = MoveMode ∧ S.length > 0 <;>
        simp only [hf, hm, if_true, if_false, Prog.pendingDumps, Prog.Once, true_and,
          and_true] <;>
        first
          | trivial
          | (intro r; cases r <;> simp [Prog.pendingDumps, Prog.Once])
    · simp [Prog.pendingDumps, Prog.Once]
  · simp [Prog.pendingDumps, Prog.Once]

theorem streamed_update {W : Type} {s s' : State W} {w : Worker} (hI : Streamed s)
    (i : Nat) (w' : Worker) (hw : s.workers[i]? = some w)
    (hworkers : s'.workers = s.workers.set i w') (honce : w'.Once)
    (heq : ∀ R : Multiset (List String),
      Multiset.ofList (scanSends s.calls) =
        Multiset.ofList (dumped s.returns) + Multiset.ofList s.keysChan +
          (R + Multiset.ofList w.pendingDumps) →
      Multiset.ofList (scanSends s'.calls) =
        Multiset.ofList (dumped s'.returns) + Multiset.ofList s'.keysChan +
          (R + Multiset.ofList w'.pendingDumps)) : Streamed s' := by
  obtain ⟨h1, h2⟩ := hI
  obtain ⟨R, hR1, hR2⟩ := sum_map_set_split (fun w => Multiset.ofList w.pendingDumps)
    s.workers i w w' hw
  refine ⟨?_, ?_⟩
  · rw [hworkers, hR2]
    apply heq
    rw [← hR1]
    exact h1
  · intro x hx
    rw [hworkers] at hx
    rcases List.mem_or_eq_of_mem_set hx with hx | hx
    · exact h2 x hx
    · exact hx ▸ honce

theorem streamed_frame {W : Type} {s s' : State W} (hI : Streamed s)
    (hworkers : s'.workers = s.workers)
    (heq : ∀ R : Multiset (List String),
      Multiset.ofList (scanSends s.calls) =
        Multiset.ofList (dumped s.returns) + Multiset.ofList s.keysChan + R →
      Multiset.ofList (scanSends s'.calls) =
        Multiset.ofList (dumped s'.returns) + Multiset.ofList s'.keysChan + R) :
    Streamed s' := by
  obtain ⟨h1, h2⟩ := hI
  refine ⟨?_, ?_⟩
  · rw [hworkers]
    exact heq _ h1
  · rw [hworkers]
    exact h2

theorem streamed_step {W : Type} {m : Migrator W} {s s' : State W}
    (hS : Struct s) (hI : Streamed s) (h : Step m s s') : Streamed s' := by
  have honce : ∀ (i : Nat) (w : Worker), s.workers[i]? = some w → w.Once :=
    fun i w hi => hI.2 w (List.getElem?_mem hi)
  cases h with
  | countFailed err hm hr =>
    refine streamed_frame hI rfl fun R h => ?_
    simp only [← Multiset.cons_coe, ← Multiset.singleton_add, ← Multiset.coe_add,
      Multiset.coe_nil, add_zero, zero_add, scanSends_append, scanSends_singleton, dumped_append,
      dumped_singleton, Worker.pendingDumps, Prog.pendingDumps, CallRecord.sentBatch,
      CallReturn.dumpedBatch, Option.toList] at h ⊢
    exact h
  | countZero hm hr =>
    refine streamed_frame hI rfl fun R h => ?_
    simp only [← Multiset.cons_coe, ← Multiset.singleton_add, ← Multiset.coe_add,
      Multiset.coe_nil, add_zero, zero_add, scanSends_append, scanSends_singleton, dumped_append,
      dumped_singleton, Worker.pendingDumps, Prog.pendingDumps, CallRecord.sentBatch,
      CallReturn.dumpedBatch, Option.toList] at h ⊢
    exact h
  | makePanic total hm hr ht hneg =>
    refine streamed_frame hI rfl fun R h => ?_
    simp only [← Multiset.cons_coe, ← Multiset.singleton_add, ← Multiset.coe_add,
      Multiset.coe_nil, add_zero, zero_add, scanSends_append, scanSends_singleton, dumped_append,
      dumped_singleton, Worker.pendingDumps, Prog.pendingDumps, CallRecord.sentBatch,
      CallReturn.dumpedBatch, Option.toList] at h ⊢
    exact h
  | spawn total hm hr ht hneg =>
    obtain ⟨h, h2⟩ := hI
    rw [(hS.1 hm).1] at h
    refine ⟨?_, ?_⟩
    · have hz : ((List.replicate m.config.Concurrency.toNat (Worker.running Prog.ret)).map
          fun w => Multiset.ofList w.pendingDumps).sum = 0 := by
        simp [Worker.pendingDumps, Prog.pendingDumps]
      simp only [hz]
      simp only [List.map_nil, List.sum_nil] at h
      simp only [← Multiset.cons_coe, ← Multiset.singleton_add, ← Multiset.coe_add,
      Multiset.coe_nil, add_zero, zero_add, scanSends_append, scanSends_singleton, dumped_append,
      dumped_singleton, Worker.pendingDumps, Prog.pendingDumps, CallRecord.sentBatch,
      CallReturn.dumpedBatch, Option.toList] at h ⊢
      exact h
    · intro w hw
      rw [List.eq_of_mem_replicate hw]
      trivial
  | drain e rest hm hc => exact streamed_frame hI rfl fun R h => h
  | mainReturn hm hc hcl => exact streamed_frame hI rfl fun R h => h
  | receive i keys rest hw hc =>
    refine streamed_update hI i (.running (processBatch m.config keys)) hw rfl
      (processBatch_once _ _).2 fun R h => ?_
    rw [hc] at h
    simp only [Worker.pendingDumps, (processBatch_once _ _).1]
    simp only [← Multiset.cons_coe, ← Multiset.singleton_add, ← Multiset.coe_add,
      Multiset.coe_nil, add_zero, zero_add, scanSends_append, scanSends_singleton, dumped_append,
      dumped_singleton, Worker.pendingDumps, Prog.pendingDumps, CallRecord.sentBatch,
      CallReturn.dumpedBatch, Option.toList] at h ⊢
    rw [h]
    abel
  | exitClosed i hw hc hcl =>
    exact streamed_update hI i .exited hw rfl trivial fun R h => h
  | exitDone i hw hd =>
    exact streamed_update hI i .exited hw rfl trivial fun R h => h
  | metric i op k hw =>
    exact streamed_update hI i (.running k) hw rfl
      (by simpa [Worker.Once, Prog.Once] using honce i _ hw) fun R h => h
  | workerSend i e k t hw hsent =>
    cases hsent with
    | buffered hclosed hroom =>
      exact streamed_update hI i (.running k) hw rfl
        (by simpa [Worker.Once, Prog.Once] using honce i _ hw) fun R h => h
    | handed hclosed hcap hmain =>
      exact streamed_update hI i (.running k) hw rfl
        (by simpa [Worker.Once, Prog.Once] using honce i _ hw) fun R h => h
  | workerPanic i e k hw hcl => exact streamed_frame hI rfl fun R h => h
  | dump i keys k hw =>
    have hk := honce i _ hw (m.source.DumpKeys s.ctx keys s.world).1
    refine streamed_update hI i (.running _) hw rfl hk.2 fun R h => ?_
    simp only [Worker.pendingDumps, hk.1]
    simp only [← Multiset.cons_coe, ← Multiset.singleton_add, ← Multiset.coe_add,
      Multiset.coe_nil, add_zero, zero_add, scanSends_append, scanSends_singleton, dumped_append,
      dumped_singleton, Worker.pendingDumps, Prog.pendingDumps, CallRecord.sentBatch,
      CallReturn.dumpedBatch, Option.toList] at h ⊢
    rw [h]
    abel
  | restore i data b k hw =>
    have hk := honce i _ hw (m.dest.RestoreKeys s.ctx data b s.world).1
    refine streamed_update hI i (.running _) hw rfl hk.2 fun R h => ?_
    simp only [Worker.pendingDumps, hk.1]
    simp only [← Multiset.cons_coe, ← Multiset.singleton_add, ← Multiset.coe_add,
      Multiset.coe_nil, add_zero, zero_add, scanSends_append, scanSends_singleton, dumped_append,
      dumped_singleton, Worker.pendingDumps, Prog.pendingDumps, CallRecord.sentBatch,
      CallReturn.dumpedBatch, Option.toList] at h ⊢
    exact h
  | delete i keys k hw =>
    have hk := honce i _ hw (m.source.DeleteKeys s.ctx keys s.world).1
    refine streamed_update hI i (.running _) hw rfl hk.2 fun R h => ?_
    simp only [Worker.pendingDumps, hk.1]
    simp only [← Multiset.cons_coe, ← Multiset.singleton_add, ← Multiset.coe_add,
      Multiset.coe_nil, add_zero, zero_add, scanSends_append, scanSends_singleton, dumped_append,
      dumped_singleton, Worker.pendingDumps, Prog.pendingDumps, CallRecord.sentBatch,
      CallReturn.dumpedBatch, Option.toList] at h ⊢
    exact h
  | scanSend keys hp hr => exact streamed_frame hI rfl fun R h => h
  | scanReturn hp hr =>
    refine streamed_frame hI rfl fun R h => ?_
    simp only [← Multiset.cons_coe, ← Multiset.singleton_add, ← Multiset.coe_add,
      Multiset.coe_nil, add_zero, zero_add, scanSends_append, scanSends_singleton, dumped_append,
      dumped_singleton, Worker.pendingDumps, Prog.pendingDumps, CallRecord.sentBatch,
      CallReturn.dumpedBatch, Option.toList] at h ⊢
    exact h
  | scanFailed err hp hr =>
    refine streamed_frame hI rfl fun R h => ?_
    simp only [← Multiset.cons_coe, ← Multiset.singleton_add, ← Multiset.coe_add,
      Multiset.coe_nil, add_zero, zero_add, scanSends_append, scanSends_singleton, dumped_append,
      dumped_singleton, Worker.pendingDumps, Prog.pendingDumps, CallRecord.sentBatch,
      CallReturn.dumpedBatch, Option.toList] at h ⊢
    exact h
  | enqueue keys hp hroom =>
    refine streamed_frame hI rfl fun R h => ?_
    simp only [← Multiset.cons_coe, ← Multiset.singleton_add, ← Multiset.coe_add,
      Multiset.coe_nil, add_zero, zero_add, scanSends_append, scanSends_singleton, dumped_append,
      dumped_singleton, Worker.pendingDumps, Prog.pendingDumps, CallRecord.sentBatch,
      CallReturn.dumpedBatch, Option.toList] at h ⊢
    rw [h]
    abel
  | scanDone keys hp hd =>
    refine streamed_frame hI rfl fun R h => ?_
    simp only [← Multiset.cons_coe, ← Multiset.singleton_add, ← Multiset.coe_add,
      Multiset.coe_nil, add_zero, zero_add, scanSends_append, scanSends_singleton, dumped_append,
      dumped_singleton, Worker.pendingDumps, Prog.pendingDumps, CallRecord.sentBatch,
      CallReturn.dumpedBatch, Option.toList] at h ⊢
    exact h
  | report e t hp hsent =>
    cases hsent with
    | buffered hclosed hroom => exact streamed_frame hI rfl fun R h => h
    | handed hclosed hcap hmain => exact streamed_frame hI rfl fun R h => h
  | reportPanic e hp hcl => exact streamed_frame hI rfl fun R h => h
  | closeKeys hp => exact streamed_frame hI rfl fun R h => h
  | closeErrors hc hall => exact streamed_frame hI rfl fun R h => h
  | cancel => exact streamed_frame hI rfl fun R h => h

/-! ## The counters are the sum of the contributions of the batches -/

theorem apply_tally (op : MetricOp) (mt : Metrics) :
    (op.apply mt).tally = mt.tally + op.tally := by
  cases op <;>
    simp [MetricOp.apply, Metrics.tally, MetricOp.tally, Metrics.AddProcessed,
      Metrics.AddSuccess, Metrics.AddFailed, Metrics.AddOverwritten]

theorem setTotal_tally (mt : Metrics) (n : Int) : (mt.SetTotal n).tally = mt.tally := rfl

theorem processBatch_pays (config : Config) (keys : List String) :
    (processBatch config keys).pendingTally = 0 ∧ (processBatch config keys).Pays config := by
  refine ⟨rfl, ?_⟩
  unfold processBatch
  intro r
  rcases r with ⟨E, _ | e⟩
  · refine ⟨rfl, ?_⟩
    intro r
    rcases r with ⟨S, _ | e⟩
    · simp only [updateMetricsForBatch]
      by_cases hf : (E.length : Int) - S.length > 0 <;>
        by_cases hm : config.Mode = MoveMode ∧ S.length > 0 <;>
        by_cases ho : config.Conflict = OverwriteOnConflict <;>
        simp only [hf, hm, ho, if_true, if_false, Prog.pendingTally, Prog.Pays,
          CallReturn.tally, MetricOp.tally] <;>
        refine ⟨by simp, ?_⟩ <;>
        first
          | trivial
          | (intro r; cases r <;> simp [Prog.pendingTally, Prog.Pays, CallReturn.tally])
    · simp [Prog.pendingTally, Prog.Pays, CallReturn.tally, MetricOp.tally]
  · simp [Prog.pendingTally, Prog.Pays, CallReturn.tally, MetricOp.tally]

theorem tallied_update {W : Type} {m : Migrator W} {t0 : Tally} {s s' : State W}
    {w : Worker} (hI : Tallied m t0 s) (i : Nat) (w' : Worker)
    (hw : s.workers[i]? = some w) (hworkers : s'.workers = s.workers.set i w')
    (hpays : w'.Pays m.config)
    (heq : ∀ R : Tally,
      s.metrics.tally + (R + w.pendingTally) =
        t0 + (s.returns.map (CallReturn.tally m.config)).sum →
      s'.metrics.tally + (R + w'.pendingTally) =
        t0 + (s'.returns.map (CallReturn.tally m.config)).sum) : Tallied m t0 s' := by
  obtain ⟨h1, h2⟩ := hI
  obtain ⟨R, hR1, hR2⟩ := sum_map_set_split Worker.pendingTally s.workers i w w' hw
  refine ⟨?_, ?_⟩
  · rw [hworkers, hR2]
    apply heq
    rw [← hR1]
    exact h1
  · intro x hx
    rw [hworkers] at hx
    rcases List.mem_or_eq_of_mem_set hx with hx | hx
    · exact h2 x hx
    · exact hx ▸ hpays

theorem tallied_frame {W : Type} {m : Migrator W} {t0 : Tally} {s s' : State W}
    (hI : Tallied m t0 s) (hworkers : s'.workers = s.workers)
    (hmetrics : s'.metrics.tally = s.metrics.tally) (hreturns : s'.returns = s.returns) :
    Tallied m t0 s' := by
  obtain ⟨h1, h2⟩ := hI
  refine ⟨?_, ?_⟩
  · rw [hworkers, hmetrics, hreturns]
    exact h1
  · rw [hworkers]
    exact h2

theorem tallied_step {W : Type} {m : Migrator W} {t0 : Tally} {s s' : State W}
    (hS : Struct s) (hI : Tallied m t0 s) (h : Step m s s') : Tallied m t0 s' := by
  have hpays : ∀ (i : Nat) (w : Worker), s.workers[i]? = some w → w.Pays m.config :=
    fun i w hi => hI.2 w (List.getElem?_mem hi)
  cases h with
  | countFailed err hm hr => exact tallied_frame hI rfl rfl rfl
  | countZero hm hr => exact tallied_frame hI rfl rfl rfl
  | makePanic total hm hr ht hneg => exact tallied_frame hI rfl rfl rfl
  | spawn total hm hr ht hneg =>
    obtain ⟨h, h2⟩ := hI
    rw [(hS.1 hm).1] at h
    refine ⟨?_, ?_⟩
    · have hz : ((List.replicate m.config.Concurrency.toNat (Worker.running Prog.ret)).map
          Worker.pendingTally).sum = 0 := by
        simp [Worker.pendingTally, Prog.pendingTally]
      simp only [hz, setTotal_tally]
      simpa using h
    · intro w hw
      rw [List.eq_of_mem_replicate hw]
      trivial
  | drain e rest hm hc => exact tallied_frame hI rfl rfl rfl
  | mainReturn hm hc hcl => exact tallied_frame hI rfl rfl rfl
  | receive i keys rest hw hc =>
    refine tallied_update hI i (.running (processBatch m.config keys)) hw rfl
      (processBatch_pays _ _).2 fun R h => ?_
    simp only [Worker.pendingTally, (processBatch_pays _ _).1]
    simpa [Worker.pendingTally, Prog.pendingTally] using h
  | exitClosed i hw hc hcl =>
    refine tallied_update hI i .exited hw rfl trivial fun R h => ?_
    simpa [Worker.pendingTally, Prog.pendingTally] using h
  | exitDone i hw hd =>
    refine tallied_update hI i .exited hw rfl trivial fun R h => ?_
    simpa [Worker.pendingTally, Prog.pendingTally] using h
  | metric i op k hw =>
    refine tallied_update hI i (.running k) hw rfl
      (by simpa [Worker.Pays, Prog.Pays] using hpays i _ hw) fun R h => ?_
    simp only [Worker.pendingTally, Prog.pendingTally, apply_tally] at h ⊢
    rw [← h]
    abel
  | workerSend i e k t hw hsent =>
    cases hsent with
    | buffered hclosed hroom =>
      exact tallied_update hI i (.running k) hw rfl
        (by simpa [Worker.Pays, Prog.Pays] using hpays i _ hw) fun R h => h
    | handed hclosed hcap hmain =>
      exact tallied_update hI i (.running k) hw rfl
        (by simpa [Worker.Pays, Prog.Pays] using hpays i _ hw) fun R h => h
  | workerPanic i e k hw hcl => exact tallied_frame hI rfl rfl rfl
  | dump i keys k hw =>
    have hk := hpays i _ hw (m.source.DumpKeys s.ctx keys s.world).1
    refine tallied_update hI i (.running _) hw rfl hk.2 fun R h => ?_
    simp only [Worker.pendingTally, Prog.pendingTally, hk.1, List.map_append, List.sum_append,
      List.map_cons, List.map_nil, List.sum_cons, List.sum_nil, add_zero] at h ⊢
    rw [← add_assoc t0, ← h]
    abel
  | restore i data b k hw =>
    have hk := hpays i _ hw (m.dest.RestoreKeys s.ctx data b s.world).1
    refine tallied_update hI i (.running _) hw rfl hk.2 fun R h => ?_
    simp only [Worker.pendingTally, Prog.pendingTally, hk.1, List.map_append, List.sum_append,
      List.map_cons, List.map_nil, List.sum_cons, List.sum_nil, add_zero] at h ⊢
    rw [← add_assoc t0, ← h]
    abel
  | delete i keys k hw =>
    have hk := hpays i _ hw (m.source.DeleteKeys s.ctx keys s.world).1
    refine tallied_update hI i (.running _) hw rfl hk.2 fun R h => ?_
    simp only [Worker.pendingTally, Prog.pendingTally, hk.1, List.map_append, List.sum_append,
      List.map_cons, List.map_nil, List.sum_cons, List.sum_nil, add_zero] at h ⊢
    rw [← add_assoc t0, ← h]
    abel
  | scanSend keys hp hr => exact tallied_frame hI rfl rfl rfl
  | scanReturn hp hr => exact tallied_frame hI rfl rfl rfl
  | scanFailed err hp hr => exact tallied_frame hI rfl rfl rfl
  | enqueue keys hp hroom => exact tallied_frame hI rfl rfl rfl
  | scanDone keys hp hd => exact tallied_frame hI rfl rfl rfl
  | report e t hp hsent =>
    cases hsent with
    | buffered hclosed hroom => exact tallied_frame hI rfl rfl rfl
    | handed hclosed hcap hmain => exact tallied_frame hI rfl rfl rfl
  | reportPanic e hp hcl => exact tallied_frame hI rfl rfl rfl
  | closeKeys hp => exact tallied_frame hI rfl rfl rfl
  | closeErrors hc hall => exact tallied_frame hI rfl rfl rfl
  | cancel => exact tallied_frame hI rfl rfl rfl

theorem sum_map_of_all_exited {M : Type} [AddCommMonoid M] (f : Worker → M)
    (hf : f .exited = 0) (ws : List Worker) (h : ws.all Worker.isExited = true) :
    (ws.map f).sum = 0 := by
  induction ws with
  | nil => rfl
  | cons x xs ih =>
    simp only [List.all_cons, Bool.and_eq_true] at h
    cases x with
    | exited => simpa [hf] using ih h.2
    | running p => simp [Worker.isExited] at h

theorem drained_init {W : Type} (m : Migrator W) (c : Bool) (w : W) (mt : Metrics) :
    Drained m (State.init m c w mt) := by
  simp [Drained, State.init]

theorem streamed_init {W : Type} (m : Migrator W) (c : Bool) (w : W) (mt : Metrics) :
    Streamed (State.init m c w mt) := by
  simp [Streamed, State.init, scanSends, dumped]

theorem tallied_init {W : Type} (m : Migrator W) (c : Bool) (w : W) (mt : Metrics) :
    Tallied m mt.tally (State.init m c w mt) := by
  simp [Tallied, State.init]

theorem reachable_drained {W : Type} {m : Migrator W} {c : Bool} {w : W} {mt : Metrics}
    {s : State W} (h : Reachable m (State.init m c w mt) s) : Drained m s :=
  reachable_invariant (Drained m) (drained_init m c w mt)
    (fun _ _ hI _ hs => drained_step hI hs) h

theorem reachable_streamed {W : Type} {m : Migrator W} {c : Bool} {w : W} {mt : Metrics}
    {s : State W} (h : Reachable m (State.init m c w mt) s) : Streamed s := by
  have := reachable_invariant (fun s => Struct s ∧ Streamed s)
    ⟨struct_init m c w mt, streamed_init m c w mt⟩
    (fun _ _ hI _ hs => ⟨struct_step hI.1 hs, streamed_step hI.1 hI.2 hs⟩) h
  exact this.2

theorem reachable_tallied {W : Type} {m : Migrator W} {c : Bool} {w : W} {mt : Metrics}
    {s : State W} (h : Reachable m (State.init m c w mt) s) : Tallied m mt.tally s := by
  have := reachable_invariant (fun s => Struct s ∧ Tallied m mt.tally s)
    ⟨struct_init m c w mt, tallied_init m c w mt⟩
    (fun _ _ hI _ hs => ⟨struct_step hI.1 hs, tallied_step hI.1 hI.2 hs⟩) h
  exact this.2

theorem keysChan_empty_of_all_exited {W : Type} {m : Migrator W} {s : State W}
    (hD : Drained m s) (hc : s.cancelled = false)
    (hall : s.workers.all Worker.isExited = true) : s.keysChan = [] := by
  obtain ⟨_, d1, _, d3, d4, d5⟩ := hD
  cases hws : s.workers with
  | nil =>
    by_cases hp : s.producer = .notStarted
    · exact (d1 hp).1
    · have hlen := d5 hp
      rw [hws] at hlen
      have hcap : keysCap m = 0 := by
        simp only [List.length_nil] at hlen
        unfold keysCap
        omega
      rw [hcap] at d4
      exact List.length_eq_zero.mp (Nat.le_zero.mp d4)
  | cons x xs =>
    rw [hws] at hall
    simp only [List.all_cons, Bool.and_eq_true] at hall
    cases x with
    | exited => exact (d3 hc .exited (by rw [hws]; simp) rfl).2
    | running p => simp [Worker.isExited] at hall

/-! ## A call without cancellation returns -/

theorem processBatch_shrinks (config : Config) (keys : List String) :
    (processBatch config keys).weight = 8 ∧ (processBatch config keys).Shrinks := by
  refine ⟨rfl, ?_⟩
  unfold processBatch
  intro r
  rcases r with ⟨E, _ | e⟩
  · refine ⟨by simp [Prog.weight], ?_⟩
    intro r
    rcases r with ⟨S, _ | e⟩
    · simp only [updateMetricsForBatch]
      by_cases hf : (E.length : Int) - S.length > 0 <;>
        by_cases hm : config.Mode = MoveMode ∧ S.length > 0 <;>
        simp only [hf, hm, if_true, if_false, Prog.weight, Prog.Shrinks, true_and,
          and_true] <;>
        first
          | trivial
          | omega
          | (refine ⟨by omega, ?_⟩; intro r; cases r <;> simp [Prog.weight, Prog.Shrinks])
    · simp [Prog.weight, Prog.Shrinks]
  · simp [Prog.weight, Prog.Shrinks]

theorem has_set {Q : Prog → Prop} {ws : List Worker} (hI : ∀ w ∈ ws, w.Has Q) (i : Nat)
    (x : Worker) (hx : x.Has Q) : ∀ w ∈ ws.set i x, w.Has Q := by
  intro w hw
  rcases List.mem_or_eq_of_mem_set hw with hw | hw
  · exact hI w hw
  · exact hw ▸ hx

theorem hereditary_step {W : Type} {m : Migrator W} {Q : Prog → Prop} {s s' : State W}
    (hQ : Hereditary Q) (hproc : ∀ keys, Q (processBatch m.config keys))
    (hI : ∀ w ∈ s.workers, w.Has Q) (h : Step m s s') : ∀ w ∈ s'.workers, w.Has Q := by
  have hq : ∀ (i : Nat) (p : Prog), s.workers[i]? = some (.running p) → Q p :=
    fun i p hi => hI _ (List.getElem?_mem hi)
  cases h with
  | countFailed err hm hr => exact hI
  | countZero hm hr => exact hI
  | makePanic total hm hr ht hneg => exact hI
  | spawn total hm hr ht hneg =>
    intro w hw
    rw [List.eq_of_mem_replicate hw]
    exact hQ.ret
  | drain e rest hm hc => exact hI
  | mainReturn hm hc hcl => exact hI
  | receive i keys rest hw hc => exact has_set hI i _ (hproc keys)
  | exitClosed i hw hc hcl => exact has_set hI i _ trivial
  | exitDone i hw hd => exact has_set hI i _ trivial
  | metric i op k hw => exact has_set hI i _ (hQ.metric op k (hq i _ hw))
  | workerSend i e k t hw hsent =>
    cases hsent with
    | buffered hclosed hroom => exact has_set hI i _ (hQ.sendErr e k (hq i _ hw))
    | handed hclosed hcap hmain => exact has_set hI i _ (hQ.sendErr e k (hq i _ hw))
  | workerPanic i e k hw hcl => exact hI
  | dump i keys k hw => exact has_set hI i _ (hQ.dump keys k _ (hq i _ hw))
  | restore i data b k hw => exact has_set hI i _ (hQ.restore data b k _ (hq i _ hw))
  | delete i keys k hw => exact has_set hI i _ (hQ.delete keys k _ (hq i _ hw))
  | scanSend keys hp hr => exact hI
  | scanReturn hp hr => exact hI
  | scanFailed err hp hr => exact hI
  | enqueue keys hp hroom => exact hI
  | scanDone keys hp hd => exact hI
  | report e t hp hsent =>
    cases hsent with
    | buffered hclosed hroom => exact hI
    | handed hclosed hcap hmain => exact hI
  | reportPanic e hp hcl => exact hI
  | closeKeys hp => exact hI
  | closeErrors hc hall => exact hI
  | cancel => exact hI

theorem reachable_has {W : Type} {m : Migrator W} {Q : Prog → Prop} {c : Bool} {w : W}
    {mt : Metrics} {s : State W} (hQ : Hereditary Q)
    (hproc : ∀ keys, Q (processBatch m.config keys))
    (h : Reachable m (State.init m c w mt) s) : ∀ x ∈ s.workers, x.Has Q :=
  reachable_invariant (fun s => ∀ x ∈ s.workers, x.Has Q) (by simp [State.init])
    (fun _ _ hI _ hs => hereditary_step hQ hproc hI hs) h

theorem shrinks_hereditary : Hereditary Prog.Shrinks where
  ret := trivial
  metric := fun _ _ h => h
  sendErr := fun _ _ h => h
  dump := fun _ _ r h => (h r).2
  restore := fun _ _ _ r h => (h r).2
  delete := fun _ _ r h => (h r).2

theorem reachable_shrinks {W : Type} {m : Migrator W} {c : Bool} {w : W} {mt : Metrics}
    {s : State W} (h : Reachable m (State.init m c w mt) s) :
    ∀ (i : Nat) (p : Prog), s.workers[i]? = some (.running p) → p.Shrinks :=
  fun _ _ hi => reachable_has shrinks_hereditary (fun keys => (processBatch_shrinks _ keys).2) h
    _ (List.getElem?_mem hi)

theorem cancelled_mono {W : Type} {m : Migrator W} {s s' : State W} (h : Step m s s')
    (hc : s.cancelled = true) : s'.cancelled = true := by
  cases h with
  | workerSend i e k t hw hsent => cases hsent <;> exact hc
  | report e t hp hsent => cases hsent <;> exact hc
  | cancel => rfl
  | _ => exact hc

theorem run_append {W : Type} (m : Migrator W) (l1 l2 : List Label) (s : State W) :
    run m (l1 ++ l2) s = (run m l1 s).bind (run m l2) := by
  induction l1 generalizing s with
  | nil => rfl
  | cons l ls ih =>
    simp only [List.cons_append, run]
    cases step m l s with
    | none => rfl
    | some t => exact ih t

theorem reachable_step {W : Type} {m : Migrator W} {s0 s t : State W} {l : Label}
    (h : Reachable m s0 s) (hl : step m l s = some t) : Reachable m s0 t := by
  obtain ⟨ls, hls⟩ := h
  refine ⟨ls ++ [l], ?_⟩
  rw [run_append, hls]
  simp [run, hl]

theorem reachable_run {W : Type} {m : Migrator W} {s0 s t : State W} {ls : List Label}
    (h : Reachable m s0 s) (hl : run m ls s = some t) : Reachable m s0 t := by
  obtain ⟨l0, hl0⟩ := h
  refine ⟨l0 ++ ls, ?_⟩
  rw [run_append, hl0]
  exact hl

theorem step_not_panicked {W : Type} {m : Migrator W} {l : Label} {s t : State W}
    (h : step m l s = some t) : s.panicked = false := by
  cases hp : s.panicked with
  | false => rfl
  | true => simp [step, hp] at h

theorem weight_set (ws : List Worker) (i : Nat) (a b : Worker) (h : ws[i]? = some a) :
    ((ws.set i b).map Worker.weight).sum + a.weight =
      (ws.map Worker.weight).sum + b.weight := by
  obtain ⟨R, h1, h2⟩ := sum_map_set_split Worker.weight ws i a b h
  omega

theorem producer_weight_mono (p : Producer) {a b : Nat} (h : a ≤ b) :
    p.weight a ≤ p.weight b := by
  cases p <;> simp only [Producer.weight] <;> omega

theorem not_counting_of_worker {W : Type} {s : State W} {i : Nat} {w : Worker}
    (hS : Struct s) (hw : s.workers[i]? = some w) : s.main.isCounting = false := by
  cases hm : s.main with
  | counting =>
    rw [(hS.1 hm).1] at hw
    simp at hw
  | draining => rfl
  | returned r => rfl

theorem not_counting_of_producer {W : Type} {m : Migrator W} {s : State W}
    (hD : Drained m s) (hp : s.producer ≠ .notStarted) : s.main.isCounting = false := by
  cases hm : s.main with
  | counting => exact absurd (hD.1 hm) hp
  | draining => rfl
  | returned r => rfl

theorem not_counting_of_closer {W : Type} {s : State W}
    (hS : Struct s) (hp : s.closer ≠ .notStarted) : s.main.isCounting = false := by
  cases hm : s.main with
  | counting => exact absurd (hS.1 hm).2.1 hp
  | draining => rfl
  | returned r => rfl

theorem weight_replicate (n : Nat) :
    ((List.replicate n (Worker.running Prog.ret)).map Worker.weight).sum = n := by
  induction n with
  | zero => rfl
  | succ k ih =>
    simp only [List.replicate_succ, List.map_cons, List.sum_cons, ih, Worker.weight,
      Prog.weight]
    omega

theorem weight_step {W : Type} {m : Migrator W} {left : W → Nat} {s t : State W}
    (hscan : ScanEnds m left) (hS : Struct s) (hD : Drained m s)
    (hsh : ∀ (i : Nat) (p : Prog), s.workers[i]? = some (.running p) → p.Shrinks)
    (hpan : s.panicked = false) (hc : t.cancelled = false) (h : Step m s t) :
    State.weight m left t < State.weight m left s := by
  obtain ⟨hs1, hs2, hs3, hs4⟩ := hscan
  cases h with
  | countFailed err hm hr =>
    have h1 := hS.1 hm
    have h2 := hD.1 hm
    simp only [State.weight, hpan, hm, h1.1, h1.2.1, h2, Main.weight, Main.isCounting,
      Producer.weight, Closer.weight, List.map_nil, List.sum_nil, if_true, Bool.false_eq_true,
      if_false]
    omega
  | countZero hm hr =>
    have h1 := hS.1 hm
    have h2 := hD.1 hm
    simp only [State.weight, hpan, hm, h1.1, h1.2.1, h2, Main.weight, Main.isCounting,
      Producer.weight, Closer.weight, List.map_nil, List.sum_nil, if_true, Bool.false_eq_true,
      if_false]
    omega
  | makePanic total hm hr ht hneg =>
    simp only [State.weight, hpan, if_true, Bool.false_eq_true, if_false]
    omega
  | spawn total hm hr ht hneg =>
    have h1 := hS.1 hm
    have h2 := hD.1 hm
    simp only [State.weight, hpan, hm, h1.1, h1.2.1, h2, Main.weight, Main.isCounting,
      Producer.weight, Closer.weight, List.map_nil, List.sum_nil, if_true, Bool.false_eq_true,
      if_false, weight_replicate]
    omega
  | drain e rest hm hc2 =>
    simp only [State.weight, hpan, hm, hc2, Main.weight, Main.isCounting, List.length_cons,
      if_true, Bool.false_eq_true, if_false]
    omega
  | mainReturn hm hc2 hcl =>
    simp only [State.weight, hpan, hm, Main.weight, Main.isCounting, if_true,
      Bool.false_eq_true, if_false]
    omega
  | receive i keys rest hw hc2 =>
    have hne := not_counting_of_worker hS hw
    have hset := weight_set s.workers i _ (.running (processBatch m.config keys)) hw
    simp only [State.weight, hpan, hne, hc2, List.length_cons, if_true, Bool.false_eq_true,
      if_false]
    simp only [Worker.weight, Prog.weight, (processBatch_shrinks m.config keys).1] at hset
    omega
  | exitClosed i hw hc2 hcl =>
    have hne := not_counting_of_worker hS hw
    have hset := weight_set s.workers i _ .exited hw
    simp only [State.weight, hpan, hne, if_true, Bool.false_eq_true, if_false]
    simp only [Worker.weight, Prog.weight] at hset
    omega
  | exitDone i hw hd =>
    simp only [] at hc
    rw [hd] at hc
    cases hc
  | metric i op k hw =>
    have hne := not_counting_of_worker hS hw
    have hset := weight_set s.workers i _ (.running k) hw
    simp only [State.weight, hpan, hne, if_true, Bool.false_eq_true, if_false]
    simp only [Worker.weight, Prog.weight] at hset
    omega
  | workerSend i e k u hw hsent =>
    have hne := not_counting_of_worker hS hw
    have hset := weight_set s.workers i _ (.running k) hw
    simp only [Worker.weight, Prog.weight] at hset
    cases hsent with
    | buffered hclosed hroom =>
      simp only [State.weight, hpan, hne, List.length_append, List.length_singleton, if_true,
        Bool.false_eq_true, if_false]
      omega
    | handed hclosed hcap hmain =>
      simp only [State.weight, hpan, hne, if_true, Bool.false_eq_true, if_false]
      omega
  | workerPanic i e k hw hcl =>
    simp only [State.weight, hpan, if_true, Bool.false_eq_true, if_false]
    omega
  | dump i keys k hw =>
    have hne := not_counting_of_worker hS hw
    have hset := weight_set s.workers i _
      (.running (k (m.source.DumpKeys s.ctx keys s.world).1)) hw
    have hk := (hsh i _ hw (m.source.DumpKeys s.ctx keys s.world).1).1
    have hl := producer_weight_mono s.producer (hs2 s.ctx keys s.world)
    simp only [State.weight, hpan, hne, if_true, Bool.false_eq_true, if_false]
    simp only [Worker.weight, Prog.weight] at hset hk
    omega
  | restore i data b k hw =>
    have hne := not_counting_of_worker hS hw
    have hset := weight_set s.workers i _
      (.running (k (m.dest.RestoreKeys s.ctx data b s.world).1)) hw
    have hk := (hsh i _ hw (m.dest.RestoreKeys s.ctx data b s.world).1).1
    have hl := producer_weight_mono s.producer (hs3 s.ctx data b s.world)
    simp only [State.weight, hpan, hne, if_true, Bool.false_eq_true, if_false]
    simp only [Worker.weight, Prog.weight] at hset hk
    omega
  | delete i keys k hw =>
    have hne := not_counting_of_worker hS hw
    have hset := weight_set s.workers i _
      (.running (k (m.source.DeleteKeys s.ctx keys s.world).1)) hw
    have hk := (hsh i _ hw (m.source.DeleteKeys s.ctx keys s.world).1).1
    have hl := producer_weight_mono s.producer (hs4 s.ctx keys s.world)
    simp only [State.weight, hpan, hne, if_true, Bool.false_eq_true, if_false]
    simp only [Worker.weight, Prog.weight] at hset hk
    omega
  | scanSend keys hp hr =>
    have hne := not_counting_of_producer hD (by rw [hp]; exact fun h => by cases h)
    have hl := hs1 s.ctx s.world keys hr
    simp only [State.weight, hpan, hne, hp, Producer.weight, if_true, Bool.false_eq_true,
      if_false]
    omega
  | scanReturn hp hr =>
    have hne := not_counting_of_producer hD (by rw [hp]; exact fun h => by cases h)
    simp only [State.weight, hpan, hne, hp, Producer.weight, if_true, Bool.false_eq_true,
      if_false]
    omega
  | scanFailed err hp hr =>
    have hne := not_counting_of_producer hD (by rw [hp]; exact fun h => by cases h)
    simp only [State.weight, hpan, hne, hp, Producer.weight, if_true, Bool.false_eq_true,
      if_false]
    omega
  | enqueue keys hp hroom =>
    have hne := not_counting_of_producer hD (by rw [hp]; exact fun h => by cases h)
    simp only [State.weight, hpan, hne, hp, Producer.weight, List.length_append,
      List.length_singleton, if_true, Bool.false_eq_true, if_false]
    omega
  | scanDone keys hp hd =>
    simp only [] at hc
    rw [hd] at hc
    cases hc
  | report e u hp hsent =>
    have hne := not_counting_of_producer hD (by rw [hp]; exact fun h => by cases h)
    cases hsent with
    | buffered hclosed hroom =>
      simp only [State.weight, hpan, hne, hp, Producer.weight, List.length_append,
        List.length_singleton, if_true, Bool.false_eq_true, if_false]
      omega
    | handed hclosed hcap hmain =>
      simp only [State.weight, hpan, hne, hp, Producer.weight, if_true, Bool.false_eq_true,
        if_false]
      omega
  | reportPanic e hp hcl =>
    simp only [State.weight, hpan, if_true, Bool.false_eq_true, if_false]
    omega
  | closeKeys hp =>
    have hne := not_counting_of_producer hD (by rw [hp]; exact fun h => by cases h)
    simp only [State.weight, hpan, hne, hp, Producer.weight, if_true, Bool.false_eq_true,
      if_false]
    omega
  | closeErrors hc2 hall =>
    have hne := not_counting_of_closer hS (by rw [hc2]; exact fun h => by cases h)
    simp only [State.weight, hpan, hne, hc2, Closer.weight, if_true, Bool.false_eq_true,
      if_false]
    omega
  | cancel => cases hc

theorem live_init {W : Type} (m : Migrator W) (c : Bool) (w : W) (mt : Metrics) :
    Live m (State.init m c w mt) := by
  simp [Live, State.init]

theorem live_step {W : Type} {m : Migrator W} {s t : State W}
    (hS : Struct s) (hD : Drained m s) (hL : Live m s) (hpan : s.panicked = false)
    (h : Step m s t) : Live m t := by
  obtain ⟨l1, l2, l3, l4, l5, l6⟩ := hL
  cases h with
  | countFailed err hm hr =>
    exact ⟨l1, l2, fun h => (by cases h), fun _ _ => hpan, l5, l6⟩
  | countZero hm hr =>
    exact ⟨l1, l2, fun h => (by cases h), fun _ _ => hpan, l5, l6⟩
  | makePanic total hm hr ht hneg =>
    exact ⟨l1, l2, l3, fun hpos _ => absurd hpos (by omega), l5, l6⟩
  | spawn total hm hr ht hneg =>
    exact ⟨fun h => (by cases h), fun h => (by cases h),
      fun _ => ⟨fun h => (by cases h), fun h => (by cases h)⟩, fun _ _ => hpan,
      fun _ => (fun h => (by cases h)), fun h => (by rw [(hS.1 hm).2.2] at h; cases h)⟩
  | drain e rest hm hc => exact ⟨l1, l2, l3, fun _ _ => hpan, l5, l6⟩
  | mainReturn hm hc hcl => exact ⟨l1, l2, fun h => (by cases h), fun _ _ => hpan, l5, l6⟩
  | receive i keys rest hw hc => exact ⟨l1, l2, l3, fun _ _ => hpan, l5, l6⟩
  | exitClosed i hw hc hcl => exact ⟨l1, l2, l3, fun _ _ => hpan, l5, l6⟩
  | exitDone i hw hd => exact ⟨l1, l2, l3, fun _ _ => hpan, l5, l6⟩
  | metric i op k hw => exact ⟨l1, l2, l3, fun _ _ => hpan, l5, l6⟩
  | workerSend i e k u hw hsent =>
    cases hsent with
    | buffered hclosed hroom => exact ⟨l1, l2, l3, fun _ _ => hpan, l5, l6⟩
    | handed hclosed hcap hmain => exact ⟨l1, l2, l3, fun _ _ => hpan, l5, l6⟩
  | workerPanic i e k hw hcl =>
    exact ⟨l1, l2, l3, fun _ _ => (all_exited_not_running _ i _ (hS.2.1 hcl) hw).elim, l5,
      l6⟩
  | dump i keys k hw => exact ⟨l1, l2, l3, fun _ _ => hpan, l5, l6⟩
  | restore i data b k hw => exact ⟨l1, l2, l3, fun _ _ => hpan, l5, l6⟩
  | delete i keys k hw => exact ⟨l1, l2, l3, fun _ _ => hpan, l5, l6⟩
  | scanSend keys hp hr =>
    exact ⟨fun h => (by cases h), l2, fun hm => ⟨fun h => (by cases h), (l3 hm).2⟩,
      fun _ _ => hpan, fun _ => (fun h => (by cases h)), l6⟩
  | scanReturn hp hr =>
    exact ⟨fun h => (by cases h), l2, fun hm => ⟨fun h => (by cases h), (l3 hm).2⟩,
      fun _ _ => hpan, fun _ => (fun h => (by cases h)), l6⟩
  | scanFailed err hp hr =>
    exact ⟨fun h => (by cases h), l2, fun hm => ⟨fun h => (by cases h), (l3 hm).2⟩,
      fun _ _ => hpan, fun _ => (fun h => (by cases h)), l6⟩
  | enqueue keys hp hroom =>
    exact ⟨fun h => (by cases h), l2, fun hm => ⟨fun h => (by cases h), (l3 hm).2⟩,
      fun _ _ => hpan, fun _ => (fun h => (by cases h)), l6⟩
  | scanDone keys hp hd =>
    exact ⟨fun h => (by cases h), l2, fun hm => ⟨fun h => (by cases h), (l3 hm).2⟩,
      fun _ _ => hpan, fun _ => (fun h => (by cases h)), l6⟩
  | report e u hp hsent =>
    cases hsent with
    | buffered hclosed hroom =>
      exact ⟨fun h => (by cases h), l2, fun hm => ⟨fun h => (by cases h), (l3 hm).2⟩,
        fun _ _ => hpan, fun _ => (fun h => (by cases h)), l6⟩
    | handed hclosed hcap hmain =>
      exact ⟨fun h => (by cases h), l2, fun hm => ⟨fun h => (by cases h), (l3 hm).2⟩,
        fun _ _ => hpan, fun _ => (fun h => (by cases h)), l6⟩
  | reportPanic e hp hcl =>
    refine ⟨l1, l2, l3, fun hpos hcan => ?_, l5, l6⟩
    exfalso
    have hall := hS.2.1 hcl
    obtain ⟨_, _, d2, d3, _, d5⟩ := hD
    have hlen := d5 (by rw [hp]; exact fun h => (by cases h))
    cases hws : s.workers with
    | nil =>
      rw [hws] at hlen
      simp only [List.length_nil] at hlen
      omega
    | cons x xs =>
      rw [hws] at hall
      simp only [List.all_cons, Bool.and_eq_true] at hall
      cases x with
      | exited =>
        have := d2 (d3 hcan .exited (by rw [hws]; simp) rfl).1
        rw [hp] at this
        cases this
      | running p => simp [Worker.isExited] at hall
  | closeKeys hp =>
    exact ⟨fun _ => rfl, l2, fun hm => ⟨fun h => (by cases h), (l3 hm).2⟩, fun _ _ => hpan,
      fun _ => (fun h => (by cases h)), l6⟩
  | closeErrors hc hall =>
    exact ⟨l1, fun _ => rfl, fun hm => ⟨(l3 hm).1, fun h => (by cases h)⟩, fun _ _ => hpan,
      fun _ => l5 (by rw [hc]; exact fun h => (by cases h)), fun _ => rfl⟩
  | cancel => exact ⟨l1, l2, l3, fun _ h => (by cases h), l5, l6⟩

theorem reachable_live {W : Type} {m : Migrator W} {c : Bool} {w : W} {mt : Metrics}
    {s : State W} (h : Reachable m (State.init m c w mt) s) : Live m s := by
  have := reachable_invariant (fun s => Struct s ∧ Drained m s ∧ Live m s)
    ⟨struct_init m c w mt, drained_init m c w mt, live_init m c w mt⟩
    (fun _ _ hI hp hs => ⟨struct_step hI.1 hs, drained_step hI.2.1 hs,
      live_step hI.1 hI.2.1 hI.2.2 hp hs⟩) h
  exact this.2.2

theorem worker_enabled {W : Type} (m : Migrator W) (s : State W) (i : Nat) (p : Prog)
    (hpan : s.panicked = false) (hw : s.workers[i]? = some (.running p))
    (hopen : s.errorsClosed = false) (hroom : s.errorsChan.length < errorsCap m)
    (hkeys : s.keysChan ≠ [] ∨ s.keysClosed = true) :
    ∃ t, step m (.worker i) s = some t ∧ t.cancelled = s.cancelled := by
  cases p with
  | ret =>
    cases hk : s.keysChan with
    | nil =>
      have hcl : s.keysClosed = true := by
        rcases hkeys with h | h
        · exact absurd hk h
        · exact h
      simp [step, hpan, worker, hw, hk, hcl]
    | cons keys rest => simp [step, hpan, worker, hw, hk]
  | metric op k => simp [step, hpan, worker, hw]
  | sendErr e k => simp [step, hpan, worker, hw, sendError, hopen, hroom]
  | DumpKeys keys k => simp [step, hpan, worker, hw]
  | RestoreKeys data b k => simp [step, hpan, worker, hw]
  | DeleteKeys keys k => simp [step, hpan, worker, hw]

theorem exists_running (ws : List Worker) (h : ws.all Worker.isExited = false) :
    ∃ (i : Nat) (p : Prog), ws[i]? = some (Worker.running p) := by
  induction ws with
  | nil => simp at h
  | cons x xs ih =>
    cases x with
    | running p => exact ⟨0, p, by simp⟩
    | exited =>
      simp only [List.all_cons, Worker.isExited, Bool.true_and] at h
      obtain ⟨i, p, hi⟩ := ih h
      exact ⟨i + 1, p, by simpa using hi⟩

theorem step_enabled {W : Type} (m : Migrator W) (s : State W)
    (hD : Drained m s) (hL : Live m s) (hpos : 0 < m.config.Concurrency)
    (hc : s.cancelled = false) (hret : ∀ r, s.main ≠ .returned r) :
    ∃ l t, step m l s = some t ∧ t.cancelled = false := by
  have hpan := hL.2.2.2.1 hpos hc
  have hcap : 0 < errorsCap m := by
    unfold errorsCap
    omega
  have hkcap : 0 < keysCap m := by
    unfold keysCap
    omega
  cases hm : s.main with
  | returned r => exact absurd hm (hret r)
  | counting =>
    refine ⟨.main, ?_⟩
    simp only [step, hpan, Migrate, hm, Bool.false_eq_true, if_false]
    split
    · exact ⟨_, rfl, hc⟩
    · split
      · exact ⟨_, rfl, hc⟩
      · split
        · exact ⟨_, rfl, hc⟩
        · exact ⟨_, rfl, hc⟩
  | draining =>
    cases hec : s.errorsChan with
    | cons e rest =>
      refine ⟨.main, ?_⟩
      simp only [step, hpan, Migrate, hm, hec, Bool.false_eq_true, if_false]
      exact ⟨_, rfl, hc⟩
    | nil =>
      cases hcl : s.errorsClosed with
      | true =>
        refine ⟨.main, ?_⟩
        simp only [step, hpan, Migrate, hm, hec, hcl, Bool.false_eq_true, if_false, if_true]
        exact ⟨_, rfl, hc⟩
      | false =>
        have hroom : s.errorsChan.length < errorsCap m := by
          rw [hec]
          exact hcap
        have hwk : ∀ (i : Nat) (p : Prog), s.workers[i]? = some (.running p) →
            (s.keysChan ≠ [] ∨ s.keysClosed = true) →
            ∃ l t, step m l s = some t ∧ t.cancelled = false := by
          intro i p hw hk
          obtain ⟨t, ht, htc⟩ := worker_enabled m s i p hpan hw hcl hroom hk
          exact ⟨.worker i, t, ht, htc.trans hc⟩
        cases hp : s.producer with
        | notStarted => exact absurd hp (hL.2.2.1 hm).1
        | scanning =>
          refine ⟨.producer, ?_⟩
          simp only [step, hpan, producer, hp, Bool.false_eq_true, if_false]
          split
          · exact ⟨_, rfl, hc⟩
          · exact ⟨_, rfl, hc⟩
          · exact ⟨_, rfl, hc⟩
        | sending keys =>
          by_cases hroomk : s.keysChan.length < keysCap m
          · refine ⟨.producer, ?_⟩
            simp only [step, hpan, producer, hp, hroomk, Bool.false_eq_true, if_false, if_true]
            exact ⟨_, rfl, hc⟩
          · have hne : s.keysChan ≠ [] := by
              intro h
              rw [h] at hroomk
              exact hroomk hkcap
            have hlen := hD.2.2.2.2.2 (by rw [hp]; exact fun h => by cases h)
            cases hws : s.workers with
            | nil =>
              rw [hws] at hlen
              simp only [List.length_nil] at hlen
              omega
            | cons x xs =>
              cases x with
              | exited =>
                have := hD.2.2.1 (hD.2.2.2.1 hc .exited (by rw [hws]; simp) rfl).1
                rw [hp] at this
                cases this
              | running p => exact hwk 0 p (by rw [hws]; simp) (Or.inl hne)
        | reporting e =>
          refine ⟨.producer, ?_⟩
          simp only [step, hpan, producer, hp, sendError, hcl, hroom, Bool.false_eq_true,
            if_false, if_true]
          exact ⟨_, rfl, hc⟩
        | closing =>
          refine ⟨.producer, ?_⟩
          simp only [step, hpan, producer, hp, Bool.false_eq_true, if_false]
          exact ⟨_, rfl, hc⟩
        | finished =>
          have hkc := hL.1 hp
          cases hall : s.workers.all Worker.isExited with
          | true =>
            cases hcs : s.closer with
            | notStarted => exact absurd hcs (hL.2.2.1 hm).2
            | waiting =>
              refine ⟨.closer, ?_⟩
              simp only [step, hpan, closer, hcs, hall, Bool.false_eq_true, if_false, if_true]
              exact ⟨_, rfl, hc⟩
            | finished =>
              have := hL.2.1 hcs
              rw [hcl] at this
              cases this
          | false =>
            obtain ⟨i, p, hw⟩ := exists_running s.workers hall
            exact hwk i p hw (Or.inr hkc)

theorem run_cancelled {W : Type} {m : Migrator W} {ls : List Label} {s t : State W}
    (h : run m ls s = some t) (hc : t.cancelled = false) : s.cancelled = false := by
  cases hs : s.cancelled with
  | false => rfl
  | true =>
    have ht : t.cancelled = true := run_invariant (fun s => s.cancelled = true)
      (fun _ _ hI _ hstep => cancelled_mono hstep hI) ls s t hs h
    rw [hc] at ht
    cases ht

theorem run_weight {W : Type} {m : Migrator W} {left : W → Nat} {c : Bool} {w : W}
    {mt : Metrics} (hscan : ScanEnds m left) :
    ∀ (ls : List Label) (s t : State W), Reachable m (State.init m c w mt) s →
      run m ls s = some t → t.cancelled = false →
      ls.length + State.weight m left t ≤ State.weight m left s := by
  intro ls
  induction ls with
  | nil =>
    intro s t _ h _
    simp only [run, Option.some.injEq] at h
    rw [h]
    simp
  | cons l ls ih =>
    intro s t hreach h hc
    simp only [run] at h
    cases hl : step m l s with
    | none => simp [hl] at h
    | some s1 =>
      rw [hl] at h
      have hc1 : s1.cancelled = false := run_cancelled h hc
      have hlt := weight_step hscan (reachable_struct hreach) (reachable_drained hreach)
        (reachable_shrinks hreach) (step_not_panicked hl) hc1 (step_sound hl)
      have := ih s1 t (reachable_step hreach hl) h hc
      simp only [List.length_cons]
      omega

theorem run_to_return {W : Type} {m : Migrator W} {left : W → Nat} {c : Bool} {w : W}
    {mt : Metrics} (hpos : 0 < m.config.Concurrency) (hscan : ScanEnds m left) :
    ∀ (n : Nat) (s : State W), Reachable m (State.init m c w mt) s → s.cancelled = false →
      State.weight m left s ≤ n →
      ∃ ls t r, run m ls s = some t ∧ t.cancelled = false ∧ t.main = .returned r := by
  intro n
  induction n with
  | zero =>
    intro s hreach hc hn
    cases hm : s.main with
    | returned r => exact ⟨[], s, r, rfl, hc, hm⟩
    | counting =>
      obtain ⟨l, t, hl, htc⟩ := step_enabled m s (reachable_drained hreach)
        (reachable_live hreach) hpos hc (by rw [hm]; exact fun r h => by cases h)
      have hlt := weight_step hscan (reachable_struct hreach) (reachable_drained hreach)
        (reachable_shrinks hreach) (step_not_panicked hl) htc (step_sound hl)
      omega
    | draining =>
      obtain ⟨l, t, hl, htc⟩ := step_enabled m s (reachable_drained hreach)
        (reachable_live hreach) hpos hc (by rw [hm]; exact fun r h => by cases h)
      have hlt := weight_step hscan (reachable_struct hreach) (reachable_drained hreach)
        (reachable_shrinks hreach) (step_not_panicked hl) htc (step_sound hl)
      omega
  | succ n ih =>
    intro s hreach hc hn
    have hgo : (∀ r, s.main ≠ .returned r) →
        ∃ ls t r, run m ls s = some t ∧ t.cancelled = false ∧ t.main = .returned r := by
      intro hret
      obtain ⟨l, t, hl, htc⟩ := step_enabled m s (reachable_drained hreach)
        (reachable_live hreach) hpos hc hret
      have hlt := weight_step hscan (reachable_struct hreach) (reachable_drained hreach)
        (reachable_shrinks hreach) (step_not_panicked hl) htc (step_sound hl)
      obtain ⟨ls, u, r, hrun, huc, hur⟩ := ih t (reachable_step hreach hl) htc (by omega)
      exact ⟨l :: ls, u, r, by simp [run, hl, hrun], huc, hur⟩
    cases hm : s.main with
    | returned r => exact ⟨[], s, r, rfl, hc, hm⟩
    | counting => exact hgo (by rw [hm]; exact fun r h => by cases h)
    | draining => exact hgo (by rw [hm]; exact fun r h => by cases h)

/-- With at least one worker and a scan that comes to an end, a `Migrate` call whose context
is not cancelled returns: in every state of the call no goroutine has panicked; some goroutine
can take a step unless `Migrate` has returned; every sequence of steps without cancellation
is at most as long as the weight of the state it starts from; and some sequence of steps
leads to the return. -/
theorem Migrate_terminates {W : Type} {m : Migrator W} {left : W → Nat} {c : Bool} {w : W}
    {mt : Metrics} {s : State W} (hpos : 0 < m.config.Concurrency) (hscan : ScanEnds m left)
    (h : Reachable m (State.init m c w mt) s) (hc : s.cancelled = false) :
    s.panicked = false ∧
      ((∀ r, s.main ≠ .returned r) → ∃ l t, step m l s = some t ∧ t.cancelled = false) ∧
      (∀ ls t, run m ls s = some t → t.cancelled = false →
        ls.length + State.weight m left t ≤ State.weight m left s) ∧
      ∃ ls t r, run m ls s = some t ∧ t.cancelled = false ∧ t.main = .returned r :=
  ⟨(reachable_live h).2.2.2.1 hpos hc,
    step_enabled m s (reachable_drained h) (reachable_live h) hpos hc,
    fun ls t hrun htc => run_weight hscan ls s t h hrun htc,
    run_to_return hpos hscan _ s h hc (le_refl _)⟩

theorem scanEnds_scripted (count count2 : Int) (batches batches2 : List (List String))
    (scanErr dumpErr restoreErr deleteErr scanErr2 dumpErr2 restoreErr2 deleteErr2 :
      Option GoError) (accept accept2 : String → Bool) (config : Config) :
    ScanEnds
      (NewMigrator (scriptedClient count batches scanErr dumpErr restoreErr deleteErr accept)
        (scriptedClient count2 batches2 scanErr2 dumpErr2 restoreErr2 deleteErr2 accept2)
        config)
      (fun n => batches.length - n) := by
  refine ⟨?_, ?_, ?_, ?_⟩
  · intro ctx n keys h
    simp only [NewMigrator, scriptedClient] at h ⊢
    cases hb : batches[n]? with
    | none => simp [hb] at h
    | some b =>
      have hn : n < batches.length := by
        by_contra hge
        rw [List.getElem?_eq_none (by omega)] at hb
        cases hb
      simp only [hb]
      omega
  · intro ctx keys n
    simp only [NewMigrator, scriptedClient]
    cases dumpErr <;> simp
  · intro ctx data b n
    simp only [NewMigrator, scriptedClient]
    cases restoreErr2 <;> simp
  · intro ctx keys n
    simp [NewMigrator, scriptedClient]

/-- C11: in a run of `Migrate` in which the context is not cancelled, every batch the
producer has sent on `keysChan` is at every moment in exactly one place: handed to
`processBatch` (the batches of its `DumpKeys` calls, its first action), in the buffer of
`keysChan`, or received by a worker that is about to export it. Once `Migrate` has returned,
the batches handed to `processBatch` are, up to order, exactly the batches sent, each as
often as it was sent, whatever the store calls and the scan returned; the counters
processed, succeeded, failed and overwritten are their initial values plus the sum of the
contributions settled by the returns of the store calls of these batches; and with at least
one worker the producer has finished, so no batch of the scan is left unsent. And `Migrate`
does return: with at least one worker and a scan that comes to an end, no goroutine has
panicked, some goroutine can take a step as long as `Migrate` has not returned, no sequence
of steps without cancellation is longer than the weight of the state, and some sequence of
steps leads to the return. -/
theorem Migrate_processes_each_batch_once {W : Type} (m : Migrator W) (c : Bool) (w : W)
    (mt : Metrics) (s : State W)
    (h : Reachable m (State.init m c w mt) s) (hc : s.cancelled = false) :
    (Multiset.ofList (scanSends s.calls) =
        Multiset.ofList (dumped s.returns) + Multiset.ofList s.keysChan +
          (s.workers.map fun x => Multiset.ofList x.pendingDumps).sum) ∧
      (∀ r, s.main = .returned r →
        (dumped s.returns).Perm (scanSends s.calls) ∧
        s.keysChan = [] ∧
        (∀ x ∈ s.workers, x = .exited) ∧
        s.metrics.tally = mt.tally + (s.returns.map (CallReturn.tally m.config)).sum ∧
        (0 < m.config.Concurrency → s.producer = .notStarted ∨ s.producer = .finished)) ∧
      (∀ left : W → Nat, 0 < m.config.Concurrency → ScanEnds m left →
        s.panicked = false ∧
        ((∀ r, s.main ≠ .returned r) → ∃ l t, step m l s = some t ∧ t.cancelled = false) ∧
        (∀ ls t, run m ls s = some t → t.cancelled = false →
          ls.length + State.weight m left t ≤ State.weight m left s) ∧
        ∃ ls t r, run m ls s = some t ∧ t.cancelled = false ∧ t.main = .returned r) := by
  refine ⟨(reachable_streamed h).1, ?_, fun left hpos hscan => Migrate_terminates hpos hscan h hc⟩
  intro r hr
  have hS := reachable_struct h
  have hD := reachable_drained h
  have hall := hS.2.2 r hr
  have hk := keysChan_empty_of_all_exited hD hc hall
  have hex : ∀ x ∈ s.workers, x = .exited := by
    intro x hx
    rw [List.all_eq_true] at hall
    have := hall x hx
    cases x with
    | exited => rfl
    | running p => simp [Worker.isExited] at this
  refine ⟨?_, hk, hex, ?_, ?_⟩
  · have h1 := (reachable_streamed h).1
    rw [hk, sum_map_of_all_exited _ rfl _ hall] at h1
    simp only [Multiset.coe_nil, add_zero] at h1
    exact (Multiset.coe_eq_coe.mp h1).symm
  · have h1 := (reachable_tallied h).1
    rw [sum_map_of_all_exited _ rfl _ hall, add_zero] at h1
    exact h1
  · intro hpos
    by_cases hp : s.producer = .notStarted
    · exact Or.inl hp
    · right
      obtain ⟨_, _, d2, d3, _, d5⟩ := hD
      have hlen := d5 hp
      cases hws : s.workers with
      | nil =>
        rw [hws] at hlen
        simp only [List.length_nil] at hlen
        omega
      | cons x xs =>
        have hx : x = .exited := hex x (by rw [hws]; simp)
        exact d2 (d3 hc x (by rw [hws]; simp) hx).1

/-- C11 on the run of `pairMigrator`, which has two workers and streams two batches: from
the state after `pairSchedule`, in which worker 1 is in the middle of its batch, some
sequence of steps leads to the return of `Migrate`; and at the end of `pairComplete`
`Migrate` has returned nil, both batches have been exported once and the counters are 2
processed and 2 succeeded. -/
theorem Migrate_processes_each_batch_once_witness :
    (∃ s, run pairMigrator pairSchedule
        (State.init pairMigrator false 0 (NewMetrics 0)) = some s ∧
      s.cancelled = false ∧ (0 : Int) < pairMigrator.config.Concurrency ∧
      ∃ ls t r, run pairMigrator ls s = some t ∧ t.cancelled = false ∧
        t.main = .returned r) ∧
      ∃ s, run pairMigrator pairComplete
          (State.init pairMigrator false 0 (NewMetrics 0)) = some s ∧
        s.cancelled = false ∧ s.main = .returned none ∧
        (dumped s.returns).Perm [["a"], ["b"]] ∧
        s.metrics.tally = (2, 2, 0, 0) :=
  ⟨⟨_, rfl, rfl, by decide,
      ((Migrate_processes_each_batch_once pairMigrator false 0 (NewMetrics 0) _
        ⟨pairSchedule, rfl⟩ rfl).2.2 (fun n => 2 - n) (by decide)
        (scanEnds_scripted 2 0 [["a"], ["b"]] [] none none none none none none none none
          (fun _ => true) (fun _ => true) (testConfig CopyMode ErrorOnConflict 2))).2.2.2⟩,
    _, rfl, rfl, rfl,
    ((Migrate_processes_each_batch_once pairMigrator false 0 (NewMetrics 0) _
      ⟨pairComplete, rfl⟩ rfl).2.1 none rfl).1,
    ((Migrate_processes_each_batch_once pairMigrator false 0 (NewMetrics 0) _
      ⟨pairComplete, rfl⟩ rfl).2.1 none rfl).2.2.2.1⟩

/-! ## float64 arithmetic -/

theorem roundEven_intCast (n : Int) : roundEven n = n := by
  simp [roundEven]

theorem roundEven_of_abs_lt (z : ℚ) (n : Int) (h : |z - n| < 1 / 2) : roundEven z = n := by
  rw [abs_lt] at h
  obtain ⟨h1, h2⟩ := h
  unfold roundEven
  by_cases hf : ⌊z⌋ = n
  · have : z - n < 1 / 2 := h2
    rw [hf, if_pos this]
  · have hf1 : ⌊z⌋ = n - 1 := by
      rw [Int.floor_eq_iff]
      push_cast
      constructor
      · linarith
      · by_contra hc
        push_neg at hc
        apply hf
        rw [Int.floor_eq_iff]
        constructor <;> linarith
    rw [hf1]
    push_cast
    rw [if_neg (by linarith), if_pos (by linarith)]
    ring

theorem roundEven_sub_le (z : ℚ) : |(roundEven z : ℚ) - z| ≤ 1 / 2 := by
  have h1 := Int.floor_le z
  have h2 := Int.lt_floor_add_one z
  unfold roundEven
  rw [abs_le]
  split_ifs with a b c
  · constructor <;> linarith
  · push_cast
    constructor <;> linarith
  · constructor <;> linarith
  · push_cast
    constructor <;> linarith

theorem roundEven_nonneg (z : ℚ) (h : 0 ≤ z) : 0 ≤ roundEven z := by
  have h1 : 0 ≤ ⌊z⌋ := Int.floor_nonneg.mpr h
  unfold roundEven
  split_ifs <;> omega

theorem roundEven_nonpos (z : ℚ) (h : z ≤ 0) : roundEven z ≤ 0 := by
  have h1 : ⌊z⌋ ≤ 0 := Int.floor_nonpos h
  have h2 := Int.floor_le z
  have h3 := Int.lt_floor_add_one z
  unfold roundEven
  split_ifs with a b c
  · exact h1
  · by_contra hc
    have : ⌊z⌋ = 0 := by omega
    rw [this] at b
    push_cast at b
    linarith
  · exact h1
  · by_contra hc
    have : ⌊z⌋ = 0 := by omega
    rw [this] at a
    push_cast at a
    linarith

theorem roundEven_half_even (n : Int) (h : n % 2 = 0) : roundEven ((n : ℚ) + 1 / 2) = n := by
  have hf : ⌊(n : ℚ) + 1 / 2⌋ = n := by
    rw [Int.floor_eq_iff]
    constructor <;> norm_num
  unfold roundEven
  rw [hf]
  rw [if_neg (by norm_num), if_neg (by norm_num), if_pos h]

theorem log_eq_of_bounds (x : ℚ) (e : Int) (h1 : (2 : ℚ) ^ e ≤ x) (h2 : x < 2 ^ (e + 1)) :
    Int.log 2 x = e := by
  have hx : 0 < x := lt_of_lt_of_le (by positivity) h1
  have a : e ≤ Int.log 2 x := by
    rw [← Int.zpow_le_iff_le_log (by norm_num) hx]
    exact_mod_cast h1
  have b : Int.log 2 x < e + 1 := by
    rw [← Int.lt_zpow_iff_log_lt (by norm_num) hx]
    exact_mod_cast h2
  omega

theorem zpow_log_le (x : ℚ) (hx : x ≠ 0) : (2 : ℚ) ^ Int.log 2 |x| ≤ |x| := by
  have := Int.zpow_log_le_self (b := 2) (r := |x|) (by norm_num) (abs_pos.mpr hx)
  exact_mod_cast this

theorem round64_eq (x : ℚ) (e n : Int) (h1 : (2 : ℚ) ^ e ≤ |x|) (h2 : |x| < 2 ^ (e + 1))
    (hn : roundEven (x / 2 ^ (e - 52)) = n) : round64 x = n * 2 ^ (e - 52) := by
  have hx : x ≠ 0 := by
    intro h
    rw [h, abs_zero] at h1
    have : (0 : ℚ) < 2 ^ e := by positivity
    linarith
  unfold round64
  rw [if_neg hx, log_eq_of_bounds |x| e h1 h2, hn]

theorem round64_eval (x : ℚ) (e n : Int) (y : ℚ) (h1 : (2 : ℚ) ^ e ≤ |x|)
    (h2 : |x| < 2 ^ (e + 1)) (hn : |x / 2 ^ (e - 52) - n| < 1 / 2)
    (hy : y = n * 2 ^ (e - 52)) : round64 x = y := by
  rw [hy]
  exact round64_eq x e n h1 h2 (roundEven_of_abs_lt _ n hn)

theorem round64_zero : round64 0 = 0 := by simp [round64]

theorem round64_sub_le (x : ℚ) : |round64 x - x| ≤ |x| / 2 ^ 53 := by
  by_cases hx : x = 0
  · simp [hx, round64]
  · unfold round64
    rw [if_neg hx]
    have hs : (0 : ℚ) < 2 ^ (Int.log 2 |x| - 52) := by positivity
    have hr := roundEven_sub_le (x / 2 ^ (Int.log 2 |x| - 52))
    have hlog := zpow_log_le x hx
    have e1 : (roundEven (x / 2 ^ (Int.log 2 |x| - 52)) : ℚ) * 2 ^ (Int.log 2 |x| - 52) - x =
        ((roundEven (x / 2 ^ (Int.log 2 |x| - 52)) : ℚ) - x / 2 ^ (Int.log 2 |x| - 52)) *
          2 ^ (Int.log 2 |x| - 52) := by
      field_simp
    rw [e1, abs_mul, abs_of_pos hs]
    have e2 : (2 : ℚ) ^ (Int.log 2 |x| - 52) = 2 ^ Int.log 2 |x| / 2 ^ 52 := by
      rw [zpow_sub₀ (by norm_num)]
      norm_num
    rw [e2]
    have hp : (0 : ℚ) < 2 ^ Int.log 2 |x| := by positivity
    calc |(roundEven (x / (2 ^ Int.log 2 |x| / 2 ^ 52)) : ℚ) - x / (2 ^ Int.log 2 |x| / 2 ^ 52)| *
          (2 ^ Int.log 2 |x| / 2 ^ 52)
        ≤ 1 / 2 * (2 ^ Int.log 2 |x| / 2 ^ 52) := by
          apply mul_le_mul_of_nonneg_right _ (by positivity)
          rw [← e2]
          exact hr
      _ = 2 ^ Int.log 2 |x| / 2 ^ 53 := by ring
      _ ≤ |x| / 2 ^ 53 := by
          apply div_le_div_of_nonneg_right hlog (by positivity)

theorem round64_nonneg (x : ℚ) (h : 0 ≤ x) : 0 ≤ round64 x := by
  unfold round64
  split_ifs
  · exact le_refl 0
  · apply mul_nonneg
    · exact_mod_cast roundEven_nonneg _ (div_nonneg h (by positivity))
    · positivity

theorem round64_nonpos (x : ℚ) (h : x ≤ 0) : round64 x ≤ 0 := by
  unfold round64
  split_ifs
  · exact le_refl 0
  · apply mul_nonpos_of_nonpos_of_nonneg
    · exact_mod_cast roundEven_nonpos _ (div_nonpos_of_nonpos_of_nonneg h (by positivity))
    · positivity

theorem round64_eq_zero_iff (x : ℚ) : round64 x = 0 ↔ x = 0 := by
  constructor
  · intro h
    by_contra hx
    have hb := round64_sub_le x
    rw [h, zero_sub, abs_neg] at hb
    have hpos : 0 < |x| := abs_pos.mpr hx
    have : |x| / 2 ^ 53 < |x| := by
      rw [div_lt_iff₀ (by positivity)]
      nlinarith
    linarith
  · intro h
    rw [h, round64_zero]

theorem round64_mul_zpow (m k : Int) (hm : |m| < 2 ^ 53) :
    round64 (m * 2 ^ k) = m * 2 ^ k := by
  by_cases h0 : m = 0
  · simp [h0, round64]
  · have hx : (m : ℚ) * 2 ^ k ≠ 0 := by
      apply mul_ne_zero
      · exact_mod_cast h0
      · positivity
    have hlog := zpow_log_le _ hx
    set e := Int.log 2 |(m : ℚ) * 2 ^ k| with he
    have habs : |(m : ℚ) * 2 ^ k| < 2 ^ (53 + k) := by
      rw [abs_mul, abs_of_pos (by positivity : (0 : ℚ) < 2 ^ k), zpow_add₀ (by norm_num)]
      apply mul_lt_mul_of_pos_right _ (by positivity)
      have : ((|m| : Int) : ℚ) < ((2 ^ 53 : Int) : ℚ) := by exact_mod_cast hm
      push_cast at this
      exact_mod_cast this
    have hlt : (2 : ℚ) ^ e < 2 ^ (53 + k) := lt_of_le_of_lt hlog habs
    have hek : e < 53 + k := by
      rwa [zpow_lt_zpow_iff_right₀ (by norm_num)] at hlt
    obtain ⟨d, hd⟩ : ∃ d : ℕ, k - (e - 52) = d := ⟨(k - (e - 52)).toNat, by omega⟩
    have hz : (m : ℚ) * 2 ^ k / 2 ^ (e - 52) = ((m * 2 ^ d : Int) : ℚ) := by
      rw [mul_div_assoc, ← zpow_sub₀ (by norm_num), hd]
      push_cast
      rw [zpow_natCast]
    unfold round64
    rw [if_neg hx, ← he, hz, roundEven_intCast]
    push_cast
    rw [mul_assoc, ← zpow_natCast, ← zpow_add₀ (by norm_num), ← hd]
    congr 2
    ring

theorem round64_intCast_of_lt (n : Int) (h : |n| < 2 ^ 53) : round64 (n : ℚ) = n := by
  have := round64_mul_zpow n 0 h
  simpa using this

theorem round64_of_eq (x : ℚ) (n k : Int) (h : |n| < 2 ^ 53) (hx : x = n * 2 ^ k) :
    round64 x = x := by
  rw [hx]
  exact round64_mul_zpow n k h

theorem round64_five_thirds : round64 (5 / 3) = 7505999378950827 / 4503599627370496 := by
  apply round64_eval (5 / 3) 0 7505999378950827
  · norm_num [abs_of_pos]
  · norm_num [abs_of_pos]
  · norm_num [abs_lt]
  · norm_num

theorem div_err (a s x α : ℚ) (hx : 0 < x) (hα0 : 0 ≤ α) (hα : α ≤ 1 / 2)
    (hs : |s - x| ≤ α * x) : 0 < s ∧ |a / s - a / x| ≤ 2 * α * |a / x| := by
  rw [abs_le] at hs
  have hs2 : x / 2 ≤ s := by nlinarith
  have hs0 : 0 < s := by linarith
  refine ⟨hs0, ?_⟩
  have e : a / s - a / x = a / x * ((x - s) / s) := by
    field_simp
    ring
  rw [e, abs_mul, mul_comm (2 * α)]
  apply mul_le_mul_of_nonneg_left _ (abs_nonneg _)
  rw [abs_div, abs_of_pos hs0, div_le_iff₀ hs0, abs_le]
  constructor <;> nlinarith

theorem round_err (y y0 β : ℚ) (h : |y - y0| ≤ β * |y0|) :
    |round64 y - y0| ≤ (1 / 2 ^ 53 + β + β / 2 ^ 53) * |y0| := by
  have h1 := round64_sub_le y
  have h2 : |y| ≤ |y0| + β * |y0| := by
    have : |y| ≤ |y - y0| + |y0| := by
      have := abs_add (y - y0) y0
      simpa using this
    linarith
  have h3 : |round64 y - y0| ≤ |round64 y - y| + |y - y0| := by
    have := abs_add (round64 y - y) (y - y0)
    simpa using this
  have h4 : |y| / 2 ^ 53 ≤ (|y0| + β * |y0|) / 2 ^ 53 :=
    div_le_div_of_nonneg_right h2 (by positivity)
  have e : (1 / 2 ^ 53 + β + β / 2 ^ 53) * |y0| = (|y0| + β * |y0|) / 2 ^ 53 + β * |y0| := by
    ring
  rw [e]
  linarith

theorem float64_of_lt (n : Int) (h : |n| < 2 ^ 53) : float64 n = n := by
  have := round64_mul_zpow n 0 h
  simpa [float64] using this

theorem float64_eq_zero_iff (n : Int) : float64 n = 0 ↔ n = 0 := by
  unfold float64
  rw [round64_eq_zero_iff]
  exact Int.cast_eq_zero

theorem float64_nonneg (n : Int) (h : 0 ≤ n) : 0 ≤ float64 n :=
  round64_nonneg _ (by exact_mod_cast h)

theorem float64_nonpos (n : Int) (h : n ≤ 0) : float64 n ≤ 0 :=
  round64_nonpos _ (by exact_mod_cast h)

theorem float64_big : float64 (2 ^ 53 + 1) = 2 ^ 53 := by
  unfold float64
  have h := round64_eq (((2 ^ 53 + 1 : Int) : ℚ)) 53 (2 ^ 52) (by norm_num) (by norm_num)
    (by
      have e : (((2 ^ 53 + 1 : Int) : ℚ)) / 2 ^ ((53 : Int) - 52) =
          (((2 ^ 52 : Int) : ℚ)) + 1 / 2 := by norm_num
      rw [e]
      exact roundEven_half_even (2 ^ 52) (by decide))
  rw [h]
  norm_num

theorem float64_Second : float64 Second = 1000000000 := by
  rw [float64_of_lt Second (by decide)]
  norm_num [Second]

theorem f64div_float64 (a b : Int) (ha : |a| < 2 ^ 53) (hb : |b| < 2 ^ 53) :
    f64div (float64 a) (float64 b) = round64 ((a : ℚ) / b) := by
  rw [float64_of_lt a ha, float64_of_lt b hb, f64div]

theorem f64div_eq_zero_iff (a b : ℚ) (hb : b ≠ 0) : f64div a b = 0 ↔ a = 0 := by
  unfold f64div
  rw [round64_eq_zero_iff, div_eq_zero_iff]
  constructor
  · rintro (h | h)
    · exact h
    · exact absurd h hb
  · exact Or.inl

theorem toInt64_nonneg (x : ℚ) (h : 0 ≤ x) (d : Int) (hd : toInt64 x = some d) : 0 ≤ d := by
  unfold toInt64 at hd
  simp only [if_pos h] at hd
  split_ifs at hd
  have : d = ⌊x⌋ := by
    injection hd with e
    exact e.symm
  rw [this]
  exact Int.floor_nonneg.mpr h

theorem toInt64_intCast (n : Int) (h1 : -2 ^ 63 ≤ n) (h2 : n < 2 ^ 63) :
    toInt64 n = some n := by
  unfold toInt64
  simp only [Int.floor_intCast, Int.ceil_intCast, ite_self]
  rw [if_pos ⟨h1, h2⟩]

theorem toInt64_of_floor (x : ℚ) (n : Int) (h0 : 0 ≤ x) (h1 : (n : ℚ) ≤ x) (h2 : x < n + 1)
    (h3 : n < 2 ^ 63) : toInt64 x = some n := by
  have hf : ⌊x⌋ = n := by
    rw [Int.floor_eq_iff]
    exact ⟨h1, h2⟩
  have hn : 0 ≤ n := by
    rw [← hf]
    exact Int.floor_nonneg.mpr h0
  unfold toInt64
  simp only [if_pos h0, hf]
  rw [if_pos ⟨by omega, h3⟩]

theorem toInt64_floor (x : ℚ) (h : 0 ≤ x) (d : Int) (hd : toInt64 x = some d) :
    (d : ℚ) ≤ x ∧ x < d + 1 := by
  unfold toInt64 at hd
  simp only [if_pos h] at hd
  split_ifs at hd
  have : d = ⌊x⌋ := by
    injection hd with e
    exact e.symm
  rw [this]
  exact ⟨Int.floor_le x, Int.lt_floor_add_one x⟩

theorem toInt64_isSome (x : ℚ) (h0 : 0 ≤ x) (h : x < 2 ^ 63) : ∃ d, toInt64 x = some d := by
  have hf : ⌊x⌋ < 2 ^ 63 := by
    rw [Int.floor_lt]
    exact_mod_cast h
  have hn : 0 ≤ ⌊x⌋ := Int.floor_nonneg.mpr h0
  unfold toInt64
  simp only [if_pos h0]
  exact ⟨⌊x⌋, if_pos ⟨by omega, hf⟩⟩

theorem tdiv_tmod_nonneg (d b : Int) (h : 0 ≤ d) (hb : 0 < b) :
    0 ≤ d.tdiv b ∧ 0 ≤ d.tmod b ∧ d.tmod b < b :=
  ⟨Int.tdiv_nonneg h (le_of_lt hb), Int.tmod_nonneg b h, Int.tmod_lt_of_pos d hb⟩

theorem tdiv_tmod_nonpos (d b : Int) (h : d ≤ 0) (hb : 0 < b) :
    d.tdiv b ≤ 0 ∧ d.tmod b ≤ 0 ∧ -b < d.tmod b := by
  have h1 : 0 ≤ (-d).tdiv b := Int.tdiv_nonneg (by omega) (le_of_lt hb)
  have h2 : 0 ≤ (-d).tmod b := Int.tmod_nonneg b (by omega)
  have h3 : (-d).tmod b < b := Int.tmod_lt_of_pos (-d) hb
  have e1 := Int.tdiv_add_tmod (-d) b
  have e2 := Int.tdiv_add_tmod d b
  rw [Int.neg_tdiv] at h1 e1
  have e3 : d.tmod b = -((-d).tmod b) := by
    have : b * -(d.tdiv b) = -(b * d.tdiv b) := by ring
    omega
  omega

theorem Seconds_zero : Seconds 0 = 0 := by
  simp [Seconds, f64add, f64div, float64, round64]

theorem Seconds_nonneg (d : Int) (h : 0 ≤ d) : 0 ≤ Seconds d := by
  obtain ⟨h1, h2, _⟩ := tdiv_tmod_nonneg d Second h (by decide)
  unfold Seconds f64add f64div
  apply round64_nonneg
  apply add_nonneg (float64_nonneg _ h1)
  apply round64_nonneg
  exact div_nonneg (float64_nonneg _ h2) (by norm_num)

theorem Seconds_eq_zero_iff (d : Int) : Seconds d = 0 ↔ d = 0 := by
  constructor
  · intro hs
    unfold Seconds f64add f64div at hs
    rw [round64_eq_zero_iff] at hs
    have hsplit := Int.tdiv_add_tmod d Second
    rcases le_total 0 d with h | h
    · obtain ⟨h1, h2, _⟩ := tdiv_tmod_nonneg d Second h (by decide)
      have a := float64_nonneg _ h1
      have b := round64_nonneg (float64 (d.tmod Second) / 1000000000)
        (div_nonneg (float64_nonneg _ h2) (by norm_num))
      have a0 : float64 (d.tdiv Second) = 0 := by linarith
      have b0 : round64 (float64 (d.tmod Second) / 1000000000) = 0 := by linarith
      rw [float64_eq_zero_iff] at a0
      rw [round64_eq_zero_iff, div_eq_zero_iff] at b0
      rcases b0 with b0 | b0
      · rw [float64_eq_zero_iff] at b0
        rw [a0, b0] at hsplit
        omega
      · norm_num at b0
    · obtain ⟨h1, h2, _⟩ := tdiv_tmod_nonpos d Second h (by decide)
      have a := float64_nonpos _ h1
      have b := round64_nonpos (float64 (d.tmod Second) / 1000000000)
        (div_nonpos_of_nonpos_of_nonneg (float64_nonpos _ h2) (by norm_num))
      have a0 : float64 (d.tdiv Second) = 0 := by linarith
      have b0 : round64 (float64 (d.tmod Second) / 1000000000) = 0 := by linarith
      rw [float64_eq_zero_iff] at a0
      rw [round64_eq_zero_iff, div_eq_zero_iff] at b0
      rcases b0 with b0 | b0
      · rw [float64_eq_zero_iff] at b0
        rw [a0, b0] at hsplit
        omega
      · norm_num at b0
  · intro h
    rw [h, Seconds_zero]

theorem Seconds_whole (k : Int) (h : |k| < 2 ^ 53) : Seconds (k * Second) = k := by
  have h1 : (k * Second).tdiv Second = k := Int.mul_tdiv_cancel k (by decide)
  have h2 : (k * Second).tmod Second = 0 := Int.mul_tmod_left k Second
  unfold Seconds
  rw [h1, h2, float64_of_lt k h, float64_of_lt 0 (by decide), f64div, f64add]
  simp only [Int.cast_zero, zero_div, round64_zero, add_zero]
  exact round64_intCast_of_lt k h

theorem Seconds_err (d : Int) (h0 : 0 < d) (h1 : d < 2 ^ 63) :
    |Seconds d - (d : ℚ) / 1000000000| ≤ 3 / 2 ^ 53 * ((d : ℚ) / 1000000000) := by
  obtain ⟨ha, hb, hb2⟩ := tdiv_tmod_nonneg d Second (le_of_lt h0) (by decide)
  have hsplit := Int.tdiv_add_tmod d Second
  unfold Seconds f64add f64div
  generalize d.tdiv Second = a at *
  generalize d.tmod Second = b at *
  have hS : Second = 1000000000 := rfl
  rw [hS] at hb2 hsplit
  have ha2 : a < 2 ^ 53 := by omega
  have hx : (d : ℚ) / 1000000000 = (a : ℚ) + (b : ℚ) / 1000000000 := by
    have : (d : ℚ) = 1000000000 * (a : ℚ) + (b : ℚ) := by exact_mod_cast hsplit.symm
    rw [this]
    field_simp
    ring
  have haq : (0 : ℚ) ≤ (a : ℚ) := by exact_mod_cast ha
  have hbq : (0 : ℚ) ≤ (b : ℚ) / 1000000000 :=
    div_nonneg (by exact_mod_cast hb) (by norm_num)
  rw [float64_of_lt a (by rw [abs_lt]; constructor <;> omega),
    float64_of_lt b (by rw [abs_lt]; constructor <;> omega), hx]
  have e1 := round64_sub_le ((b : ℚ) / 1000000000)
  have e1n := round64_nonneg _ hbq
  have e2 := round64_sub_le ((a : ℚ) + round64 ((b : ℚ) / 1000000000))
  rw [abs_of_nonneg hbq] at e1
  rw [abs_of_nonneg (add_nonneg haq e1n)] at e2
  rw [abs_le] at e1 e2 ⊢
  obtain ⟨e1a, e1b⟩ := e1
  obtain ⟨e2a, e2b⟩ := e2
  norm_num at e1a e1b e2a e2b ⊢
  constructor <;> linarith

/-! ## The rates of the tracker -/

theorem GetProcessingRate_eq (m : Metrics) (now : Int) (h : m.GetElapsed now ≠ 0) :
    m.GetProcessingRate now = f64div (float64 m.processedKeys) (Seconds (m.GetElapsed now)) := by
  unfold Metrics.GetProcessingRate
  simp only [if_neg (mt (Seconds_eq_zero_iff _).mp h)]

theorem GetProcessingRate_eq_zero_iff (m : Metrics) (now : Int) :
    m.GetProcessingRate now = 0 ↔ m.processedKeys = 0 ∨ m.GetElapsed now = 0 := by
  by_cases h : m.GetElapsed now = 0
  · unfold Metrics.GetProcessingRate
    simp [h, Seconds_zero]
  · rw [GetProcessingRate_eq m now h,
      f64div_eq_zero_iff _ _ (mt (Seconds_eq_zero_iff _).mp h), float64_eq_zero_iff]
    simp [h]

theorem GetProcessingRate_whole (m : Metrics) (now k : Int) (hk : k ≠ 0) (hk2 : |k| < 2 ^ 53)
    (hp : |m.processedKeys| < 2 ^ 53) (he : m.GetElapsed now = k * Second) :
    m.GetProcessingRate now = round64 ((m.processedKeys : ℚ) / k) := by
  have hne : m.GetElapsed now ≠ 0 := by
    rw [he]
    exact Int.mul_ne_zero hk (by decide)
  rw [GetProcessingRate_eq m now hne, he, Seconds_whole k hk2, float64_of_lt _ hp, f64div]

theorem GetProcessingRate_err (m : Metrics) (now : Int) (h0 : 0 < m.GetElapsed now)
    (h1 : m.GetElapsed now < 2 ^ 63) (hp : |m.processedKeys| < 2 ^ 53) :
    |m.GetProcessingRate now -
        (m.processedKeys : ℚ) / ((m.GetElapsed now : ℚ) / 1000000000)| ≤
      8 / 2 ^ 53 * |(m.processedKeys : ℚ) / ((m.GetElapsed now : ℚ) / 1000000000)| := by
  rw [GetProcessingRate_eq m now (by omega), float64_of_lt _ hp, f64div]
  have hx : (0 : ℚ) < (m.GetElapsed now : ℚ) / 1000000000 :=
    div_pos (by exact_mod_cast h0) (by norm_num)
  have hd := (div_err (m.processedKeys : ℚ) (Seconds (m.GetElapsed now)) _ (3 / 2 ^ 53) hx
    (by norm_num) (by norm_num) (Seconds_err _ h0 h1)).2
  have hr := round_err _ _ (2 * (3 / 2 ^ 53)) hd
  refine le_trans hr ?_
  apply mul_le_mul_of_nonneg_right _ (abs_nonneg _)
  norm_num

theorem GetETA_eq (m : Metrics) (now : Int) (hp : m.processedKeys ≠ 0)
    (he : m.GetElapsed now ≠ 0) (ht : m.totalKeys ≠ 0)
    (hr : 0 < m.totalKeys - m.processedKeys) :
    m.GetETA now =
      toInt64 (f64mul (f64div (float64 (m.totalKeys - m.processedKeys))
        (m.GetProcessingRate now)) (float64 Second)) := by
  have hrate : ¬ (m.GetProcessingRate now = 0 ∨ m.totalKeys = 0) := by
    rw [GetProcessingRate_eq_zero_iff]
    tauto
  unfold Metrics.GetETA
  simp only [if_neg hrate, if_neg (not_le.mpr hr)]

theorem GetETA_value (m : Metrics) (now : Int) (h0 : 0 < m.GetElapsed now)
    (h1 : m.GetElapsed now < 2 ^ 63) (hp0 : 0 < m.processedKeys)
    (hp : m.processedKeys < 2 ^ 53) (hr0 : 0 < m.totalKeys - m.processedKeys)
    (hr : m.totalKeys - m.processedKeys < 2 ^ 53) :
    ∃ y : ℚ, m.GetETA now = toInt64 y ∧ 0 ≤ y ∧
      |y - ((m.totalKeys - m.processedKeys : Int) : ℚ) * (m.GetElapsed now : ℚ) /
          m.processedKeys| ≤
        ((m.totalKeys - m.processedKeys : Int) : ℚ) * (m.GetElapsed now : ℚ) /
          m.processedKeys / 2 ^ 48 := by
  have ht : m.totalKeys ≠ 0 := by omega
  rw [GetETA_eq m now (by omega) (by omega) ht hr0, float64_Second,
    float64_of_lt _ (by rw [abs_lt]; constructor <;> omega), f64div, f64mul]
  have hrate := GetProcessingRate_err m now h0 h1 (by rw [abs_lt]; constructor <;> omega)
  generalize m.GetProcessingRate now = rate at hrate ⊢
  generalize m.totalKeys - m.processedKeys = rem at hr0 hr ⊢
  generalize m.GetElapsed now = e at h0 h1 hrate ⊢
  generalize m.processedKeys = p at hp0 hp hrate ⊢
  have hpq : (0 : ℚ) < (p : ℚ) := by exact_mod_cast hp0
  have heq : (0 : ℚ) < (e : ℚ) := by exact_mod_cast h0
  have hrq : (0 : ℚ) < (rem : ℚ) := by exact_mod_cast hr0
  have hy0 : (0 : ℚ) < (p : ℚ) / ((e : ℚ) / 1000000000) := by positivity
  rw [abs_of_pos hy0] at hrate
  obtain ⟨hrate0, hq⟩ := div_err (rem : ℚ) rate _ (8 / 2 ^ 53) hy0 (by norm_num) (by norm_num)
    hrate
  have hq2 := round_err _ _ (2 * (8 / 2 ^ 53)) hq
  have hq0 : (0 : ℚ) < (rem : ℚ) / ((p : ℚ) / ((e : ℚ) / 1000000000)) := by positivity
  have hqn : 0 ≤ round64 ((rem : ℚ) / rate) :=
    round64_nonneg _ (div_nonneg (le_of_lt hrq) (le_of_lt hrate0))
  have hm : |round64 ((rem : ℚ) / rate) * 1000000000 -
      (rem : ℚ) / ((p : ℚ) / ((e : ℚ) / 1000000000)) * 1000000000| ≤
      18 / 2 ^ 53 * |(rem : ℚ) / ((p : ℚ) / ((e : ℚ) / 1000000000)) * 1000000000| := by
    rw [← sub_mul, abs_mul, abs_mul, abs_of_pos (by norm_num : (0 : ℚ) < 1000000000),
      ← mul_assoc]
    apply mul_le_mul_of_nonneg_right _ (by norm_num)
    refine le_trans hq2 ?_
    apply mul_le_mul_of_nonneg_right _ (abs_nonneg _)
    norm_num
  have hY := round_err _ _ (18 / 2 ^ 53) hm
  have hY0 : (rem : ℚ) / ((p : ℚ) / ((e : ℚ) / 1000000000)) * 1000000000 =
      (rem : ℚ) * (e : ℚ) / p := by
    field_simp
    ring
  rw [hY0] at hY
  have hYpos : (0 : ℚ) < (rem : ℚ) * (e : ℚ) / p := by positivity
  rw [abs_of_pos hYpos] at hY
  have hYn : 0 ≤ round64 (round64 ((rem : ℚ) / rate) * 1000000000) :=
    round64_nonneg _ (mul_nonneg hqn (by norm_num))
  refine ⟨_, rfl, hYn, le_trans hY ?_⟩
  norm_num
  linarith

/-- C17, as stated, fails for large counters: with a total of 2^53 and 2^53 + 1 processed
keys, processed > total > 0 and `GetProgress` is 1, since `float64(2^53 + 1)` is 2^53. -/
theorem GetProgress_not_above_one :
    0 < hugeMetrics.totalKeys ∧ hugeMetrics.totalKeys < hugeMetrics.processedKeys ∧
      hugeMetrics.GetProgress = 1 := by
  refine ⟨by decide, by decide, ?_⟩
  have ht : hugeMetrics.totalKeys = 2 ^ 53 := rfl
  have hp : hugeMetrics.processedKeys = 2 ^ 53 + 1 := rfl
  unfold Metrics.GetProgress
  simp only [ht, hp]
  rw [if_neg (by decide), float64_big]
  have h2 : float64 (2 ^ 53) = 2 ^ 53 := by
    unfold float64
    have := round64_mul_zpow 1 53 (by decide)
    norm_num at this ⊢
    exact this
  rw [h2, f64div]
  norm_num
  exact round64_of_eq 1 1 0 (by decide) (by norm_num)

/-- C17, amended: `GetProgress` is 0 when total is 0, whatever processed is, and otherwise
the `float64` quotient of `float64(processed)` and `float64(total)`, not clamped. For counters
below 2^53 in absolute value this is the `float64` nearest to the ratio processed / total:
it is within the ratio times 2^-53 of it, it is the ratio itself when the ratio is a
`float64` (0.5 for 50 of 100, 1.5 for 150 of 100), and it exceeds 1 whenever
total < processed with 0 < total. -/
theorem GetProgress_spec (m : Metrics) :
    (m.totalKeys = 0 → m.GetProgress = 0) ∧
      (m.totalKeys ≠ 0 →
        m.GetProgress = f64div (float64 m.processedKeys) (float64 m.totalKeys)) ∧
      (m.totalKeys ≠ 0 → |m.processedKeys| < 2 ^ 53 → |m.totalKeys| < 2 ^ 53 →
        m.GetProgress = round64 ((m.processedKeys : ℚ) / m.totalKeys) ∧
        |m.GetProgress - (m.processedKeys : ℚ) / m.totalKeys| ≤
          |(m.processedKeys : ℚ) / m.totalKeys| / 2 ^ 53 ∧
        ∀ n k : Int, |n| < 2 ^ 53 → (m.processedKeys : ℚ) / m.totalKeys = n * 2 ^ k →
          m.GetProgress = (m.processedKeys : ℚ) / m.totalKeys) ∧
      (0 < m.totalKeys → m.totalKeys < m.processedKeys → m.processedKeys < 2 ^ 53 →
        1 < m.GetProgress) ∧
      (progressMetrics 100 50).GetProgress = 1 / 2 ∧
      (progressMetrics 100 150).GetProgress = 3 / 2 ∧
      (progressMetrics 0 m.processedKeys).GetProgress = 0 := by
  have hdef : m.totalKeys ≠ 0 →
      m.GetProgress = f64div (float64 m.processedKeys) (float64 m.totalKeys) := by
    intro h
    unfold Metrics.GetProgress
    simp only [if_neg h]
  have hsmall : m.totalKeys ≠ 0 → |m.processedKeys| < 2 ^ 53 → |m.totalKeys| < 2 ^ 53 →
      m.GetProgress = round64 ((m.processedKeys : ℚ) / m.totalKeys) := by
    intro h hp ht
    rw [hdef h, f64div_float64 _ _ hp ht]
  refine ⟨?_, hdef, ?_, ?_, ?_, ?_, ?_⟩
  · intro h
    unfold Metrics.GetProgress
    simp only [if_pos h]
  · intro h hp ht
    refine ⟨hsmall h hp ht, ?_, ?_⟩
    · rw [hsmall h hp ht]
      exact round64_sub_le _
    · intro n k hn hx
      rw [hsmall h hp ht]
      exact round64_of_eq _ n k hn hx
  · intro h0 hlt hp
    have hp1 : |m.processedKeys| < 2 ^ 53 := by
      rw [abs_lt]
      constructor <;> omega
    have ht1 : |m.totalKeys| < 2 ^ 53 := by
      rw [abs_lt]
      constructor <;> omega
    rw [hsmall (by omega) hp1 ht1]
    have hb := round64_sub_le ((m.processedKeys : ℚ) / m.totalKeys)
    have tq : (0 : ℚ) < m.totalKeys := by exact_mod_cast h0
    have pq : (m.totalKeys : ℚ) + 1 ≤ m.processedKeys := by exact_mod_cast hlt
    have pq2 : (m.processedKeys : ℚ) + 1 ≤ 2 ^ 53 := by exact_mod_cast hp
    have hx : (2 : ℚ) ^ 53 / (2 ^ 53 - 1) < (m.processedKeys : ℚ) / m.totalKeys := by
      rw [div_lt_div_iff₀ (by norm_num) tq]
      norm_num at pq2 ⊢
      linarith
    have hxpos : (0 : ℚ) < (m.processedKeys : ℚ) / m.totalKeys :=
      lt_trans (by norm_num) hx
    rw [abs_of_pos hxpos, abs_le] at hb
    have hx2 : (2 : ℚ) ^ 53 < (m.processedKeys : ℚ) / m.totalKeys * (2 ^ 53 - 1) := by
      rwa [div_lt_iff₀ (by norm_num)] at hx
    have := hb.1
    norm_num at this hx2 ⊢
    linarith
  · have h := (by decide : (100 : Int) ≠ 0)
    show (if (100 : Int) = 0 then (0 : ℚ) else f64div (float64 50) (float64 100)) = 1 / 2
    rw [if_neg h, f64div_float64 50 100 (by decide) (by decide)]
    norm_num
    exact round64_of_eq _ 1 (-1) (by decide) (by norm_num)
  · have h := (by decide : (100 : Int) ≠ 0)
    show (if (100 : Int) = 0 then (0 : ℚ) else f64div (float64 150) (float64 100)) = 3 / 2
    rw [if_neg h, f64div_float64 150 100 (by decide) (by decide)]
    norm_num
    exact round64_of_eq _ 3 (-1) (by decide) (by norm_num)
  · rfl

/-- C17, amended, for 150 processed keys of 100. -/
theorem GetProgress_spec_witness :
    (0 : Int) < 100 ∧ (100 : Int) < 150 ∧ (150 : Int) < 2 ^ 53 ∧
      1 < (progressMetrics 100 150).GetProgress :=
  ⟨by decide, by decide, by decide,
    (GetProgress_spec (progressMetrics 100 150)).2.2.2.1 (by decide) (by decide) (by decide)⟩

/-- C18, as stated, fails: with a total of 8 keys, 5 processed and 3s elapsed the remaining
time (8 - 5) * 3s / 5 is 1.8s, a whole number of nanoseconds, and `GetETA` is
1.799999999s, because the `float64` quotient 3 / (5 / 3) is below 1.8; and with a total of
100 keys, -50 processed and 1s elapsed `GetETA` is -3s. -/
theorem GetETA_inexact_and_negative :
    (progressMetrics 8 5).GetETA 3000000000 = some 1799999999 ∧
      ((8 - 5 : Int) : ℚ) * 3000000000 / 5 = 1800000000 ∧
      (progressMetrics 100 (-50)).GetETA 1000000000 = some (-3000000000) := by
  refine ⟨?_, by norm_num, ?_⟩
  · rw [GetETA_eq _ _ (by decide) (by decide) (by decide) (by decide),
      GetProcessingRate_whole _ 3000000000 3 (by decide) (by decide) (by decide) (by decide),
      float64_Second]
    have e1 : (((progressMetrics 8 5).processedKeys : Int) : ℚ) / ((3 : Int) : ℚ) = 5 / 3 := by
      norm_num [progressMetrics, NewMetrics]
    have e2 : float64 ((progressMetrics 8 5).totalKeys - (progressMetrics 8 5).processedKeys) =
        3 := by
      have : (progressMetrics 8 5).totalKeys - (progressMetrics 8 5).processedKeys = 3 := by
        decide
      rw [this, float64_of_lt 3 (by decide)]
      norm_num
    have e3 : f64div 3 (7505999378950827 / 4503599627370496) =
        2026619832316723 / 1125899906842624 := by
      unfold f64div
      apply round64_eval _ 0 8106479329266892
      · norm_num [abs_of_pos]
      · norm_num [abs_of_pos]
      · norm_num [abs_lt]
      · norm_num
    have e4 : f64mul (2026619832316723 / 1125899906842624) 1000000000 =
        7549747199999999 / 4194304 := by
      unfold f64mul
      apply round64_eval _ 30 7549747199999999
      · norm_num [abs_of_pos]
      · norm_num [abs_of_pos]
      · norm_num [abs_lt]
      · norm_num
    rw [e1, e2, round64_five_thirds, e3, e4]
    apply toInt64_of_floor <;> norm_num
  · rw [GetETA_eq _ _ (by decide) (by decide) (by decide) (by decide),
      GetProcessingRate_whole _ 1000000000 1 (by decide) (by decide) (by decide) (by decide),
      float64_Second]
    have e1 : (((progressMetrics 100 (-50)).processedKeys : Int) : ℚ) / ((1 : Int) : ℚ) =
        ((-50 : Int) : ℚ) := by
      norm_num [progressMetrics, NewMetrics]
    have e2 : float64 ((progressMetrics 100 (-50)).totalKeys -
        (progressMetrics 100 (-50)).processedKeys) = 150 := by
      have : (progressMetrics 100 (-50)).totalKeys -
          (progressMetrics 100 (-50)).processedKeys = 150 := by
        decide
      rw [this, float64_of_lt 150 (by decide)]
      norm_num
    have e3 : f64div 150 (((-50 : Int) : ℚ)) = ((-3 : Int) : ℚ) := by
      unfold f64div
      have : (150 : ℚ) / ((-50 : Int) : ℚ) = ((-3 : Int) : ℚ) := by norm_num
      rw [this]
      exact round64_intCast_of_lt (-3) (by decide)
    have e4 : f64mul (((-3 : Int) : ℚ)) 1000000000 = ((-3000000000 : Int) : ℚ) := by
      unfold f64mul
      have : ((-3 : Int) : ℚ) * 1000000000 = ((-3000000000 : Int) : ℚ) := by norm_num
      rw [this]
      exact round64_intCast_of_lt (-3000000000) (by decide)
    rw [e1, e2, round64_intCast_of_lt (-50) (by decide), e3, e4]
    exact toInt64_intCast (-3000000000) (by decide) (by decide)

theorem toInt64_eq_none (x : ℚ) (h : (2 : ℚ) ^ 63 ≤ x) : toInt64 x = none := by
  have h0 : (0 : ℚ) ≤ x := le_trans (by norm_num) h
  have hf : (2 : Int) ^ 63 ≤ ⌊x⌋ := by
    rw [Int.le_floor]
    exact_mod_cast h
  unfold toInt64
  simp only [if_pos h0]
  rw [if_neg]
  omega

theorem GetETA_zero (m : Metrics) (now : Int)
    (h : m.processedKeys = 0 ∨ m.GetElapsed now = 0 ∨ m.totalKeys = 0 ∨
      m.totalKeys - m.processedKeys ≤ 0) : m.GetETA now = some 0 := by
  unfold Metrics.GetETA
  by_cases hr : m.GetProcessingRate now = 0 ∨ m.totalKeys = 0
  · simp only [if_pos hr]
  · simp only [if_neg hr]
    rw [GetProcessingRate_eq_zero_iff] at hr
    have : m.totalKeys - m.processedKeys ≤ 0 := by tauto
    simp only [if_pos this]

theorem GetETA_float_nonneg (m : Metrics) (now : Int) (hp : 0 ≤ m.processedKeys)
    (he : 0 ≤ m.GetElapsed now) (hr : 0 < m.totalKeys - m.processedKeys) :
    0 ≤ f64mul (f64div (float64 (m.totalKeys - m.processedKeys))
      (f64div (float64 m.processedKeys) (Seconds (m.GetElapsed now)))) (float64 Second) := by
  apply round64_nonneg
  apply mul_nonneg
  · apply round64_nonneg
    apply div_nonneg (float64_nonneg _ (le_of_lt hr))
    apply round64_nonneg
    exact div_nonneg (float64_nonneg _ hp) (Seconds_nonneg _ he)
  · exact float64_nonneg _ (by decide)

/-- C18, amended: `GetETA`, as a function of total, processed and the elapsed time `e`
(nanoseconds), is 0 when processed is 0, `e` is 0, total is 0 or total - processed ≤ 0;
otherwise it is the `float64` quotient of `float64(total - processed)` and the throughput,
times 1e9 in `float64`, with the fraction dropped. When processed and `e` are not negative
and that `float64` product is below 2^63, it is a value of `int64` and not negative. With
0 < e < 2^63, 0 < processed < 2^53 and 0 < total - processed < 2^53 it differs from
x = (total - processed) * e / processed by at most 1 + x / 2^48 nanoseconds, and when
x < 2^62 the product is below 2^63, so the result is a value of `int64` and not negative. It
is 250ms for a total of 100, 80 processed and 1s, and 99s for a total of 100, 1 processed and
1s. For a total of 2^34 + 1, 1 processed and 1s the product is 17179869184000000000, above
every `int64`, where the language leaves the result of the conversion to the
implementation. -/
theorem GetETA_spec (m : Metrics) (now : Int) :
    (m.processedKeys = 0 ∨ m.GetElapsed now = 0 ∨ m.totalKeys = 0 ∨
        m.totalKeys - m.processedKeys ≤ 0 → m.GetETA now = some 0) ∧
      (m.processedKeys ≠ 0 → m.GetElapsed now ≠ 0 → m.totalKeys ≠ 0 →
        0 < m.totalKeys - m.processedKeys →
        m.GetETA now =
          toInt64 (f64mul (f64div (float64 (m.totalKeys - m.processedKeys))
            (f64div (float64 m.processedKeys) (Seconds (m.GetElapsed now))))
            (float64 Second))) ∧
      (0 ≤ m.processedKeys → 0 ≤ m.GetElapsed now →
        ∀ d, m.GetETA now = some d → 0 ≤ d) ∧
      (0 ≤ m.processedKeys → 0 ≤ m.GetElapsed now →
        f64mul (f64div (float64 (m.totalKeys - m.processedKeys))
            (f64div (float64 m.processedKeys) (Seconds (m.GetElapsed now))))
            (float64 Second) < 2 ^ 63 →
        ∃ d, m.GetETA now = some d ∧ 0 ≤ d) ∧
      (0 < m.GetElapsed now → m.GetElapsed now < 2 ^ 63 → 0 < m.processedKeys →
        m.processedKeys < 2 ^ 53 → 0 < m.totalKeys - m.processedKeys →
        m.totalKeys - m.processedKeys < 2 ^ 53 →
        (((m.totalKeys - m.processedKeys : Int) : ℚ) * (m.GetElapsed now : ℚ) /
            m.processedKeys < 2 ^ 62 → ∃ d, m.GetETA now = some d ∧ 0 ≤ d) ∧
        ∀ d, m.GetETA now = some d →
          |(d : ℚ) - ((m.totalKeys - m.processedKeys : Int) : ℚ) * (m.GetElapsed now : ℚ) /
              m.processedKeys| ≤
            1 + ((m.totalKeys - m.processedKeys : Int) : ℚ) * (m.GetElapsed now : ℚ) /
              m.processedKeys / 2 ^ 48) ∧
      (progressMetrics 100 80).GetETA 1000000000 = some 250000000 ∧
      (progressMetrics 100 1).GetETA 1000000000 = some 99000000000 ∧
      ((progressMetrics (2 ^ 34 + 1) 1).GetETA 1000000000 = none ∧
        f64mul (f64div (float64 ((progressMetrics (2 ^ 34 + 1) 1).totalKeys -
              (progressMetrics (2 ^ 34 + 1) 1).processedKeys))
            (f64div (float64 (progressMetrics (2 ^ 34 + 1) 1).processedKeys)
              (Seconds ((progressMetrics (2 ^ 34 + 1) 1).GetElapsed 1000000000))))
          (float64 Second) = 17179869184000000000) := by
  have hsign : 0 ≤ m.processedKeys → 0 ≤ m.GetElapsed now →
      ∀ d, m.GetETA now = some d → 0 ≤ d := by
    intro hp he d hd
    by_cases h : m.processedKeys = 0 ∨ m.GetElapsed now = 0 ∨ m.totalKeys = 0 ∨
        m.totalKeys - m.processedKeys ≤ 0
    · rw [GetETA_zero m now h] at hd
      injection hd with hd
      omega
    · push_neg at h
      obtain ⟨h1, h2, h3, h4⟩ := h
      rw [GetETA_eq m now h1 h2 h3 h4, GetProcessingRate_eq m now h2] at hd
      exact toInt64_nonneg _ (GetETA_float_nonneg m now hp he h4) d hd
  refine ⟨GetETA_zero m now, ?_, hsign, ?_, ?_, ?_, ?_, ?_⟩
  · intro hp he ht hr
    rw [GetETA_eq m now hp he ht hr, GetProcessingRate_eq m now he]
  · intro hp he hlt
    by_cases h : m.processedKeys = 0 ∨ m.GetElapsed now = 0 ∨ m.totalKeys = 0 ∨
        m.totalKeys - m.processedKeys ≤ 0
    · exact ⟨0, GetETA_zero m now h, le_refl 0⟩
    · push_neg at h
      obtain ⟨h1, h2, h3, h4⟩ := h
      have hnn := GetETA_float_nonneg m now hp he h4
      obtain ⟨d, hd⟩ := toInt64_isSome _ hnn hlt
      rw [GetETA_eq m now h1 h2 h3 h4, GetProcessingRate_eq m now h2]
      exact ⟨d, hd, toInt64_nonneg _ hnn d hd⟩
  · intro h0 h1 hp0 hp hr0 hr
    obtain ⟨y, hy, hy0, hyb⟩ := GetETA_value m now h0 h1 hp0 hp hr0 hr
    have hpos : (0 : ℚ) ≤ ((m.totalKeys - m.processedKeys : Int) : ℚ) *
        (m.GetElapsed now : ℚ) / m.processedKeys := by
      apply div_nonneg
      · apply mul_nonneg
        · exact_mod_cast le_of_lt hr0
        · exact_mod_cast le_of_lt h0
      · exact_mod_cast le_of_lt hp0
    rw [abs_le] at hyb
    refine ⟨fun hx => ?_, fun d hd => ?_⟩
    · have hsome : ∃ d, toInt64 y = some d := by
        apply toInt64_isSome y hy0
        norm_num at hyb hx ⊢
        linarith
      obtain ⟨d, hd⟩ := hsome
      rw [← hy] at hd
      exact ⟨d, hd, hsign (le_of_lt hp0) (le_of_lt h0) d hd⟩
    · rw [hy] at hd
      obtain ⟨f1, f2⟩ := toInt64_floor y hy0 d hd
      rw [abs_le]
      constructor <;> linarith
  · rw [GetETA_eq _ _ (by decide) (by decide) (by decide) (by decide),
      GetProcessingRate_whole _ 1000000000 1 (by decide) (by decide) (by decide) (by decide),
      float64_Second]
    have e1 : (((progressMetrics 100 80).processedKeys : Int) : ℚ) / ((1 : Int) : ℚ) =
        ((80 : Int) : ℚ) := by
      norm_num [progressMetrics, NewMetrics]
    have e2 : float64 ((progressMetrics 100 80).totalKeys -
        (progressMetrics 100 80).processedKeys) = 20 := by
      have : (progressMetrics 100 80).totalKeys -
          (progressMetrics 100 80).processedKeys = 20 := by
        decide
      rw [this, float64_of_lt 20 (by decide)]
      norm_num
    have e3 : f64div 20 (((80 : Int) : ℚ)) = 1 / 4 := by
      unfold f64div
      have : (20 : ℚ) / ((80 : Int) : ℚ) = 1 / 4 := by norm_num
      rw [this]
      exact round64_of_eq _ 1 (-2) (by decide) (by norm_num)
    have e4 : f64mul (1 / 4) 1000000000 = ((250000000 : Int) : ℚ) := by
      unfold f64mul
      have : (1 / 4 : ℚ) * 1000000000 = ((250000000 : Int) : ℚ) := by norm_num
      rw [this]
      exact round64_intCast_of_lt 250000000 (by decide)
    rw [e1, e2, round64_intCast_of_lt 80 (by decide), e3, e4]
    exact toInt64_intCast 250000000 (by decide) (by decide)
  · rw [GetETA_eq _ _ (by decide) (by decide) (by decide) (by decide),
      GetProcessingRate_whole _ 1000000000 1 (by decide) (by decide) (by decide) (by decide),
      float64_Second]
    have e1 : (((progressMetrics 100 1).processedKeys : Int) : ℚ) / ((1 : Int) : ℚ) =
        ((1 : Int) : ℚ) := by
      norm_num [progressMetrics, NewMetrics]
    have e2 : float64 ((progressMetrics 100 1).totalKeys -
        (progressMetrics 100 1).processedKeys) = 99 := by
      have : (progressMetrics 100 1).totalKeys -
          (progressMetrics 100 1).processedKeys = 99 := by
        decide
      rw [this, float64_of_lt 99 (by decide)]
      norm_num
    have e3 : f64div 99 (((1 : Int) : ℚ)) = ((99 : Int) : ℚ) := by
      unfold f64div
      have : (99 : ℚ) / ((1 : Int) : ℚ) = ((99 : Int) : ℚ) := by norm_num
      rw [this]
      exact round64_intCast_of_lt 99 (by decide)
    have e4 : f64mul (((99 : Int) : ℚ)) 1000000000 = ((99000000000 : Int) : ℚ) := by
      unfold f64mul
      have : ((99 : Int) : ℚ) * 1000000000 = ((99000000000 : Int) : ℚ) := by norm_num
      rw [this]
      exact round64_intCast_of_lt 99000000000 (by decide)
    rw [e1, e2, round64_intCast_of_lt 1 (by decide), e3, e4]
    exact toInt64_intCast 99000000000 (by decide) (by decide)
  · have hrate := GetProcessingRate_whole (progressMetrics (2 ^ 34 + 1) 1) 1000000000 1
      (by decide) (by decide) (by decide) (by decide)
    have hrate2 := GetProcessingRate_eq (progressMetrics (2 ^ 34 + 1) 1) 1000000000 (by decide)
    have e1 : (((progressMetrics (2 ^ 34 + 1) 1).processedKeys : Int) : ℚ) / ((1 : Int) : ℚ) =
        ((1 : Int) : ℚ) := by
      norm_num [progressMetrics, NewMetrics]
    have e2 : float64 ((progressMetrics (2 ^ 34 + 1) 1).totalKeys -
        (progressMetrics (2 ^ 34 + 1) 1).processedKeys) = 17179869184 := by
      have : (progressMetrics (2 ^ 34 + 1) 1).totalKeys -
          (progressMetrics (2 ^ 34 + 1) 1).processedKeys = 17179869184 := by
        decide
      rw [this, float64_of_lt 17179869184 (by decide)]
      norm_num
    have e3 : f64div 17179869184 (((1 : Int) : ℚ)) = ((17179869184 : Int) : ℚ) := by
      unfold f64div
      have : (17179869184 : ℚ) / ((1 : Int) : ℚ) = ((17179869184 : Int) : ℚ) := by norm_num
      rw [this]
      exact round64_intCast_of_lt 17179869184 (by decide)
    have e4 : f64mul (((17179869184 : Int) : ℚ)) 1000000000 = 17179869184000000000 := by
      unfold f64mul
      have : ((17179869184 : Int) : ℚ) * 1000000000 = 17179869184000000000 := by norm_num
      rw [this]
      exact round64_of_eq _ 1953125 43 (by decide) (by norm_num)
    have hv : f64mul (f64div (float64 ((progressMetrics (2 ^ 34 + 1) 1).totalKeys -
              (progressMetrics (2 ^ 34 + 1) 1).processedKeys))
            (f64div (float64 (progressMetrics (2 ^ 34 + 1) 1).processedKeys)
              (Seconds ((progressMetrics (2 ^ 34 + 1) 1).GetElapsed 1000000000))))
          (float64 Second) = 17179869184000000000 := by
      rw [← hrate2, hrate, float64_Second, e1, e2, round64_intCast_of_lt 1 (by decide), e3, e4]
    refine ⟨?_, hv⟩
    rw [GetETA_eq _ _ (by decide) (by decide) (by decide) (by decide), hrate2, hv]
    exact toInt64_eq_none _ (by norm_num)

/-- C18, amended, for a total of 100 keys, 80 processed and 1s elapsed: the remaining time
20 * 1s / 80 is below 2^62 nanoseconds, and `GetETA` is a value of `int64` that is not
negative, 250ms. -/
theorem GetETA_spec_witness :
    (0 : Int) < (progressMetrics 100 80).GetElapsed 1000000000 ∧
      (0 : Int) < (progressMetrics 100 80).processedKeys ∧
      (0 : Int) < (progressMetrics 100 80).totalKeys - (progressMetrics 100 80).processedKeys ∧
      (∃ d, (progressMetrics 100 80).GetETA 1000000000 = some d ∧ 0 ≤ d) ∧
      (progressMetrics 100 80).GetETA 1000000000 = some 250000000 :=
  ⟨by decide, by decide, by decide,
    ((GetETA_spec (progressMetrics 100 80) 1000000000).2.2.2.2.1 (by decide) (by decide)
      (by decide) (by decide) (by decide) (by decide)).1
      (by norm_num [progressMetrics, NewMetrics, Metrics.GetElapsed]),
    (GetETA_spec (progressMetrics 100 80) 1000000000).2.2.2.2.2.1⟩

/-- C19: `GetProcessingRate`, as a function of the processed counter and of the elapsed time
`e` (nanoseconds), is 0 when `e` is 0; otherwise `e` in seconds, `Seconds e`, is not 0 and the
result is the `float64` quotient of `float64(processed)` and `Seconds e`. After `k` whole
seconds, with `k` and processed below 2^53 in absolute value, it is the `float64` nearest to
processed / k: 100 after 1s and 50 after 2s for 100 processed keys. For any `e` with
0 < e < 2^63 and processed below 2^53 in absolute value it is within 2^-50 times
processed / (e / 1e9) of processed / (e / 1e9). -/
theorem GetProcessingRate_spec (m : Metrics) (now : Int) :
    (m.GetElapsed now = 0 → m.GetProcessingRate now = 0) ∧
      (m.GetElapsed now ≠ 0 →
        Seconds (m.GetElapsed now) ≠ 0 ∧
        m.GetProcessingRate now =
          f64div (float64 m.processedKeys) (Seconds (m.GetElapsed now))) ∧
      (∀ k : Int, k ≠ 0 → |k| < 2 ^ 53 → |m.processedKeys| < 2 ^ 53 →
        m.GetElapsed now = k * Second →
        m.GetProcessingRate now = round64 ((m.processedKeys : ℚ) / k)) ∧
      (0 < m.GetElapsed now → m.GetElapsed now < 2 ^ 63 → |m.processedKeys| < 2 ^ 53 →
        |m.GetProcessingRate now -
            (m.processedKeys : ℚ) / ((m.GetElapsed now : ℚ) / 1000000000)| ≤
          8 / 2 ^ 53 * |(m.processedKeys : ℚ) / ((m.GetElapsed now : ℚ) / 1000000000)|) ∧
      rateMetrics.GetProcessingRate 1000000000 = 100 ∧
      rateMetrics.GetProcessingRate 2000000000 = 50 := by
  refine ⟨?_, ?_, GetProcessingRate_whole m now, GetProcessingRate_err m now, ?_, ?_⟩
  · intro h
    exact (GetProcessingRate_eq_zero_iff m now).mpr (Or.inr h)
  · intro h
    exact ⟨mt (Seconds_eq_zero_iff _).mp h, GetProcessingRate_eq m now h⟩
  · rw [GetProcessingRate_whole rateMetrics 1000000000 1 (by decide) (by decide) (by decide)
      (by decide)]
    have : ((rateMetrics.processedKeys : Int) : ℚ) / ((1 : Int) : ℚ) = ((100 : Int) : ℚ) := by
      norm_num [rateMetrics, NewMetrics]
    rw [this, round64_intCast_of_lt 100 (by decide)]
    norm_num
  · rw [GetProcessingRate_whole rateMetrics 2000000000 2 (by decide) (by decide) (by decide)
      (by decide)]
    have : ((rateMetrics.processedKeys : Int) : ℚ) / ((2 : Int) : ℚ) = ((50 : Int) : ℚ) := by
      norm_num [rateMetrics, NewMetrics]
    rw [this, round64_intCast_of_lt 50 (by decide)]
    norm_num

/-- C19 for 100 processed keys after 1s. -/
theorem GetProcessingRate_spec_witness :
    rateMetrics.GetElapsed 1000000000 ≠ 0 ∧
      Seconds (rateMetrics.GetElapsed 1000000000) ≠ 0 ∧
      rateMetrics.GetProcessingRate 1000000000 =
        f64div (float64 rateMetrics.processedKeys)
          (Seconds (rateMetrics.GetElapsed 1000000000)) :=
  ⟨by decide, (GetProcessingRate_spec rateMetrics 1000000000).2.1 (by decide)⟩

/-- C20: `GetSuccessRate` and `GetFailureRate` are 0 when processed is 0, whatever succeeded
and failed are, and otherwise the `float64` quotients of `float64(succeeded)` and of
`float64(failed)` by `float64(processed)`. For counters below 2^53 in absolute value these
are the `float64` values nearest to succeeded / processed and failed / processed, within
the ratio times 2^-53 of it, and the ratio itself when the ratio is a `float64`. -/
theorem GetSuccessRate_GetFailureRate_spec (m : Metrics) :
    (m.processedKeys = 0 → m.GetSuccessRate = 0 ∧ m.GetFailureRate = 0) ∧
      (m.processedKeys ≠ 0 →
        m.GetSuccessRate = f64div (float64 m.successKeys) (float64 m.processedKeys) ∧
        m.GetFailureRate = f64div (float64 m.failedKeys) (float64 m.processedKeys)) ∧
      (m.processedKeys ≠ 0 → |m.processedKeys| < 2 ^ 53 →
        (|m.successKeys| < 2 ^ 53 →
          m.GetSuccessRate = round64 ((m.successKeys : ℚ) / m.processedKeys) ∧
          |m.GetSuccessRate - (m.successKeys : ℚ) / m.processedKeys| ≤
            |(m.successKeys : ℚ) / m.processedKeys| / 2 ^ 53 ∧
          ∀ n k : Int, |n| < 2 ^ 53 → (m.successKeys : ℚ) / m.processedKeys = n * 2 ^ k →
            m.GetSuccessRate = (m.successKeys : ℚ) / m.processedKeys) ∧
        (|m.failedKeys| < 2 ^ 53 →
          m.GetFailureRate = round64 ((m.failedKeys : ℚ) / m.processedKeys) ∧
          |m.GetFailureRate - (m.failedKeys : ℚ) / m.processedKeys| ≤
            |(m.failedKeys : ℚ) / m.processedKeys| / 2 ^ 53 ∧
          ∀ n k : Int, |n| < 2 ^ 53 → (m.failedKeys : ℚ) / m.processedKeys = n * 2 ^ k →
            m.GetFailureRate = (m.failedKeys : ℚ) / m.processedKeys)) ∧
      (outcomeMetrics 0 m.successKeys m.failedKeys).GetSuccessRate = 0 ∧
      (outcomeMetrics 0 m.successKeys m.failedKeys).GetFailureRate = 0 := by
  have hs : m.processedKeys ≠ 0 →
      m.GetSuccessRate = f64div (float64 m.successKeys) (float64 m.processedKeys) := by
    intro h
    unfold Metrics.GetSuccessRate
    simp only [if_neg h]
  have hf : m.processedKeys ≠ 0 →
      m.GetFailureRate = f64div (float64 m.failedKeys) (float64 m.processedKeys) := by
    intro h
    unfold Metrics.GetFailureRate
    simp only [if_neg h]
  refine ⟨?_, fun h => ⟨hs h, hf h⟩, ?_, rfl, rfl⟩
  · intro h
    unfold Metrics.GetSuccessRate Metrics.GetFailureRate
    simp only [if_pos h, and_self]
  · intro h hp
    refine ⟨fun ha => ?_, fun ha => ?_⟩
    · have e := (hs h).trans (f64div_float64 _ _ ha hp)
      refine ⟨e, ?_, ?_⟩
      · rw [e]
        exact round64_sub_le _
      · intro n k hn hx
        rw [e]
        exact round64_of_eq _ n k hn hx
    · have e := (hf h).trans (f64div_float64 _ _ ha hp)
      refine ⟨e, ?_, ?_⟩
      · rw [e]
        exact round64_sub_le _
      · intro n k hn hx
        rw [e]
        exact round64_of_eq _ n k hn hx

/-- C20 for 100 processed keys of which 50 succeeded and 50 failed: both rates are 0.5. -/
theorem GetSuccessRate_GetFailureRate_spec_witness :
    (outcomeMetrics 100 50 50).processedKeys ≠ 0 ∧
      (outcomeMetrics 100 50 50).GetSuccessRate = 1 / 2 ∧
      (outcomeMetrics 100 50 50).GetFailureRate = 1 / 2 :=
  ⟨by decide,
    (((GetSuccessRate_GetFailureRate_spec (outcomeMetrics 100 50 50)).2.2.1 (by decide)
      (by decide)).1 (by decide)).2.2 1 (-1) (by decide)
        (by norm_num [outcomeMetrics, NewMetrics]) |>.trans
        (by norm_num [outcomeMetrics, NewMetrics]),
    (((GetSuccessRate_GetFailureRate_spec (outcomeMetrics 100 50 50)).2.2.1 (by decide)
      (by decide)).2 (by decide)).2.2 1 (-1) (by decide)
        (by norm_num [outcomeMetrics, NewMetrics]) |>.trans
        (by norm_num [outcomeMetrics, NewMetrics])⟩

/-! ## The tracker and its reference model -/

theorem wrap64_of_isInt64 (x : Int) (h : isInt64 x) : wrap64 x = x := by
  unfold isInt64 at h
  unfold wrap64
  omega

theorem wrap64_isInt64 (x : Int) : isInt64 (wrap64 x) := by
  unfold isInt64 wrap64
  omega

theorem wrap64_add (a b : Int) : wrap64 (wrap64 a + b) = wrap64 (a + b) := by
  unfold wrap64
  omega

theorem wrap64_zero : wrap64 0 = 0 := by decide

theorem calls_append (m : Metrics) (a b : List Mutator) :
    m.calls (a ++ b) = (m.calls a).calls b := by
  simp [Metrics.calls, List.foldl_append]

theorem sumOf_cons (sel : Mutator → Option Int) (op : Mutator) (ops : List Mutator) :
    sumOf sel (op :: ops) = (sel op).getD 0 + sumOf sel ops := by
  unfold sumOf
  cases h : sel op <;> simp [List.filterMap_cons, h]

theorem calls_fields (ops : List Mutator) (m : Metrics) :
    (m.calls ops).totalKeys = ((ops.filterMap Mutator.total?).getLast?).getD m.totalKeys ∧
      wrap64 (m.calls ops).processedKeys =
        wrap64 (m.processedKeys + sumOf Mutator.processed? ops) ∧
      wrap64 (m.calls ops).successKeys = wrap64 (m.successKeys + sumOf Mutator.success? ops) ∧
      wrap64 (m.calls ops).failedKeys = wrap64 (m.failedKeys + sumOf Mutator.failed? ops) ∧
      wrap64 (m.calls ops).skippedKeys = wrap64 (m.skippedKeys + sumOf Mutator.skipped? ops) ∧
      wrap64 (m.calls ops).overwrittenKeys =
        wrap64 (m.overwrittenKeys + sumOf Mutator.overwritten? ops) ∧
      (m.calls ops).startTime = m.startTime := by
  induction ops generalizing m with
  | nil => simp [Metrics.calls, sumOf]
  | cons op ops ih =>
    have h := ih (op.apply m)
    have e : m.calls (op :: ops) = (op.apply m).calls ops := rfl
    rw [e]
    obtain ⟨h1, h2, h3, h4, h5, h6, h7⟩ := h
    rw [h1, h2, h3, h4, h5, h6, h7]
    simp only [sumOf_cons]
    cases op <;>
      simp [Mutator.apply, Metrics.SetTotal, atomicAdd, wrap64_add, Mutator.total?, Mutator.processed?,
        Mutator.success?, Mutator.failed?, Mutator.skipped?, Mutator.overwritten?,
        List.getLast?_cons, add_assoc]

theorem apply_inRange (op : Mutator) (m : Metrics) (h : m.InRange) : (op.apply m).InRange := by
  obtain ⟨h1, h2, h3, h4, h5⟩ := h
  cases op <;> simp only [Mutator.apply, Metrics.SetTotal, Metrics.InRange, atomicAdd] <;>
    refine ⟨?_, ?_, ?_, ?_, ?_⟩ <;> first | assumption | exact wrap64_isInt64 _

theorem calls_inRange (ops : List Mutator) (m : Metrics) (h : m.InRange) :
    (m.calls ops).InRange := by
  induction ops generalizing m with
  | nil => exact h
  | cons op ops ih => exact ih _ (apply_inRange op m h)

theorem newMetrics_inRange (now : Int) : (NewMetrics now).InRange := by
  simp [Metrics.InRange, NewMetrics, isInt64]

theorem metrics_eq_of_fields (a b : Metrics) (h1 : a.totalKeys = b.totalKeys)
    (h2 : a.processedKeys = b.processedKeys) (h3 : a.successKeys = b.successKeys)
    (h4 : a.failedKeys = b.failedKeys) (h5 : a.skippedKeys = b.skippedKeys)
    (h6 : a.overwrittenKeys = b.overwrittenKeys) (h7 : a.startTime = b.startTime) : a = b := by
  cases a
  cases b
  simp_all

theorem sumOf_perm (sel : Mutator → Option Int) (a b : List Mutator) (h : a.Perm b) :
    sumOf sel a = sumOf sel b :=
  (h.filterMap sel).sum_eq

theorem calls_counters (now : Int) (ops : List Mutator) :
    ((NewMetrics now).calls ops).totalKeys = lastTotal ops ∧
      ((NewMetrics now).calls ops).processedKeys = wrap64 (sumOf Mutator.processed? ops) ∧
      ((NewMetrics now).calls ops).successKeys = wrap64 (sumOf Mutator.success? ops) ∧
      ((NewMetrics now).calls ops).failedKeys = wrap64 (sumOf Mutator.failed? ops) ∧
      ((NewMetrics now).calls ops).skippedKeys = wrap64 (sumOf Mutator.skipped? ops) ∧
      ((NewMetrics now).calls ops).overwrittenKeys =
        wrap64 (sumOf Mutator.overwritten? ops) ∧
      ((NewMetrics now).calls ops).startTime = now := by
  obtain ⟨h1, h2, h3, h4, h5, h6, h7⟩ := calls_fields ops (NewMetrics now)
  obtain ⟨r1, r2, r3, r4, r5⟩ := calls_inRange ops _ (newMetrics_inRange now)
  rw [wrap64_of_isInt64 _ r1] at h2
  rw [wrap64_of_isInt64 _ r2] at h3
  rw [wrap64_of_isInt64 _ r3] at h4
  rw [wrap64_of_isInt64 _ r4] at h5
  rw [wrap64_of_isInt64 _ r5] at h6
  refine ⟨h1, ?_, ?_, ?_, ?_, ?_, h7⟩
  · simpa [NewMetrics] using h2
  · simpa [NewMetrics] using h3
  · simpa [NewMetrics] using h4
  · simpa [NewMetrics] using h5
  · simpa [NewMetrics] using h6

/-- C21, as stated, fails when a sum leaves `int64`: `AddProcessed(2^63 - 1)` and then
`AddProcessed(1)` on a fresh tracker, two calls with `int64` arguments, leave
`GetProcessedKeys` at -2^63, which is not the sum 2^63 of the two arguments. -/
theorem AddProcessed_sum_wraps :
    isInt64 (2 ^ 63 - 1) ∧ isInt64 1 ∧
      ((NewMetrics 0).calls
        [.AddProcessed (2 ^ 63 - 1), .AddProcessed 1]).GetProcessedKeys = -2 ^ 63 ∧
      sumOf Mutator.processed? [.AddProcessed (2 ^ 63 - 1), .AddProcessed 1] = 2 ^ 63 ∧
      ((NewMetrics 0).calls
        [.AddProcessed (2 ^ 63 - 1), .AddProcessed 1]).GetProcessedKeys ≠
        sumOf Mutator.processed? [.AddProcessed (2 ^ 63 - 1), .AddProcessed 1] := by
  refine ⟨?_, ?_, ?_, ?_, ?_⟩
  · unfold isInt64
    decide
  · unfold isInt64
    decide
  · decide
  · decide
  · decide

/-- C21, amended: after any sequence `ops` of mutator calls on a fresh tracker,
`GetTotalKeys` is the argument of the last `SetTotal` call (0 without one; a later call
overwrites an earlier one) and each of the five other getters is the sum of the arguments of
the calls of its own adder in the arithmetic of `int64`: the sum modulo 2^64 in the range of
`int64`, which is the sum itself whenever the sum is a value of `int64`, also when a sum of
some of the arguments is not. A call of an adder adds its argument to its own counter and
leaves the other counters, the total and the start time as they are; and a reordering of the
calls that keeps the order of the `SetTotal` calls leads to the same tracker, so the counters
do not depend on how the calls of concurrent callers interleave. -/
theorem tracker_reference_model (now : Int) (ops : List Mutator) :
    ((NewMetrics now).calls ops).GetTotalKeys = lastTotal ops ∧
      ((NewMetrics now).calls ops).GetProcessedKeys = wrap64 (sumOf Mutator.processed? ops) ∧
      ((NewMetrics now).calls ops).GetSuccessfulKeys = wrap64 (sumOf Mutator.success? ops) ∧
      ((NewMetrics now).calls ops).GetFailedKeys = wrap64 (sumOf Mutator.failed? ops) ∧
      ((NewMetrics now).calls ops).GetSkippedKeys = wrap64 (sumOf Mutator.skipped? ops) ∧
      ((NewMetrics now).calls ops).GetOverwrittenKeys =
        wrap64 (sumOf Mutator.overwritten? ops) ∧
      (∀ x : Int, isInt64 (wrap64 x) ∧ (∃ k : Int, wrap64 x = x + k * 2 ^ 64) ∧
        (isInt64 x → wrap64 x = x)) ∧
      (isInt64 (sumOf Mutator.processed? ops) →
        ((NewMetrics now).calls ops).GetProcessedKeys = sumOf Mutator.processed? ops) ∧
      (isInt64 (sumOf Mutator.success? ops) →
        ((NewMetrics now).calls ops).GetSuccessfulKeys = sumOf Mutator.success? ops) ∧
      (isInt64 (sumOf Mutator.failed? ops) →
        ((NewMetrics now).calls ops).GetFailedKeys = sumOf Mutator.failed? ops) ∧
      (isInt64 (sumOf Mutator.skipped? ops) →
        ((NewMetrics now).calls ops).GetSkippedKeys = sumOf Mutator.skipped? ops) ∧
      (isInt64 (sumOf Mutator.overwritten? ops) →
        ((NewMetrics now).calls ops).GetOverwrittenKeys = sumOf Mutator.overwritten? ops) ∧
      (∀ (m : Metrics) (a b : Int),
        (Mutator.SetTotal b).apply ((Mutator.SetTotal a).apply m) =
          (Mutator.SetTotal b).apply m) ∧
      (∀ (op : Mutator) (m : Metrics), op.total? = none →
        (op.apply m).totalKeys = m.totalKeys ∧
        (op.apply m).processedKeys =
          (match op.processed? with
            | some n => wrap64 (m.processedKeys + n)
            | none => m.processedKeys) ∧
        (op.apply m).successKeys =
          (match op.success? with
            | some n => wrap64 (m.successKeys + n)
            | none => m.successKeys) ∧
        (op.apply m).failedKeys =
          (match op.failed? with
            | some n => wrap64 (m.failedKeys + n)
            | none => m.failedKeys) ∧
        (op.apply m).skippedKeys =
          (match op.skipped? with
            | some n => wrap64 (m.skippedKeys + n)
            | none => m.skippedKeys) ∧
        (op.apply m).overwrittenKeys =
          (match op.overwritten? with
            | some n => wrap64 (m.overwrittenKeys + n)
            | none => m.overwrittenKeys) ∧
        (op.apply m).startTime = m.startTime) ∧
      (∀ ops2 : List Mutator, ops2.Perm ops →
        ops2.filterMap Mutator.total? = ops.filterMap Mutator.total? →
        (NewMetrics now).calls ops2 = (NewMetrics now).calls ops) := by
  obtain ⟨h1, h2, h3, h4, h5, h6, h7⟩ := calls_counters now ops
  refine ⟨h1, h2, h3, h4, h5, h6, ?_, ?_, ?_, ?_, ?_, ?_, fun _ _ _ => rfl, ?_, ?_⟩
  · intro x
    refine ⟨wrap64_isInt64 x, ⟨-((x + 2 ^ 63) / 2 ^ 64), ?_⟩, wrap64_of_isInt64 x⟩
    unfold wrap64
    omega
  · exact fun h => h2.trans (wrap64_of_isInt64 _ h)
  · exact fun h => h3.trans (wrap64_of_isInt64 _ h)
  · exact fun h => h4.trans (wrap64_of_isInt64 _ h)
  · exact fun h => h5.trans (wrap64_of_isInt64 _ h)
  · exact fun h => h6.trans (wrap64_of_isInt64 _ h)
  · intro op m hop
    cases op <;>
      simp [Mutator.apply, Metrics.SetTotal, atomicAdd, Mutator.total?, Mutator.processed?,
        Mutator.success?, Mutator.failed?, Mutator.skipped?, Mutator.overwritten?] at hop ⊢
  · intro ops2 hp ht
    obtain ⟨g1, g2, g3, g4, g5, g6, g7⟩ := calls_counters now ops2
    apply metrics_eq_of_fields
    · rw [g1, h1, lastTotal, lastTotal, ht]
    · rw [g2, h2, sumOf_perm _ _ _ hp]
    · rw [g3, h3, sumOf_perm _ _ _ hp]
    · rw [g4, h4, sumOf_perm _ _ _ hp]
    · rw [g5, h5, sumOf_perm _ _ _ hp]
    · rw [g6, h6, sumOf_perm _ _ _ hp]
    · rw [g7, h7]

/-- C21, amended, on two callers whose calls interleave in two ways: the trackers are the
same, and processed is the sum 5 of the arguments 2 and 3. -/
theorem tracker_reference_model_witness :
    [Mutator.SetTotal 5, .AddFailed 1, .AddProcessed 2, .AddProcessed 3].Perm
        [.SetTotal 5, .AddProcessed 2, .AddFailed 1, .AddProcessed 3] ∧
      (NewMetrics 0).calls [.SetTotal 5, .AddFailed 1, .AddProcessed 2, .AddProcessed 3] =
        (NewMetrics 0).calls [.SetTotal 5, .AddProcessed 2, .AddFailed 1, .AddProcessed 3] ∧
      isInt64 (sumOf Mutator.processed?
        [.SetTotal 5, .AddProcessed 2, .AddFailed 1, .AddProcessed 3]) ∧
      ((NewMetrics 0).calls
        [.SetTotal 5, .AddProcessed 2, .AddFailed 1, .AddProcessed 3]).GetProcessedKeys =
        sumOf Mutator.processed?
          [.SetTotal 5, .AddProcessed 2, .AddFailed 1, .AddProcessed 3] ∧
      sumOf Mutator.processed?
        [.SetTotal 5, .AddProcessed 2, .AddFailed 1, .AddProcessed 3] = 5 :=
  ⟨by decide,
    (tracker_reference_model 0
      [.SetTotal 5, .AddProcessed 2, .AddFailed 1, .AddProcessed 3]).2.2.2.2.2.2.2.2.2.2.2.2.2.2
      [.SetTotal 5, .AddFailed 1, .AddProcessed 2, .AddProcessed 3] (by decide) rfl,
    by unfold isInt64; decide,
    (tracker_reference_model 0
      [.SetTotal 5, .AddProcessed 2, .AddFailed 1, .AddProcessed 3]).2.2.2.2.2.2.2.1
      (by unfold isInt64; decide),
    by decide⟩

/-! ## The counters never decrease -/

theorem counters_le_refl (a : Metrics) : a.le a :=
  ⟨le_rfl, le_rfl, le_rfl, le_rfl, le_rfl⟩

theorem counters_le_trans {a b c : Metrics} (h1 : a.le b) (h2 : b.le c) : a.le c :=
  ⟨h1.1.trans h2.1, h1.2.1.trans h2.2.1, h1.2.2.1.trans h2.2.2.1,
    h1.2.2.2.1.trans h2.2.2.2.1, h1.2.2.2.2.trans h2.2.2.2.2⟩

theorem counters_le_SetTotal (a : Metrics) (n : Int) : a.le (a.SetTotal n) :=
  ⟨le_rfl, le_rfl, le_rfl, le_rfl, le_rfl⟩

theorem counters_le_metricOp (op : MetricOp) (hop : op.NonNeg) (a : Metrics) :
    a.le (op.apply a) := by
  cases op <;>
    simp only [MetricOp.NonNeg] at hop <;>
    simp only [MetricOp.apply, Metrics.le, Metrics.AddProcessed, Metrics.AddSuccess,
      Metrics.AddFailed, Metrics.AddOverwritten] <;>
    omega

theorem adder_le_iff (op : Mutator) (a : Metrics) (ha : a.InRange) (hn : isInt64 op.count)
    (hop : op.total? = none) :
    (a.le (op.apply a) ↔
        (0 ≤ op.count ∧ op.counter a + op.count < 2 ^ 63) ∨
          (op.count < 0 ∧ op.counter a + op.count < -2 ^ 63)) ∧
      (op.counter (op.apply a) < op.counter a ↔
        (op.count < 0 ∧ -2 ^ 63 ≤ op.counter a + op.count) ∨
          (0 < op.count ∧ 2 ^ 63 ≤ op.counter a + op.count)) := by
  obtain ⟨h1, h2, h3, h4, h5⟩ := ha
  unfold isInt64 at h1 h2 h3 h4 h5 hn
  cases op <;>
    simp only [Mutator.total?, reduceCtorEq] at hop <;>
    simp only [Mutator.count] at hn <;>
    simp only [Mutator.apply, Metrics.SetTotal, Metrics.le, Mutator.counter, Mutator.count,
      atomicAdd, wrap64,
      le_refl, true_and, and_true] <;>
    omega

theorem processBatch_nonneg (config : Config) (keys : List String) :
    (processBatch config keys).Ops MetricOp.NonNeg := by
  unfold processBatch
  intro r
  rcases r with ⟨E, _ | e⟩
  · intro r
    rcases r with ⟨S, _ | e⟩
    · simp only [updateMetricsForBatch]
      refine ⟨Int.natCast_nonneg _, ?_, ?_⟩
      · by_cases hc : config.Conflict = OverwriteOnConflict
        · rw [if_pos hc]
          exact Int.natCast_nonneg _
        · rw [if_neg hc]
          exact Int.natCast_nonneg _
      · by_cases hf : (E.length : Int) - S.length > 0 <;>
          by_cases hm : config.Mode = MoveMode ∧ S.length > 0 <;>
          simp only [hf, hm, if_true, if_false, Prog.Ops, true_and, and_true,
            MetricOp.NonNeg] <;>
          first
            | trivial
            | omega
            | (intro r; cases r <;> simp [Prog.Ops])
            | (refine ⟨by omega, ?_⟩; intro r; cases r <;> simp [Prog.Ops])
    · exact ⟨Int.natCast_nonneg _, Int.natCast_nonneg _, trivial⟩
  · exact ⟨Int.natCast_nonneg _, Int.natCast_nonneg _, trivial⟩

theorem ops_set {P : MetricOp → Prop} {ws : List Worker} (hI : ∀ w ∈ ws, w.Ops P) (i : Nat)
    (x : Worker) (hx : x.Ops P) : ∀ w ∈ ws.set i x, w.Ops P := by
  intro w hw
  rcases List.mem_or_eq_of_mem_set hw with hw | hw
  · exact hI w hw
  · exact hw ▸ hx

theorem nonneg_step {W : Type} {m : Migrator W} {s s' : State W}
    (hI : ∀ w ∈ s.workers, w.Ops MetricOp.NonNeg) (h : Step m s s') :
    (∀ w ∈ s'.workers, w.Ops MetricOp.NonNeg) ∧ s.metrics.le s'.metrics := by
  have hops : ∀ (i : Nat) (w : Worker), s.workers[i]? = some w → w.Ops MetricOp.NonNeg :=
    fun i w hi => hI w (List.getElem?_mem hi)
  cases h with
  | countFailed err hm hr => exact ⟨hI, counters_le_refl _⟩
  | countZero hm hr => exact ⟨hI, counters_le_SetTotal _ _⟩
  | makePanic total hm hr ht hneg => exact ⟨hI, counters_le_SetTotal _ _⟩
  | spawn total hm hr ht hneg =>
    refine ⟨?_, counters_le_SetTotal _ _⟩
    intro w hw
    rw [List.eq_of_mem_replicate hw]
    trivial
  | drain e rest hm hc => exact ⟨hI, counters_le_refl _⟩
  | mainReturn hm hc hcl => exact ⟨hI, counters_le_refl _⟩
  | receive i keys rest hw hc =>
    exact ⟨ops_set hI i _ (processBatch_nonneg _ _), counters_le_refl _⟩
  | exitClosed i hw hc hcl => exact ⟨ops_set hI i _ trivial, counters_le_refl _⟩
  | exitDone i hw hd => exact ⟨ops_set hI i _ trivial, counters_le_refl _⟩
  | metric i op k hw =>
    have hk := hops i _ hw
    exact ⟨ops_set hI i _ hk.2, counters_le_metricOp op hk.1 _⟩
  | workerSend i e k t hw hsent =>
    have hk := hops i _ hw
    cases hsent with
    | buffered hclosed hroom => exact ⟨ops_set hI i _ hk, counters_le_refl _⟩
    | handed hclosed hcap hmain => exact ⟨ops_set hI i _ hk, counters_le_refl _⟩
  | workerPanic i e k hw hcl => exact ⟨hI, counters_le_refl _⟩
  | dump i keys k hw =>
    exact ⟨ops_set hI i _ (hops i _ hw _), counters_le_refl _⟩
  | restore i data b k hw =>
    exact ⟨ops_set hI i _ (hops i _ hw _), counters_le_refl _⟩
  | delete i keys k hw =>
    exact ⟨ops_set hI i _ (hops i _ hw _), counters_le_refl _⟩
  | scanSend keys hp hr => exact ⟨hI, counters_le_refl _⟩
  | scanReturn hp hr => exact ⟨hI, counters_le_refl _⟩
  | scanFailed err hp hr => exact ⟨hI, counters_le_refl _⟩
  | enqueue keys hp hroom => exact ⟨hI, counters_le_refl _⟩
  | scanDone keys hp hd => exact ⟨hI, counters_le_refl _⟩
  | report e t hp hsent =>
    cases hsent with
    | buffered hclosed hroom => exact ⟨hI, counters_le_refl _⟩
    | handed hclosed hcap hmain => exact ⟨hI, counters_le_refl _⟩
  | reportPanic e hp hcl => exact ⟨hI, counters_le_refl _⟩
  | closeKeys hp => exact ⟨hI, counters_le_refl _⟩
  | closeErrors hc hall => exact ⟨hI, counters_le_refl _⟩
  | cancel => exact ⟨hI, counters_le_refl _⟩

theorem reachable_nonneg {W : Type} {m : Migrator W} {c : Bool} {w : W} {mt : Metrics}
    {s : State W} (h : Reachable m (State.init m c w mt) s) :
    (∀ x ∈ s.workers, x.Ops MetricOp.NonNeg) ∧ mt.le s.metrics :=
  reachable_invariant (fun s => (∀ x ∈ s.workers, x.Ops MetricOp.NonNeg) ∧ mt.le s.metrics)
    ⟨by simp [State.init], counters_le_refl _⟩
    (fun _ _ hI _ hs => ⟨(nonneg_step hI.1 hs).1, counters_le_trans hI.2 (nonneg_step hI.1 hs).2⟩)
    h

/-- C22, as stated, fails: an adder takes any `int64`, and `AddProcessed(-1)` on a fresh
tracker leaves processed at -1, smaller than the 0 before the call; and `AddProcessed(1)` on
a tracker whose processed counter is 2^63 - 1 leaves it at -2^63. -/
theorem AddProcessed_negative_decreases :
    ((Mutator.AddProcessed (-1)).apply (NewMetrics 0)).processedKeys <
        (NewMetrics 0).processedKeys ∧
      ((Mutator.AddProcessed 1).apply
          ((Mutator.AddProcessed (2 ^ 63 - 1)).apply (NewMetrics 0))).processedKeys <
        ((Mutator.AddProcessed (2 ^ 63 - 1)).apply (NewMetrics 0)).processedKeys := by
  decide

/-- C22, amended: no call of `SetTotal` makes any of the counters processed, succeeded,
failed, skipped and overwritten smaller, and a call of an adder with an `int64` argument on a
tracker of `int64` counters changes no counter but its own and makes none smaller exactly
when its argument is not negative and the sum is at most 2^63 - 1 (or is negative and the sum
is below -2^63, where it wraps upwards): its own counter gets smaller exactly when the
argument is negative and the sum is at least -2^63, or the argument is positive and the sum
is above 2^63 - 1, where it wraps. The counters stay values of `int64` under every call.
Every argument the engine passes is a length or a positive difference of lengths, so it is
not negative. -/
theorem counters_monotone :
    (∀ (a : Metrics) (n : Int), a.le ((Mutator.SetTotal n).apply a)) ∧
      (∀ (op : Mutator) (a : Metrics), a.InRange → isInt64 op.count → op.total? = none →
        (a.le (op.apply a) ↔
          (0 ≤ op.count ∧ op.counter a + op.count < 2 ^ 63) ∨
            (op.count < 0 ∧ op.counter a + op.count < -2 ^ 63)) ∧
        (op.counter (op.apply a) < op.counter a ↔
          (op.count < 0 ∧ -2 ^ 63 ≤ op.counter a + op.count) ∨
            (0 < op.count ∧ 2 ^ 63 ≤ op.counter a + op.count))) ∧
      (∀ (op : Mutator) (a : Metrics), a.InRange → (op.apply a).InRange) ∧
      (∀ (config : Config) (keys : List String),
        (processBatch config keys).Ops MetricOp.NonNeg) :=
  ⟨fun a _ => counters_le_refl a, adder_le_iff, apply_inRange, processBatch_nonneg⟩

/-- C22, amended, for `AddFailed(3)` on a fresh tracker: no counter gets smaller. -/
theorem counters_monotone_witness :
    (NewMetrics 0).InRange ∧ isInt64 (Mutator.AddFailed 3).count ∧
      (0 ≤ (Mutator.AddFailed 3).count ∧
        (Mutator.AddFailed 3).counter (NewMetrics 0) + (Mutator.AddFailed 3).count < 2 ^ 63) ∧
      (NewMetrics 0).le ((Mutator.AddFailed 3).apply (NewMetrics 0)) :=
  ⟨newMetrics_inRange 0, by unfold isInt64; decide, by decide,
    ((counters_monotone.2.1 (.AddFailed 3) (NewMetrics 0) (newMetrics_inRange 0)
      (by unfold isInt64; decide) rfl).1).mpr (Or.inl (by decide))⟩

/-! ## client.go -/

theorem count_scan_loops {W : Type} (c : Client W) (ctx : Context) (pattern : String)
    (batchSize : Int) (w : W) (hctx : ctx.done = false)
    (hread : ∀ cursor, (c.client.Scan ctx cursor pattern batchSize w).2 = w)
    (herr : ∀ cursor, (c.client.Scan ctx cursor pattern batchSize w).1.2.2 = none) :
    ∀ (fuel cursor : Nat) (count : Int) (sent : List (List String)),
      (∃ k, k < fuel ∧
        (fun cur => (c.client.Scan ctx cur pattern batchSize w).1.2.1)^[k + 1] cursor = 0) →
      ∃ batches : List (List String),
        c.countLoop ctx pattern batchSize fuel count cursor w =
          some ((count + ((batches.map List.length).sum : Nat), none), w) ∧
        c.scanLoop ctx pattern batchSize fuel cursor sent w =
          some ((sent ++ batches, none), w) := by
  intro fuel
  induction fuel with
  | zero =>
    rintro cursor count sent ⟨k, hk, _⟩
    omega
  | succ fuel ih =>
    rintro cursor count sent ⟨k, hk, hz⟩
    have hr := hread cursor
    have he := herr cursor
    rcases hs : c.client.Scan ctx cursor pattern batchSize w with ⟨⟨keys, newCursor, err⟩, w1⟩
    rw [hs] at hr he
    simp only at hr he
    subst hr
    subst he
    unfold Client.countLoop Client.scanLoop
    simp only [hs, hctx, Bool.false_eq_true, and_false, if_false]
    by_cases h0 : newCursor = 0
    · simp only [h0, if_true]
      by_cases hlen : keys.length > 0
      · exact ⟨[keys], by simp [hlen]⟩
      · have : keys.length = 0 := by omega
        exact ⟨[], by simp [this]⟩
    · simp only [h0, if_false]
      have hk2 : ∃ k2, k = k2 + 1 := by
        cases k with
        | zero =>
          simp only [zero_add, Function.iterate_one, hs] at hz
          exact absurd hz h0
        | succ k2 => exact ⟨k2, rfl⟩
      obtain ⟨k2, rfl⟩ := hk2
      rw [Function.iterate_succ, Function.comp_apply, hs] at hz
      obtain ⟨batches, hc, hsc⟩ := ih newCursor (count + keys.length)
        (if keys.length > 0 then sent ++ [keys] else sent) ⟨k2, by omega, hz⟩
      by_cases hlen : keys.length > 0
      · refine ⟨keys :: batches, ?_, ?_⟩
        · rw [hc]
          simp only [List.map_cons, List.sum_cons, Nat.cast_add]
          rw [add_assoc]
        · rw [hsc]
          simp [hlen]
      · have hl0 : keys.length = 0 := by omega
        refine ⟨batches, ?_, ?_⟩
        · rw [hc, hl0]
          simp
        · rw [hsc]
          simp [hl0]

/-- C23: for a source whose SCAN replies do not change the state of the server (so both
passes see the same replies), return no error, and lead the cursor from 0 back to 0 after
`k + 1` calls, with a context that is not cancelled and any pattern and batch size:
`CountKeys` and `ScanKeys` both return, without error, within `k + 1` calls of SCAN, and the
number `CountKeys` returns is the total number of keys in the batches `ScanKeys` sends on its
channel. -/
theorem count_then_stream {W : Type} (c : Client W) (ctx : Context) (pattern : String)
    (batchSize : Int) (w : W) (fuel k : Nat) (hctx : ctx.done = false)
    (hread : ∀ cursor, (c.client.Scan ctx cursor pattern batchSize w).2 = w)
    (herr : ∀ cursor, (c.client.Scan ctx cursor pattern batchSize w).1.2.2 = none)
    (hk : k < fuel)
    (hzero : (fun cur => (c.client.Scan ctx cur pattern batchSize w).1.2.1)^[k + 1] 0 = 0) :
    ∃ (n : Int) (batches : List (List String)),
      c.CountKeys ctx pattern batchSize fuel w = some ((n, none), w) ∧
      c.ScanKeys ctx pattern batchSize fuel w = some ((batches, none), w) ∧
      n = ((batches.map List.length).sum : Nat) := by
  obtain ⟨batches, hc, hs⟩ := count_scan_loops c ctx pattern batchSize w hctx hread herr
    fuel 0 0 [] ⟨k, hk, hzero⟩
  refine ⟨_, batches, hc, ?_, by simp⟩
  simpa [Client.ScanKeys] using hs

/-- C23 on a source whose SCAN takes three calls, the second with an empty reply: the count
is 3 and the batches sent are [a, b] and [c]. -/
theorem count_then_stream_witness :
    (Client.mk pagedRedis).CountKeys ⟨false⟩ "*" 2 3 [] = some ((3, none), []) ∧
      (Client.mk pagedRedis).ScanKeys ⟨false⟩ "*" 2 3 [] =
        some (([["a", "b"], ["c"]], none), []) ∧
      ∃ (n : Int) (batches : List (List String)),
        (Client.mk pagedRedis).CountKeys ⟨false⟩ "*" 2 3 [] = some ((n, none), []) ∧
        (Client.mk pagedRedis).ScanKeys ⟨false⟩ "*" 2 3 [] = some ((batches, none), []) ∧
        n = ((batches.map List.length).sum : Nat) :=
  ⟨rfl, rfl, count_then_stream (Client.mk pagedRedis) ⟨false⟩ "*" 2 [] 3 2 rfl (fun cursor => by
    simp only [pagedRedis]
    split_ifs <;> rfl) (fun cursor => by
    simp only [pagedRedis]
    split_ifs <;> rfl) (by decide) (by decide)⟩

theorem dumpLoop_replies {W : Type} (c : Client W) (ctx : Context) (keys : List String)
    (w : W) :
    Client.dumpLoop keys
        (c.client.replies ctx (keys.flatMap fun key => [Cmd.Dump key, Cmd.PTTL key]) w).1 =
      (c.dumpReplies ctx keys w).filterMap dumpEntry := by
  induction keys generalizing w with
  | nil => rfl
  | cons key keys ih =>
    have e : ((key :: keys).flatMap fun key => [Cmd.Dump key, Cmd.PTTL key]) =
        Cmd.Dump key :: Cmd.PTTL key ::
          keys.flatMap fun key => [Cmd.Dump key, Cmd.PTTL key] := rfl
    rw [e]
    simp only [GoRedis.replies, Client.dumpReplies, Client.dumpLoop, List.filterMap_cons,
      dumpEntry]
    rw [ih]
    split_ifs <;> rfl

theorem replies_length {W : Type} (r : GoRedis W) (ctx : Context) (cmds : List Cmd) (w : W) :
    (r.replies ctx cmds w).1.length = cmds.length := by
  induction cmds generalizing w with
  | nil => rfl
  | cons cmd cmds ih => simp [GoRedis.replies, ih]

theorem cmdsFirstErr_mem (results : List Cmder) (e : GoError)
    (h : cmdsFirstErr results = some e) : ∃ x ∈ results, x.err = some e := by
  induction results with
  | nil => simp [cmdsFirstErr] at h
  | cons x xs ih =>
    unfold cmdsFirstErr at h
    cases hx : x.err with
    | some e2 =>
      rw [hx] at h
      simp only [Option.some.injEq] at h
      exact ⟨x, List.mem_cons_self _ _, by rw [hx, h]⟩
    | none =>
      rw [hx] at h
      obtain ⟨y, hy, hye⟩ := ih h
      exact ⟨y, List.mem_cons_of_mem _ hy, hye⟩

theorem cmdsFirstErr_eq_none (results : List Cmder) :
    cmdsFirstErr results = none ↔ ∀ x ∈ results, x.err = none := by
  induction results with
  | nil => simp [cmdsFirstErr]
  | cons x xs ih =>
    unfold cmdsFirstErr
    cases hx : x.err with
    | some e => simp [hx]
    | none => simp [hx, ih]

theorem dumpReplies_keys {W : Type} (c : Client W) (ctx : Context) (keys : List String)
    (w : W) : (c.dumpReplies ctx keys w).map (fun x => x.1) = keys := by
  induction keys generalizing w with
  | nil => rfl
  | cons key keys ih => simp [Client.dumpReplies, ih]

theorem dumpEntry_key (x : String × Cmder × Cmder) (d : KeyData) (h : dumpEntry x = some d) :
    d.Key = x.1 := by
  unfold dumpEntry at h
  split_ifs at h
  simp only [Option.some.injEq] at h
  rw [← h]

theorem filterMap_dumpEntry_sublist (xs : List (String × Cmder × Cmder)) :
    ((xs.filterMap dumpEntry).map KeyData.Key).Sublist (xs.map fun x => x.1) := by
  induction xs with
  | nil => simp
  | cons x xs ih =>
    simp only [List.filterMap_cons, List.map_cons]
    cases hx : dumpEntry x with
    | none => exact ih.cons _
    | some d =>
      simp only [List.map_cons]
      rw [dumpEntry_key x d hx]
      exact ih.cons₂ _

/-- C27: for every list of keys, when every failed DUMP or PTTL of the call failed with
`redis.Nil` (the key is missing), `DumpKeys` returns a nil error and the entries for exactly
those keys whose DUMP and PTTL both succeeded, in the order of the input; so the keys of
the entries are a sublist of the input and there are at most as many entries as keys. For an
empty input it returns no entry and a nil error and does not call the store. -/
theorem DumpKeys_omits {W : Type} (c : Client W) (ctx : Context) (keys : List String) (w : W)
    (hnil : ∀ x ∈ (c.client.replies ctx
        (keys.flatMap fun key => [Cmd.Dump key, Cmd.PTTL key]) w).1,
      ∀ e, x.err = some e → isRedisNil e = true) :
    (c.DumpKeys ctx keys w).1.2 = none ∧
      (c.DumpKeys ctx keys w).1.1 = (c.dumpReplies ctx keys w).filterMap dumpEntry ∧
      ((c.DumpKeys ctx keys w).1.1.map KeyData.Key).Sublist keys ∧
      (c.DumpKeys ctx keys w).1.1.length ≤ keys.length ∧
      c.DumpKeys ctx [] w = (([], none), w) := by
  have hmain : (c.DumpKeys ctx keys w).1.2 = none ∧
      (c.DumpKeys ctx keys w).1.1 = (c.dumpReplies ctx keys w).filterMap dumpEntry := by
    cases keys with
    | nil => exact ⟨rfl, rfl⟩
    | cons key keys =>
      have hlen : ¬ (key :: keys).length = 0 := by simp
      have hpipe : ¬ ((key :: keys).flatMap fun key => [Cmd.Dump key, Cmd.PTTL key]).length =
          0 := by simp
      unfold Client.DumpKeys GoRedis.Exec
      simp only [if_neg hlen, if_neg hpipe]
      cases herr : cmdsFirstErr (c.client.replies ctx
          ((key :: keys).flatMap fun key => [Cmd.Dump key, Cmd.PTTL key]) w).1 with
      | none =>
        refine ⟨?_, ?_⟩ <;> first | rfl | trivial | exact dumpLoop_replies c ctx _ w
      | some e =>
        obtain ⟨x, hx, hxe⟩ := cmdsFirstErr_mem _ e herr
        have hn := hnil x hx e hxe
        simp only [hn, not_true_eq_false, if_false]
        refine ⟨?_, ?_⟩ <;> first | rfl | trivial | exact dumpLoop_replies c ctx _ w
  have hsub : ((c.DumpKeys ctx keys w).1.1.map KeyData.Key).Sublist keys := by
    rw [hmain.2]
    have := filterMap_dumpEntry_sublist (c.dumpReplies ctx keys w)
    rwa [dumpReplies_keys] at this
  refine ⟨hmain.1, hmain.2, hsub, ?_, rfl⟩
  have := hsub.length_le
  simpa using this

/-- C27 on `memRedis`: of the keys `user:1`, `user:2` and `nonexistent` the first two are in
the database, and `DumpKeys` returns their two entries and a nil error. -/
theorem DumpKeys_omits_witness :
    (memClient.DumpKeys ⟨false⟩ ["user:1", "user:2", "nonexistent"] userStore).1.2 = none ∧
      (memClient.DumpKeys ⟨false⟩ ["user:1", "user:2", "nonexistent"] userStore).1.1 =
        [⟨"user:1", "alice", -1⟩, ⟨"user:2", "bob", -1⟩] :=
  ⟨(DumpKeys_omits memClient ⟨false⟩ ["user:1", "user:2", "nonexistent"] userStore
      (by decide)).1,
    ((DumpKeys_omits memClient ⟨false⟩ ["user:1", "user:2", "nonexistent"] userStore
      (by decide)).2.1).trans (by decide)⟩

theorem get_put_self (s : Store) (key : String) (v : String × Int) :
    (s.put key v).get key = some v := by
  simp [Store.get, Store.put, List.lookup]

theorem get_put_ne (s : Store) (key k2 : String) (v : String × Int) (h : k2 ≠ key) :
    (s.put key v).get k2 = s.get k2 := by
  have hb : (k2 == key) = false := by simpa using h
  simp only [Store.get, Store.put, List.lookup, hb]
  induction s with
  | nil => rfl
  | cons e s ih =>
    rcases e with ⟨k, x⟩
    by_cases hk : k = key
    · subst hk
      have : (k2 == k) = false := hb
      simp [List.filter, List.lookup, this, ih]
    · have hne : (k != key) = true := by simpa using hk
      simp only [List.filter, hne, List.lookup]
      cases hk2 : k2 == k with
      | true => rfl
      | false => exact ih

theorem Exec_eq {W : Type} (r : GoRedis W) (ctx : Context) (cmds : List Cmd) (w : W) :
    r.Exec ctx cmds w =
      (((r.replies ctx cmds w).1, cmdsFirstErr (r.replies ctx cmds w).1),
        (r.replies ctx cmds w).2) := by
  unfold GoRedis.Exec
  cases cmds with
  | nil => rfl
  | cons cmd cmds => simp

theorem RestoreKeys_eq {W : Type} (c : Client W) (ctx : Context) (data : List KeyData)
    (behavior : ConflictBehavior) (w : W) :
    c.RestoreKeys ctx data behavior w =
      match cmdsFirstErr (c.client.replies ctx
        (c.queueRestores ctx behavior data [] [] w).1.1
        (c.queueRestores ctx behavior data [] [] w).2).1 with
      | some e =>
        (([], some (.wrapf "failed to restore keys" e)),
          (c.client.replies ctx (c.queueRestores ctx behavior data [] [] w).1.1
            (c.queueRestores ctx behavior data [] [] w).2).2)
      | none =>
        ((Client.restoreLoop
            (c.client.replies ctx (c.queueRestores ctx behavior data [] [] w).1.1
              (c.queueRestores ctx behavior data [] [] w).2).1
            (c.queueRestores ctx behavior data [] [] w).1.2, none),
          (c.client.replies ctx (c.queueRestores ctx behavior data [] [] w).1.1
            (c.queueRestores ctx behavior data [] [] w).2).2) := by
  cases data with
  | nil => rfl
  | cons info data =>
    have hlen : ¬ (info :: data).length = 0 := by simp
    unfold Client.RestoreKeys
    simp only [if_neg hlen, Exec_eq]

theorem restoreLoop_ok (results : List Cmder) (keysToRestore : List KeyData)
    (hlen : results.length = keysToRestore.length) (hok : ∀ x ∈ results, x.err = none) :
    Client.restoreLoop results keysToRestore = keysToRestore.map KeyData.Key := by
  induction results generalizing keysToRestore with
  | nil =>
    cases keysToRestore with
    | nil => rfl
    | cons info rest => simp at hlen
  | cons x xs ih =>
    cases keysToRestore with
    | nil => simp at hlen
    | cons info rest =>
      have hx : x.err = none := hok x (List.mem_cons_self _ _)
      simp only [Client.restoreLoop, hx, Option.isSome_none, Bool.false_eq_true, if_false,
        List.map_cons]
      rw [ih rest (by simpa using hlen) fun y hy => hok y (List.mem_cons_of_mem _ hy)]

theorem queueRestores_eq {W : Type} (c : Client W) (ctx : Context)
    (behavior : ConflictBehavior)
    (hb : behavior = ErrorOnConflict ∨ behavior = SkipOnConflict ∨
      behavior = OverwriteOnConflict) (data : List KeyData) :
    ∀ (pipe : List Cmd) (keysToRestore : List KeyData) (w : W),
      c.queueRestores ctx behavior data pipe keysToRestore w =
        ((pipe ++ (c.attempted ctx behavior data w).1.map (restoreCmd behavior),
          keysToRestore ++ (c.attempted ctx behavior data w).1),
          (c.attempted ctx behavior data w).2) := by
  induction data with
  | nil =>
    intro pipe ktr w
    simp [Client.queueRestores, Client.attempted]
  | cons info data ih =>
    intro pipe ktr w
    unfold Client.queueRestores Client.attempted
    rcases hb with hb | hb | hb
    · subst hb
      have h1 : ¬ ErrorOnConflict = SkipOnConflict := by decide
      have h2 : ¬ ErrorOnConflict = OverwriteOnConflict := by decide
      simp only [h1, h2, if_false, if_true, ih, restoreCmd, List.map_cons, List.append_assoc,
        List.singleton_append]
    · subst hb
      have h2 : ¬ SkipOnConflict = OverwriteOnConflict := by decide
      simp only [if_true, ih, restoreCmd, h2, if_false]
      by_cases hn : (c.client.Exists ctx info.Key w).1 > 0
      · simp only [hn, if_true]
      · simp only [hn, if_false, List.map_cons, List.append_assoc, List.singleton_append]
        rw [show restoreCmd SkipOnConflict info = Cmd.Restore info.Key info.TTL info.Data from
          by simp [restoreCmd, h2]]
    · subst hb
      have h1 : ¬ OverwriteOnConflict = SkipOnConflict := by decide
      simp only [h1, if_false, if_true, ih, restoreCmd, List.map_cons, List.append_assoc,
        List.singleton_append]

theorem attempted_sublist {W : Type} (c : Client W) (ctx : Context)
    (behavior : ConflictBehavior) (data : List KeyData) (w : W) :
    (c.attempted ctx behavior data w).1.Sublist data := by
  induction data generalizing w with
  | nil => simp [Client.attempted]
  | cons info data ih =>
    unfold Client.attempted
    by_cases hb : behavior = SkipOnConflict
    · simp only [hb, if_true]
      by_cases hn : (c.client.Exists ctx info.Key w).1 > 0
      · simp only [hn, if_true]
        exact (hb ▸ ih _).cons _
      · simp only [hn, if_false]
        exact (hb ▸ ih _).cons₂ _
    · simp only [hb, if_false]
      exact (ih _).cons₂ _

theorem writeReplies_length {W : Type} (c : Client W) (ctx : Context)
    (behavior : ConflictBehavior) (data : List KeyData) (w : W) :
    (c.writeReplies ctx behavior data w).1.length =
      (c.attempted ctx behavior data w).1.length := by
  simp [Client.writeReplies, replies_length]

theorem RestoreKeys_norm {W : Type} (c : Client W) (ctx : Context) (data : List KeyData)
    (behavior : ConflictBehavior) (w : W)
    (hb : behavior = ErrorOnConflict ∨ behavior = SkipOnConflict ∨
      behavior = OverwriteOnConflict) :
    c.RestoreKeys ctx data behavior w =
      match cmdsFirstErr (c.writeReplies ctx behavior data w).1 with
      | some e => (([], some (.wrapf "failed to restore keys" e)),
          (c.writeReplies ctx behavior data w).2)
      | none => ((Client.restoreLoop (c.writeReplies ctx behavior data w).1
          (c.attempted ctx behavior data w).1, none),
          (c.writeReplies ctx behavior data w).2) := by
  have hq := queueRestores_eq c ctx behavior hb data [] [] w
  simp only [List.nil_append] at hq
  have heq := RestoreKeys_eq c ctx data behavior w
  rw [hq] at heq
  exact heq

theorem RestoreKeys_world {W : Type} (c : Client W) (ctx : Context) (data : List KeyData)
    (behavior : ConflictBehavior) (w : W)
    (hb : behavior = ErrorOnConflict ∨ behavior = SkipOnConflict ∨
      behavior = OverwriteOnConflict) :
    (c.RestoreKeys ctx data behavior w).2 = (c.writeReplies ctx behavior data w).2 := by
  rw [RestoreKeys_norm c ctx data behavior w hb]
  cases cmdsFirstErr (c.writeReplies ctx behavior data w).1 <;> rfl

theorem RestoreKeys_of_ok {W : Type} (c : Client W) (ctx : Context) (data : List KeyData)
    (behavior : ConflictBehavior) (w : W)
    (hb : behavior = ErrorOnConflict ∨ behavior = SkipOnConflict ∨
      behavior = OverwriteOnConflict)
    (hok : ∀ x ∈ (c.writeReplies ctx behavior data w).1, x.err = none) :
    (c.RestoreKeys ctx data behavior w).1 =
      ((c.attempted ctx behavior data w).1.map KeyData.Key, none) := by
  rw [RestoreKeys_norm c ctx data behavior w hb, (cmdsFirstErr_eq_none _).mpr hok]
  simp only
  rw [restoreLoop_ok _ _ (writeReplies_length c ctx behavior data w) hok]

theorem RestoreKeys_of_err {W : Type} (c : Client W) (ctx : Context) (data : List KeyData)
    (behavior : ConflictBehavior) (w : W)
    (hb : behavior = ErrorOnConflict ∨ behavior = SkipOnConflict ∨
      behavior = OverwriteOnConflict) (e : GoError)
    (he : cmdsFirstErr (c.writeReplies ctx behavior data w).1 = some e) :
    (c.RestoreKeys ctx data behavior w).1 =
      ([], some (.wrapf "failed to restore keys" e)) := by
  rw [RestoreKeys_norm c ctx data behavior w hb, he]

/-- C26, as stated, fails: under `ErrorOnConflict`, with `conflict:key` in the database, the
write of `conflict:key` fails and the write of `new:key` succeeds (the key is in the database
afterwards), and `RestoreKeys` reports no key. -/
theorem RestoreKeys_discredits_siblings :
    ((memClient.writeReplies ⟨false⟩ ErrorOnConflict conflictData conflictStore).1.map
        fun x => x.err.isSome) = [true, false] ∧
      (memClient.RestoreKeys ⟨false⟩ conflictData ErrorOnConflict conflictStore).2.get
        "new:key" = some ("payload", 0) ∧
      (memClient.RestoreKeys ⟨false⟩ conflictData ErrorOnConflict conflictStore).1.1 = [] := by
  decide

/-- C26, amended: for every policy and every list of entries, `RestoreKeys` queues one write
for each entry it attempts, the server takes every queued write whether or not another one
failed, and the state after the call is the state after all of them; when every write
succeeded, `RestoreKeys` returns the keys of the attempted entries, in order, and a nil
error; when a write failed, it returns no key and the error of the first failed write,
wrapped. -/
theorem RestoreKeys_all_or_nothing {W : Type} (c : Client W) (ctx : Context)
    (data : List KeyData) (behavior : ConflictBehavior) (w : W)
    (hb : behavior = ErrorOnConflict ∨ behavior = SkipOnConflict ∨
      behavior = OverwriteOnConflict) :
    (c.attempted ctx behavior data w).1.Sublist data ∧
      (c.writeReplies ctx behavior data w).1.length =
        (c.attempted ctx behavior data w).1.length ∧
      (c.RestoreKeys ctx data behavior w).2 = (c.writeReplies ctx behavior data w).2 ∧
      ((∀ x ∈ (c.writeReplies ctx behavior data w).1, x.err = none) →
        (c.RestoreKeys ctx data behavior w).1 =
          ((c.attempted ctx behavior data w).1.map KeyData.Key, none)) ∧
      (∀ e, cmdsFirstErr (c.writeReplies ctx behavior data w).1 = some e →
        (c.RestoreKeys ctx data behavior w).1 =
          ([], some (.wrapf "failed to restore keys" e))) := by
  have hlen := writeReplies_length c ctx behavior data w
  have heq := RestoreKeys_norm c ctx data behavior w hb
  refine ⟨attempted_sublist c ctx behavior data w, hlen, ?_, ?_, ?_⟩
  · rw [heq]
    cases cmdsFirstErr (c.writeReplies ctx behavior data w).1 <;> rfl
  · intro hok
    rw [heq, (cmdsFirstErr_eq_none _).mpr hok]
    simp only
    rw [restoreLoop_ok _ _ hlen hok]
  · intro e he
    rw [heq, he]

/-- C26, amended, under `OverwriteOnConflict` on `memRedis`: both writes succeed and both
keys are returned. -/
theorem RestoreKeys_all_or_nothing_witness :
    (∀ x ∈ (memClient.writeReplies ⟨false⟩ OverwriteOnConflict conflictData conflictStore).1,
        x.err = none) ∧
      (memClient.RestoreKeys ⟨false⟩ conflictData OverwriteOnConflict conflictStore).1 =
        (["conflict:key", "new:key"], none) :=
  ⟨(cmdsFirstErr_eq_none _).mp rfl,
    ((RestoreKeys_all_or_nothing memClient ⟨false⟩ conflictData OverwriteOnConflict
      conflictStore (by decide)).2.2.2.1 ((cmdsFirstErr_eq_none _).mp rfl)).trans rfl⟩

theorem restoreCmd_restore (behavior : ConflictBehavior) (h : behavior ≠ OverwriteOnConflict)
    (info : KeyData) : restoreCmd behavior info = .Restore info.Key info.TTL info.Data := by
  simp [restoreCmd, h]

theorem replies_cons {W : Type} (r : GoRedis W) (ctx : Context) (cmd : Cmd) (cmds : List Cmd)
    (w : W) :
    r.replies ctx (cmd :: cmds) w =
      ((r.Process ctx cmd w).1 :: (r.replies ctx cmds (r.Process ctx cmd w).2).1,
        (r.replies ctx cmds (r.Process ctx cmd w).2).2) := rfl

theorem memRedis_process_restore (glob : String → String → Bool) (ctx : Context)
    (key : String) (ttl : Int) (value : String) (s : Store) :
    (memRedis glob).Process ctx (.Restore key ttl value) s =
      if (s.get key).isSome then ({ err := some busyKey, str := "", dur := 0 }, s)
      else ({ err := none, str := "OK", dur := 0 }, s.put key (value, ttl)) := rfl

theorem memRedis_restore_preserves (glob : String → String → Bool) (ctx : Context)
    (infos : List KeyData) (s : Store) (key : String) (v : String × Int)
    (h : s.get key = some v) :
    ((memRedis glob).replies ctx
      (infos.map fun info => Cmd.Restore info.Key info.TTL info.Data) s).2.get key =
        some v := by
  induction infos generalizing s with
  | nil => exact h
  | cons info infos ih =>
    rw [List.map_cons, replies_cons, memRedis_process_restore]
    by_cases hex : (s.get info.Key).isSome = true
    · rw [if_pos hex]
      exact ih s h
    · rw [if_neg hex]
      apply ih
      rw [get_put_ne _ _ _ _ ?_, h]
      intro hk
      rw [← hk, h] at hex
      simp at hex

theorem memRedis_restore_conflict (glob : String → String → Bool) (ctx : Context)
    (infos : List KeyData) (s : Store)
    (h : ∃ info ∈ infos, (s.get info.Key).isSome = true) :
    cmdsFirstErr ((memRedis glob).replies ctx
      (infos.map fun info => Cmd.Restore info.Key info.TTL info.Data) s).1 =
        some busyKey := by
  induction infos generalizing s with
  | nil =>
    obtain ⟨info, hm, _⟩ := h
    simp at hm
  | cons info infos ih =>
    rw [List.map_cons, replies_cons, memRedis_process_restore]
    by_cases hex : (s.get info.Key).isSome = true
    · rw [if_pos hex]
      rfl
    · rw [if_neg hex]
      simp only [cmdsFirstErr]
      apply ih
      obtain ⟨x, hx, hxs⟩ := h
      rcases List.mem_cons.mp hx with hx | hx
      · rw [hx] at hxs
        exact absurd hxs hex
      · refine ⟨x, hx, ?_⟩
        rw [get_put_ne _ _ _ _ ?_]
        · exact hxs
        · intro hk
          rw [hk] at hxs
          exact hex hxs

theorem memRedis_restore_fresh (glob : String → String → Bool) (ctx : Context)
    (infos : List KeyData) (s : Store) (hnew : ∀ info ∈ infos, s.get info.Key = none)
    (hnodup : (infos.map KeyData.Key).Nodup) :
    (∀ x ∈ ((memRedis glob).replies ctx
        (infos.map fun info => Cmd.Restore info.Key info.TTL info.Data) s).1, x.err = none) ∧
      ∀ info ∈ infos, ((memRedis glob).replies ctx
        (infos.map fun info => Cmd.Restore info.Key info.TTL info.Data) s).2.get info.Key =
          some (info.Data, info.TTL) := by
  induction infos generalizing s with
  | nil => simp [GoRedis.replies]
  | cons info infos ih =>
    have hhead : s.get info.Key = none := hnew info (List.mem_cons_self _ _)
    rw [List.map_cons, List.nodup_cons] at hnodup
    have hrest : ∀ x ∈ infos, (s.put info.Key (info.Data, info.TTL)).get x.Key = none := by
      intro x hx
      rw [get_put_ne _ _ _ _ ?_]
      · exact hnew x (List.mem_cons_of_mem _ hx)
      · intro hk
        exact hnodup.1 (hk ▸ List.mem_map_of_mem KeyData.Key hx)
    obtain ⟨ih1, ih2⟩ := ih (s.put info.Key (info.Data, info.TTL)) hrest hnodup.2
    rw [List.map_cons, replies_cons, memRedis_process_restore, hhead]
    simp only [Option.isSome_none, Bool.false_eq_true, if_false]
    constructor
    · intro x hx
      rcases List.mem_cons.mp hx with hx | hx
      · rw [hx]
      · exact ih1 x hx
    · intro x hx
      rcases List.mem_cons.mp hx with hx | hx
      · rw [hx]
        exact memRedis_restore_preserves glob ctx infos _ _ _ (get_put_self _ _ _)
      · exact ih2 x hx

theorem memRedis_attempted_skip (glob : String → String → Bool) (ctx : Context)
    (data : List KeyData) (s : Store) :
    (Client.mk (memRedis glob)).attempted ctx SkipOnConflict data s =
      (data.filter fun info => (s.get info.Key).isNone, s) := by
  induction data with
  | nil => rfl
  | cons info data ih =>
    unfold Client.attempted
    simp only [if_true, memRedis]
    have ih2 : (Client.mk (memRedis glob)).attempted ctx SkipOnConflict data s =
        (data.filter fun info => (s.get info.Key).isNone, s) := ih
    simp only [memRedis] at ih2
    rw [ih2]
    cases hg : s.get info.Key with
    | none => simp [List.filter, hg]
    | some v => simp [List.filter, hg]

theorem attempted_error {W : Type} (c : Client W) (ctx : Context) (data : List KeyData)
    (w : W) : c.attempted ctx ErrorOnConflict data w = (data, w) := by
  induction data with
  | nil => rfl
  | cons info data ih =>
    unfold Client.attempted
    have h1 : ¬ ErrorOnConflict = SkipOnConflict := by decide
    simp only [h1, if_false, ih]

/-- C24: on a Redis server, under `ErrorOnConflict`, for every list of entries of which at
least one key is in the database of the destination (so the list is not empty),
`RestoreKeys` returns no key and a non-nil error, the BUSYKEY error of the server wrapped,
and every key that was in the database still has its value and its time to live. -/
theorem RestoreKeys_error_on_conflict (glob : String → String → Bool) (ctx : Context)
    (data : List KeyData) (s : Store) (h : ∃ info ∈ data, (s.get info.Key).isSome = true) :
    ((Client.mk (memRedis glob)).RestoreKeys ctx data ErrorOnConflict s).1 =
        ([], some (.wrapf "failed to restore keys" busyKey)) ∧
      ∀ key v, s.get key = some v →
        ((Client.mk (memRedis glob)).RestoreKeys ctx data ErrorOnConflict s).2.get key =
          some v := by
  have hw := RestoreKeys_world (Client.mk (memRedis glob)) ctx data ErrorOnConflict s
    (Or.inl rfl)
  have herr := RestoreKeys_of_err (Client.mk (memRedis glob)) ctx data ErrorOnConflict s
    (Or.inl rfl)
  have hwr : (Client.mk (memRedis glob)).writeReplies ctx ErrorOnConflict data s =
      (memRedis glob).replies ctx
        (data.map fun info => Cmd.Restore info.Key info.TTL info.Data) s := by
    unfold Client.writeReplies
    rw [attempted_error]
    have : restoreCmd ErrorOnConflict = fun info => Cmd.Restore info.Key info.TTL info.Data := by
      funext info
      exact restoreCmd_restore _ (by decide) info
    rw [this]
  rw [hwr] at hw herr
  refine ⟨herr busyKey (memRedis_restore_conflict glob ctx data s h), ?_⟩
  intro key v hk
  rw [hw]
  exact memRedis_restore_preserves glob ctx data s key v hk

/-- C24 for the entries `conflict:key` and `new:key` with `conflict:key` in the database. -/
theorem RestoreKeys_error_on_conflict_witness :
    (memClient.RestoreKeys ⟨false⟩ conflictData ErrorOnConflict conflictStore).1 =
        ([], some (.wrapf "failed to restore keys" busyKey)) ∧
      (memClient.RestoreKeys ⟨false⟩ conflictData ErrorOnConflict conflictStore).2.get
        "conflict:key" = some ("original", -1) :=
  ⟨(RestoreKeys_error_on_conflict (fun _ _ => true) ⟨false⟩ conflictData conflictStore
      ⟨⟨"conflict:key", "payload", 0⟩, by decide, by decide⟩).1,
    (RestoreKeys_error_on_conflict (fun _ _ => true) ⟨false⟩ conflictData conflictStore
      ⟨⟨"conflict:key", "payload", 0⟩, by decide, by decide⟩).2 "conflict:key"
        ("original", -1) (by decide)⟩

/-- C25: on a Redis server, under `SkipOnConflict`, for every list of entries: the entries
whose key is in the database of the destination are left out of the write attempt, which
is made for the other entries, in order, with RESTORE; no key of the database is among the
returned keys; when the keys of the other entries are distinct, `RestoreKeys` returns
exactly their keys, in order, and a nil error, whatever keys the database holds, each of them
is in the database afterwards with the value and the time to live of its entry, and every
key that was in the database still has its value and its time to live. For the entries
`conflict:key` and `new:key` with `conflict:key` in the database the result is `new:key`
and a nil error. -/
theorem RestoreKeys_skip_on_conflict (glob : String → String → Bool) (ctx : Context)
    (data : List KeyData) (s : Store) :
    (Client.mk (memRedis glob)).queueRestores ctx SkipOnConflict data [] [] s =
        (((data.filter fun info => (s.get info.Key).isNone).map
            fun info => Cmd.Restore info.Key info.TTL info.Data,
          data.filter fun info => (s.get info.Key).isNone), s) ∧
      (∀ key ∈ ((Client.mk (memRedis glob)).RestoreKeys ctx data SkipOnConflict s).1.1,
        s.get key = none) ∧
      (((data.filter fun info => (s.get info.Key).isNone).map KeyData.Key).Nodup →
        ((Client.mk (memRedis glob)).RestoreKeys ctx data SkipOnConflict s).1 =
          ((data.filter fun info => (s.get info.Key).isNone).map KeyData.Key, none) ∧
        (∀ info ∈ data, s.get info.Key = none →
          ((Client.mk (memRedis glob)).RestoreKeys ctx data SkipOnConflict s).2.get info.Key =
            some (info.Data, info.TTL)) ∧
        ∀ key v, s.get key = some v →
          ((Client.mk (memRedis glob)).RestoreKeys ctx data SkipOnConflict s).2.get key =
            some v) ∧
      (memClient.RestoreKeys ⟨false⟩ conflictData SkipOnConflict conflictStore).1 =
        (["new:key"], none) := by
  have hrc : restoreCmd SkipOnConflict =
      fun info => Cmd.Restore info.Key info.TTL info.Data := by
    funext info
    exact restoreCmd_restore _ (by decide) info
  have hq := queueRestores_eq (Client.mk (memRedis glob)) ctx SkipOnConflict
    (Or.inr (Or.inl rfl)) data [] [] s
  rw [memRedis_attempted_skip, hrc] at hq
  simp only [List.nil_append] at hq
  have hw := RestoreKeys_world (Client.mk (memRedis glob)) ctx data SkipOnConflict s
    (Or.inr (Or.inl rfl))
  have hok := RestoreKeys_of_ok (Client.mk (memRedis glob)) ctx data SkipOnConflict s
    (Or.inr (Or.inl rfl))
  have herr := RestoreKeys_of_err (Client.mk (memRedis glob)) ctx data SkipOnConflict s
    (Or.inr (Or.inl rfl))
  have hwr : (Client.mk (memRedis glob)).writeReplies ctx SkipOnConflict data s =
      (memRedis glob).replies ctx
        ((data.filter fun info => (s.get info.Key).isNone).map
          fun info => Cmd.Restore info.Key info.TTL info.Data) s := by
    unfold Client.writeReplies
    rw [memRedis_attempted_skip, hrc]
  rw [hwr] at hw hok herr
  rw [memRedis_attempted_skip] at hok
  have hnew : ∀ info ∈ data.filter (fun info => (s.get info.Key).isNone),
      s.get info.Key = none := by
    intro info hi
    have := (List.mem_filter.mp hi).2
    simpa using this
  refine ⟨hq, ?_, ?_, rfl⟩
  · intro key hkey
    cases hfe : cmdsFirstErr ((memRedis glob).replies ctx
        ((data.filter fun info => (s.get info.Key).isNone).map
          fun info => Cmd.Restore info.Key info.TTL info.Data) s).1 with
    | some e =>
      rw [herr e hfe] at hkey
      simp at hkey
    | none =>
      rw [hok ((cmdsFirstErr_eq_none _).mp hfe)] at hkey
      obtain ⟨info, hi, hik⟩ := List.mem_map.mp hkey
      rw [← hik]
      exact hnew info hi
  · intro hnodup
    obtain ⟨f1, f2⟩ := memRedis_restore_fresh glob ctx _ s hnew hnodup
    refine ⟨hok f1, ?_, ?_⟩
    · intro info hi hs
      rw [hw]
      exact f2 info (List.mem_filter.mpr ⟨hi, by simp [hs]⟩)
    · intro key v hk
      rw [hw]
      exact memRedis_restore_preserves glob ctx _ s key v hk

/-- C25 for the entries `conflict:key` and `new:key` with `conflict:key` in the database:
`new:key` is written and `conflict:key` keeps its value. -/
theorem RestoreKeys_skip_on_conflict_witness :
    (memClient.RestoreKeys ⟨false⟩ conflictData SkipOnConflict conflictStore).1 =
        (["new:key"], none) ∧
      (memClient.RestoreKeys ⟨false⟩ conflictData SkipOnConflict conflictStore).2.get
        "new:key" = some ("payload", 0) ∧
      (memClient.RestoreKeys ⟨false⟩ conflictData SkipOnConflict conflictStore).2.get
        "conflict:key" = some ("original", -1) :=
  ⟨((RestoreKeys_skip_on_conflict (fun _ _ => true) ⟨false⟩ conflictData conflictStore).2.2.1
      (by decide)).1,
    ((RestoreKeys_skip_on_conflict (fun _ _ => true) ⟨false⟩ conflictData conflictStore).2.2.1
      (by decide)).2.1 ⟨"new:key", "payload", 0⟩ (by decide) (by decide),
    ((RestoreKeys_skip_on_conflict (fun _ _ => true) ⟨false⟩ conflictData conflictStore).2.2.1
      (by decide)).2.2 "conflict:key" ("original", -1) (by decide)⟩

/-! ## Keys an export omits -/

theorem failedBatch_fields (n : Nat) (mt : Metrics) :
    (failedBatch n mt).processedKeys = mt.processedKeys + n ∧
      (failedBatch n mt).failedKeys = mt.failedKeys + n ∧
      (failedBatch n mt).skippedKeys = mt.skippedKeys ∧
      (failedBatch n mt).totalKeys = mt.totalKeys := by
  simp [failedBatch, Metrics.AddProcessed, Metrics.AddFailed]

/-- C30: when the export of a batch `keys` succeeds with the entries `E`, the tracker after
`processBatch` is a function of `E` and of the result of the import alone, not of `keys`:
processed grows by len E, which is less than len keys when keys were omitted, and total and
skipped stay as they are; when the export fails, processed and failed grow by len keys. And
in the run of `omitMigrator`, whose source counts 2 keys and whose export omits one of them,
`Migrate` returns nil with processed 1 and total 2, and `GetProgress` is 0.5. -/
theorem omitted_keys_uncounted :
    (∀ {W : Type} (m : Migrator W) (ctx : Context) (keys : List String) (q : Seq W)
        (E : List KeyData) (w1 : W),
        m.source.DumpKeys ctx keys q.world = ((E, none), w1) →
        ((processBatch m.config keys).exec m ctx q).metrics =
          (if (m.dest.RestoreKeys ctx E m.config.Conflict w1).1.2.isSome then
            failedBatch E.length q.metrics
          else batchMetrics m.config E.length
            (m.dest.RestoreKeys ctx E m.config.Conflict w1).1.1.length q.metrics) ∧
        ((processBatch m.config keys).exec m ctx q).metrics.processedKeys =
          q.metrics.processedKeys + E.length ∧
        ((processBatch m.config keys).exec m ctx q).metrics.skippedKeys =
          q.metrics.skippedKeys ∧
        ((processBatch m.config keys).exec m ctx q).metrics.totalKeys = q.metrics.totalKeys ∧
        (E.length < keys.length →
          ((processBatch m.config keys).exec m ctx q).metrics.processedKeys <
            q.metrics.processedKeys + keys.length)) ∧
      (∀ {W : Type} (m : Migrator W) (ctx : Context) (keys : List String) (q : Seq W)
        (E : List KeyData) (e : GoError) (w1 : W),
        m.source.DumpKeys ctx keys q.world = ((E, some e), w1) →
        ((processBatch m.config keys).exec m ctx q).metrics.processedKeys =
          q.metrics.processedKeys + keys.length ∧
        ((processBatch m.config keys).exec m ctx q).metrics.failedKeys =
          q.metrics.failedKeys + keys.length) ∧
      ∃ s, run omitMigrator overwriteSchedule
          (State.init omitMigrator false 0 (NewMetrics 0)) = some s ∧
        s.main = .returned none ∧
        s.returns = [.DumpKeys ["a", "b"] [{ Key := "a", Data := "", TTL := 0 }] none,
          .RestoreKeys [{ Key := "a", Data := "", TTL := 0 }] ErrorOnConflict ["a"] none] ∧
        s.metrics.totalKeys = 2 ∧ s.metrics.processedKeys = 1 ∧
        s.metrics.processedKeys < s.metrics.totalKeys ∧
        s.metrics.GetProgress = 1 / 2 ∧ s.metrics.GetProgress < 1 := by
  refine ⟨?_, ?_, ?_⟩
  · intro W m ctx keys q E w1 hd
    have h := exec_processBatch_metrics m ctx keys q
    rw [hd] at h
    simp only [Option.isSome_none, Bool.false_eq_true, if_false] at h
    have hp : ((processBatch m.config keys).exec m ctx q).metrics.processedKeys =
        q.metrics.processedKeys + E.length := by
      rw [h]
      split_ifs
      · exact (failedBatch_fields _ _).1
      · exact batchMetrics_processed _ _ _ _
    refine ⟨h, hp, ?_, ?_, ?_⟩
    · rw [h]
      split_ifs
      · exact (failedBatch_fields _ _).2.2.1
      · exact (batchMetrics_skipped _ _ _ _).1
    · rw [h]
      split_ifs
      · exact (failedBatch_fields _ _).2.2.2
      · exact (batchMetrics_skipped _ _ _ _).2.1
    · intro hlt
      rw [hp]
      omega
  · intro W m ctx keys q E e w1 hd
    have h := exec_processBatch_metrics m ctx keys q
    rw [hd] at h
    simp only [Option.isSome_some, if_true] at h
    rw [h]
    exact ⟨(failedBatch_fields _ _).1, (failedBatch_fields _ _).2.1⟩
  · have hg : (if (2 : Int) = 0 then (0 : ℚ) else f64div (float64 1) (float64 2)) = 1 / 2 := by
      rw [if_neg (by decide), f64div_float64 1 2 (by decide) (by decide)]
      norm_num
      exact round64_of_eq _ 1 (-1) (by decide) (by norm_num)
    refine ⟨_, rfl, rfl, rfl, rfl, rfl, by decide, hg, ?_⟩
    have hg2 : (if (2 : Int) = 0 then (0 : ℚ) else f64div (float64 1) (float64 2)) < 1 := by
      rw [hg]
      norm_num
    exact hg2

/-- C30 for the batch of `omitMigrator`: the export of the keys `a` and `b` returns the entry
of `a` alone, and processed grows by 1. -/
theorem omitted_keys_uncounted_witness :
    omitMigrator.source.DumpKeys ⟨false⟩ ["a", "b"] freshSeq.world =
        (([{ Key := "a", Data := "", TTL := 0 }], none), 0) ∧
      ((processBatch omitMigrator.config ["a", "b"]).exec omitMigrator ⟨false⟩
        freshSeq).metrics.processedKeys = freshSeq.metrics.processedKeys + 1 :=
  ⟨rfl, (omitted_keys_uncounted.1 omitMigrator ⟨false⟩ ["a", "b"] freshSeq
    [{ Key := "a", Data := "", TTL := 0 }] 0 rfl).2.1⟩

/-! ## Copy with overwrite -/

theorem processBatch_hands (config : Config) (keys : List String) :
    (processBatch config keys).pendingImport = 0 ∧ (processBatch config keys).Hands := by
  refine ⟨rfl, ?_⟩
  unfold processBatch
  intro r
  rcases r with ⟨E, _ | e⟩
  · refine ⟨rfl, ?_⟩
    intro r
    rcases r with ⟨S, _ | e⟩
    · simp only [updateMetricsForBatch]
      by_cases hf : (E.length : Int) - S.length > 0 <;>
        by_cases hm : config.Mode = MoveMode ∧ S.length > 0 <;>
        simp only [hf, hm, if_true, if_false, Prog.pendingImport, Prog.Hands, true_and,
          and_true] <;>
        first
          | trivial
          | (intro r; cases r <;> simp [Prog.pendingImport, Prog.Hands])
    · simp [Prog.pendingImport, Prog.Hands]
  · simp [Prog.pendingImport, Prog.Hands, CallReturn.exported]

theorem settled_update {W : Type} {s s' : State W} {i : Nat} {w : Worker}
    (hI : Settled s) (w' : Worker) (hw : s.workers[i]? = some w)
    (hworkers : s'.workers = s.workers.set i w') (hh : w'.Hands)
    (hsum : (s'.returns.map CallReturn.exported).sum + w.pendingImport +
        (s.returns.map CallReturn.imported).sum =
      (s.returns.map CallReturn.exported).sum + w'.pendingImport +
        (s'.returns.map CallReturn.imported).sum) : Settled s' := by
  obtain ⟨h1, h2⟩ := hI
  refine ⟨?_, ?_⟩
  · rw [hworkers, sum_map_set Worker.pendingImport _ _ _ _ hw]
    omega
  · intro x hx
    rw [hworkers] at hx
    rcases List.mem_or_eq_of_mem_set hx with hx | hx
    · exact h2 x hx
    · exact hx ▸ hh

theorem settled_frame {W : Type} {s s' : State W} (hI : Settled s)
    (hworkers : s'.workers = s.workers) (hreturns : s'.returns = s.returns) : Settled s' := by
  unfold Settled at hI ⊢
  rw [hworkers, hreturns]
  exact hI

theorem settled_step {W : Type} {m : Migrator W} {s s' : State W}
    (hS : Struct s) (hI : Settled s) (h : Step m s s') : Settled s' := by
  have hhands : ∀ (i : Nat) (w : Worker), s.workers[i]? = some w → w.Hands :=
    fun i w hi => hI.2 w (List.getElem?_mem hi)
  cases h with
  | countFailed err hm hr => exact settled_frame hI rfl rfl
  | countZero hm hr => exact settled_frame hI rfl rfl
  | makePanic total hm hr ht hneg => exact settled_frame hI rfl rfl
  | spawn total hm hr ht hneg =>
    obtain ⟨h, h2⟩ := hI
    rw [(hS.1 hm).1] at h
    refine ⟨?_, ?_⟩
    · have hz : ((List.replicate m.config.Concurrency.toNat (Worker.running Prog.ret)).map
          Worker.pendingImport).sum = 0 := by
        simp [Worker.pendingImport, Prog.pendingImport]
      simp only [hz]
      simpa using h
    · intro w hw
      rw [List.eq_of_mem_replicate hw]
      trivial
  | drain e rest hm hc => exact settled_frame hI rfl rfl
  | mainReturn hm hc hcl => exact settled_frame hI rfl rfl
  | receive i keys rest hw hc =>
    refine settled_update hI (.running (processBatch m.config keys)) hw rfl
      (processBatch_hands _ _).2 ?_
    simp only [Worker.pendingImport, (processBatch_hands _ _).1, Prog.pendingImport]
  | exitClosed i hw hc hcl =>
    refine settled_update hI .exited hw rfl trivial ?_
    simp only [Worker.pendingImport, Prog.pendingImport]
  | exitDone i hw hd =>
    refine settled_update hI .exited hw rfl trivial ?_
    simp only [Worker.pendingImport, Prog.pendingImport]
  | metric i op k hw =>
    refine settled_update hI (.running k) hw rfl
      (by simpa [Worker.Hands, Prog.Hands] using hhands i _ hw) ?_
    simp only [Worker.pendingImport, Prog.pendingImport]
  | workerSend i e k t hw hsent =>
    cases hsent with
    | buffered hclosed hroom =>
      refine settled_update hI (.running k) hw rfl
        (by simpa [Worker.Hands, Prog.Hands] using hhands i _ hw) ?_
      simp only [Worker.pendingImport, Prog.pendingImport]
    | handed hclosed hcap hmain =>
      refine settled_update hI (.running k) hw rfl
        (by simpa [Worker.Hands, Prog.Hands] using hhands i _ hw) ?_
      simp only [Worker.pendingImport, Prog.pendingImport]
  | workerPanic i e k hw hcl => exact settled_frame hI rfl rfl
  | dump i keys k hw =>
    have hk := hhands i _ hw (m.source.DumpKeys s.ctx keys s.world).1
    refine settled_update hI (.running _) hw rfl hk.2 ?_
    simp only [List.map_append, List.sum_append, List.map_cons, List.map_nil, List.sum_cons,
      List.sum_nil, Worker.pendingImport, Prog.pendingImport, CallReturn.exported,
      CallReturn.imported, hk.1]
    omega
  | restore i data b k hw =>
    have hk := hhands i _ hw (m.dest.RestoreKeys s.ctx data b s.world).1
    refine settled_update hI (.running _) hw rfl hk.2 ?_
    simp only [List.map_append, List.sum_append, List.map_cons, List.map_nil, List.sum_cons,
      List.sum_nil, Worker.pendingImport, Prog.pendingImport, CallReturn.exported,
      CallReturn.imported, hk.1]
    omega
  | delete i keys k hw =>
    have hk := hhands i _ hw (m.source.DeleteKeys s.ctx keys s.world).1
    refine settled_update hI (.running _) hw rfl hk.2 ?_
    simp only [List.map_append, List.sum_append, List.map_cons, List.map_nil, List.sum_cons,
      List.sum_nil, Worker.pendingImport, Prog.pendingImport, CallReturn.exported,
      CallReturn.imported, hk.1]
    omega
  | scanSend keys hp hr => exact settled_frame hI rfl rfl
  | scanReturn hp hr => exact settled_frame hI rfl rfl
  | scanFailed err hp hr => exact settled_frame hI rfl rfl
  | enqueue keys hp hroom => exact settled_frame hI rfl rfl
  | scanDone keys hp hd => exact settled_frame hI rfl rfl
  | report e t hp hsent =>
    cases hsent with
    | buffered hclosed hroom => exact settled_frame hI rfl rfl
    | handed hclosed hcap hmain => exact settled_frame hI rfl rfl
  | reportPanic e hp hcl => exact settled_frame hI rfl rfl
  | closeKeys hp => exact settled_frame hI rfl rfl
  | closeErrors hc hall => exact settled_frame hI rfl rfl
  | cancel => exact settled_frame hI rfl rfl

theorem apply_totalKeys (op : MetricOp) (mt : Metrics) :
    (op.apply mt).totalKeys = mt.totalKeys := by
  cases op <;> rfl

theorem counted_step {W : Type} {m : Migrator W} {w0 : W} {n : Int} {s s' : State W}
    (hcount : ∀ ctx,
      (m.source.CountKeys ctx m.config.Pattern m.config.BatchSize w0).1 = (n, none))
    (hF : Flow m w0 s) (hpan : s.panicked = false)
    (hI : s.main ≠ .counting → s.metrics.totalKeys = n) (h : Step m s s') :
    s'.main ≠ .counting → s'.metrics.totalKeys = n := by
  have hw0 : s.main = .counting → s.world = w0 := fun hm => (hF.1 hm hpan).2.2
  cases h with
  | countFailed err hm hr =>
    intro _
    rw [hw0 hm, hcount] at hr
    simp at hr
  | countZero hm hr =>
    intro _
    rw [hw0 hm, hcount] at hr
    simp only [Prod.mk.injEq, and_true] at hr
    simp [Metrics.SetTotal, hr]
  | makePanic total hm hr ht hneg =>
    intro hne
    exact absurd hm hne
  | spawn total hm hr ht hneg =>
    intro _
    rw [hw0 hm, hcount] at hr
    simp only [Prod.mk.injEq, and_true] at hr
    simp [Metrics.SetTotal, hr]
  | drain e rest hm hc => exact fun _ => hI (by simp [hm])
  | mainReturn hm hc hcl => exact fun _ => hI (by simp [hm])
  | receive i keys rest hw hc => exact hI
  | exitClosed i hw hc hcl => exact hI
  | exitDone i hw hd => exact hI
  | metric i op k hw =>
    intro hne
    simp only [apply_totalKeys]
    exact hI hne
  | workerSend i e k t hw hsent =>
    cases hsent with
    | buffered hclosed hroom => exact hI
    | handed hclosed hcap hmain => exact hI
  | workerPanic i e k hw hcl => exact hI
  | dump i keys k hw => exact hI
  | restore i data b k hw => exact hI
  | delete i keys k hw => exact hI
  | scanSend keys hp hr => exact hI
  | scanReturn hp hr => exact hI
  | scanFailed err hp hr => exact hI
  | enqueue keys hp hroom => exact hI
  | scanDone keys hp hd => exact hI
  | report e t hp hsent =>
    cases hsent with
    | buffered hclosed hroom => exact hI
    | handed hclosed hcap hmain => exact hI
  | reportPanic e hp hcl => exact hI
  | closeKeys hp => exact hI
  | closeErrors hc hall => exact hI
  | cancel => exact hI

theorem tally_complete (config : Config) (hov : config.Conflict = OverwriteOnConflict)
    (ret : CallReturn) (h : ret.complete = true) :
    ret.tally config = (ret.imported, 0, 0, ret.imported) := by
  cases ret with
  | DumpKeys keys data err =>
    cases err with
    | none => rfl
    | some e => simp [CallReturn.complete] at h
  | RestoreKeys data b keys err =>
    cases err with
    | none =>
      simp only [CallReturn.complete, Option.isNone_none, Bool.true_and, beq_iff_eq] at h
      simp only [CallReturn.tally, CallReturn.imported, hov, if_true, h, sub_self,
        gt_iff_lt, lt_self_iff_false, if_false]
    | some e => simp [CallReturn.complete] at h
  | DeleteKeys keys err =>
    cases err with
    | none => rfl
    | some e => simp [CallReturn.complete] at h

theorem tally_sum_complete (config : Config) (hov : config.Conflict = OverwriteOnConflict)
    (rs : List CallReturn) (h : rs.all CallReturn.complete = true) :
    (rs.map (CallReturn.tally config)).sum =
      ((rs.map CallReturn.imported).sum, 0, 0, (rs.map CallReturn.imported).sum) := by
  induction rs with
  | nil => rfl
  | cons ret rs ih =>
    simp only [List.all_cons, Bool.and_eq_true] at h
    simp only [List.map_cons, List.sum_cons, ih h.2, tally_complete config hov ret h.1]
    simp

theorem exported_sum_complete (rs : List CallReturn) (h : rs.all CallReturn.complete = true) :
    (rs.map CallReturn.exported).sum = (((dumped rs).map List.length).sum : Nat) := by
  induction rs with
  | nil => rfl
  | cons ret rs ih =>
    simp only [List.all_cons, Bool.and_eq_true] at h
    rw [List.map_cons, List.sum_cons, ih h.2]
    cases ret with
    | DumpKeys keys data err =>
      cases err with
      | none =>
        have hl := h.1
        simp only [CallReturn.complete, Option.isNone_none, Bool.true_and, beq_iff_eq] at hl
        simp [dumped, CallReturn.dumpedBatch, CallReturn.exported, hl]
      | some e =>
        have hl := h.1
        simp [CallReturn.complete] at hl
    | RestoreKeys data b keys err =>
      simp [dumped, CallReturn.dumpedBatch, CallReturn.exported]
    | DeleteKeys keys err =>
      simp [dumped, CallReturn.dumpedBatch, CallReturn.exported]

theorem reachable_settled {W : Type} {m : Migrator W} {c : Bool} {w : W} {mt : Metrics}
    {s : State W} (h : Reachable m (State.init m c w mt) s) : Settled s := by
  have := reachable_invariant (fun s => Struct s ∧ Settled s)
    ⟨struct_init m c w mt, by simp [Settled, State.init]⟩
    (fun _ _ hI _ hs => ⟨struct_step hI.1 hs, settled_step hI.1 hI.2 hs⟩) h
  exact this.2

theorem reachable_counted {W : Type} {m : Migrator W} {c : Bool} {w0 : W} {mt : Metrics}
    {n : Int} {s : State W} (hn : n ≠ 0)
    (hcount : ∀ ctx,
      (m.source.CountKeys ctx m.config.Pattern m.config.BatchSize w0).1 = (n, none))
    (h : Reachable m (State.init m c w0 mt) s) :
    s.main ≠ .counting → s.metrics.totalKeys = n := by
  have hcount2 : ∀ ctx,
      (m.source.CountKeys ctx m.config.Pattern m.config.BatchSize w0).1.2 = none ∧
      (m.source.CountKeys ctx m.config.Pattern m.config.BatchSize w0).1.1 ≠ 0 := by
    intro ctx
    rw [hcount ctx]
    exact ⟨rfl, hn⟩
  have := reachable_invariant
    (fun s => Struct s ∧ Flow m w0 s ∧ (s.main ≠ .counting → s.metrics.totalKeys = n))
    ⟨struct_init m c w0 mt, by simp [Flow, State.init], by simp [State.init]⟩
    (fun _ _ hI hp hs => ⟨struct_step hI.1 hs, flow_step hcount2 hI.1 hI.2.1 hp hs,
      counted_step hcount hI.2.1 hp hI.2.2 hs⟩) h
  exact this.2.2

theorem memRedis_replace_ok (glob : String → String → Bool) (ctx : Context)
    (infos : List KeyData) (s : Store) :
    ∀ x ∈ ((memRedis glob).replies ctx
      (infos.map fun info => Cmd.RestoreReplace info.Key info.TTL info.Data) s).1,
      x.err = none := by
  induction infos generalizing s with
  | nil => simp [GoRedis.replies]
  | cons info infos ih =>
    rw [List.map_cons, replies_cons]
    intro x hx
    rcases List.mem_cons.mp hx with hx | hx
    · rw [hx]
      rfl
    · exact ih _ x hx

theorem attempted_overwrite {W : Type} (c : Client W) (ctx : Context) (data : List KeyData)
    (w : W) : c.attempted ctx OverwriteOnConflict data w = (data, w) := by
  induction data with
  | nil => rfl
  | cons info data ih =>
    unfold Client.attempted
    have h1 : ¬ OverwriteOnConflict = SkipOnConflict := by decide
    simp only [h1, if_false, ih]

theorem processBatch_copies (config : Config) (keys : List String)
    (hmode : config.Mode = CopyMode) : (processBatch config keys).Copies config.Conflict := by
  have hm : ¬ config.Mode = MoveMode := by
    rw [hmode]
    decide
  unfold processBatch
  intro r
  rcases r with ⟨E, _ | e⟩
  · refine ⟨rfl, ?_⟩
    intro r
    rcases r with ⟨S, _ | e⟩
    · simp only [updateMetricsForBatch, hm, false_and, if_false]
      by_cases hf : (E.length : Int) - S.length > 0 <;>
        simp [hf, Prog.Copies]
    · simp [Prog.Copies]
  · simp [Prog.Copies]

theorem copies_hereditary (b0 : ConflictBehavior) : Hereditary (Prog.Copies b0) where
  ret := trivial
  metric := fun _ _ h => h
  sendErr := fun _ _ h => h
  dump := fun _ _ r h => h r
  restore := fun _ _ _ r h => h.2 r
  delete := fun _ _ _ h => h.elim

theorem memRedis_count (glob : String → String → Bool) (ctx : Context) (pattern : String)
    (batchSize : Int) (fuel : Nat) (s : Store) :
    (Client.mk (memRedis glob)).CountKeys ctx pattern batchSize (fuel + 1) s =
      some ((((s.keys glob pattern).length : Int), none), s) := by
  simp [Client.CountKeys, Client.countLoop, memRedis, Store.keys]

theorem memRedis_scanEvent (glob : String → String → Bool) (ctx : Context) (pattern : String)
    (batchSize : Int) (fuel cursor : Nat) (s : Store) :
    (Client.mk (memRedis glob)).scanEvent ctx pattern batchSize (fuel + 1) cursor s =
      if (s.keys glob pattern).length > 0 then some (.send (s.keys glob pattern), some 0, s)
      else some (.ret none, none, s) := by
  simp [Client.scanEvent, memRedis, Store.keys]

theorem memRedis_dump_replies (glob : String → String → Bool) (ctx : Context)
    (keys : List String) (s : Store) (hp : ∀ k ∈ keys, (s.get k).isSome = true) :
    (memRedis glob).replies ctx (keys.flatMap fun key => [Cmd.Dump key, Cmd.PTTL key]) s =
      (keys.flatMap fun key =>
        [{ err := none, str := ((s.get key).getD ("", 0)).1, dur := 0 },
          { err := none, str := "", dur := ((s.get key).getD ("", 0)).2 }], s) := by
  induction keys with
  | nil => rfl
  | cons key keys ih =>
    have e : ((key :: keys).flatMap fun key => [Cmd.Dump key, Cmd.PTTL key]) =
        Cmd.Dump key :: Cmd.PTTL key ::
          keys.flatMap fun key => [Cmd.Dump key, Cmd.PTTL key] := rfl
    have hk := hp key (List.mem_cons_self _ _)
    obtain ⟨v, hv⟩ := Option.isSome_iff_exists.mp hk
    have h1 : (memRedis glob).Process ctx (.Dump key) s =
        ({ err := none, str := v.1, dur := 0 }, s) := by
      simp [memRedis, hv]
    have h2 : (memRedis glob).Process ctx (.PTTL key) s =
        ({ err := none, str := "", dur := v.2 }, s) := by
      simp [memRedis, hv]
    rw [e, replies_cons, h1, replies_cons, h2, ih fun k hk => hp k (List.mem_cons_of_mem _ hk)]
    simp [List.flatMap_cons, hv]

theorem dumpLoop_present (keys : List String) (f g : String → Cmder)
    (hf : ∀ k, (f k).err = none) (hg : ∀ k, (g k).err = none) :
    (Client.dumpLoop keys (keys.flatMap fun key => [f key, g key])).length = keys.length := by
  induction keys with
  | nil => rfl
  | cons key keys ih =>
    have e : ((key :: keys).flatMap fun key => [f key, g key]) =
        f key :: g key :: keys.flatMap fun key => [f key, g key] := rfl
    rw [e]
    simp only [Client.dumpLoop, hf, hg, Option.isSome_none, Bool.false_eq_true, or_self,
      if_false, List.length_cons, ih]

theorem memRedis_DumpKeys_present (glob : String → String → Bool) (ctx : Context)
    (keys : List String) (s : Store) (hp : ∀ k ∈ keys, (s.get k).isSome = true) :
    ((Client.mk (memRedis glob)).DumpKeys ctx keys s).1.2 = none ∧
      ((Client.mk (memRedis glob)).DumpKeys ctx keys s).1.1.length = keys.length ∧
      ((Client.mk (memRedis glob)).DumpKeys ctx keys s).2 = s := by
  unfold Client.DumpKeys
  by_cases h0 : keys.length = 0
  · simp [h0]
  · simp only [h0, if_false, Exec_eq]
    have hr := memRedis_dump_replies glob ctx keys s hp
    have hnil : ¬ (keys.flatMap fun key => [Cmd.Dump key, Cmd.PTTL key]).length = 0 := by
      cases keys with
      | nil => simp at h0
      | cons k ks => simp [List.flatMap_cons]
    have herr : cmdsFirstErr (keys.flatMap fun key =>
        [({ err := none, str := ((s.get key).getD ("", 0)).1, dur := 0 } : Cmder),
          { err := none, str := "", dur := ((s.get key).getD ("", 0)).2 }]) = none := by
      rw [cmdsFirstErr_eq_none]
      intro x hx
      simp only [List.mem_flatMap, List.mem_cons, List.mem_singleton, List.not_mem_nil,
        or_false] at hx
      obtain ⟨k, _, hx | hx⟩ := hx <;> rw [hx]
    simp only [hr, herr]
    refine ⟨trivial, ?_, trivial⟩
    exact dumpLoop_present keys _ _ (fun _ => rfl) (fun _ => rfl)

theorem memRedis_RestoreKeys_overwrite (glob : String → String → Bool) (ctx : Context)
    (data : List KeyData) (st : Store) :
    ((Client.mk (memRedis glob)).RestoreKeys ctx data OverwriteOnConflict st).1 =
      (data.map KeyData.Key, none) := by
  have h := RestoreKeys_of_ok (Client.mk (memRedis glob)) ctx data OverwriteOnConflict st
    (Or.inr (Or.inr rfl))
  rw [attempted_overwrite] at h
  apply h
  unfold Client.writeReplies
  rw [attempted_overwrite]
  have hc : restoreCmd OverwriteOnConflict =
      fun info => Cmd.RestoreReplace info.Key info.TTL info.Data := by
    funext info
    simp [restoreCmd]
  rw [hc]
  exact memRedis_replace_ok glob ctx data st

theorem keys_present (glob : String → String → Bool) (pattern : String) (s : Store) :
    ∀ k ∈ s.keys glob pattern, (s.get k).isSome = true := by
  intro k hk
  unfold Store.keys at hk
  have hk1 := (List.mem_filter.mp hk).1
  obtain ⟨e, he, rfl⟩ := List.mem_map.mp hk1
  unfold Store.get
  rw [List.lookup_isSome_iff]
  exact ⟨e, he, by simp⟩

theorem memRedis_ScanKeys_start (glob : String → String → Bool) (ctx : Context)
    (pattern : String) (batchSize : Int) (fuel : Nat) (x : Conn Store)
    (hcur : x.cursor = none) (hne : x.server.keys glob pattern ≠ []) :
    ((Client.mk (memRedis glob)).toRedisClient (fuel + 1)).ScanKeys ctx pattern batchSize x =
      (.send (x.server.keys glob pattern), { server := x.server, cursor := some 0 }) := by
  obtain ⟨srv, cur⟩ := x
  simp only at hcur hne
  subst hcur
  have hlen : (srv.keys glob pattern).length > 0 := List.length_pos.mpr hne
  simp only [Client.toRedisClient, Option.getD_none, memRedis_scanEvent, hlen, if_true]

theorem memRedis_ScanKeys_end {W : Type} (c : Client W) (ctx : Context)
    (pattern : String) (batchSize : Int) (fuel : Nat) (x : Conn W)
    (hcur : x.cursor = some 0) :
    (c.toRedisClient fuel).ScanKeys ctx pattern batchSize x =
      (.ret none, { x with cursor := none }) := by
  obtain ⟨srv, cur⟩ := x
  simp only at hcur
  subst hcur
  rfl

theorem pendingDumps_set {keys : List String} {ws : List Worker}
    (hI : ∀ w ∈ ws, ∀ b ∈ w.pendingDumps, b = keys) (i : Nat) (x : Worker)
    (hx : ∀ b ∈ x.pendingDumps, b = keys) :
    ∀ w ∈ ws.set i x, ∀ b ∈ w.pendingDumps, b = keys := by
  intro w hw
  rcases List.mem_or_eq_of_mem_set hw with hw | hw
  · exact hI w hw
  · exact hw ▸ hx

theorem failures_snoc_none (calls : List CallRecord) (x : CallRecord)
    (h : failures calls = []) (hx : x.failure = none) : failures (calls ++ [x]) = [] := by
  rw [failures_append, h]
  simp [failures, hx]

theorem scanSends_snoc (calls : List CallRecord) (x : CallRecord) :
    scanSends (calls ++ [x]) = scanSends calls ++ x.sentBatch.toList := by
  rw [scanSends_append]
  cases h : x.sentBatch <;> simp [scanSends, h]

theorem all_complete_snoc (rs : List CallReturn) (x : CallReturn)
    (h : rs.all CallReturn.complete = true) (hx : x.complete = true) :
    (rs ++ [x]).all CallReturn.complete = true := by
  simp only [List.all_append, h, List.all_cons, hx, List.all_nil, Bool.and_self]

theorem memMigrator_count (glob : String → String → Bool) (fuel : Nat) (config : Config)
    (ctx : Context) (pattern : String) (batchSize : Int) (w : Conn Store × Conn Store) :
    (memMigrator glob fuel config).source.CountKeys ctx pattern batchSize w =
      ((((w.1.server.keys glob pattern).length : Int), none), w) := by
  obtain ⟨⟨srv, cur⟩, y⟩ := w
  simp only [memMigrator, redisMigrator, NewMigrator, RedisClient.onSource,
    Client.toRedisClient, memRedis_count]

theorem memMigrator_dump (glob : String → String → Bool) (fuel : Nat) (config : Config)
    (ctx : Context) (keys : List String) (w : Conn Store × Conn Store)
    (hp : ∀ k ∈ keys, (w.1.server.get k).isSome = true) :
    ((memMigrator glob fuel config).source.DumpKeys ctx keys w).1.2 = none ∧
      ((memMigrator glob fuel config).source.DumpKeys ctx keys w).1.1.length = keys.length ∧
      ((memMigrator glob fuel config).source.DumpKeys ctx keys w).2 = w := by
  obtain ⟨⟨srv, cur⟩, y⟩ := w
  obtain ⟨h1, h2, h3⟩ := memRedis_DumpKeys_present glob ctx keys srv hp
  simp only [memMigrator, redisMigrator, NewMigrator, RedisClient.onSource,
    Client.toRedisClient, h1, h2, h3, and_self]

theorem memMigrator_restore (glob : String → String → Bool) (fuel : Nat) (config : Config)
    (ctx : Context) (data : List KeyData) (w : Conn Store × Conn Store) :
    ((memMigrator glob fuel config).dest.RestoreKeys ctx data OverwriteOnConflict w).1 =
        (data.map KeyData.Key, none) ∧
      ((memMigrator glob fuel config).dest.RestoreKeys ctx data OverwriteOnConflict w).2.1 =
        w.1 := by
  obtain ⟨x, ⟨srv, cur⟩⟩ := w
  have h := memRedis_RestoreKeys_overwrite glob ctx data srv
  simp only [memMigrator, redisMigrator, NewMigrator, RedisClient.onDest,
    Client.toRedisClient, h, and_self]

theorem memMigrator_scan_start (glob : String → String → Bool) (fuel : Nat) (config : Config)
    (ctx : Context) (pattern : String) (batchSize : Int) (w : Conn Store × Conn Store)
    (hcur : w.1.cursor = none) (hne : w.1.server.keys glob pattern ≠ []) :
    (memMigrator glob fuel config).source.ScanKeys ctx pattern batchSize w =
      (.send (w.1.server.keys glob pattern),
        ({ server := w.1.server, cursor := some 0 }, w.2)) := by
  obtain ⟨x, y⟩ := w
  simp only [memMigrator, redisMigrator, NewMigrator, RedisClient.onSource,
    memRedis_ScanKeys_start glob ctx pattern batchSize fuel x hcur hne]

theorem memMigrator_scan_end (glob : String → String → Bool) (fuel : Nat) (config : Config)
    (ctx : Context) (pattern : String) (batchSize : Int) (w : Conn Store × Conn Store)
    (hcur : w.1.cursor = some 0) :
    (memMigrator glob fuel config).source.ScanKeys ctx pattern batchSize w =
      (.ret none, ({ w.1 with cursor := none }, w.2)) := by
  obtain ⟨x, y⟩ := w
  simp only [memMigrator, redisMigrator, NewMigrator, RedisClient.onSource,
    memRedis_ScanKeys_end _ ctx pattern batchSize (fuel + 1) x hcur]

theorem copying_step (glob : String → String → Bool) (fuel : Nat) (config : Config)
    (src : Store) {s t : State (Conn Store × Conn Store)}
    (hne : src.keys glob config.Pattern ≠ [])
    (hD : Drained (memMigrator glob fuel config) s) (hStr : Streamed s)
    (hC : ∀ w ∈ s.workers, w.Has (Prog.Copies OverwriteOnConflict))
    (hI : s.cancelled = false → Copying src (src.keys glob config.Pattern) s)
    (h : Step (memMigrator glob fuel config) s t) :
    t.cancelled = false → Copying src (src.keys glob config.Pattern) t := by
  have hcfg : (memMigrator glob fuel config).config = config := rfl
  have honce : ∀ (i : Nat) (w : Worker), s.workers[i]? = some w → w.Once :=
    fun i w hi => hStr.2 w (List.getElem?_mem hi)
  have hcop : ∀ (i : Nat) (p : Prog), s.workers[i]? = some (.running p) →
      p.Copies OverwriteOnConflict := fun i p hi => hC _ (List.getElem?_mem hi)
  cases h with
  | countFailed err hm hr =>
    intro hc
    rw [memMigrator_count] at hr
    cases hr
  | countZero hm hr =>
    intro hc
    obtain ⟨r1, r2, r3, r4, r5, r6⟩ := hI hc
    refine ⟨?_, ?_, r3, r4, r5, failures_snoc_none _ _ r6 rfl⟩
    · simp only [memMigrator_count]
      exact r1
    · simp only [memMigrator_count, scanSends_snoc, CallRecord.sentBatch, Option.toList, List.append_nil]
      exact r2
  | makePanic total hm hr ht hneg =>
    intro hc
    obtain ⟨r1, r2, r3, r4, r5, r6⟩ := hI hc
    refine ⟨?_, ?_, r3, r4, r5, failures_snoc_none _ _ r6 rfl⟩
    · simp only [memMigrator_count]
      exact r1
    · simp only [memMigrator_count, scanSends_snoc, CallRecord.sentBatch, Option.toList, List.append_nil]
      exact r2
  | spawn total hm hr ht hneg =>
    intro hc
    obtain ⟨r1, r2, r3, r4, r5, r6⟩ := hI hc
    rw [hD.1 hm] at r2
    simp only [Producer.Scanned] at r2
    refine ⟨?_, ?_, r3, ?_, r5, failures_snoc_none _ _ r6 rfl⟩
    · simp only [memMigrator_count]
      exact r1
    · simp only [memMigrator_count, scanSends_snoc, CallRecord.sentBatch, Option.toList,
        List.append_nil, Producer.Scanned]
      exact Or.inl r2
    · intro w hw b hb
      rw [List.eq_of_mem_replicate hw] at hb
      simp [Worker.pendingDumps, Prog.pendingDumps] at hb
  | drain e rest hm hc2 => exact fun hc => hI hc
  | mainReturn hm hc2 hcl => exact fun hc => hI hc
  | receive i keys rest hw hc2 =>
    intro hc
    obtain ⟨r1, r2, r3, r4, r5, r6⟩ := hI hc
    have hk : keys = src.keys glob config.Pattern := r3 keys (by rw [hc2]; simp)
    refine ⟨r1, r2, fun b hb => r3 b (by rw [hc2]; exact List.mem_cons_of_mem _ hb),
      pendingDumps_set r4 i _ ?_, r5, r6⟩
    intro b hb
    simp only [Worker.pendingDumps, processBatch, Prog.pendingDumps, List.mem_singleton] at hb
    rw [hb, hk]
  | exitClosed i hw hc2 hcl =>
    intro hc
    obtain ⟨r1, r2, r3, r4, r5, r6⟩ := hI hc
    exact ⟨r1, r2, r3, pendingDumps_set r4 i _ (by simp [Worker.pendingDumps]), r5, r6⟩
  | exitDone i hw hd =>
    intro hc
    simp only [] at hc
    rw [hd] at hc
    cases hc
  | metric i op k hw =>
    intro hc
    obtain ⟨r1, r2, r3, r4, r5, r6⟩ := hI hc
    exact ⟨r1, r2, r3, pendingDumps_set r4 i _ (fun b hb => r4 _ (List.getElem?_mem hw) b hb), r5, r6⟩
  | workerSend i e k u hw hsent =>
    cases hsent with
    | buffered hclosed hroom =>
      intro hc
      obtain ⟨r1, r2, r3, r4, r5, r6⟩ := hI hc
      exact ⟨r1, r2, r3, pendingDumps_set r4 i _ (fun b hb => r4 _ (List.getElem?_mem hw) b hb), r5, r6⟩
    | handed hclosed hcap hmain =>
      intro hc
      obtain ⟨r1, r2, r3, r4, r5, r6⟩ := hI hc
      exact ⟨r1, r2, r3, pendingDumps_set r4 i _ (fun b hb => r4 _ (List.getElem?_mem hw) b hb), r5, r6⟩
  | workerPanic i e k hw hcl => exact fun hc => hI hc
  | dump i keys k hw =>
    intro hc
    obtain ⟨r1, r2, r3, r4, r5, r6⟩ := hI hc
    have hk : keys = src.keys glob config.Pattern :=
      r4 _ (List.getElem?_mem hw) keys (by simp [Worker.pendingDumps, Prog.pendingDumps])
    have hp : ∀ x ∈ keys, (s.world.1.server.get x).isSome = true := by
      rw [hk, r1]
      exact keys_present glob config.Pattern src
    obtain ⟨d1, d2, d3⟩ := memMigrator_dump glob fuel config s.ctx keys s.world hp
    have ho := (honce i _ hw ((memMigrator glob fuel config).source.DumpKeys s.ctx keys
      s.world).1).1
    refine ⟨?_, ?_, r3, pendingDumps_set r4 i _ ?_, all_complete_snoc _ _ r5 ?_,
      failures_snoc_none _ _ r6 ?_⟩
    · simp only [d3]
      exact r1
    · simp only [d3, scanSends_snoc, CallRecord.sentBatch, Option.toList, List.append_nil]
      exact r2
    · intro b hb
      simp only [Worker.pendingDumps, ho, List.not_mem_nil] at hb
    · simp only [CallReturn.complete, d1, d2, Option.isNone_none, beq_self_eq_true,
        Bool.and_self]
    · simp only [d1, CallRecord.failure]
  | restore i data b k hw =>
    intro hc
    obtain ⟨r1, r2, r3, r4, r5, r6⟩ := hI hc
    have hb : b = OverwriteOnConflict := (hcop i _ hw).1
    subst hb
    obtain ⟨d1, d2⟩ := memMigrator_restore glob fuel config s.ctx data s.world
    have ho := (honce i _ hw ((memMigrator glob fuel config).dest.RestoreKeys s.ctx data
      OverwriteOnConflict s.world).1).1
    refine ⟨?_, ?_, r3, pendingDumps_set r4 i _ ?_, all_complete_snoc _ _ r5 ?_,
      failures_snoc_none _ _ r6 ?_⟩
    · simp only [d2]
      exact r1
    · simp only [d2, scanSends_snoc, CallRecord.sentBatch, Option.toList, List.append_nil]
      exact r2
    · intro b hb
      simp only [Worker.pendingDumps, ho, List.not_mem_nil] at hb
    · simp only [CallReturn.complete, d1, Option.isNone_none, List.length_map,
        beq_self_eq_true, Bool.and_self]
    · simp only [d1, CallRecord.failure]
  | delete i keys k hw => exact (hcop i _ hw).elim
  | scanSend keys hp hr =>
    intro hc
    obtain ⟨r1, r2, r3, r4, r5, r6⟩ := hI hc
    rw [hp] at r2
    simp only [Producer.Scanned] at r2
    rcases r2 with ⟨c1, c2⟩ | ⟨c1, c2⟩
    · have hne2 : s.world.1.server.keys glob config.Pattern ≠ [] := by
        rw [r1]
        exact hne
      have e := memMigrator_scan_start glob fuel config s.ctx config.Pattern
        config.BatchSize s.world c1 hne2
      rw [hcfg] at hr
      rw [e] at hr
      simp only [ScanEvent.send.injEq] at hr
      refine ⟨?_, ?_, r3, r4, r5, r6⟩
      · simp only [hcfg, e]
        exact r1
      · simp only [hcfg, e, Producer.Scanned]
        exact ⟨by rw [← hr, r1], trivial, c2⟩
    · have e := memMigrator_scan_end glob fuel config s.ctx config.Pattern
        config.BatchSize s.world c1
      rw [hcfg] at hr
      rw [e] at hr
      cases hr
  | scanReturn hp hr =>
    intro hc
    obtain ⟨r1, r2, r3, r4, r5, r6⟩ := hI hc
    rw [hp] at r2
    simp only [Producer.Scanned] at r2
    rcases r2 with ⟨c1, c2⟩ | ⟨c1, c2⟩
    · have hne2 : s.world.1.server.keys glob config.Pattern ≠ [] := by
        rw [r1]
        exact hne
      have e := memMigrator_scan_start glob fuel config s.ctx config.Pattern
        config.BatchSize s.world c1 hne2
      rw [hcfg] at hr
      rw [e] at hr
      cases hr
    · have e := memMigrator_scan_end glob fuel config s.ctx config.Pattern
        config.BatchSize s.world c1
      refine ⟨?_, ?_, r3, r4, r5, failures_snoc_none _ _ r6 rfl⟩
      · simp only [hcfg, e]
        exact r1
      · simp only [hcfg, e, Producer.Scanned, scanSends_snoc, CallRecord.sentBatch,
          Option.toList, List.append_nil]
        exact ⟨trivial, c2⟩
  | scanFailed err hp hr =>
    intro hc
    obtain ⟨r1, r2, r3, r4, r5, r6⟩ := hI hc
    rw [hp] at r2
    simp only [Producer.Scanned] at r2
    rcases r2 with ⟨c1, c2⟩ | ⟨c1, c2⟩
    · have hne2 : s.world.1.server.keys glob config.Pattern ≠ [] := by
        rw [r1]
        exact hne
      have e := memMigrator_scan_start glob fuel config s.ctx config.Pattern
        config.BatchSize s.world c1 hne2
      rw [hcfg] at hr
      rw [e] at hr
      cases hr
    · have e := memMigrator_scan_end glob fuel config s.ctx config.Pattern
        config.BatchSize s.world c1
      rw [hcfg] at hr
      rw [e] at hr
      cases hr
  | enqueue keys hp hroom =>
    intro hc
    obtain ⟨r1, r2, r3, r4, r5, r6⟩ := hI hc
    rw [hp] at r2
    simp only [Producer.Scanned] at r2
    obtain ⟨c0, c1, c2⟩ := r2
    refine ⟨r1, ?_, ?_, r4, r5, failures_snoc_none _ _ r6 rfl⟩
    · simp only [Producer.Scanned, scanSends_snoc, c2, CallRecord.sentBatch, Option.toList,
        List.nil_append]
      exact Or.inr ⟨c1, by rw [c0]⟩
    · intro b hb
      rcases List.mem_append.mp hb with hb | hb
      · exact r3 b hb
      · rw [List.mem_singleton.mp hb, c0]
  | scanDone keys hp hd =>
    intro hc
    simp only [] at hc
    rw [hd] at hc
    cases hc
  | report e u hp hsent =>
    cases hsent with
    | buffered hclosed hroom =>
      intro hc
      obtain ⟨r1, r2, r3, r4, r5, r6⟩ := hI hc
      rw [hp] at r2
      exact r2.elim
    | handed hclosed hcap hmain =>
      intro hc
      obtain ⟨r1, r2, r3, r4, r5, r6⟩ := hI hc
      rw [hp] at r2
      exact r2.elim
  | reportPanic e hp hcl => exact fun hc => hI hc
  | closeKeys hp =>
    intro hc
    obtain ⟨r1, r2, r3, r4, r5, r6⟩ := hI hc
    rw [hp] at r2
    exact ⟨r1, r2, r3, r4, r5, r6⟩
  | closeErrors hc2 hall => exact fun hc => hI hc
  | cancel =>
    intro hc
    cases hc

theorem copying_init (glob : String → String → Bool) (fuel : Nat) (config : Config)
    (src : Store) (keys : List String) (y : Conn Store) (c : Bool) (mt : Metrics) :
    Copying src keys
      (State.init (memMigrator glob fuel config) c ({ server := src, cursor := none }, y) mt) := by
  simp [Copying, State.init, Producer.Scanned, scanSends, failures]

theorem scanEnds_mem (glob : String → String → Bool) (fuel : Nat) (config : Config) :
    ScanEnds (memMigrator glob fuel config) scanLeft := by
  refine ⟨?_, fun _ _ _ => le_refl _, fun _ _ _ _ => le_refl _, fun _ _ _ => le_refl _⟩
  intro ctx w keys h
  obtain ⟨⟨srv, cur⟩, y⟩ := w
  have hcfg : (memMigrator glob fuel config).config = config := rfl
  rw [hcfg] at h ⊢
  cases cur with
  | none =>
    by_cases hne : srv.keys glob config.Pattern = []
    · simp [memMigrator, redisMigrator, NewMigrator, RedisClient.onSource,
        Client.toRedisClient, memRedis_scanEvent, hne] at h
    · rw [memMigrator_scan_start glob fuel config ctx _ _ _ rfl hne]
      simp [scanLeft]
  | some n =>
    cases n with
    | zero =>
      rw [memMigrator_scan_end glob fuel config ctx _ _ _ rfl] at h
      cases h
    | succ k =>
      by_cases hne : srv.keys glob config.Pattern = []
      · simp [memMigrator, redisMigrator, NewMigrator, RedisClient.onSource,
          Client.toRedisClient, memRedis_scanEvent, hne] at h
      · have hlen : (srv.keys glob config.Pattern).length > 0 := List.length_pos.mpr hne
        simp [memMigrator, redisMigrator, NewMigrator, RedisClient.onSource,
          Client.toRedisClient, memRedis_scanEvent, hlen, scanLeft]

theorem processBatch_forwards (config : Config) (keys : List String) :
    (processBatch config keys).pendingRestores = [] ∧ (processBatch config keys).Forwards := by
  refine ⟨rfl, ?_⟩
  unfold processBatch
  intro r
  rcases r with ⟨E, _ | e⟩
  · refine ⟨by simp [Prog.pendingRestores], ?_⟩
    intro r
    rcases r with ⟨S, _ | e⟩
    · simp only [updateMetricsForBatch]
      by_cases hf : (E.length : Int) - S.length > 0 <;>
        by_cases hm : config.Mode = MoveMode ∧ S.length > 0 <;>
        simp only [hf, hm, if_true, if_false, Prog.pendingRestores, Prog.Forwards, true_and,
          and_true] <;>
        first
          | trivial
          | (intro r; cases r <;> simp [Prog.pendingRestores, Prog.Forwards])
    · simp [Prog.pendingRestores, Prog.Forwards]
  · simp [Prog.pendingRestores, Prog.Forwards]

theorem forwards_hereditary : Hereditary Prog.Forwards where
  ret := trivial
  metric := fun _ _ h => h
  sendErr := fun _ _ h => h
  dump := fun _ _ r h => (h r).2
  restore := fun _ _ _ r h => (h r).2
  delete := fun _ _ r h => (h r).2

theorem dumpLoop_keys (keys : List String) (f g : String → Cmder)
    (hf : ∀ k, (f k).err = none) (hg : ∀ k, (g k).err = none) :
    (Client.dumpLoop keys (keys.flatMap fun key => [f key, g key])).map KeyData.Key =
      keys := by
  induction keys with
  | nil => rfl
  | cons key keys ih =>
    have e : ((key :: keys).flatMap fun key => [f key, g key]) =
        f key :: g key :: keys.flatMap fun key => [f key, g key] := rfl
    rw [e]
    simp only [Client.dumpLoop, hf, hg, Option.isSome_none, Bool.false_eq_true, or_self,
      if_false, List.map_cons, ih]

theorem memRedis_DumpKeys_keys (glob : String → String → Bool) (ctx : Context)
    (keys : List String) (s : Store) (hp : ∀ k ∈ keys, (s.get k).isSome = true) :
    ((Client.mk (memRedis glob)).DumpKeys ctx keys s).1.1.map KeyData.Key = keys := by
  unfold Client.DumpKeys
  by_cases h0 : keys.length = 0
  · have : keys = [] := List.length_eq_zero.mp h0
    simp [this]
  · simp only [h0, if_false, Exec_eq]
    have hr := memRedis_dump_replies glob ctx keys s hp
    have herr : cmdsFirstErr (keys.flatMap fun key =>
        [({ err := none, str := ((s.get key).getD ("", 0)).1, dur := 0 } : Cmder),
          { err := none, str := "", dur := ((s.get key).getD ("", 0)).2 }]) = none := by
      rw [cmdsFirstErr_eq_none]
      intro x hx
      simp only [List.mem_flatMap, List.mem_cons, List.mem_singleton, List.not_mem_nil,
        or_false] at hx
      obtain ⟨k, _, hx | hx⟩ := hx <;> rw [hx]
    simp only [hr, herr]
    exact dumpLoop_keys keys _ _ (fun _ => rfl) (fun _ => rfl)

theorem memRedis_replace_present (glob : String → String → Bool) (ctx : Context)
    (infos : List KeyData) (s : Store) :
    (∀ info ∈ infos, (((memRedis glob).replies ctx
        (infos.map fun info => Cmd.RestoreReplace info.Key info.TTL info.Data) s).2.get
          info.Key).isSome = true) ∧
      ∀ k, (s.get k).isSome = true → (((memRedis glob).replies ctx
        (infos.map fun info => Cmd.RestoreReplace info.Key info.TTL info.Data) s).2.get
          k).isSome = true := by
  induction infos generalizing s with
  | nil => exact ⟨fun _ h => by simp at h, fun _ h => h⟩
  | cons info infos ih =>
    rw [List.map_cons, replies_cons]
    have hp : (memRedis glob).Process ctx
        (Cmd.RestoreReplace info.Key info.TTL info.Data) s =
        ({ err := none, str := "OK", dur := 0 }, s.put info.Key (info.Data, info.TTL)) := rfl
    rw [hp]
    obtain ⟨h1, h2⟩ := ih (s.put info.Key (info.Data, info.TTL))
    have hkeep : ∀ k, (s.get k).isSome = true →
        ((s.put info.Key (info.Data, info.TTL)).get k).isSome = true := by
      intro k hk
      by_cases hkk : k = info.Key
      · rw [hkk, get_put_self]
        rfl
      · rw [get_put_ne _ _ _ _ hkk]
        exact hk
    refine ⟨?_, fun k hk => h2 k (hkeep k hk)⟩
    intro x hx
    rcases List.mem_cons.mp hx with hx | hx
    · rw [hx]
      apply h2
      rw [get_put_self]
      rfl
    · exact h1 x hx

theorem memRedis_RestoreKeys_present (glob : String → String → Bool) (ctx : Context)
    (data : List KeyData) (st : Store) :
    (∀ info ∈ data, ((((Client.mk (memRedis glob)).RestoreKeys ctx data OverwriteOnConflict
        st).2).get info.Key).isSome = true) ∧
      ∀ k, (st.get k).isSome = true →
        ((((Client.mk (memRedis glob)).RestoreKeys ctx data OverwriteOnConflict st).2).get
          k).isSome = true := by
  rw [RestoreKeys_world _ _ _ _ _ (Or.inr (Or.inr rfl))]
  unfold Client.writeReplies
  rw [attempted_overwrite]
  have hc : restoreCmd OverwriteOnConflict =
      fun info => Cmd.RestoreReplace info.Key info.TTL info.Data := by
    funext info
    simp [restoreCmd]
  rw [hc]
  exact memRedis_replace_present glob ctx data st

theorem landing_frame {keys : List String} {s t : State (Conn Store × Conn Store)}
    (hL : Landing keys s) (hw : t.workers = s.workers) (hr : t.returns = s.returns)
    (hd : t.world.2 = s.world.2) : Landing keys t := by
  unfold Landing
  rw [hw, hr, hd]
  exact hL

theorem landing_worker {keys : List String} {s t : State (Conn Store × Conn Store)}
    (hL : Landing keys s) (i : Nat) (x : Worker) (hw : t.workers = s.workers.set i x)
    (hx : ∀ d ∈ x.pendingRestores, d.map KeyData.Key = keys) (hr : t.returns = s.returns)
    (hd : t.world.2 = s.world.2) : Landing keys t := by
  unfold Landing
  rw [hw, hr, hd]
  refine ⟨?_, hL.2⟩
  intro w hw2
  rcases List.mem_or_eq_of_mem_set hw2 with h | h
  · exact hL.1 w h
  · exact h ▸ hx

theorem landing_step (glob : String → String → Bool) (fuel : Nat) (config : Config)
    (src : Store) {s t : State (Conn Store × Conn Store)}
    (hC : ∀ w ∈ s.workers, w.Has (Prog.Copies OverwriteOnConflict))
    (hF : ∀ w ∈ s.workers, w.Has Prog.Forwards)
    (hCopy : Copying src (src.keys glob config.Pattern) s)
    (hL : Landing (src.keys glob config.Pattern) s)
    (h : Step (memMigrator glob fuel config) s t) :
    Landing (src.keys glob config.Pattern) t := by
  have hfw : ∀ (i : Nat) (p : Prog), s.workers[i]? = some (.running p) → p.Forwards :=
    fun i p hi => hF _ (List.getElem?_mem hi)
  have hcop : ∀ (i : Nat) (p : Prog), s.workers[i]? = some (.running p) →
      p.Copies OverwriteOnConflict := fun i p hi => hC _ (List.getElem?_mem hi)
  have hpr : ∀ (i : Nat) (w : Worker), s.workers[i]? = some w →
      ∀ d ∈ w.pendingRestores, d.map KeyData.Key = src.keys glob config.Pattern :=
    fun i w hi => hL.1 w (List.getElem?_mem hi)
  obtain ⟨r1, r2, r3, r4, r5, r6⟩ := hCopy
  cases h with
  | countFailed err hm hr => exact landing_frame hL rfl rfl (by simp only [memMigrator_count])
  | countZero hm hr => exact landing_frame hL rfl rfl (by simp only [memMigrator_count])
  | makePanic total hm hr ht hneg =>
    exact landing_frame hL rfl rfl (by simp only [memMigrator_count])
  | spawn total hm hr ht hneg =>
    refine ⟨?_, ?_⟩
    · intro w hw d hd
      rw [List.eq_of_mem_replicate hw] at hd
      simp [Worker.pendingRestores, Prog.pendingRestores] at hd
    · simp only [memMigrator_count]
      exact hL.2
  | drain e rest hm hc2 => exact landing_frame hL rfl rfl rfl
  | mainReturn hm hc2 hcl => exact landing_frame hL rfl rfl rfl
  | receive i keys rest hw hc2 =>
    refine landing_worker hL i _ rfl ?_ rfl rfl
    intro d hd
    simp [Worker.pendingRestores, (processBatch_forwards _ _).1] at hd
  | exitClosed i hw hc2 hcl =>
    exact landing_worker hL i _ rfl (by simp [Worker.pendingRestores]) rfl rfl
  | exitDone i hw hd =>
    exact landing_worker hL i _ rfl (by simp [Worker.pendingRestores]) rfl rfl
  | metric i op k hw => exact landing_worker hL i _ rfl (fun d hd => hpr i _ hw d hd) rfl rfl
  | workerSend i e k u hw hsent =>
    cases hsent with
    | buffered hclosed hroom =>
      exact landing_worker hL i _ rfl (fun d hd => hpr i _ hw d hd) rfl rfl
    | handed hclosed hcap hmain =>
      exact landing_worker hL i _ rfl (fun d hd => hpr i _ hw d hd) rfl rfl
  | workerPanic i e k hw hcl => exact landing_frame hL rfl rfl rfl
  | dump i keys k hw =>
    have hk : keys = src.keys glob config.Pattern :=
      r4 _ (List.getElem?_mem hw) keys (by simp [Worker.pendingDumps, Prog.pendingDumps])
    have hp : ∀ x ∈ keys, (s.world.1.server.get x).isSome = true := by
      rw [hk, r1]
      exact keys_present glob config.Pattern src
    obtain ⟨d1, d2, d3⟩ := memMigrator_dump glob fuel config s.ctx keys s.world hp
    have hkeys : ((memMigrator glob fuel config).source.DumpKeys s.ctx keys s.world).1.1.map
        KeyData.Key = keys := memRedis_DumpKeys_keys glob s.ctx keys s.world.1.server hp
    have hfwd := (hfw i _ hw ((memMigrator glob fuel config).source.DumpKeys s.ctx keys
      s.world).1).1
    refine ⟨?_, ?_⟩
    · intro w hw2
      rcases List.mem_or_eq_of_mem_set hw2 with h | h
      · exact hL.1 w h
      · rw [h]
        intro d hd
        rw [(hfwd d hd).2, hkeys, hk]
    · simp only [d3, List.map_append, List.sum_append, List.map_cons, List.map_nil,
        List.sum_cons, List.sum_nil, CallReturn.imported, add_zero]
      exact hL.2
  | restore i data b k hw =>
    have hb : b = OverwriteOnConflict := (hcop i _ hw).1
    subst hb
    have hdata : data.map KeyData.Key = src.keys glob config.Pattern :=
      hpr i _ hw data (by simp [Worker.pendingRestores, Prog.pendingRestores])
    have hfwd := (hfw i _ hw ((memMigrator glob fuel config).dest.RestoreKeys s.ctx data
      OverwriteOnConflict s.world).1).1
    obtain ⟨p1, _⟩ := memRedis_RestoreKeys_present glob s.ctx data s.world.2.server
    refine ⟨?_, ?_⟩
    · intro w hw2
      rcases List.mem_or_eq_of_mem_set hw2 with h | h
      · exact hL.1 w h
      · rw [h]
        intro d hd
        simp only [Worker.pendingRestores, hfwd, List.not_mem_nil] at hd
    · intro _ key hkey
      rw [← hdata] at hkey
      obtain ⟨info, hinfo, rfl⟩ := List.mem_map.mp hkey
      exact p1 info hinfo
  | delete i keys k hw => exact (hcop i _ hw).elim
  | scanSend keys hp hr => exact landing_frame hL rfl rfl rfl
  | scanReturn hp hr => exact landing_frame hL rfl rfl rfl
  | scanFailed err hp hr => exact landing_frame hL rfl rfl rfl
  | enqueue keys hp hroom => exact landing_frame hL rfl rfl rfl
  | scanDone keys hp hd => exact landing_frame hL rfl rfl rfl
  | report e u hp hsent =>
    cases hsent with
    | buffered hclosed hroom => exact landing_frame hL rfl rfl rfl
    | handed hclosed hcap hmain => exact landing_frame hL rfl rfl rfl
  | reportPanic e hp hcl => exact landing_frame hL rfl rfl rfl
  | closeKeys hp => exact landing_frame hL rfl rfl rfl
  | closeErrors hc2 hall => exact landing_frame hL rfl rfl rfl
  | cancel => exact landing_frame hL rfl rfl rfl

theorem reachable_copying {glob : String → String → Bool} {fuel : Nat} {config : Config}
    {src : Store} {y : Conn Store} {c : Bool} {mt : Metrics}
    {s : State (Conn Store × Conn Store)}
    (hmode : config.Mode = CopyMode) (hov : config.Conflict = OverwriteOnConflict)
    (hne : src.keys glob config.Pattern ≠ [])
    (h : Reachable (memMigrator glob fuel config)
      (State.init (memMigrator glob fuel config) c ({ server := src, cursor := none }, y) mt) s)
    (hc : s.cancelled = false) :
    Copying src (src.keys glob config.Pattern) s ∧
      Landing (src.keys glob config.Pattern) s := by
  have hproc : ∀ keys, (processBatch (memMigrator glob fuel config).config keys).Copies
      OverwriteOnConflict := by
    intro keys
    have := processBatch_copies config keys hmode
    rw [hov] at this
    exact this
  have key := reachable_invariant
    (fun s => Struct s ∧ Drained (memMigrator glob fuel config) s ∧ Streamed s ∧
      (∀ w ∈ s.workers, w.Has (Prog.Copies OverwriteOnConflict)) ∧
      (∀ w ∈ s.workers, w.Has Prog.Forwards) ∧
      (s.cancelled = false → Copying src (src.keys glob config.Pattern) s ∧
        Landing (src.keys glob config.Pattern) s))
    ⟨struct_init _ _ _ _, drained_init _ _ _ _, streamed_init _ _ _ _, by simp [State.init],
      by simp [State.init],
      fun _ => ⟨copying_init glob fuel config src _ y c mt, by simp [Landing, State.init]⟩⟩
    (fun s t hI _ hs => ⟨struct_step hI.1 hs, drained_step hI.2.1 hs,
      streamed_step hI.1 hI.2.2.1 hs,
      hereditary_step (copies_hereditary _) hproc hI.2.2.2.1 hs,
      hereditary_step forwards_hereditary (fun keys => (processBatch_forwards _ keys).2)
        hI.2.2.2.2.1 hs,
      fun htc => by
        have hsc : s.cancelled = false := by
          cases hcs : s.cancelled with
          | false => rfl
          | true =>
            rw [cancelled_mono hs hcs] at htc
            cases htc
        exact ⟨copying_step glob fuel config src hne hI.2.1 hI.2.2.1 hI.2.2.2.1
            (fun _ => (hI.2.2.2.2.2 hsc).1) hs htc,
          landing_step glob fuel config src hI.2.2.2.1 hI.2.2.2.2.1 (hI.2.2.2.2.2 hsc).1
            (hI.2.2.2.2.2 hsc).2 hs⟩⟩) h
  exact key.2.2.2.2.2 hc

theorem reachable_flow {W : Type} {m : Migrator W} {c : Bool} {w0 : W} {mt : Metrics}
    {s : State W}
    (hcount : ∀ ctx,
      (m.source.CountKeys ctx m.config.Pattern m.config.BatchSize w0).1.2 = none ∧
      (m.source.CountKeys ctx m.config.Pattern m.config.BatchSize w0).1.1 ≠ 0)
    (h : Reachable m (State.init m c w0 mt) s) : Flow m w0 s := by
  have := reachable_invariant (fun s => Struct s ∧ Flow m w0 s)
    ⟨struct_init m c w0 mt, by simp [Flow, State.init]⟩
    (fun _ _ hI hp hs => ⟨struct_step hI.1 hs, flow_step hcount hI.1 hI.2 hp hs⟩) h
  exact this.2

theorem producer_finished_of_returned {W : Type} {m : Migrator W} {c : Bool} {w0 : W}
    {mt : Metrics} {s : State W} {r : Option GoError} (hpos : 0 < m.config.Concurrency)
    (hcount : ∀ ctx,
      (m.source.CountKeys ctx m.config.Pattern m.config.BatchSize w0).1.2 = none ∧
      (m.source.CountKeys ctx m.config.Pattern m.config.BatchSize w0).1.1 ≠ 0)
    (h : Reachable m (State.init m c w0 mt) s) (hc : s.cancelled = false)
    (hr : s.main = .returned r) : s.producer = .finished := by
  have hF := reachable_flow hcount h
  have hL := reachable_live h
  have hS := reachable_struct h
  obtain ⟨_, _, d2, d3, _, d5⟩ := reachable_drained h
  have hcl := (hF.2.2.2.2 r hr).1
  have hp : s.producer ≠ .notStarted := hL.2.2.2.2.1 (by
    rw [hL.2.2.2.2.2 hcl]
    exact fun h => (by cases h))
  have hlen := d5 hp
  have hall := hS.2.2 r hr
  cases hws : s.workers with
  | nil =>
    rw [hws] at hlen
    simp only [List.length_nil] at hlen
    omega
  | cons x xs =>
    rw [hws] at hall
    simp only [List.all_cons, Bool.and_eq_true] at hall
    cases x with
    | exited => exact d2 (d3 hc .exited (by rw [hws]; simp) rfl).1
    | running p => simp [Worker.isExited] at hall

/-- A `Migrate` call with `OverwriteOnConflict` on a fresh migrator and a fresh tracker, with
at least one worker and no cancellation, whose source counts `n` keys (`n` not 0) and streams
`n` keys in all, in which no call fails and every export and every import returns in full:
once `Migrate` has returned, its result is nil, total, processed and overwritten are `n`,
failed, succeeded and skipped are 0, and the imports have reported `n` keys in all. -/
theorem overwrite_counts_returned {W : Type} (m : Migrator W) (w0 : W) (now n : Int)
    (s : State W) (r : Option GoError)
    (hfresh : m.errors = []) (hconc : 0 < m.config.Concurrency)
    (hov : m.config.Conflict = OverwriteOnConflict) (hn : n ≠ 0)
    (hcount : ∀ ctx,
      (m.source.CountKeys ctx m.config.Pattern m.config.BatchSize w0).1 = (n, none))
    (hreach : Reachable m (State.init m false w0 (NewMetrics now)) s)
    (hnc : s.cancelled = false) (hret : s.main = .returned r)
    (hfail : failures s.calls = [])
    (hcomplete : s.returns.all CallReturn.complete = true)
    (hstream : ((((scanSends s.calls).map List.length).sum : Nat) : Int) = n) :
    (r = none ∧ s.metrics.GetTotalKeys = n ∧ s.metrics.GetProcessedKeys = n ∧
        s.metrics.GetOverwrittenKeys = n ∧ s.metrics.GetFailedKeys = 0 ∧
        s.metrics.GetSuccessfulKeys = 0 ∧ s.metrics.GetSkippedKeys = 0) ∧
      (s.returns.map CallReturn.imported).sum = n := by
  have hcount2 : ∀ ctx,
      (m.source.CountKeys ctx m.config.Pattern m.config.BatchSize w0).1.2 = none ∧
      (m.source.CountKeys ctx m.config.Pattern m.config.BatchSize w0).1.1 ≠ 0 := by
    intro ctx
    rw [hcount ctx]
    exact ⟨rfl, hn⟩
  have hr := (Migrate_reports_failures m false w0 (NewMetrics now) s r hfresh hconc hcount2
    hreach hnc hret).2.2
  have hS := reachable_struct hreach
  have hall := hS.2.2 r hret
  have hk := keysChan_empty_of_all_exited (reachable_drained hreach) hnc hall
  have hstr := (reachable_streamed hreach).1
  rw [hk, sum_map_of_all_exited _ rfl _ hall] at hstr
  simp only [Multiset.coe_nil, add_zero] at hstr
  have hperm : (scanSends s.calls).Perm (dumped s.returns) := Multiset.coe_eq_coe.mp hstr
  have htal := (reachable_tallied hreach).1
  rw [sum_map_of_all_exited _ rfl _ hall, add_zero, tally_sum_complete _ hov _ hcomplete]
    at htal
  have hset := (reachable_settled hreach).1
  rw [sum_map_of_all_exited _ rfl _ hall, add_zero, exported_sum_complete _ hcomplete]
    at hset
  have hlen : (((dumped s.returns).map List.length).sum : Nat) =
      ((scanSends s.calls).map List.length).sum := ((hperm.map List.length).sum_eq).symm
  have himp : (s.returns.map CallReturn.imported).sum = n := by
    rw [← hset, hlen]
    exact hstream
  refine ⟨?_, himp⟩
  have htot := reachable_counted hn hcount hreach (by simp [hret])
  rw [himp] at htal
  simp only [Metrics.tally, NewMetrics, Prod.mk_add_mk, zero_add, Prod.mk.injEq] at htal
  obtain ⟨t1, t2, t3, t4⟩ := htal
  have hsk := reachable_skippedKeys hreach
  refine ⟨hr.mpr hfail, htot, t1, t4, t3, t2, ?_⟩
  simpa [NewMetrics] using hsk

theorem copy_returned {glob : String → String → Bool} {fuel : Nat} {config : Config}
    {src : Store} {y : Conn Store} {now : Int} {s : State (Conn Store × Conn Store)}
    {r : Option GoError}
    (hmode : config.Mode = CopyMode) (hov : config.Conflict = OverwriteOnConflict)
    (hconc : 0 < config.Concurrency) (hne : src.keys glob config.Pattern ≠ [])
    (hreach : Reachable (memMigrator glob fuel config)
      (State.init (memMigrator glob fuel config) false
        ({ server := src, cursor := none }, y) (NewMetrics now)) s)
    (hnc : s.cancelled = false) (hret : s.main = .returned r) :
    (r = none ∧ s.metrics.GetTotalKeys = (src.keys glob config.Pattern).length ∧
        s.metrics.GetProcessedKeys = (src.keys glob config.Pattern).length ∧
        s.metrics.GetOverwrittenKeys = (src.keys glob config.Pattern).length ∧
        s.metrics.GetFailedKeys = 0 ∧ s.metrics.GetSuccessfulKeys = 0 ∧
        s.metrics.GetSkippedKeys = 0) ∧
      s.world.1 = { server := src, cursor := none } ∧
      (∀ k ∈ src.keys glob config.Pattern, (s.world.2.server.get k).isSome = true) := by
  have hn : ((src.keys glob config.Pattern).length : Int) ≠ 0 := by
    have := List.length_pos.mpr hne
    omega
  have hcount : ∀ ctx, ((memMigrator glob fuel config).source.CountKeys ctx
      (memMigrator glob fuel config).config.Pattern
      (memMigrator glob fuel config).config.BatchSize
      ({ server := src, cursor := none }, y)).1 =
      (((src.keys glob config.Pattern).length : Int), none) := by
    intro ctx
    rw [memMigrator_count]
    rfl
  have hcount2 : ∀ ctx, ((memMigrator glob fuel config).source.CountKeys ctx
      (memMigrator glob fuel config).config.Pattern
      (memMigrator glob fuel config).config.BatchSize
      ({ server := src, cursor := none }, y)).1.2 = none ∧
      ((memMigrator glob fuel config).source.CountKeys ctx
      (memMigrator glob fuel config).config.Pattern
      (memMigrator glob fuel config).config.BatchSize
      ({ server := src, cursor := none }, y)).1.1 ≠ 0 := by
    intro ctx
    rw [hcount ctx]
    exact ⟨rfl, hn⟩
  obtain ⟨⟨r1, r2, r3, r4, r5, r6⟩, hland⟩ := reachable_copying hmode hov hne hreach hnc
  have hp := producer_finished_of_returned (m := memMigrator glob fuel config) hconc hcount2
    hreach hnc hret
  rw [hp] at r2
  simp only [Producer.Scanned] at r2
  have hsum : ((((scanSends s.calls).map List.length).sum : Nat) : Int) =
      ((src.keys glob config.Pattern).length : Int) := by
    rw [r2.2]
    simp
  obtain ⟨hres, himp⟩ := overwrite_counts_returned (memMigrator glob fuel config) _ now _ s r
    rfl hconc hov hn hcount hreach hnc hret r6 r5 hsum
  refine ⟨hres, ?_, hland.2 (by rw [himp]; exact hn)⟩
  rcases hw : s.world.1 with ⟨srv, cur⟩
  rw [hw] at r1 r2
  simp only at r1 r2
  rw [r1, r2.1]

theorem zero_count_reachable {W : Type} {m : Migrator W} {c : Bool} {w : W} {mt : Metrics}
    {s : State W}
    (hcount : ∀ ctx, m.source.CountKeys ctx m.config.Pattern m.config.BatchSize w =
      ((0, none), w))
    (hreach : Reachable m (State.init m c w mt) s) :
    s.returns = [] ∧ failures s.calls = [] ∧ s.world = w ∧
      ∀ r, s.main = .returned r → r = none ∧ s.metrics = mt.SetTotal 0 := by
  have key := reachable_invariant
    (fun s => s.workers = [] ∧ s.producer = .notStarted ∧ s.closer = .notStarted ∧
      s.returns = [] ∧ s.world = w ∧
      ((s.main = .counting ∧ s.metrics = mt ∧ s.calls = []) ∨
        (s.main = .returned none ∧ s.metrics = mt.SetTotal 0 ∧
          s.calls = [.CountKeys m.config.Pattern m.config.BatchSize none])))
    (by simp [State.init]) ?_ hreach
  · obtain ⟨_, _, _, hr, hw, h | h⟩ := key
    · refine ⟨hr, by rw [h.2.2]; rfl, hw, ?_⟩
      intro r hret
      rw [h.1] at hret
      cases hret
    · refine ⟨hr, by rw [h.2.2]; rfl, hw, ?_⟩
      intro r hret
      rw [h.1] at hret
      cases hret
      exact ⟨rfl, h.2.1⟩
  · intro s s' hI _ hs
    obtain ⟨hw, hp, hcl, hrs, hwd, hmain⟩ := hI
    cases hs with
    | countFailed err hm hr =>
      rcases hmain with h | h
      · rw [hwd, hcount] at hr
        cases hr
      · rw [h.1] at hm
        cases hm
    | countZero hm hr =>
      rcases hmain with h | h
      · refine ⟨hw, hp, hcl, hrs, ?_, Or.inr ⟨rfl, ?_, ?_⟩⟩
        · simp only [hwd, hcount]
        · simp [h.2.1]
        · simp [h.2.2]
      · rw [h.1] at hm
        cases hm
    | makePanic total hm hr ht hneg =>
      rcases hmain with h | h
      · rw [hwd, hcount] at hr
        cases hr
        exact (ht rfl).elim
      · rw [h.1] at hm
        cases hm
    | spawn total hm hr ht hneg =>
      rcases hmain with h | h
      · rw [hwd, hcount] at hr
        cases hr
        exact (ht rfl).elim
      · rw [h.1] at hm
        cases hm
    | drain e rest hm hc =>
      rcases hmain with h | h <;> rw [h.1] at hm <;> cases hm
    | mainReturn hm hc hcl =>
      rcases hmain with h | h <;> rw [h.1] at hm <;> cases hm
    | receive i keys rest hw' hc => simp [hw] at hw'
    | exitClosed i hw' hc hcl => simp [hw] at hw'
    | exitDone i hw' hd => simp [hw] at hw'
    | metric i op k hw' => simp [hw] at hw'
    | workerSend i e k t hw' hsent => simp [hw] at hw'
    | workerPanic i e k hw' hcl => simp [hw] at hw'
    | dump i keys k hw' => simp [hw] at hw'
    | restore i data b k hw' => simp [hw] at hw'
    | delete i keys k hw' => simp [hw] at hw'
    | scanSend keys hp' hr => simp [hp] at hp'
    | scanReturn hp' hr => simp [hp] at hp'
    | scanFailed err hp' hr => simp [hp] at hp'
    | enqueue keys hp' hroom => simp [hp] at hp'
    | scanDone keys hp' hd => simp [hp] at hp'
    | report e t hp' hsent => simp [hp] at hp'
    | reportPanic e hp' hcl => simp [hp] at hp'
    | closeKeys hp' => simp [hp] at hp'
    | closeErrors hc hall => simp [hcl] at hc
    | cancel => exact ⟨hw, hp, hcl, hrs, hwd, hmain⟩

theorem copy_empty {glob : String → String → Bool} {fuel : Nat} {config : Config}
    {src : Store} {y : Conn Store} {now : Int} {s : State (Conn Store × Conn Store)}
    (he : src.keys glob config.Pattern = [])
    (hreach : Reachable (memMigrator glob fuel config)
      (State.init (memMigrator glob fuel config) false
        ({ server := src, cursor := none }, y) (NewMetrics now)) s) :
    s.returns = [] ∧ failures s.calls = [] ∧ s.world = ({ server := src, cursor := none }, y) ∧
      ∀ r, s.main = .returned r → r = none ∧ s.metrics = (NewMetrics now).SetTotal 0 := by
  apply zero_count_reachable _ hreach
  intro ctx
  rw [memMigrator_count]
  show ((((src.keys glob config.Pattern).length : Int), none), _) = _
  rw [he]
  rfl

/-- C28: a `Migrate` call in `CopyMode` with `OverwriteOnConflict` and at least one worker,
on a fresh migrator and a fresh tracker, made through client.go on two Redis servers
(`memRedis`): the source holds the database `src`, of which `n` keys match the pattern, the
destination any database, and the context is not cancelled. In every state of the call no
goroutine has panicked, every export so far returned an entry for each key and every write
succeeded; some goroutine can take a step as long as `Migrate` has not returned, no sequence
of steps without cancellation is longer than the weight of the state, and some sequence of
steps leads to the return. Once `Migrate` has returned, its result is nil, total, processed
and overwritten are `n`, failed, succeeded and skipped are 0, the source is as it was, and
every one of the keys is in the destination. A second call, with a fresh tracker, on the
servers as the first call left them, with all the keys in the destination, returns as well,
and with the same result. -/
theorem copy_overwrite_counts (glob : String → String → Bool) (fuel : Nat) (config : Config)
    (src : Store) (y : Conn Store) (now : Int) (s : State (Conn Store × Conn Store))
    (hmode : config.Mode = CopyMode) (hov : config.Conflict = OverwriteOnConflict)
    (hconc : 0 < config.Concurrency)
    (hreach : Reachable (memMigrator glob fuel config)
      (State.init (memMigrator glob fuel config) false
        ({ server := src, cursor := none }, y) (NewMetrics now)) s)
    (hnc : s.cancelled = false) :
    (s.panicked = false ∧
        ((∀ r, s.main ≠ .returned r) →
          ∃ l t, step (memMigrator glob fuel config) l s = some t ∧ t.cancelled = false) ∧
        (∀ ls t, run (memMigrator glob fuel config) ls s = some t → t.cancelled = false →
          ls.length + State.weight (memMigrator glob fuel config) scanLeft t ≤
            State.weight (memMigrator glob fuel config) scanLeft s) ∧
        ∃ ls t r, run (memMigrator glob fuel config) ls s = some t ∧ t.cancelled = false ∧
          t.main = .returned r) ∧
      (s.returns.all CallReturn.complete = true ∧ failures s.calls = []) ∧
      ∀ r, s.main = .returned r →
        (r = none ∧ s.metrics.GetTotalKeys = (src.keys glob config.Pattern).length ∧
          s.metrics.GetProcessedKeys = (src.keys glob config.Pattern).length ∧
          s.metrics.GetOverwrittenKeys = (src.keys glob config.Pattern).length ∧
          s.metrics.GetFailedKeys = 0 ∧ s.metrics.GetSuccessfulKeys = 0 ∧
          s.metrics.GetSkippedKeys = 0) ∧
        s.world.1 = { server := src, cursor := none } ∧
        (∀ k ∈ src.keys glob config.Pattern, (s.world.2.server.get k).isSome = true) ∧
        ∀ (now2 : Int) (s2 : State (Conn Store × Conn Store)),
          Reachable (memMigrator glob fuel config)
            (State.init (memMigrator glob fuel config) false s.world (NewMetrics now2)) s2 →
          s2.cancelled = false →
          (∃ ls t r2, run (memMigrator glob fuel config) ls s2 = some t ∧
            t.cancelled = false ∧ t.main = .returned r2) ∧
          ∀ r2, s2.main = .returned r2 →
            r2 = none ∧ s2.metrics.GetTotalKeys = (src.keys glob config.Pattern).length ∧
            s2.metrics.GetProcessedKeys = (src.keys glob config.Pattern).length ∧
            s2.metrics.GetOverwrittenKeys = (src.keys glob config.Pattern).length ∧
            s2.metrics.GetFailedKeys = 0 ∧ s2.metrics.GetSuccessfulKeys = 0 ∧
            s2.metrics.GetSkippedKeys = 0 := by
  refine ⟨Migrate_terminates (m := memMigrator glob fuel config) hconc
    (scanEnds_mem glob fuel config) hreach hnc, ?_⟩
  by_cases hne : src.keys glob config.Pattern = []
  · obtain ⟨e1, e2, e3, e4⟩ := copy_empty hne hreach
    refine ⟨⟨by rw [e1]; rfl, e2⟩, ?_⟩
    intro r hret
    obtain ⟨e5, e6⟩ := e4 r hret
    rw [hne]
    refine ⟨⟨e5, by rw [e6]; rfl, by rw [e6]; rfl, by rw [e6]; rfl, by rw [e6]; rfl,
      by rw [e6]; rfl, by rw [e6]; rfl⟩, by rw [e3], fun k hk => (by cases hk), ?_⟩
    intro now2 s2 hreach2 hnc2
    rw [e3] at hreach2
    refine ⟨(Migrate_terminates (m := memMigrator glob fuel config) hconc
      (scanEnds_mem glob fuel config) hreach2 hnc2).2.2.2, ?_⟩
    intro r2 hret2
    obtain ⟨f5, f6⟩ := (copy_empty hne hreach2).2.2.2 r2 hret2
    exact ⟨f5, by rw [f6]; rfl, by rw [f6]; rfl, by rw [f6]; rfl, by rw [f6]; rfl,
      by rw [f6]; rfl, by rw [f6]; rfl⟩
  · have hcopy := (reachable_copying hmode hov hne hreach hnc).1
    refine ⟨⟨hcopy.2.2.2.2.1, hcopy.2.2.2.2.2⟩, ?_⟩
    intro r hret
    obtain ⟨hres, hw, hdst⟩ := copy_returned hmode hov hconc hne hreach hnc hret
    refine ⟨hres, hw, hdst, ?_⟩
    intro now2 s2 hreach2 hnc2
    have hworld : s.world = ({ server := src, cursor := none }, s.world.2) := by
      rw [← hw]
    rw [hworld] at hreach2
    refine ⟨(Migrate_terminates (m := memMigrator glob fuel config) hconc
      (scanEnds_mem glob fuel config) hreach2 hnc2).2.2.2, ?_⟩
    intro r2 hret2
    exact (copy_returned hmode hov hconc hne hreach2 hnc2 hret2).1

/-- C28 on `copyMigrator`: the first call copies the two keys of `userStore` into the empty
destination and returns nil with total, processed and overwritten 2, failed 0; the second
call, on the servers as the first left them, finds both keys in the destination and returns
nil with the same counters. -/
theorem copy_overwrite_counts_witness :
    ∃ s, run copyMigrator copySchedule
        (State.init copyMigrator false copyWorld (NewMetrics 0)) = some s ∧
      s.cancelled = false ∧ s.main = .returned none ∧
      (s.metrics.GetTotalKeys = 2 ∧ s.metrics.GetProcessedKeys = 2 ∧
        s.metrics.GetOverwrittenKeys = 2 ∧ s.metrics.GetFailedKeys = 0 ∧
        s.metrics.GetSuccessfulKeys = 0 ∧ s.metrics.GetSkippedKeys = 0) ∧
      s.world.2.server = [("user:2", "bob", -1), ("user:1", "alice", -1)] ∧
      ∃ s2, run copyMigrator copySchedule
          (State.init copyMigrator false s.world (NewMetrics 5)) = some s2 ∧
        s2.cancelled = false ∧ s2.main = .returned none ∧
        s2.metrics.GetTotalKeys = 2 ∧ s2.metrics.GetProcessedKeys = 2 ∧
        s2.metrics.GetOverwrittenKeys = 2 ∧ s2.metrics.GetFailedKeys = 0 ∧
        s2.metrics.GetSuccessfulKeys = 0 ∧ s2.metrics.GetSkippedKeys = 0 :=
  ⟨_, rfl, rfl, rfl,
    ((copy_overwrite_counts (fun _ _ => true) 0 copyConfig userStore
      { server := [], cursor := none } 0 _ rfl rfl (by decide)
      ⟨copySchedule, rfl⟩ rfl).2.2 none rfl).1.2,
    rfl, _, rfl, rfl, rfl,
    ((((copy_overwrite_counts (fun _ _ => true) 0 copyConfig userStore
      { server := [], cursor := none } 0 _ rfl rfl (by decide)
      ⟨copySchedule, rfl⟩ rfl).2.2 none rfl).2.2.2 5 _ ⟨copySchedule, rfl⟩ rfl).2
        none rfl).2⟩

/-! ## Cancellation -/

/-- C29 fails on the code: in the run `cancelSchedule` of `skipMigrator` the context is
cancelled while the first batch is in `keysChan` and the second is being sent; `ScanKeys`
returns `ctx.Err()`, the worker returns, `errorsChan` is closed and `Migrate` returns nil,
which does not tell of the cancellation; the next step of the producer is its send on the
closed `errorsChan`, a panic. What holds in every run, cancelled or not: once `Migrate` has
returned every worker has returned, and the counters are their initial values plus the
contributions settled by the returns of the store calls, so no batch is counted in part. -/
theorem Migrate_cancel_panics :
    (∃ s, run skipMigrator cancelSchedule
          (State.init skipMigrator false 0 (NewMetrics 0)) = some s ∧
        s.cancelled = true ∧ s.keysChan = [["a", "b"]] ∧ s.returns = [] ∧
        s.main = .returned none ∧
        s.producer = .reporting (.wrapf "failed to scan keys" contextCanceled) ∧
        (step skipMigrator .producer s).map State.panicked = some true) ∧
      ∀ {W : Type} (m : Migrator W) (c : Bool) (w : W) (mt : Metrics) (s : State W)
        (r : Option GoError),
        Reachable m (State.init m c w mt) s → s.main = .returned r →
        (∀ x ∈ s.workers, x = .exited) ∧
        s.metrics.tally = mt.tally + (s.returns.map (CallReturn.tally m.config)).sum := by
  refine ⟨⟨_, rfl, rfl, rfl, rfl, rfl, rfl, rfl⟩, ?_⟩
  intro W m c w mt s r h hr
  have hall := (reachable_struct h).2.2 r hr
  constructor
  · intro x hx
    rw [List.all_eq_true] at hall
    have := hall x hx
    cases x with
    | exited => rfl
    | running p => simp [Worker.isExited] at this
  · have h1 := (reachable_tallied h).1
    rw [sum_map_of_all_exited _ rfl _ hall, add_zero] at h1
    exact h1

/-! ## The accounting relation with several workers -/

/-- C3, as stated, fails with two workers: in the run `pairSchedule` of `pairMigrator`, on
a fresh tracker under `ErrorOnConflict` with imports that report no more keys than they
were given, worker 0 has completed its `processBatch` call and is back at its `select`
while worker 1 has counted its key as processed and not yet as succeeded: processed is 2,
succeeded 1, failed 0 and skipped 0. -/
theorem processBatch_interleaved_unbalanced :
    pairMigrator.config.Conflict = ErrorOnConflict ∧
      RestoreBounded pairMigrator.dest ∧
      ∃ s, run pairMigrator pairSchedule
          (State.init pairMigrator false 0 (NewMetrics 0)) = some s ∧
        s.workers[0]? = some (.running .ret) ∧
        s.workers[1]? = some (.running (.metric (.AddSuccess 1) .ret)) ∧
        s.returns =
          [.DumpKeys ["a"] [{ Key := "a", Data := "", TTL := 0 }] none,
            .RestoreKeys [{ Key := "a", Data := "", TTL := 0 }] ErrorOnConflict ["a"] none,
            .DumpKeys ["b"] [{ Key := "b", Data := "", TTL := 0 }] none,
            .RestoreKeys [{ Key := "b", Data := "", TTL := 0 }] ErrorOnConflict ["b"] none] ∧
        s.metrics.processedKeys = 2 ∧ s.metrics.successKeys = 1 ∧ s.metrics.failedKeys = 0 ∧
        s.metrics.skippedKeys = 0 ∧
        s.metrics.processedKeys ≠
          s.metrics.successKeys + s.metrics.failedKeys + s.metrics.skippedKeys :=
  ⟨rfl, restoreBounded_scripted 0 [] none none none none (fun _ => true), _, rfl, rfl, rfl, rfl,
    rfl, rfl, rfl, rfl, by decide⟩

/-- C3, amended: from a fresh tracker, under `ErrorOnConflict` or `SkipOnConflict`, with a
destination that never reports more keys than it was given: when one goroutine makes
`processBatch` calls one after the other, processed = succeeded + failed + skipped after
each call, whatever its outcome; and in every state of a `Migrate` call, with any number of
workers, processed = succeeded + failed + skipped + what the workers that are between the
updates of a batch have counted as processed and not yet as succeeded or failed (the
negative of `Worker.owed`), so the relation holds whenever no worker is between the updates
of a batch, and in particular once `Migrate` has returned. -/
theorem processBatch_accounting {W : Type} (m : Migrator W)
    (hpol : m.config.Conflict = ErrorOnConflict ∨ m.config.Conflict = SkipOnConflict)
    (hlen : RestoreBounded m.dest) :
    (∀ (ctx : Context) (batches : List (List String)) (n : Nat) (now : Int) (w : W),
        (processBatches m ctx (batches.take n)
            { world := w, metrics := NewMetrics now, errorsChan := [], calls := [] }
          ).metrics.processedKeys =
          (processBatches m ctx (batches.take n)
            { world := w, metrics := NewMetrics now, errorsChan := [], calls := [] }
          ).metrics.successKeys +
          (processBatches m ctx (batches.take n)
            { world := w, metrics := NewMetrics now, errorsChan := [], calls := [] }
          ).metrics.failedKeys +
          (processBatches m ctx (batches.take n)
            { world := w, metrics := NewMetrics now, errorsChan := [], calls := [] }
          ).metrics.skippedKeys) ∧
      ∀ (c : Bool) (w : W) (now : Int) (s : State W),
        Reachable m (State.init m c w (NewMetrics now)) s →
        s.metrics.processedKeys =
            s.metrics.successKeys + s.metrics.failedKeys + s.metrics.skippedKeys -
              (s.workers.map Worker.owed).sum ∧
          ((∀ x ∈ s.workers, x.owed = 0) →
            s.metrics.processedKeys =
              s.metrics.successKeys + s.metrics.failedKeys + s.metrics.skippedKeys) ∧
          (∀ r, s.main = .returned r →
            s.metrics.processedKeys =
              s.metrics.successKeys + s.metrics.failedKeys + s.metrics.skippedKeys) := by
  have hc : m.config.Conflict ≠ OverwriteOnConflict := by
    rcases hpol with h | h <;> rw [h] <;> decide
  have e1 : ∀ now, (NewMetrics now).imbalance = 0 := by
    intro now
    simp [NewMetrics, Metrics.imbalance]
  constructor
  · intro ctx batches n now w
    obtain ⟨h1, h2, h3⟩ := processBatches_keeps m ctx hlen (batches.take n)
      { world := w, metrics := NewMetrics now, errorsChan := [], calls := [] }
    have h3 := h3 hc
    have e2 : (NewMetrics now).skippedKeys = 0 := rfl
    have e3 : (NewMetrics now).overwrittenKeys = 0 := rfl
    dsimp only at h1 h2 h3
    rw [e1] at h1
    rw [e2] at h2
    rw [e3] at h3
    simp only [Metrics.imbalance] at h1
    omega
  · intro c w now s hreach
    have hb := (reachable_balanced hlen hreach).1
    have ho := reachable_overwrittenKeys hc hreach
    have hs := reachable_skippedKeys hreach
    have e2 : (NewMetrics now).skippedKeys = 0 := rfl
    have e3 : (NewMetrics now).overwrittenKeys = 0 := rfl
    rw [e1] at hb
    rw [e2] at hs
    rw [e3] at ho
    simp only [Metrics.imbalance] at hb
    have hmain : s.metrics.processedKeys =
        s.metrics.successKeys + s.metrics.failedKeys + s.metrics.skippedKeys -
          (s.workers.map Worker.owed).sum := by
      omega
    refine ⟨hmain, ?_, ?_⟩
    · intro hall
      have hz : (s.workers.map Worker.owed).sum = 0 := by
        apply List.sum_eq_zero
        intro x hx
        obtain ⟨y, hy, rfl⟩ := List.mem_map.mp hx
        exact hall y hy
      omega
    · intro r hr
      have hz := sum_owed_of_all_exited _ ((reachable_struct hreach).2.2 r hr)
      omega

/-- C3, amended, on `pairMigrator`: one step after the state of `pairSchedule`, when
worker 1 has made its second update, no worker is between two updates and processed = 2 =
succeeded + failed + skipped. -/
theorem processBatch_accounting_witness :
    ∃ s, run pairMigrator (pairSchedule ++ [.worker 1])
        (State.init pairMigrator false 0 (NewMetrics 0)) = some s ∧
      (∀ x ∈ s.workers, x.owed = 0) ∧
      s.metrics.processedKeys = 2 ∧
      s.metrics.processedKeys =
        s.metrics.successKeys + s.metrics.failedKeys + s.metrics.skippedKeys :=
  ⟨_, rfl, by
      intro x hx
      have hw : (∀ y ∈ [Worker.running .ret, Worker.running .ret], y.owed = 0) := by
        intro y hy
        simp only [List.mem_cons, List.mem_singleton, List.not_mem_nil, or_false,
          or_self] at hy
        rw [hy]
        rfl
      exact hw x hx,
    rfl,
    ((processBatch_accounting pairMigrator (Or.inl rfl)
      (restoreBounded_scripted 0 [] none none none none (fun _ => true))).2 false 0 0 _
      ⟨pairSchedule ++ [Label.worker 1], rfl⟩).2.1 (by
        intro x hx
        have hw : (∀ y ∈ [Worker.running .ret, Worker.running .ret], y.owed = 0) := by
          intro y hy
          simp only [List.mem_cons, List.mem_singleton, List.not_mem_nil, or_false,
            or_self] at hy
          rw [hy]
          rfl
        exact hw x hx)⟩

end RedisMigrate
